import Mathlib

/-!
# MECT built-in functions: a shallow embedding

Lean model of the token engine of `me-vm-common` (package `builtInFunctions`).

Conventions of the embedding:

* a Go byte slice is a list of naturals (`Bytes`), `nil` and the empty slice
  are both `[]`;
* `*big.Int` is `Int`, `uint64` is `Nat` with explicit reduction modulo `2^64`
  where the Go code can wrap;
* an account handle (`vmcommon.UserAccountHandler`) is the address of the
  account, `none` standing for a nil handle; the key/value storage of all
  accounts is one `World`, passed explicitly and returned by every function
  that writes, also when the function returns an error;
* a Go function returning `error` returns `World × Option BuiltinError`, a Go
  function returning `(T, error)` returns `World × Except BuiltinError T`;
* interface-typed collaborators (marshaller, shard coordinator, payable
  checker, global settings handler, role handler, NFT storage handler) are
  structures of functions.
-/

namespace MectVM

/-- A Go byte slice. -/
abbrev Bytes := List Nat

/-- The errors returned by the built-in functions. An error wrapped with
`fmt.Errorf("%w ...")` is identified with the error it wraps; `external` stands
for an error produced by a collaborator (marshaller, payable checker), and
`runtimePanic` for a Go run-time fault such as an index out of range. -/
inductive BuiltinError where
  | ErrNilVmInput
  | ErrNilValue
  | ErrBuiltInFunctionCalledWithValue
  | ErrInvalidArguments
  | ErrInvalidRcvAddr
  | ErrNegativeValue
  | ErrNotEnoughGas
  | ErrOnlyFungibleTokensHaveBalanceTransfer
  | ErrInsufficientFunds
  | ErrMECTIsFrozenForAccount
  | ErrMECTTokenIsPaused
  | ErrNilUserAccount
  | ErrActionNotAllowed
  | ErrNilMECTData
  | ErrInvalidLiquidityForMECT
  | ErrInvalidAddressLength
  | ErrSubtractionOverflow
  | ErrAddressIsNotMECTSystemSC
  | ErrOnlySystemAccountAccepted
  | ErrTooManyTransferAddresses
  | ErrCannotWipeAccountNotFrozen
  | ErrNFTDoesNotHaveMetadata
  | ErrInvalidNFTQuantity
  | ErrNewNFTDataOnSenderAddress
  | ErrInsufficientQuantityMECT
  | ErrNFTTokenDoesNotExist
  | ErrInvalidNonce
  | external (code : Nat)
  | runtimePanic
  deriving DecidableEq, Repr

/-! ## Integers and byte strings -/

/-- The modulus of `uint64` arithmetic. -/
def twoPow64 : Nat := 2 ^ 64

/-- Go `a - b` on `uint64`. -/
def subUint64 (a b : Nat) : Nat := (a + twoPow64 - b % twoPow64) % twoPow64

/-- Go `a + b` on `uint64`. -/
def addUint64 (a b : Nat) : Nat := (a + b) % twoPow64

/-- Go `a * b` on `uint64`. -/
def mulUint64 (a b : Nat) : Nat := (a * b) % twoPow64

/-- The value of `big.NewInt(0).SetBytes(b)`: `b` read as a big-endian unsigned integer. -/
def bytesToNat (b : Bytes) : Nat := b.foldl (fun acc x => acc * 256 + x) 0

/-- Digits of `n` in base 256, most significant first, pushed in front of `acc`. -/
def natToBytesAux : Nat → Nat → Bytes → Bytes
  | 0, _, acc => acc
  | fuel + 1, n, acc => if n = 0 then acc else natToBytesAux fuel (n / 256) ((n % 256) :: acc)

/-- The value of `big.Int.Bytes()` for a non-negative integer: the minimal
big-endian encoding, empty for zero. -/
def natToBytes (n : Nat) : Bytes := natToBytesAux n n []

/-- The value of `big.Int.Bytes()`: the encoding of the absolute value. -/
def intToBytes (v : Int) : Bytes := natToBytes v.natAbs

/-! ## Account storage -/

/-- The key/value storage of one account (`AccountDataHandler`); a key that was
never written retrieves the empty byte string. -/
abbrev Storage := Bytes → Bytes

/-- The storage of every account, by address. -/
abbrev World := Bytes → Storage

/-- Go `acnt.AccountDataHandler().RetrieveValue(key)`; the storage engine is taken
not to fail, an absent key giving the empty value as the callers expect. -/
def RetrieveValue (w : World) (acnt key : Bytes) : Bytes := w acnt key

/-- Go `acnt.AccountDataHandler().SaveKeyValue(key, value)`; the storage engine is
taken not to fail, and saving the empty value deletes the key. -/
def SaveKeyValue (w : World) (acnt key value : Bytes) : World :=
  fun a => if a = acnt then (fun k => if k = key then value else w a k) else w a

/-- The world in which no account stores anything. -/
def emptyWorld : World := fun _ _ => []

/-! ## Token records -/

/-- Go `mect.MetaData`. -/
structure MetaData where
  Nonce : Nat
  Name : Bytes
  Creator : Bytes
  Royalties : Nat
  Hash : Bytes
  URIs : List Bytes
  Attributes : Bytes
  deriving DecidableEq, Repr

/-- Go `mect.MECToken`. -/
structure MECToken where
  TokenType : Nat
  Value : Int
  Properties : Bytes
  TokenMetaData : Option MetaData
  Reserved : Bytes
  deriving DecidableEq, Repr

/-- Go `mect.MECTRoles`. -/
structure MECTRoles where
  Roles : List Bytes
  deriving DecidableEq, Repr

/-- Modelled from the spec: the token type enumeration of the external `core`
package, `Fungible | NonFungible | SemiFungible | Meta`, numbered in that order. -/
def Fungible : Nat := 0

/-- Modelled from the spec: the second token type of the external `core` package. -/
def NonFungible : Nat := 1

/-- A zero-value `mect.MECToken{}` with the given type and value. -/
def MECToken.mk0 (type : Nat) (value : Int) : MECToken :=
  { TokenType := type, Value := value, Properties := [], TokenMetaData := none, Reserved := [] }

/-! ## Metadata bit fields (`mectMetaData.go`) -/

def lengthOfMECTMetadata : Nat := 2

def MetadataPaused : Nat := 1

def MetadataLimitedTransfer : Nat := 2

def BurnRoleForAll : Nat := 4

def MetadataFrozen : Nat := 1

/-- Go `MECTGlobalMetadata`. -/
structure MECTGlobalMetadata where
  Paused : Bool
  LimitedTransfer : Bool
  BurnRoleForAll : Bool
  deriving DecidableEq, Repr

/-- Go `MECTGlobalMetadataFromBytes`. -/
def MECTGlobalMetadataFromBytes (bytes : Bytes) : MECTGlobalMetadata :=
  if bytes.length ≠ lengthOfMECTMetadata then
    { Paused := false, LimitedTransfer := false, BurnRoleForAll := false }
  else
    { Paused := decide (Nat.land (bytes.getD 0 0) MetadataPaused ≠ 0)
      LimitedTransfer := decide (Nat.land (bytes.getD 0 0) MetadataLimitedTransfer ≠ 0)
      BurnRoleForAll := decide (Nat.land (bytes.getD 0 0) BurnRoleForAll ≠ 0) }

/-- Go `(*MECTGlobalMetadata).ToBytes`. -/
def MECTGlobalMetadata.ToBytes (metadata : MECTGlobalMetadata) : Bytes :=
  let b0 : Nat := 0
  let b1 := if metadata.Paused then Nat.lor b0 MetadataPaused else b0
  let b2 := if metadata.LimitedTransfer then Nat.lor b1 MetadataLimitedTransfer else b1
  let b3 := if metadata.BurnRoleForAll then Nat.lor b2 MectVM.BurnRoleForAll else b2
  b3 :: List.replicate (lengthOfMECTMetadata - 1) 0

/-- Go `MECTUserMetadata`. -/
structure MECTUserMetadata where
  Frozen : Bool
  deriving DecidableEq, Repr

/-- Go `MECTUserMetadataFromBytes`. -/
def MECTUserMetadataFromBytes (bytes : Bytes) : MECTUserMetadata :=
  if bytes.length ≠ lengthOfMECTMetadata then
    { Frozen := false }
  else
    { Frozen := decide (Nat.land (bytes.getD 0 0) MetadataFrozen ≠ 0) }

/-- Go `(*MECTUserMetadata).ToBytes`. -/
def MECTUserMetadata.ToBytes (metadata : MECTUserMetadata) : Bytes :=
  let b0 : Nat := 0
  let b1 := if metadata.Frozen then Nat.lor b0 MetadataFrozen else b0
  b1 :: List.replicate (lengthOfMECTMetadata - 1) 0

/-! ## Collaborators and call data -/

/-- Go `vmcommon.Marshalizer`, at the two record types it is used with. Go
`Unmarshal(obj, buff)` is taken to overwrite `obj` completely. -/
structure Marshalizer where
  MarshalToken : MECToken → Except BuiltinError Bytes
  UnmarshalToken : Bytes → Except BuiltinError MECToken
  MarshalRoles : MECTRoles → Except BuiltinError Bytes
  UnmarshalRoles : Bytes → Except BuiltinError MECTRoles

/-- Go `vmcommon.Coordinator`. -/
structure Coordinator where
  ComputeId : Bytes → Nat
  SelfId : Nat
  NumberOfShards : Nat
  SameShard : Bytes → Bytes → Bool

/-- Go `vm.CallType`. -/
inductive CallType where
  | DirectCall
  | AsynchronousCall
  | AsynchronousCallBack
  | MECTTransferAndExecute
  | ExecOnDestByCaller
  deriving DecidableEq, Repr

/-- Go `vmcommon.ContractCallInput` (with the embedded `VMInput`), the fields
the token engine reads. A nil `CallValue` is `none`. -/
structure ContractCallInput where
  CallerAddr : Bytes
  Arguments : List Bytes
  CallValue : Option Int
  CallType : CallType
  GasProvided : Nat
  GasLocked : Nat
  ReturnCallAfterError : Bool
  RecipientAddr : Bytes
  Function : Bytes
  deriving DecidableEq, Repr

/-- Go `vmcommon.LogEntry`. -/
structure LogEntry where
  Identifier : Bytes
  Address : Bytes
  Topics : List Bytes
  Data : Bytes
  deriving DecidableEq, Repr

/-- Go `vmcommon.OutputTransfer`. -/
structure OutputTransfer where
  Value : Int
  GasLimit : Nat
  GasLocked : Nat
  Data : Bytes
  CallType : CallType
  SenderAddress : Bytes
  deriving DecidableEq, Repr

/-- Go `vmcommon.OutputAccount`. -/
structure OutputAccount where
  Address : Bytes
  OutputTransfers : List OutputTransfer
  deriving DecidableEq, Repr

/-- Go `vmcommon.ReturnCode`; the token engine only ever sets `Ok`. -/
inductive ReturnCode where
  | Ok
  | UserError
  deriving DecidableEq, Repr

/-- Go `vmcommon.VMOutput`; the map `OutputAccounts` is an association list. -/
structure VMOutput where
  ReturnData : List Bytes
  ReturnCode : ReturnCode
  GasRemaining : Nat
  OutputAccounts : List (Bytes × OutputAccount)
  Logs : List LogEntry
  deriving DecidableEq, Repr

/-- Go `vmcommon.PayableChecker`. -/
structure PayableChecker where
  CheckPayable : ContractCallInput → Bytes → Nat → Option BuiltinError
  DetermineIsSCCallAfter : ContractCallInput → Bytes → Nat → Bool

/-- Go `vmcommon.ExtendedMECTGlobalSettingsHandler`; every query may read the storage. -/
structure MECTGlobalSettingsHandler where
  IsPaused : World → Bytes → Bool
  IsLimitedTransfer : World → Bytes → Bool
  IsBurnForAll : World → Bytes → Bool
  IsSenderOrDestinationWithTransferRole : World → Bytes → Bytes → Bytes → Bool

/-- Go `vmcommon.MECTRoleHandler`. -/
structure MECTRoleHandler where
  CheckAllowedToExecute : World → Option Bytes → Bytes → Bytes → Option BuiltinError

/-- Declarations the embedded files use by name and that live outside them:
constants of the external `core` and `vmcommon` packages, and the package helper
`computeGasRemaining`. They are parameters of the model. -/
structure CoreConfig where
  baseMECTKeyPrefix : Bytes
  roleKeyPrefix : Bytes
  noncePrefix : Bytes
  transferAddressesKeyPrefix : Bytes
  MECTSCAddress : Bytes
  SystemAccountAddress : Bytes
  MECTRoleTransfer : Bytes
  MECTRoleLocalMint : Bytes
  MECTRoleLocalBurn : Bytes
  MECTRoleNFTCreate : Bytes
  MECTRoleNFTAddQuantity : Bytes
  MECTRoleNFTCreateMultiShard : Bytes
  MECTRoleNFTBurn : Bytes
  MECTRoleNFTAddURI : Bytes
  MECTRoleNFTUpdateAttributes : Bytes
  BuiltInFunctionMECTTransfer : Bytes
  BuiltInFunctionMECTLocalMint : Bytes
  BuiltInFunctionMECTLocalBurn : Bytes
  BuiltInFunctionMECTNFTCreate : Bytes
  BuiltInFunctionMECTPause : Bytes
  BuiltInFunctionMECTUnPause : Bytes
  BuiltInFunctionMECTSetLimitedTransfer : Bytes
  BuiltInFunctionMECTUnSetLimitedTransfer : Bytes
  BuiltInFunctionMECTNFTTransfer : Bytes
  BuiltInFunctionMultiMECTNFTTransfer : Bytes
  BuiltInFunctionMECTNFTBurn : Bytes
  BuiltInFunctionMECTNFTAddQuantity : Bytes
  BuiltInFunctionMECTNFTAddURI : Bytes
  BuiltInFunctionMECTNFTUpdateAttributes : Bytes
  MaxLengthForValueToOptTransfer : Nat
  MaxLenForMECTIssueMint : Nat
  MetachainShardId : Nat
  IsSmartContractAddress : Bytes → Bool
  IsSystemAccountAddress : Bytes → Bool
  computeGasRemaining : Option Bytes → Nat → Nat → Nat

/-- Modelled from the spec: `core.MinLenArgumentsMECTTransfer`, the length of the
argument list `[tokenID, amount]` of a single-token transfer. -/
def MinLenArgumentsMECTTransfer : Nat := 2

/-- Modelled from the spec: `core.MaxRoyalty`, royalties are at most 10000 basis points. -/
def MaxRoyalty : Nat := 10000

/-- Go `maxLenForAddNFTQuantity` (`mectNFTAddQuantity.go`). -/
def maxLenForAddNFTQuantity : Nat := 32

/-- Go `existsOnShard` (`mectDataStorage.go`). -/
def existsOnShard : Nat := 1

/-! ## Log entries (`logsAndEvents.go`) -/

/-- Go `newEntryForMECT`. -/
def newEntryForMECT (identifier tokenID : Bytes) (nonce : Nat) (value : Int)
    (args : List Bytes) : LogEntry :=
  let nonceBig : Int := nonce
  let logEntry : LogEntry :=
    { Identifier := identifier, Address := [], Data := []
      Topics := [tokenID, intToBytes nonceBig, intToBytes value] }
  let logEntry := if args.length > 0 then { logEntry with Address := args.getD 0 [] } else logEntry
  let logEntry :=
    if args.length > 1 then { logEntry with Topics := logEntry.Topics ++ args.drop 1 } else logEntry
  logEntry

/-- Go `addMECTEntryInVMOutput`. -/
def addMECTEntryInVMOutput (vmOutput : VMOutput) (identifier tokenID : Bytes) (nonce : Nat)
    (value : Int) (args : List Bytes) : VMOutput :=
  let entry := newEntryForMECT identifier tokenID nonce value args
  { vmOutput with Logs := vmOutput.Logs ++ [entry] }

/-! ## Single-token transfer (`mectTransfer.go`) -/

/-- One lowercase hexadecimal digit, as its ASCII code. -/
def hexDigit (d : Nat) : Nat := if d < 10 then 48 + d else 87 + d

/-- Go `hex.EncodeToString`, as ASCII codes. -/
def hexEncode : Bytes → Bytes
  | [] => []
  | b :: rest => hexDigit (b / 16) :: hexDigit (b % 16) :: hexEncode rest

/-- The loop of `addOutputTransferToVMOutput` building the transaction data. -/
def appendHexArguments (data : Bytes) : List Bytes → Bytes
  | [] => data
  | arg :: rest => appendHexArguments (data ++ (64 :: hexEncode arg)) rest

/-- Go `addOutputTransferToVMOutput`. -/
def addOutputTransferToVMOutput (senderAddress function : Bytes) (arguments : List Bytes)
    (recipient : Bytes) (gasLocked : Nat) (callType : CallType) (vmOutput : VMOutput) : VMOutput :=
  let mectTransferTxData := appendHexArguments function arguments
  let outTransfer : OutputTransfer :=
    { Value := 0, GasLimit := vmOutput.GasRemaining, GasLocked := gasLocked
      Data := mectTransferTxData, CallType := callType, SenderAddress := senderAddress }
  { vmOutput with
    OutputAccounts := [(recipient, { Address := recipient, OutputTransfers := [outTransfer] })]
    GasRemaining := 0 }

/-- Go `getMECTDataFromKey`. -/
def getMECTDataFromKey (marshaller : Marshalizer) (w : World) (userAcnt key : Bytes) :
    Except BuiltinError MECToken :=
  let mectData := MECToken.mk0 Fungible 0
  let marshaledData := RetrieveValue w userAcnt key
  if marshaledData.length = 0 then .ok mectData
  else marshaller.UnmarshalToken marshaledData

/-- Go `arePropertiesEmpty`. -/
def arePropertiesEmpty : Bytes → Bool
  | [] => true
  | property :: rest => if property ≠ 0 then false else arePropertiesEmpty rest

/-- Go `saveMECTData`. -/
def saveMECTData (marshaller : Marshalizer) (w : World) (userAcnt : Bytes) (mectData : MECToken)
    (key : Bytes) : World × Option BuiltinError :=
  let isValueZero : Bool := decide (mectData.Value = 0)
  if isValueZero && arePropertiesEmpty mectData.Properties then
    (SaveKeyValue w userAcnt key [], none)
  else
    match marshaller.MarshalToken mectData with
    | .error err => (w, some err)
    | .ok marshaledData => (SaveKeyValue w userAcnt key marshaledData, none)

/-- Go `checkFrozeAndPause`. -/
def checkFrozeAndPause (c : CoreConfig) (globalSettingsHandler : MECTGlobalSettingsHandler)
    (w : World) (senderAddr key : Bytes) (mectData : MECToken) (isReturnWithError : Bool) :
    Option BuiltinError :=
  if isReturnWithError then none
  else if senderAddr = c.MECTSCAddress then none
  else
    let mectUserMetaData := MECTUserMetadataFromBytes mectData.Properties
    if mectUserMetaData.Frozen then some .ErrMECTIsFrozenForAccount
    else if globalSettingsHandler.IsPaused w key then some .ErrMECTTokenIsPaused
    else none

/-- Go `addToMECTBalance`. -/
def addToMECTBalance (c : CoreConfig) (marshaller : Marshalizer)
    (globalSettingsHandler : MECTGlobalSettingsHandler) (w : World) (userAcnt key : Bytes)
    (value : Int) (isReturnWithError : Bool) : World × Option BuiltinError :=
  match getMECTDataFromKey marshaller w userAcnt key with
  | .error err => (w, some err)
  | .ok mectData =>
    if mectData.TokenType ≠ Fungible then (w, some .ErrOnlyFungibleTokensHaveBalanceTransfer)
    else
      match checkFrozeAndPause c globalSettingsHandler w userAcnt key mectData isReturnWithError with
      | some err => (w, some err)
      | none =>
        let mectData := { mectData with Value := mectData.Value + value }
        if mectData.Value < 0 then (w, some .ErrInsufficientFunds)
        else saveMECTData marshaller w userAcnt mectData key

/-- Go `checkIfTransferCanHappenWithLimitedTransfer`. -/
def checkIfTransferCanHappenWithLimitedTransfer (c : CoreConfig) (w : World)
    (tokenID mectTokenKey senderAddress destinationAddress : Bytes)
    (globalSettingsHandler : MECTGlobalSettingsHandler) (roleHandler : MECTRoleHandler)
    (acntSnd acntDst : Option Bytes) (isReturnWithError : Bool) : Option BuiltinError :=
  if isReturnWithError then none
  else if acntSnd.isNone then none
  else if !globalSettingsHandler.IsLimitedTransfer w mectTokenKey then none
  else if globalSettingsHandler.IsSenderOrDestinationWithTransferRole w senderAddress
      destinationAddress tokenID then none
  else
    let errSender := roleHandler.CheckAllowedToExecute w acntSnd tokenID c.MECTRoleTransfer
    if errSender.isNone then none
    else
      let errDestination := roleHandler.CheckAllowedToExecute w acntDst tokenID c.MECTRoleTransfer
      errDestination

/-- Go `checkBasicMECTArguments` (`mectLocalBurn.go`). -/
def checkBasicMECTArguments (vmInput : Option ContractCallInput) : Option BuiltinError :=
  match vmInput with
  | none => some .ErrNilVmInput
  | some vmInput =>
    match vmInput.CallValue with
    | none => some .ErrNilValue
    | some callValue =>
      if callValue ≠ 0 then some .ErrBuiltInFunctionCalledWithValue
      else if vmInput.Arguments.length < MinLenArgumentsMECTTransfer then some .ErrInvalidArguments
      else none

/-- Go `mectTransfer`: the fields of the function instance; the two epoch flags
are the values `EpochConfirmed` last set. -/
structure mectTransfer where
  funcGasCost : Nat
  marshaller : Marshalizer
  keyPrefix : Bytes
  globalSettingsHandler : MECTGlobalSettingsHandler
  payableHandler : PayableChecker
  shardCoordinator : Coordinator
  rolesHandler : MECTRoleHandler
  flagTransferToMeta : Bool
  flagCheckCorrectTokenID : Bool

/-- The sender leg of `(*mectTransfer).ProcessBuiltinFunction`, the block
`if !check.IfNil(acntSnd)`: gas is paid only by the sender, whose balance is debited. -/
def mectTransfer.debitSender (c : CoreConfig) (e : mectTransfer) (w : World)
    (acntSnd : Option Bytes) (vmInput : ContractCallInput) (mectTokenKey : Bytes) (value : Int) :
    World × Option BuiltinError :=
  match acntSnd with
  | none => (w, none)
  | some snd =>
    if vmInput.GasProvided < e.funcGasCost then (w, some .ErrNotEnoughGas)
    else addToMECTBalance c e.marshaller e.globalSettingsHandler w snd mectTokenKey
      (-value) vmInput.ReturnCallAfterError

/-- The destination leg of `(*mectTransfer).ProcessBuiltinFunction`, the block
`if !check.IfNil(acntDst)`: the payable check, the credit, and the output of a
transfer whose destination is in the local shard. -/
def mectTransfer.creditDestination (c : CoreConfig) (e : mectTransfer) (w1 : World)
    (acntSnd : Option Bytes) (dst : Bytes) (vmInput : ContractCallInput)
    (mectTokenKey tokenID : Bytes) (value : Int) (isSCCallAfter : Bool) (vmOutput : VMOutput) :
    World × Except BuiltinError VMOutput :=
  match e.payableHandler.CheckPayable vmInput vmInput.RecipientAddr
      MinLenArgumentsMECTTransfer with
  | some err => (w1, .error err)
  | none =>
    match addToMECTBalance c e.marshaller e.globalSettingsHandler w1 dst mectTokenKey
        value vmInput.ReturnCallAfterError with
    | (w2, some err) => (w2, .error err)
    | (w2, none) =>
      if isSCCallAfter then
        -- `SafeSubUint64`; its error is assigned and never read
        let vmOutput := { vmOutput with
          GasRemaining := if vmInput.GasProvided < e.funcGasCost then 0
            else vmInput.GasProvided - e.funcGasCost }
        let callArgs : List Bytes :=
          if vmInput.Arguments.length > MinLenArgumentsMECTTransfer + 1 then
            vmInput.Arguments.drop (MinLenArgumentsMECTTransfer + 1)
          else []
        match vmInput.Arguments.get? MinLenArgumentsMECTTransfer with
        | none => (w2, .error .runtimePanic)
        | some function =>
          let vmOutput := addOutputTransferToVMOutput vmInput.CallerAddr function
            callArgs vmInput.RecipientAddr vmInput.GasLocked vmInput.CallType vmOutput
          let vmOutput := addMECTEntryInVMOutput vmOutput c.BuiltInFunctionMECTTransfer
            tokenID 0 value [vmInput.CallerAddr, dst]
          (w2, .ok vmOutput)
      else
        let vmOutput :=
          if vmInput.CallType = .AsynchronousCallBack ∧ acntSnd.isNone then
            { vmOutput with GasRemaining := vmInput.GasProvided }
          else vmOutput
        let vmOutput := addMECTEntryInVMOutput vmOutput c.BuiltInFunctionMECTTransfer
          tokenID 0 value [vmInput.CallerAddr, dst]
        (w2, .ok vmOutput)

/-- The tail of `(*mectTransfer).ProcessBuiltinFunction` for an absent destination
handle: a cross-shard MECT transfer call, through a smart contract or not. -/
def mectTransfer.crossShardOutput (c : CoreConfig) (vmInput : ContractCallInput)
    (tokenID : Bytes) (value : Int) (vmOutput : VMOutput) : VMOutput :=
  let vmOutput :=
    if c.IsSmartContractAddress vmInput.CallerAddr then
      addOutputTransferToVMOutput vmInput.CallerAddr c.BuiltInFunctionMECTTransfer
        vmInput.Arguments vmInput.RecipientAddr vmInput.GasLocked vmInput.CallType vmOutput
    else vmOutput
  addMECTEntryInVMOutput vmOutput c.BuiltInFunctionMECTTransfer tokenID 0 value
    [vmInput.CallerAddr, vmInput.RecipientAddr]

/-- Go `(*mectTransfer).ProcessBuiltinFunction`; its body is split into the
checks, written here, and the three blocks above, called in the order of the source. -/
def mectTransfer.ProcessBuiltinFunction (c : CoreConfig) (e : mectTransfer) (w : World)
    (acntSnd acntDst : Option Bytes) (vmInput : Option ContractCallInput) :
    World × Except BuiltinError VMOutput :=
  match checkBasicMECTArguments vmInput with
  | some err => (w, .error err)
  | none =>
  match vmInput with
  | none => (w, .error .runtimePanic)
  | some vmInput =>
    let isInvalidTransferToMeta : Bool :=
      decide (e.shardCoordinator.ComputeId vmInput.RecipientAddr = c.MetachainShardId)
        && !e.flagTransferToMeta
    if isInvalidTransferToMeta then (w, .error .ErrInvalidRcvAddr)
    else
      let value : Int := bytesToNat (vmInput.Arguments.getD 1 [])
      if value ≤ 0 then (w, .error .ErrNegativeValue)
      else
        let gasRemaining := c.computeGasRemaining acntSnd vmInput.GasProvided e.funcGasCost
        let mectTokenKey := e.keyPrefix ++ vmInput.Arguments.getD 0 []
        let tokenID := vmInput.Arguments.getD 0 []
        let keyToCheck := if e.flagCheckCorrectTokenID then tokenID else mectTokenKey
        match checkIfTransferCanHappenWithLimitedTransfer c w keyToCheck mectTokenKey
            vmInput.CallerAddr vmInput.RecipientAddr e.globalSettingsHandler e.rolesHandler
            acntSnd acntDst vmInput.ReturnCallAfterError with
        | some err => (w, .error err)
        | none =>
          match mectTransfer.debitSender c e w acntSnd vmInput mectTokenKey value with
          | (w1, some err) => (w1, .error err)
          | (w1, none) =>
            let isSCCallAfter := e.payableHandler.DetermineIsSCCallAfter vmInput
              vmInput.RecipientAddr MinLenArgumentsMECTTransfer
            let vmOutput : VMOutput :=
              { ReturnData := [], ReturnCode := .Ok, GasRemaining := gasRemaining
                OutputAccounts := [], Logs := [] }
            match acntDst with
            | some dst =>
              mectTransfer.creditDestination c e w1 acntSnd dst vmInput mectTokenKey tokenID
                value isSCCallAfter vmOutput
            | none =>
              (w1, .ok (mectTransfer.crossShardOutput c vmInput tokenID value vmOutput))

/-! ## Local mint and local burn (`mectLocalMint.go`, `mectLocalBurn.go`) -/

/-- Go `checkInputArgumentsForLocalAction`. -/
def checkInputArgumentsForLocalAction (acntSnd : Option Bytes)
    (vmInput : Option ContractCallInput) (funcGasCost : Nat) : Option BuiltinError :=
  match checkBasicMECTArguments vmInput with
  | some err => some err
  | none =>
  match vmInput with
  | none => some .runtimePanic
  | some vmInput =>
    if vmInput.CallerAddr ≠ vmInput.RecipientAddr then some .ErrInvalidRcvAddr
    else if acntSnd.isNone then some .ErrNilUserAccount
    else
      let value : Int := bytesToNat (vmInput.Arguments.getD 1 [])
      if value ≤ 0 then some .ErrNegativeValue
      else if vmInput.GasProvided < funcGasCost then some .ErrNotEnoughGas
      else none

/-- Go `mectLocalMint`. -/
structure mectLocalMint where
  keyPrefix : Bytes
  marshaller : Marshalizer
  globalSettingsHandler : MECTGlobalSettingsHandler
  rolesHandler : MECTRoleHandler
  funcGasCost : Nat

/-- Go `(*mectLocalMint).ProcessBuiltinFunction`. -/
def mectLocalMint.ProcessBuiltinFunction (c : CoreConfig) (e : mectLocalMint) (w : World)
    (acntSnd : Option Bytes) (vmInput : Option ContractCallInput) :
    World × Except BuiltinError VMOutput :=
  match checkInputArgumentsForLocalAction acntSnd vmInput e.funcGasCost with
  | some err => (w, .error err)
  | none =>
  match vmInput, acntSnd with
  | none, _ => (w, .error .runtimePanic)
  | some _, none => (w, .error .runtimePanic)
  | some vmInput, some snd =>
    let tokenID := vmInput.Arguments.getD 0 []
    match e.rolesHandler.CheckAllowedToExecute w acntSnd tokenID c.MECTRoleLocalMint with
    | some err => (w, .error err)
    | none =>
      if (vmInput.Arguments.getD 1 []).length > c.MaxLenForMECTIssueMint then
        (w, .error .ErrInvalidArguments)
      else
        let value : Int := bytesToNat (vmInput.Arguments.getD 1 [])
        let mectTokenKey := e.keyPrefix ++ tokenID
        match addToMECTBalance c e.marshaller e.globalSettingsHandler w snd mectTokenKey value
            vmInput.ReturnCallAfterError with
        | (w1, some err) => (w1, .error err)
        | (w1, none) =>
          let vmOutput : VMOutput :=
            { ReturnData := [], ReturnCode := .Ok
              GasRemaining := subUint64 vmInput.GasProvided e.funcGasCost
              OutputAccounts := [], Logs := [] }
          let vmOutput := addMECTEntryInVMOutput vmOutput c.BuiltInFunctionMECTLocalMint
            (vmInput.Arguments.getD 0 []) 0 value [vmInput.CallerAddr]
          (w1, .ok vmOutput)

/-- Go `mectLocalBurn`. -/
structure mectLocalBurn where
  keyPrefix : Bytes
  marshaller : Marshalizer
  globalSettingsHandler : MECTGlobalSettingsHandler
  rolesHandler : MECTRoleHandler
  funcGasCost : Nat

/-- Go `(*mectLocalBurn).isAllowedToBurn`. -/
def mectLocalBurn.isAllowedToBurn (c : CoreConfig) (e : mectLocalBurn) (w : World)
    (acntSnd : Option Bytes) (tokenID : Bytes) : Option BuiltinError :=
  let mectTokenKey := e.keyPrefix ++ tokenID
  let isBurnForAll := e.globalSettingsHandler.IsBurnForAll w mectTokenKey
  if isBurnForAll then none
  else e.rolesHandler.CheckAllowedToExecute w acntSnd tokenID c.MECTRoleLocalBurn

/-- Go `(*mectLocalBurn).ProcessBuiltinFunction`. -/
def mectLocalBurn.ProcessBuiltinFunction (c : CoreConfig) (e : mectLocalBurn) (w : World)
    (acntSnd : Option Bytes) (vmInput : Option ContractCallInput) :
    World × Except BuiltinError VMOutput :=
  match checkInputArgumentsForLocalAction acntSnd vmInput e.funcGasCost with
  | some err => (w, .error err)
  | none =>
  match vmInput, acntSnd with
  | none, _ => (w, .error .runtimePanic)
  | some _, none => (w, .error .runtimePanic)
  | some vmInput, some snd =>
    let tokenID := vmInput.Arguments.getD 0 []
    match mectLocalBurn.isAllowedToBurn c e w acntSnd tokenID with
    | some err => (w, .error err)
    | none =>
      let value : Int := bytesToNat (vmInput.Arguments.getD 1 [])
      let mectTokenKey := e.keyPrefix ++ tokenID
      match addToMECTBalance c e.marshaller e.globalSettingsHandler w snd mectTokenKey (-value)
          vmInput.ReturnCallAfterError with
      | (w1, some err) => (w1, .error err)
      | (w1, none) =>
        let vmOutput : VMOutput :=
          { ReturnData := [], ReturnCode := .Ok
            GasRemaining := subUint64 vmInput.GasProvided e.funcGasCost
            OutputAccounts := [], Logs := [] }
        let vmOutput := addMECTEntryInVMOutput vmOutput c.BuiltInFunctionMECTLocalBurn
          (vmInput.Arguments.getD 0 []) 0 value [vmInput.CallerAddr]
        (w1, .ok vmOutput)

/-! ## Roles (`mectRoles.go`) -/

/-- Go `mectRoles`. -/
structure mectRoles where
  set : Bool
  marshaller : Marshalizer

/-- The loop of `doesRoleExist`, `i` being the index of the head of the list. -/
def doesRoleExistFrom (role : Bytes) : List Bytes → Nat → Int × Bool
  | [], _ => (-1, false)
  | currentRole :: rest, i =>
    if currentRole = role then ((i : Int), true) else doesRoleExistFrom role rest (i + 1)

/-- Go `doesRoleExist`. -/
def doesRoleExist (roles : MECTRoles) (role : Bytes) : Int × Bool :=
  doesRoleExistFrom role roles.Roles 0

/-- Go `getMECTRolesForAcnt`: the role list and the `isNew` flag. -/
def getMECTRolesForAcnt (marshaller : Marshalizer) (w : World) (acnt key : Bytes) :
    Except BuiltinError (MECTRoles × Bool) :=
  let roles : MECTRoles := { Roles := [] }
  let marshaledData := RetrieveValue w acnt key
  if marshaledData.length = 0 then .ok (roles, true)
  else
    match marshaller.UnmarshalRoles marshaledData with
    | .error err => .error err
    | .ok roles => .ok (roles, false)

/-- Go `(*mectRoles).CheckAllowedToExecute`. -/
def mectRoles.CheckAllowedToExecute (c : CoreConfig) (e : mectRoles) (w : World)
    (account : Option Bytes) (tokenID action : Bytes) : Option BuiltinError :=
  match account with
  | none => some .ErrNilUserAccount
  | some account =>
    let mectTokenRoleKey := c.roleKeyPrefix ++ tokenID
    match getMECTRolesForAcnt e.marshaller w account mectTokenRoleKey with
    | .error err => some err
    | .ok (roles, isNew) =>
      if isNew then some .ErrActionNotAllowed
      else
        let exist := (doesRoleExist roles action).2
        if !exist then some .ErrActionNotAllowed
        else none

/-- The role handler implemented by `mectRoles`. -/
def mectRoles.toHandler (c : CoreConfig) (e : mectRoles) : MECTRoleHandler :=
  { CheckAllowedToExecute := mectRoles.CheckAllowedToExecute c e }

/-! ## Global settings (`mectGlobalSettings.go`), the queries -/

/-- Go `mectGlobalSettings`; `flagActivated` is the flag of the embedded `baseEnabled`.
`accounts.LoadAccount` of the system account is taken to succeed. -/
structure mectGlobalSettings where
  keyPrefix : Bytes
  set : Bool
  function : Bytes
  marshaller : Marshalizer
  flagActivated : Bool

/-- Go `(*mectGlobalSettings).getGlobalMetadata`. -/
def mectGlobalSettings.getGlobalMetadata (c : CoreConfig) (w : World) (mectTokenKey : Bytes) :
    MECTGlobalMetadata :=
  let val := RetrieveValue w c.SystemAccountAddress mectTokenKey
  MECTGlobalMetadataFromBytes val

/-- Go `(*mectGlobalSettings).IsPaused`. -/
def mectGlobalSettings.IsPaused (c : CoreConfig) (w : World) (mectTokenKey : Bytes) : Bool :=
  (mectGlobalSettings.getGlobalMetadata c w mectTokenKey).Paused

/-- Go `(*mectGlobalSettings).IsLimitedTransfer`. -/
def mectGlobalSettings.IsLimitedTransfer (c : CoreConfig) (w : World) (mectTokenKey : Bytes) :
    Bool :=
  (mectGlobalSettings.getGlobalMetadata c w mectTokenKey).LimitedTransfer

/-- Go `(*mectGlobalSettings).IsBurnForAll`. -/
def mectGlobalSettings.IsBurnForAll (c : CoreConfig) (w : World) (mectTokenKey : Bytes) : Bool :=
  (mectGlobalSettings.getGlobalMetadata c w mectTokenKey).BurnRoleForAll

/-- The loop of `IsSenderOrDestinationWithTransferRole` over the stored addresses. -/
def anyAddressIs (sender destination : Bytes) : List Bytes → Bool
  | [] => false
  | address :: rest =>
    if address = sender ∨ address = destination then true
    else anyAddressIs sender destination rest

/-- Go `(*mectGlobalSettings).IsSenderOrDestinationWithTransferRole`. -/
def mectGlobalSettings.IsSenderOrDestinationWithTransferRole (c : CoreConfig)
    (e : mectGlobalSettings) (w : World) (sender destination tokenID : Bytes) : Bool :=
  if !e.flagActivated then false
  else
    let mectTokenTransferRoleKey := c.transferAddressesKeyPrefix ++ tokenID
    match getMECTRolesForAcnt e.marshaller w c.SystemAccountAddress mectTokenTransferRoleKey with
    | .error _ => false
    | .ok (addresses, _) => anyAddressIs sender destination addresses.Roles

/-- The global settings handler implemented by `mectGlobalSettings`. -/
def mectGlobalSettings.toHandler (c : CoreConfig) (e : mectGlobalSettings) :
    MECTGlobalSettingsHandler :=
  { IsPaused := mectGlobalSettings.IsPaused c
    IsLimitedTransfer := mectGlobalSettings.IsLimitedTransfer c
    IsBurnForAll := mectGlobalSettings.IsBurnForAll c
    IsSenderOrDestinationWithTransferRole :=
      mectGlobalSettings.IsSenderOrDestinationWithTransferRole c e }

/-! ## NFT data storage (`mectDataStorage.go`) -/

/-- Go `computeMECTNFTTokenKey` (`mectNFTCreate.go`). -/
def computeMECTNFTTokenKey (mectTokenKey : Bytes) (nonce : Nat) : Bytes :=
  mectTokenKey ++ natToBytes nonce

/-- Go `mectDataStorage`; the accounts adapter is the `World`, whose `LoadAccount`
and `SaveAccount` are taken to succeed, and the system account is the account at
`SystemAccountAddress`. The flags are the values `EpochConfirmed` last set. -/
structure mectDataStorage where
  globalSettingsHandler : MECTGlobalSettingsHandler
  marshaller : Marshalizer
  keyPrefix : Bytes
  shardCoordinator : Coordinator
  flagSaveToSystemAccount : Bool
  flagCheckFrozenCollection : Bool
  flagSendAlwaysEnableEpoch : Bool
  flagFixOldTokenLiquidity : Bool

/-- Go `(*mectDataStorage).getMECTDigitalTokenDataFromSystemAccount`; the system
account handle it also returns is `SystemAccountAddress`. -/
def mectDataStorage.getMECTDigitalTokenDataFromSystemAccount (c : CoreConfig)
    (e : mectDataStorage) (w : World) (tokenKey : Bytes) : Except BuiltinError (Option MECToken) :=
  let marshaledData := RetrieveValue w c.SystemAccountAddress tokenKey
  if marshaledData.length = 0 then .ok none
  else
    match e.marshaller.UnmarshalToken marshaledData with
    | .error err => .error err
    | .ok mectData => .ok (some mectData)

/-- Go `(*mectDataStorage).marshalAndSaveData`. -/
def mectDataStorage.marshalAndSaveData (e : mectDataStorage) (w : World) (systemAcc : Bytes)
    (mectData : MECToken) (mectNFTTokenKey : Bytes) : World × Option BuiltinError :=
  match e.marshaller.MarshalToken mectData with
  | .error err => (w, some err)
  | .ok marshaledData => (SaveKeyValue w systemAcc mectNFTTokenKey marshaledData, none)

/-- Go `(*mectDataStorage).AddToLiquiditySystemAcc`. -/
def mectDataStorage.AddToLiquiditySystemAcc (c : CoreConfig) (e : mectDataStorage) (w : World)
    (mectTokenKey : Bytes) (nonce : Nat) (transferValue : Int) : World × Option BuiltinError :=
  if !e.flagSaveToSystemAccount || !e.flagSendAlwaysEnableEpoch || decide (nonce = 0) then
    (w, none)
  else
    let mectNFTTokenKey := computeMECTNFTTokenKey mectTokenKey nonce
    match mectDataStorage.getMECTDigitalTokenDataFromSystemAccount c e w mectNFTTokenKey with
    | .error err => (w, some err)
    | .ok none => (w, some .ErrNilMECTData)
    | .ok (some mectData) =>
      -- old style metaData - nothing to do
      if mectData.Reserved.length = 0 then (w, none)
      else if e.flagFixOldTokenLiquidity ∧ mectData.Value = 0 ∧ transferValue < 0 then
        -- old tokens which were transferred intra shard before the activation of this flag
        let mectData := { mectData with Reserved := [] }
        mectDataStorage.marshalAndSaveData e w c.SystemAccountAddress mectData mectNFTTokenKey
      else
        let mectData := { mectData with Value := mectData.Value + transferValue }
        if mectData.Value < 0 then (w, some .ErrInvalidLiquidityForMECT)
        else if mectData.Value = 0 then
          (SaveKeyValue w c.SystemAccountAddress mectNFTTokenKey [], none)
        else
          mectDataStorage.marshalAndSaveData e w c.SystemAccountAddress mectData mectNFTTokenKey

/-- Go `(*mectDataStorage).checkCollectionIsFrozenForAccount`. -/
def mectDataStorage.checkCollectionIsFrozenForAccount (e : mectDataStorage) (w : World)
    (accnt mectTokenKey : Bytes) (nonce : Nat) (isReturnWithError : Bool) : Option BuiltinError :=
  if !e.flagCheckFrozenCollection then none
  else if nonce = 0 ∨ isReturnWithError = true then none
  else
    let marshaledData := RetrieveValue w accnt mectTokenKey
    if marshaledData.length = 0 then none
    else
      match e.marshaller.UnmarshalToken marshaledData with
      | .error err => some err
      | .ok mectData =>
        let mectUserMetaData := MECTUserMetadataFromBytes mectData.Properties
        if mectUserMetaData.Frozen then some .ErrMECTIsFrozenForAccount
        else none

/-- Go `(*mectDataStorage).checkFrozenPauseProperties`. -/
def mectDataStorage.checkFrozenPauseProperties (c : CoreConfig) (e : mectDataStorage) (w : World)
    (acnt mectTokenKey : Bytes) (nonce : Nat) (mectData : MECToken) (isReturnWithError : Bool) :
    Option BuiltinError :=
  match checkFrozeAndPause c e.globalSettingsHandler w acnt mectTokenKey mectData
      isReturnWithError with
  | some err => some err
  | none =>
    let mectNFTTokenKey := computeMECTNFTTokenKey mectTokenKey nonce
    match checkFrozeAndPause c e.globalSettingsHandler w acnt mectNFTTokenKey mectData
        isReturnWithError with
    | some err => some err
    | none =>
      mectDataStorage.checkCollectionIsFrozenForAccount e w acnt mectTokenKey nonce
        isReturnWithError

/-- Go `(*mectDataStorage).setReservedToNilForOldToken`; the record it may modify
in place is returned. -/
def mectDataStorage.setReservedToNilForOldToken (e : mectDataStorage) (w : World)
    (mectDataOnSystemAcc : MECToken) (userAcc : Option Bytes) (mectNFTTokenKey : Bytes) :
    Except BuiltinError MECToken :=
  if !e.flagFixOldTokenLiquidity then .ok mectDataOnSystemAcc
  else
    match userAcc with
    | none => .error .ErrNilUserAccount
    | some userAcc =>
      let dataOnUserAcc := RetrieveValue w userAcc mectNFTTokenKey
      let shouldIgnoreToken : Bool := decide (dataOnUserAcc.length = 0)
      if shouldIgnoreToken then .ok mectDataOnSystemAcc
      else
        match e.marshaller.UnmarshalToken dataOnUserAcc with
        | .error err => .error err
        | .ok mectDataOnUserAcc =>
          -- tokens last moved before the optimized store keep the metadata on the user account
          if mectDataOnUserAcc.TokenMetaData.isSome then
            .ok { mectDataOnSystemAcc with Reserved := [] }
          else .ok mectDataOnSystemAcc

/-- Go `slice[i] = v`: `none` when the index is out of range (a run-time panic). -/
def setIndex (slice : Bytes) (i v : Nat) : Option Bytes :=
  if i < slice.length then some (slice.set i v) else none

/-- The block of `saveMECTMetaDataToSystemAccount` marking the local and the
sender shard in the properties, run while send-always is inactive. -/
def markShards (c : CoreConfig) (e : mectDataStorage) (senderShardID : Nat)
    (properties : Bytes) : Option Bytes :=
  let selfID := e.shardCoordinator.SelfId
  let afterSelf : Option Bytes :=
    if selfID ≠ c.MetachainShardId then setIndex properties selfID existsOnShard
    else some properties
  match afterSelf with
  | none => none
  | some properties =>
    if senderShardID ≠ c.MetachainShardId then setIndex properties senderShardID existsOnShard
    else some properties

/-- Go `(*mectDataStorage).saveMECTMetaDataToSystemAccount`. -/
def mectDataStorage.saveMECTMetaDataToSystemAccount (c : CoreConfig) (e : mectDataStorage)
    (w : World) (userAcc : Option Bytes) (senderShardID : Nat) (mectNFTTokenKey : Bytes)
    (nonce : Nat) (mectData : MECToken) (mustUpdate : Bool) : World × Option BuiltinError :=
  if nonce = 0 then (w, none)
  else if mectData.TokenMetaData.isNone then (w, none)
  else
    let currentSaveData := RetrieveValue w c.SystemAccountAddress mectNFTTokenKey
    if !mustUpdate && decide (currentSaveData.length > 0) then (w, none)
    else
      let mectDataOnSystemAcc : MECToken :=
        { TokenType := mectData.TokenType, Value := 0, TokenMetaData := mectData.TokenMetaData
          Properties := List.replicate e.shardCoordinator.NumberOfShards 0, Reserved := [] }
      let afterReserved : Except BuiltinError MECToken :=
        if currentSaveData.length = 0 ∧ e.flagSendAlwaysEnableEpoch = true then
          mectDataStorage.setReservedToNilForOldToken e w
            { mectDataOnSystemAcc with Properties := [], Reserved := [1] } userAcc mectNFTTokenKey
        else .ok mectDataOnSystemAcc
      match afterReserved with
      | .error err => (w, some err)
      | .ok mectDataOnSystemAcc =>
        let afterMark : Option MECToken :=
          if !e.flagSendAlwaysEnableEpoch then
            match markShards c e senderShardID mectDataOnSystemAcc.Properties with
            | none => none
            | some properties => some { mectDataOnSystemAcc with Properties := properties }
          else some mectDataOnSystemAcc
        match afterMark with
        | none => (w, some .runtimePanic)
        | some mectDataOnSystemAcc =>
          mectDataStorage.marshalAndSaveData e w c.SystemAccountAddress mectDataOnSystemAcc
            mectNFTTokenKey

/-- Go `(*mectDataStorage).SaveMECTNFTToken`. -/
def mectDataStorage.SaveMECTNFTToken (c : CoreConfig) (e : mectDataStorage) (w : World)
    (senderAddress acnt mectTokenKey : Bytes) (nonce : Nat) (mectData : MECToken)
    (mustUpdate isReturnWithError : Bool) : World × Except BuiltinError Bytes :=
  match mectDataStorage.checkFrozenPauseProperties c e w acnt mectTokenKey nonce mectData
      isReturnWithError with
  | some err => (w, .error err)
  | none =>
    let mectNFTTokenKey := computeMECTNFTTokenKey mectTokenKey nonce
    let senderShardID := e.shardCoordinator.ComputeId senderAddress
    let afterMirror : World × Option BuiltinError :=
      if e.flagSaveToSystemAccount then
        mectDataStorage.saveMECTMetaDataToSystemAccount c e w (some acnt) senderShardID
          mectNFTTokenKey nonce mectData mustUpdate
      else (w, none)
    match afterMirror with
    | (w1, some err) => (w1, .error err)
    | (w1, none) =>
      if mectData.Value ≤ 0 then (SaveKeyValue w1 acnt mectNFTTokenKey [], .ok [])
      else if !e.flagSaveToSystemAccount then
        match e.marshaller.MarshalToken mectData with
        | .error err => (w1, .error err)
        | .ok marshaledData => (SaveKeyValue w1 acnt mectNFTTokenKey marshaledData, .ok marshaledData)
      else
        let mectDataOnAccount : MECToken :=
          { TokenType := mectData.TokenType, Value := mectData.Value
            Properties := mectData.Properties, TokenMetaData := none, Reserved := [] }
        match e.marshaller.MarshalToken mectDataOnAccount with
        | .error err => (w1, .error err)
        | .ok marshaledData => (SaveKeyValue w1 acnt mectNFTTokenKey marshaledData, .ok marshaledData)

/-- Go `(*mectDataStorage).getMECTMetaDataFromSystemAccount`. -/
def mectDataStorage.getMECTMetaDataFromSystemAccount (c : CoreConfig) (e : mectDataStorage)
    (w : World) (tokenKey : Bytes) : Except BuiltinError (Option MetaData) :=
  match mectDataStorage.getMECTDigitalTokenDataFromSystemAccount c e w tokenKey with
  | .error err => .error err
  | .ok none => .ok none
  | .ok (some mectData) => .ok mectData.TokenMetaData

/-- Go `(*mectDataStorage).GetMECTNFTTokenOnDestination`: the record and the `isNew`
flag; reading the storage of a nil account handle is a run-time panic. -/
def mectDataStorage.GetMECTNFTTokenOnDestination (c : CoreConfig) (e : mectDataStorage)
    (w : World) (accnt : Option Bytes) (mectTokenKey : Bytes) (nonce : Nat) :
    Except BuiltinError (MECToken × Bool) :=
  let mectNFTTokenKey := computeMECTNFTTokenKey mectTokenKey nonce
  let mectData := MECToken.mk0 Fungible 0
  match accnt with
  | none => .error .runtimePanic
  | some accnt =>
    let marshaledData := RetrieveValue w accnt mectNFTTokenKey
    if marshaledData.length = 0 then .ok (mectData, true)
    else
      match e.marshaller.UnmarshalToken marshaledData with
      | .error err => .error err
      | .ok mectData =>
        if !e.flagSaveToSystemAccount || decide (nonce = 0) then .ok (mectData, false)
        else
          match mectDataStorage.getMECTMetaDataFromSystemAccount c e w mectNFTTokenKey with
          | .error err => .error err
          | .ok mectMetaData =>
            let mectData : MECToken :=
              if mectMetaData.isSome then { mectData with TokenMetaData := mectMetaData }
              else mectData
            .ok (mectData, false)

/-- Go `(*mectDataStorage).GetMECTNFTTokenOnSender`. -/
def mectDataStorage.GetMECTNFTTokenOnSender (c : CoreConfig) (e : mectDataStorage) (w : World)
    (accnt : Option Bytes) (mectTokenKey : Bytes) (nonce : Nat) : Except BuiltinError MECToken :=
  match mectDataStorage.GetMECTNFTTokenOnDestination c e w accnt mectTokenKey nonce with
  | .error err => .error err
  | .ok (mectData, isNew) =>
    if isNew then .error .ErrNewNFTDataOnSenderAddress
    else .ok mectData

/-- The block of `WasAlreadySentToDestinationShardAndUpdateState` that grows the
shard bitmap to the number of shards; `none` is the run-time panic of copying into a
shorter slice, which needs a bitmap of `2^32` entries or more. -/
def growProperties (properties : Bytes) (numberOfShards : Nat) : Option Bytes :=
  if properties.length % 2 ^ 32 < numberOfShards then
    if numberOfShards < properties.length then none
    else some (properties ++ List.replicate (numberOfShards - properties.length) 0)
  else some properties

/-- Go `(*mectDataStorage).WasAlreadySentToDestinationShardAndUpdateState`. -/
def mectDataStorage.WasAlreadySentToDestinationShardAndUpdateState (c : CoreConfig)
    (e : mectDataStorage) (w : World) (tickerID : Bytes) (nonce : Nat) (dstAddress : Bytes) :
    World × Except BuiltinError Bool :=
  if !e.flagSaveToSystemAccount then (w, .ok false)
  else if nonce = 0 then (w, .ok true)
  else
    let dstShardID := e.shardCoordinator.ComputeId dstAddress
    if dstShardID = e.shardCoordinator.SelfId then (w, .ok true)
    else if e.flagSendAlwaysEnableEpoch then (w, .ok false)
    else if dstShardID = c.MetachainShardId then (w, .ok true)
    else
      let mectTokenKey := e.keyPrefix ++ tickerID
      let mectNFTTokenKey := computeMECTNFTTokenKey mectTokenKey nonce
      match mectDataStorage.getMECTDigitalTokenDataFromSystemAccount c e w mectNFTTokenKey with
      | .error err => (w, .error err)
      | .ok none => (w, .ok false)
      | .ok (some mectData) =>
        match growProperties mectData.Properties e.shardCoordinator.NumberOfShards with
        | none => (w, .error .runtimePanic)
        | some properties =>
          if properties.length ≤ dstShardID then (w, .error .runtimePanic)
          else if properties.getD dstShardID 0 > 0 then (w, .ok true)
          else
            let mectData := { mectData with Properties := properties.set dstShardID existsOnShard }
            match mectDataStorage.marshalAndSaveData e w c.SystemAccountAddress mectData
                mectNFTTokenKey with
            | (w1, some err) => (w1, .error err)
            | (w1, none) => (w1, .ok false)

/-- Go `vmcommon.MECTNFTStorageHandler`, the methods the built-in functions call. A
nil account handle is `none` where the method reads the handle itself. -/
structure MECTNFTStorageHandler where
  SaveMECTNFTToken : World → Bytes → Bytes → Bytes → Nat → MECToken → Bool → Bool →
    World × Except BuiltinError Bytes
  AddToLiquiditySystemAcc : World → Bytes → Nat → Int → World × Option BuiltinError
  GetMECTNFTTokenOnSender : World → Option Bytes → Bytes → Nat → Except BuiltinError MECToken
  GetMECTNFTTokenOnDestination : World → Option Bytes → Bytes → Nat →
    Except BuiltinError (MECToken × Bool)
  WasAlreadySentToDestinationShardAndUpdateState : World → Bytes → Nat → Bytes →
    World × Except BuiltinError Bool

/-- The storage handler implemented by `mectDataStorage`. -/
def mectDataStorage.toHandler (c : CoreConfig) (e : mectDataStorage) : MECTNFTStorageHandler :=
  { SaveMECTNFTToken := mectDataStorage.SaveMECTNFTToken c e
    AddToLiquiditySystemAcc := mectDataStorage.AddToLiquiditySystemAcc c e
    GetMECTNFTTokenOnSender := mectDataStorage.GetMECTNFTTokenOnSender c e
    GetMECTNFTTokenOnDestination := mectDataStorage.GetMECTNFTTokenOnDestination c e
    WasAlreadySentToDestinationShardAndUpdateState :=
      mectDataStorage.WasAlreadySentToDestinationShardAndUpdateState c e }

/-! ## NFT create (`mectNFTCreate.go`) -/

/-- Go `vmcommon.BaseOperationCost`, the fields the token engine reads. -/
structure BaseOperationCost where
  StorePerByte : Nat
  DataCopyPerByte : Nat

/-- Go `mectNFTCreate`; the accounts adapter is the `World`. -/
structure mectNFTCreate where
  keyPrefix : Bytes
  marshaller : Marshalizer
  globalSettingsHandler : MECTGlobalSettingsHandler
  rolesHandler : MECTRoleHandler
  funcGasCost : Nat
  gasConfig : BaseOperationCost
  mectStorageHandler : MECTNFTStorageHandler
  flagValueLengthCheck : Bool

/-- Go `getNonceKey`. -/
def getNonceKey (c : CoreConfig) (tokenID : Bytes) : Bytes := c.noncePrefix ++ tokenID

/-- Go `getLatestNonce`. -/
def getLatestNonce (c : CoreConfig) (w : World) (acnt tokenID : Bytes) : Nat :=
  let nonceKey := getNonceKey c tokenID
  let nonceData := RetrieveValue w acnt nonceKey
  if nonceData.length = 0 then 0
  else bytesToNat nonceData % twoPow64

/-- Go `saveLatestNonce`. -/
def saveLatestNonce (c : CoreConfig) (w : World) (acnt tokenID : Bytes) (nonce : Nat) : World :=
  let nonceKey := getNonceKey c tokenID
  SaveKeyValue w acnt nonceKey (natToBytes nonce)

/-- Go `checkMECTNFTCreateBurnAddInput`. -/
def checkMECTNFTCreateBurnAddInput (account : Option Bytes) (vmInput : Option ContractCallInput)
    (funcGasCost : Nat) : Option BuiltinError :=
  match checkBasicMECTArguments vmInput with
  | some err => some err
  | none =>
  match vmInput with
  | none => some .runtimePanic
  | some vmInput =>
    if vmInput.CallerAddr ≠ vmInput.RecipientAddr then some .ErrInvalidRcvAddr
    else if account.isNone ∧ vmInput.CallType ≠ .ExecOnDestByCaller then some .ErrNilUserAccount
    else if vmInput.GasProvided < funcGasCost then some .ErrNotEnoughGas
    else none

/-- The loop of NFT create summing the lengths of the arguments, on `uint64`. -/
def totalArgumentsLength : List Bytes → Nat → Nat
  | [], totalLength => totalLength
  | arg :: rest, totalLength => totalArgumentsLength rest (addUint64 totalLength arg.length)

/-- The block of `(*mectNFTCreate).ProcessBuiltinFunction` that fixes
`accountWithRoles` and `uris`: the sender account and the arguments from the
seventh on, or, for a call executed on behalf of the caller, the account at the
address given as last argument and the arguments in between. -/
def mectNFTCreate.resolveRoleAccount (acntSnd : Option Bytes) (vmInput : ContractCallInput) :
    Except BuiltinError (Option Bytes × List Bytes) :=
  let lenArgs := vmInput.Arguments.length
  if vmInput.CallType = .ExecOnDestByCaller then
    let scAddressWithRoles := vmInput.Arguments.getD (lenArgs - 1) []
    let uris := (vmInput.Arguments.take (lenArgs - 1)).drop 6
    if scAddressWithRoles.length ≠ vmInput.CallerAddr.length then
      .error .ErrInvalidAddressLength
    else if scAddressWithRoles = vmInput.CallerAddr then .error .ErrInvalidRcvAddr
    else .ok (some scAddressWithRoles, uris)
  else .ok (acntSnd, vmInput.Arguments.drop 6)

/-- The end of `(*mectNFTCreate).ProcessBuiltinFunction`, from `nextNonce := nonce + 1`:
the new record is saved, the liquidity and the nonce counter are updated, and the
output is built. -/
def mectNFTCreate.storeNewToken (c : CoreConfig) (e : mectNFTCreate) (w : World)
    (accountWithRoles : Bytes) (uris : List Bytes) (vmInput : ContractCallInput)
    (nonce gasToUse royalties : Nat) (quantity : Int) : World × Except BuiltinError VMOutput :=
  let tokenID := vmInput.Arguments.getD 0 []
  let mectTokenKey := e.keyPrefix ++ vmInput.Arguments.getD 0 []
  let nextNonce := addUint64 nonce 1
  let mectData : MECToken :=
    { TokenType := NonFungible, Value := quantity, Properties := [], Reserved := []
      TokenMetaData := some
        { Nonce := nextNonce, Name := vmInput.Arguments.getD 2 []
          Creator := vmInput.CallerAddr, Royalties := royalties
          Hash := vmInput.Arguments.getD 4 []
          Attributes := vmInput.Arguments.getD 5 [], URIs := uris } }
  match e.mectStorageHandler.SaveMECTNFTToken w accountWithRoles accountWithRoles mectTokenKey
      nextNonce mectData true vmInput.ReturnCallAfterError with
  | (w1, .error err) => (w1, .error err)
  | (w1, .ok _) =>
    match e.mectStorageHandler.AddToLiquiditySystemAcc w1 mectTokenKey nextNonce quantity with
    | (w2, some err) => (w2, .error err)
    | (w2, none) =>
      -- `accounts.SaveAccount(accountWithRoles)` of the on-behalf case changes no storage
      let w3 := saveLatestNonce c w2 accountWithRoles tokenID nextNonce
      let vmOutput : VMOutput :=
        { ReturnCode := .Ok
          GasRemaining := subUint64 vmInput.GasProvided gasToUse
          ReturnData := [natToBytes nextNonce]
          OutputAccounts := [], Logs := [] }
      -- a marshalling error is only logged, the bytes are then nil
      let mectDataBytes : Bytes :=
        match e.marshaller.MarshalToken mectData with
        | .error _ => []
        | .ok bytes => bytes
      let vmOutput := addMECTEntryInVMOutput vmOutput
        c.BuiltInFunctionMECTNFTCreate (vmInput.Arguments.getD 0 []) nextNonce
        quantity [vmInput.CallerAddr, mectDataBytes]
      (w3, .ok vmOutput)

/-- The middle of `(*mectNFTCreate).ProcessBuiltinFunction`, once `accountWithRoles`
is fixed: the create-role check, the nonce, gas, royalties and quantity checks, and
the add-quantity-role check for a quantity above one. -/
def mectNFTCreate.createForAccount (c : CoreConfig) (e : mectNFTCreate) (w : World)
    (accountWithRoles : Bytes) (uris : List Bytes) (vmInput : ContractCallInput) :
    World × Except BuiltinError VMOutput :=
  let tokenID := vmInput.Arguments.getD 0 []
  match e.rolesHandler.CheckAllowedToExecute w (some accountWithRoles)
      (vmInput.Arguments.getD 0 []) c.MECTRoleNFTCreate with
  | some err => (w, .error err)
  | none =>
    let nonce := getLatestNonce c w accountWithRoles tokenID
    let totalLength := totalArgumentsLength vmInput.Arguments 0
    let gasToUse := addUint64 (mulUint64 totalLength e.gasConfig.StorePerByte) e.funcGasCost
    if vmInput.GasProvided < gasToUse then (w, .error .ErrNotEnoughGas)
    else
      let royalties := (bytesToNat (vmInput.Arguments.getD 3 []) % twoPow64) % 2 ^ 32
      if royalties > MaxRoyalty then (w, .error .ErrInvalidArguments)
      else
        let quantity : Int := bytesToNat (vmInput.Arguments.getD 1 [])
        if quantity ≤ 0 then (w, .error .ErrInvalidArguments)
        else
          let addQuantityCheck : Option BuiltinError :=
            if quantity > 1 then
              e.rolesHandler.CheckAllowedToExecute w (some accountWithRoles)
                (vmInput.Arguments.getD 0 []) c.MECTRoleNFTAddQuantity
            else none
          match addQuantityCheck with
          | some err => (w, .error err)
          | none =>
            if e.flagValueLengthCheck ∧
                (vmInput.Arguments.getD 1 []).length > maxLenForAddNFTQuantity then
              (w, .error .ErrInvalidArguments)
            else
              mectNFTCreate.storeNewToken c e w accountWithRoles uris vmInput nonce gasToUse
                royalties quantity

/-- Go `(*mectNFTCreate).ProcessBuiltinFunction`; its body is split into the
input checks, written here, and the three blocks above, in the order of the source. -/
def mectNFTCreate.ProcessBuiltinFunction (c : CoreConfig) (e : mectNFTCreate) (w : World)
    (acntSnd : Option Bytes) (vmInput : Option ContractCallInput) :
    World × Except BuiltinError VMOutput :=
  match checkMECTNFTCreateBurnAddInput acntSnd vmInput e.funcGasCost with
  | some err => (w, .error err)
  | none =>
  match vmInput with
  | none => (w, .error .runtimePanic)
  | some vmInput =>
    let minNumOfArgs := if vmInput.CallType = .ExecOnDestByCaller then 8 else 7
    let lenArgs := vmInput.Arguments.length
    if lenArgs < minNumOfArgs then (w, .error .ErrInvalidArguments)
    else
      match mectNFTCreate.resolveRoleAccount acntSnd vmInput with
      | .error err => (w, .error err)
      | .ok (none, _) => (w, .error .runtimePanic)
      | .ok (some accountWithRoles, uris) =>
        mectNFTCreate.createForAccount c e w accountWithRoles uris vmInput

/-! ## Role assignment (`mectRoles.go`) -/

/-- Go `math.MaxUint64`. -/
def maxUint64 : Nat := 2 ^ 64 - 1

/-- Go `computeStartNonce`; `none` is the run-time panic of indexing an empty address. -/
def computeStartNonce (destAddress : Bytes) : Option Nat :=
  match destAddress.getLast? with
  | none => none
  | some lastByteOfAddress =>
    let startNonce := mulUint64 (maxUint64 / 256) lastByteOfAddress
    some startNonce

/-- Go `deleteRoles`: for each role to delete, the entry at the index `doesRoleExist`
returns is cut out of the list. -/
def deleteRoles (roles : MECTRoles) : List Bytes → MECTRoles
  | [] => roles
  | deleteRole :: rest =>
    let (index, exist) := doesRoleExist roles deleteRole
    if !exist then deleteRoles roles rest
    else deleteRoles { roles with Roles := roles.Roles.eraseIdx index.toNat } rest

/-- Go `saveRolesToAccount` (`mectNFTCreateRoleTransfer.go`). -/
def saveRolesToAccount (w : World) (acntDst mectTokenRoleKey : Bytes) (roles : MECTRoles)
    (marshaller : Marshalizer) : World × Option BuiltinError :=
  match marshaller.MarshalRoles roles with
  | .error err => (w, some err)
  | .ok marshaledData => (SaveKeyValue w acntDst mectTokenRoleKey marshaledData, none)

/-- The loop of `(*mectRoles).ProcessBuiltinFunction` over the role arguments: at the
first argument equal to `core.MECTRoleNFTCreateMultiShard` the start nonce of the
recipient address is saved as the latest nonce, and the loop ends. -/
def mectRoles.saveStartNonce (c : CoreConfig) (w : World) (acntDst tokenID recipientAddr : Bytes) :
    List Bytes → World × Option BuiltinError
  | [] => (w, none)
  | arg :: rest =>
    if arg ≠ c.MECTRoleNFTCreateMultiShard then
      mectRoles.saveStartNonce c w acntDst tokenID recipientAddr rest
    else
      match computeStartNonce recipientAddr with
      | none => (w, some .runtimePanic)
      | some startNonce => (saveLatestNonce c w acntDst tokenID startNonce, none)

/-- Go `(*mectRoles).ProcessBuiltinFunction`. -/
def mectRoles.ProcessBuiltinFunction (c : CoreConfig) (e : mectRoles) (w : World)
    (acntDst : Option Bytes) (vmInput : Option ContractCallInput) :
    World × Except BuiltinError VMOutput :=
  match checkBasicMECTArguments vmInput with
  | some err => (w, .error err)
  | none =>
  match vmInput with
  | none => (w, .error .runtimePanic)
  | some vmInput =>
    if vmInput.CallerAddr ≠ c.MECTSCAddress then (w, .error .ErrAddressIsNotMECTSystemSC)
    else
      match acntDst with
      | none => (w, .error .ErrNilUserAccount)
      | some acntDst =>
        let mectTokenRoleKey := c.roleKeyPrefix ++ vmInput.Arguments.getD 0 []
        match getMECTRolesForAcnt e.marshaller w acntDst mectTokenRoleKey with
        | .error err => (w, .error err)
        | .ok (roles, _) =>
          let roles : MECTRoles :=
            if e.set then { roles with Roles := roles.Roles ++ vmInput.Arguments.drop 1 }
            else deleteRoles roles (vmInput.Arguments.drop 1)
          match mectRoles.saveStartNonce c w acntDst (vmInput.Arguments.getD 0 [])
              vmInput.RecipientAddr (vmInput.Arguments.drop 1) with
          | (w1, some err) => (w1, .error err)
          | (w1, none) =>
            match saveRolesToAccount w1 acntDst mectTokenRoleKey roles e.marshaller with
            | (w2, some err) => (w2, .error err)
            | (w2, none) =>
              let vmOutput : VMOutput :=
                { ReturnCode := .Ok, GasRemaining := 0, ReturnData := []
                  OutputAccounts := [], Logs := [] }
              let logData := acntDst :: vmInput.Arguments.drop 1
              let vmOutput := addMECTEntryInVMOutput vmOutput vmInput.Function
                (vmInput.Arguments.getD 0 []) 0 0 logData
              (w2, .ok vmOutput)

/-! ## Transfer-role addresses (`mectTransferRole.go`) -/

/-- Go `mectTransferAddress`; the accounts adapter is the `World`, whose
`LoadAccount` and `SaveAccount` are taken to succeed, and `maxNumAddresses` is a
`uint32`. -/
structure mectTransferAddress where
  set : Bool
  marshaller : Marshalizer
  maxNumAddresses : Nat

/-- The inner loop of `addNewAddresses`: whether `newAddress` is none of the
addresses of the list. -/
def isNewAddress (newAddress : Bytes) : List Bytes → Bool
  | [] => true
  | address :: rest => if newAddress = address then false else isNewAddress newAddress rest

/-- The outer loop of `addNewAddresses`. -/
def appendNewAddresses (addresses : MECTRoles) : List Bytes → MECTRoles
  | [] => addresses
  | newAddress :: rest =>
    let isNew := isNewAddress newAddress addresses.Roles
    if isNew then
      appendNewAddresses { addresses with Roles := addresses.Roles ++ [newAddress] } rest
    else appendNewAddresses addresses rest

/-- Go `(*mectTransferAddress).addNewAddresses`; the list it has extended in place is
returned with the error. -/
def mectTransferAddress.addNewAddresses (e : mectTransferAddress) (vmInput : ContractCallInput)
    (addresses : MECTRoles) : MECTRoles × Option BuiltinError :=
  let addresses := appendNewAddresses addresses (vmInput.Arguments.drop 1)
  if addresses.Roles.length % 2 ^ 32 > e.maxNumAddresses then
    (addresses, some .ErrTooManyTransferAddresses)
  else (addresses, none)

/-- Go `(*mectTransferAddress).ProcessBuiltinFunction`. -/
def mectTransferAddress.ProcessBuiltinFunction (c : CoreConfig) (e : mectTransferAddress)
    (w : World) (vmInput : Option ContractCallInput) : World × Except BuiltinError VMOutput :=
  match checkBasicMECTArguments vmInput with
  | some err => (w, .error err)
  | none =>
  match vmInput with
  | none => (w, .error .runtimePanic)
  | some vmInput =>
    if vmInput.CallerAddr ≠ c.MECTSCAddress then (w, .error .ErrAddressIsNotMECTSystemSC)
    else if !c.IsSystemAccountAddress vmInput.RecipientAddr then
      (w, .error .ErrOnlySystemAccountAccepted)
    else
      let systemAcc := c.SystemAccountAddress
      let mectTokenTransferRoleKey := c.transferAddressesKeyPrefix ++ vmInput.Arguments.getD 0 []
      match getMECTRolesForAcnt e.marshaller w systemAcc mectTokenTransferRoleKey with
      | .error err => (w, .error err)
      | .ok (addresses, _) =>
        let changed : MECTRoles × Option BuiltinError :=
          if e.set then mectTransferAddress.addNewAddresses e vmInput addresses
          else (deleteRoles addresses (vmInput.Arguments.drop 1), none)
        match changed with
        | (_, some err) => (w, .error err)
        | (addresses, none) =>
          match saveRolesToAccount w systemAcc mectTokenTransferRoleKey addresses
              e.marshaller with
          | (w1, some err) => (w1, .error err)
          | (w1, none) =>
            let vmOutput : VMOutput :=
              { ReturnCode := .Ok, GasRemaining := 0, ReturnData := []
                OutputAccounts := [], Logs := [] }
            let logData := systemAcc :: vmInput.Arguments.drop 1
            let vmOutput := addMECTEntryInVMOutput vmOutput vmInput.Function
              (vmInput.Arguments.getD 0 []) 0 0 logData
            (w1, .ok vmOutput)

/-! ## Freeze, unfreeze and wipe (`mectFreezeWipe.go`) -/

/-- Go `mectIdentifierSeparator`, the byte of `"-"`. -/
def mectIdentifierSeparator : Nat := 45

/-- Go `mectRandomSequenceLength`. -/
def mectRandomSequenceLength : Nat := 6

/-- Go `bytes.Split` for a separator of one byte: the pieces between the
occurrences of the separator, one piece for a string without it. -/
def bytesSplit (sep : Nat) : Bytes → List Bytes
  | [] => [[]]
  | b :: rest =>
    if b = sep then [] :: bytesSplit sep rest
    else
      match bytesSplit sep rest with
      | [] => [[b]]
      | piece :: pieces => (b :: piece) :: pieces

/-- Go `extractTokenIdentifierAndNonceMECTWipe` (`logsAndEvents.go`). -/
def extractTokenIdentifierAndNonceMECTWipe (args : Bytes) : Bytes × Nat :=
  let argsSplit := bytesSplit mectIdentifierSeparator args
  if argsSplit.length < 2 then (args, 0)
  else if (argsSplit.getD 1 []).length ≤ mectRandomSequenceLength then (args, 0)
  else
    let identifier := argsSplit.getD 0 [] ++ [mectIdentifierSeparator] ++
      (argsSplit.getD 1 []).take mectRandomSequenceLength
    let nonce := bytesToNat ((argsSplit.getD 1 []).drop mectRandomSequenceLength)
    (identifier, nonce % twoPow64)

/-- Go `mectFreezeWipe`. -/
structure mectFreezeWipe where
  marshaller : Marshalizer
  keyPrefix : Bytes
  wipe : Bool
  freeze : Bool

/-- Go `(*mectFreezeWipe).wipeIfApplicable`. -/
def mectFreezeWipe.wipeIfApplicable (e : mectFreezeWipe) (w : World) (acntDst tokenKey : Bytes) :
    World × Except BuiltinError Int :=
  match getMECTDataFromKey e.marshaller w acntDst tokenKey with
  | .error err => (w, .error err)
  | .ok tokenData =>
    let mectUserMetadata := MECTUserMetadataFromBytes tokenData.Properties
    if !mectUserMetadata.Frozen then (w, .error .ErrCannotWipeAccountNotFrozen)
    else
      let w1 := SaveKeyValue w acntDst tokenKey []
      let wipedAmount := tokenData.Value
      (w1, .ok wipedAmount)

/-- Go `(*mectFreezeWipe).toggleFreeze`. -/
def mectFreezeWipe.toggleFreeze (e : mectFreezeWipe) (w : World) (acntDst tokenKey : Bytes) :
    World × Except BuiltinError Int :=
  match getMECTDataFromKey e.marshaller w acntDst tokenKey with
  | .error err => (w, .error err)
  | .ok tokenData =>
    let mectUserMetadata := MECTUserMetadataFromBytes tokenData.Properties
    let mectUserMetadata := { mectUserMetadata with Frozen := e.freeze }
    let tokenData := { tokenData with Properties := mectUserMetadata.ToBytes }
    match saveMECTData e.marshaller w acntDst tokenData tokenKey with
    | (w1, some err) => (w1, .error err)
    | (w1, none) =>
      let frozenAmount := tokenData.Value
      (w1, .ok frozenAmount)

/-- Go `(*mectFreezeWipe).ProcessBuiltinFunction`; comparing a nil call value is a
run-time panic. -/
def mectFreezeWipe.ProcessBuiltinFunction (c : CoreConfig) (e : mectFreezeWipe) (w : World)
    (acntDst : Option Bytes) (vmInput : Option ContractCallInput) :
    World × Except BuiltinError VMOutput :=
  match vmInput with
  | none => (w, .error .ErrNilVmInput)
  | some vmInput =>
    match vmInput.CallValue with
    | none => (w, .error .runtimePanic)
    | some callValue =>
      if callValue ≠ 0 then (w, .error .ErrBuiltInFunctionCalledWithValue)
      else if vmInput.Arguments.length ≠ 1 then (w, .error .ErrInvalidArguments)
      else if vmInput.CallerAddr ≠ c.MECTSCAddress then
        (w, .error .ErrAddressIsNotMECTSystemSC)
      else
        match acntDst with
        | none => (w, .error .ErrNilUserAccount)
        | some acntDst =>
          let mectTokenKey := e.keyPrefix ++ vmInput.Arguments.getD 0 []
          let result : World × Except BuiltinError Int :=
            if e.wipe then mectFreezeWipe.wipeIfApplicable e w acntDst mectTokenKey
            else mectFreezeWipe.toggleFreeze e w acntDst mectTokenKey
          match result with
          | (w1, .error err) => (w1, .error err)
          | (w1, .ok amount) =>
            let vmOutput : VMOutput :=
              { ReturnCode := .Ok, GasRemaining := 0, ReturnData := []
                OutputAccounts := [], Logs := [] }
            let (identifier, nonce) :=
              extractTokenIdentifierAndNonceMECTWipe (vmInput.Arguments.getD 0 [])
            let vmOutput := addMECTEntryInVMOutput vmOutput vmInput.Function identifier nonce
              amount [vmInput.CallerAddr, acntDst]
            (w1, .ok vmOutput)

/-! ## Global settings (`mectGlobalSettings.go`), the toggles -/

/-- Go `vmcommon.BuiltInFunctionMECTSetBurnRoleForAll` (`common.go`), the bytes of
`"MECTSetBurnRoleForAll"`. -/
def BuiltInFunctionMECTSetBurnRoleForAll : Bytes :=
  [77, 69, 67, 84, 83, 101, 116, 66, 117, 114, 110, 82, 111, 108, 101, 70, 111, 114, 65, 108, 108]

/-- Go `vmcommon.BuiltInFunctionMECTUnSetBurnRoleForAll` (`common.go`), the bytes of
`"MECTUnSetBurnRoleForAll"`. -/
def BuiltInFunctionMECTUnSetBurnRoleForAll : Bytes :=
  [77, 69, 67, 84, 85, 110, 83, 101, 116, 66, 117, 114, 110, 82, 111, 108, 101, 70, 111, 114, 65,
    108, 108]

/-- Go `isCorrectFunction`. -/
def isCorrectFunction (c : CoreConfig) (function : Bytes) : Bool :=
  if function = c.BuiltInFunctionMECTPause ∨ function = c.BuiltInFunctionMECTUnPause ∨
      function = c.BuiltInFunctionMECTSetLimitedTransfer ∨
      function = c.BuiltInFunctionMECTUnSetLimitedTransfer then true
  else if function = BuiltInFunctionMECTSetBurnRoleForAll ∨
      function = BuiltInFunctionMECTUnSetBurnRoleForAll then true
  else false

/-- Go `(*mectGlobalSettings).toggleSetting`; the first case of the `switch` that
lists the function name is the one that runs. -/
def mectGlobalSettings.toggleSetting (c : CoreConfig) (e : mectGlobalSettings) (w : World)
    (mectTokenKey : Bytes) : World × Option BuiltinError :=
  let systemSCAccount := c.SystemAccountAddress
  let mectMetaData := mectGlobalSettings.getGlobalMetadata c w mectTokenKey
  let mectMetaData : MECTGlobalMetadata :=
    if e.function = c.BuiltInFunctionMECTSetLimitedTransfer ∨
        e.function = c.BuiltInFunctionMECTUnSetLimitedTransfer then
      { mectMetaData with LimitedTransfer := e.set }
    else if e.function = c.BuiltInFunctionMECTPause ∨
        e.function = c.BuiltInFunctionMECTUnPause then
      { mectMetaData with Paused := e.set }
    else if e.function = BuiltInFunctionMECTUnSetBurnRoleForAll ∨
        e.function = BuiltInFunctionMECTSetBurnRoleForAll then
      { mectMetaData with BurnRoleForAll := e.set }
    else mectMetaData
  (SaveKeyValue w systemSCAccount mectTokenKey mectMetaData.ToBytes, none)

/-- Go `(*mectGlobalSettings).ProcessBuiltinFunction`; comparing a nil call value is
a run-time panic. -/
def mectGlobalSettings.ProcessBuiltinFunction (c : CoreConfig) (e : mectGlobalSettings)
    (w : World) (vmInput : Option ContractCallInput) : World × Except BuiltinError VMOutput :=
  match vmInput with
  | none => (w, .error .ErrNilVmInput)
  | some vmInput =>
    match vmInput.CallValue with
    | none => (w, .error .runtimePanic)
    | some callValue =>
      if callValue ≠ 0 then (w, .error .ErrBuiltInFunctionCalledWithValue)
      else if vmInput.Arguments.length ≠ 1 then (w, .error .ErrInvalidArguments)
      else if vmInput.CallerAddr ≠ c.MECTSCAddress then
        (w, .error .ErrAddressIsNotMECTSystemSC)
      else if !c.IsSystemAccountAddress vmInput.RecipientAddr then
        (w, .error .ErrOnlySystemAccountAccepted)
      else
        let mectTokenKey := e.keyPrefix ++ vmInput.Arguments.getD 0 []
        match mectGlobalSettings.toggleSetting c e w mectTokenKey with
        | (w1, some err) => (w1, .error err)
        | (w1, none) =>
          let vmOutput : VMOutput :=
            { ReturnCode := .Ok, GasRemaining := 0, ReturnData := []
              OutputAccounts := [], Logs := [] }
          (w1, .ok vmOutput)

/-! ## Single-NFT transfer (`mectNFTTransfer.go`) -/

/-- Modelled from the spec: `core.MinLenArgumentsMECTNFTTransfer`, the length of the
argument list `[tokenID, nonce, quantity, destination]` of a single-NFT transfer. -/
def MinLenArgumentsMECTNFTTransfer : Nat := 4

/-- Go `zeroByteArray`. -/
def zeroByteArray : Bytes := [0]

/-- Go `mectNFTTransfer`: the fields of the function instance; the accounts adapter is
the `World`, and the epoch flags are the values `EpochConfirmed` last set. -/
structure mectNFTTransfer where
  keyPrefix : Bytes
  marshaller : Marshalizer
  globalSettingsHandler : MECTGlobalSettingsHandler
  payableHandler : PayableChecker
  funcGasCost : Nat
  shardCoordinator : Coordinator
  gasConfig : BaseOperationCost
  rolesHandler : MECTRoleHandler
  mectStorageHandler : MECTNFTStorageHandler
  flagTransferToMeta : Bool
  flagCheck0Transfer : Bool
  flagCheckCorrectTokenID : Bool

/-- Go `addNFTTransferToVMOutput`. -/
def addNFTTransferToVMOutput (senderAddress recipient funcToCall : Bytes)
    (arguments : List Bytes) (gasLocked gasLimit : Nat) (callType : CallType)
    (vmOutput : VMOutput) : VMOutput :=
  let nftTransferTxData := appendHexArguments funcToCall arguments
  let outTransfer : OutputTransfer :=
    { Value := 0, GasLimit := gasLimit, GasLocked := gasLocked
      Data := nftTransferTxData, CallType := callType, SenderAddress := senderAddress }
  { vmOutput with
    OutputAccounts := [(recipient, { Address := recipient, OutputTransfers := [outTransfer] })] }

/-- Go `(*mectNFTTransfer).addNFTToDestination`; the record to transfer, whose value
the function modifies in place, is returned. A handler answering
`ErrNFTTokenDoesNotExist` is taken to hand back no record, whose use is a run-time
panic. -/
def mectNFTTransfer.addNFTToDestination (c : CoreConfig) (e : mectNFTTransfer) (w : World)
    (sndAddress dstAddress userAccount : Bytes) (mectDataToTransfer : MECToken)
    (mectTokenKey : Bytes) (nonce : Nat) (isReturnWithError : Bool) :
    World × Except BuiltinError MECToken :=
  match e.mectStorageHandler.GetMECTNFTTokenOnDestination w (some userAccount) mectTokenKey
      nonce with
  | .error err =>
    if err ≠ .ErrNFTTokenDoesNotExist then (w, .error err) else (w, .error .runtimePanic)
  | .ok (currentMECTData, _) =>
    match checkFrozeAndPause c e.globalSettingsHandler w dstAddress mectTokenKey currentMECTData
        isReturnWithError with
    | some err => (w, .error err)
    | none =>
      let transferValue := mectDataToTransfer.Value
      let mectDataToTransfer :=
        { mectDataToTransfer with Value := mectDataToTransfer.Value + currentMECTData.Value }
      match e.mectStorageHandler.SaveMECTNFTToken w sndAddress userAccount mectTokenKey nonce
          mectDataToTransfer false isReturnWithError with
      | (w1, .error err) => (w1, .error err)
      | (w1, .ok _) =>
        let isSameShard := e.shardCoordinator.SameShard sndAddress dstAddress
        if !isSameShard then
          match e.mectStorageHandler.AddToLiquiditySystemAcc w1 mectTokenKey nonce
              transferValue with
          | (w2, some err) => (w2, .error err)
          | (w2, none) => (w2, .ok mectDataToTransfer)
        else (w1, .ok mectDataToTransfer)

/-- Go `(*mectNFTTransfer).createNFTOutputTransfers`; the output it fills in is returned. -/
def mectNFTTransfer.createNFTOutputTransfers (c : CoreConfig) (e : mectNFTTransfer) (w : World)
    (vmInput : ContractCallInput) (vmOutput : VMOutput) (mectTransferData : MECToken)
    (dstAddress tickerID : Bytes) (nonce : Nat) : World × Except BuiltinError VMOutput :=
  let nftTransferCallArgs := vmInput.Arguments.take 3
  match e.mectStorageHandler.WasAlreadySentToDestinationShardAndUpdateState w tickerID nonce
      dstAddress with
  | (w1, .error err) => (w1, .error err)
  | (w1, .ok wasAlreadySent) =>
    let withData : Except BuiltinError (VMOutput × List Bytes) :=
      if !wasAlreadySent || decide (mectTransferData.Value = 1) then
        match e.marshaller.MarshalToken mectTransferData with
        | .error err => .error err
        | .ok marshaledNFTTransfer =>
          let gasForTransfer := mulUint64 marshaledNFTTransfer.length e.gasConfig.DataCopyPerByte
          if gasForTransfer > vmOutput.GasRemaining then .error .ErrNotEnoughGas
          else
            .ok ({ vmOutput with GasRemaining := vmOutput.GasRemaining - gasForTransfer },
              nftTransferCallArgs ++ [marshaledNFTTransfer])
      else .ok (vmOutput, nftTransferCallArgs ++ [zeroByteArray])
    match withData with
    | .error err => (w1, .error err)
    | .ok (vmOutput, nftTransferCallArgs) =>
      let nftTransferCallArgs :=
        if vmInput.Arguments.length > MinLenArgumentsMECTNFTTransfer then
          nftTransferCallArgs ++ vmInput.Arguments.drop 4
        else nftTransferCallArgs
      let isSCCallAfter := e.payableHandler.DetermineIsSCCallAfter vmInput dstAddress
        MinLenArgumentsMECTNFTTransfer
      if e.shardCoordinator.SelfId ≠ e.shardCoordinator.ComputeId dstAddress then
        let gasToTransfer := if isSCCallAfter then vmOutput.GasRemaining else 0
        let vmOutput := if isSCCallAfter then { vmOutput with GasRemaining := 0 } else vmOutput
        (w1, .ok (addNFTTransferToVMOutput vmInput.CallerAddr dstAddress
          c.BuiltInFunctionMECTNFTTransfer nftTransferCallArgs vmInput.GasLocked gasToTransfer
          vmInput.CallType vmOutput))
      else if isSCCallAfter then
        match vmInput.Arguments.get? MinLenArgumentsMECTNFTTransfer with
        | none => (w1, .error .runtimePanic)
        | some function =>
          let callArgs :=
            if vmInput.Arguments.length > MinLenArgumentsMECTNFTTransfer + 1 then
              vmInput.Arguments.drop (MinLenArgumentsMECTNFTTransfer + 1)
            else []
          (w1, .ok (addOutputTransferToVMOutput vmInput.CallerAddr function callArgs dstAddress
            vmInput.GasLocked vmInput.CallType vmOutput))
      else (w1, .ok vmOutput)

/-- The checks that open `processNFTTransferOnSenderShard`: the destination address,
the transfer to the metachain and the gas. -/
def mectNFTTransfer.checkSenderShardInput (c : CoreConfig) (e : mectNFTTransfer)
    (vmInput : ContractCallInput) : Option BuiltinError :=
  let dstAddress := vmInput.Arguments.getD 3 []
  if dstAddress.length ≠ vmInput.CallerAddr.length then some .ErrInvalidArguments
  else if dstAddress = vmInput.CallerAddr then some .ErrInvalidArguments
  else
    let isInvalidTransferToMeta :=
      decide (e.shardCoordinator.ComputeId dstAddress = c.MetachainShardId) &&
        !e.flagTransferToMeta
    if isInvalidTransferToMeta then some .ErrInvalidRcvAddr
    else if vmInput.GasProvided < e.funcGasCost then some .ErrNotEnoughGas
    else none

/-- The block of `processNFTTransferOnSenderShard` that debits the sender: the
record is read, the nonce and the quantity are checked, and the record is saved with
the quantity subtracted. The record returned carries the quantity to transfer. -/
def mectNFTTransfer.debitSender (e : mectNFTTransfer) (w : World) (acntSnd : Option Bytes)
    (vmInput : ContractCallInput) : World × Except BuiltinError MECToken :=
  let tickerID := vmInput.Arguments.getD 0 []
  let mectTokenKey := e.keyPrefix ++ tickerID
  let nonce := bytesToNat (vmInput.Arguments.getD 1 []) % twoPow64
  match e.mectStorageHandler.GetMECTNFTTokenOnSender w acntSnd mectTokenKey nonce with
  | .error err => (w, .error err)
  | .ok mectData =>
    if nonce = 0 then (w, .error .ErrNFTDoesNotHaveMetadata)
    else
      let quantityToTransfer : Int := bytesToNat (vmInput.Arguments.getD 2 [])
      if mectData.Value < quantityToTransfer then (w, .error .ErrInvalidNFTQuantity)
      else if e.flagCheck0Transfer ∧ quantityToTransfer ≤ 0 then
        (w, .error .ErrInvalidNFTQuantity)
      else
        let mectData := { mectData with Value := mectData.Value - quantityToTransfer }
        match acntSnd with
        | none => (w, .error .runtimePanic)
        | some snd =>
          match e.mectStorageHandler.SaveMECTNFTToken w snd snd mectTokenKey nonce mectData false
              vmInput.ReturnCallAfterError with
          | (w1, .error err) => (w1, .error err)
          | (w1, .ok _) => (w1, .ok { mectData with Value := quantityToTransfer })

/-- The block of `processNFTTransferOnSenderShard` that follows the debit: for a
destination of the local shard its account is loaded, checked to be payable and
credited; otherwise the liquidity of the local shard is reduced. The record, as the
credit has modified it, and the destination account handle are returned. -/
def mectNFTTransfer.moveToDestination (c : CoreConfig) (e : mectNFTTransfer) (w : World)
    (vmInput : ContractCallInput) (mectData : MECToken) :
    World × Except BuiltinError (MECToken × Option Bytes) :=
  let dstAddress := vmInput.Arguments.getD 3 []
  let mectTokenKey := e.keyPrefix ++ vmInput.Arguments.getD 0 []
  let nonce := bytesToNat (vmInput.Arguments.getD 1 []) % twoPow64
  let quantityToTransfer : Int := bytesToNat (vmInput.Arguments.getD 2 [])
  if e.shardCoordinator.SelfId = e.shardCoordinator.ComputeId dstAddress then
    let userAccount := dstAddress
    match e.payableHandler.CheckPayable vmInput dstAddress MinLenArgumentsMECTNFTTransfer with
    | some err => (w, .error err)
    | none =>
      match mectNFTTransfer.addNFTToDestination c e w vmInput.CallerAddr dstAddress userAccount
          mectData mectTokenKey nonce vmInput.ReturnCallAfterError with
      | (w1, .error err) => (w1, .error err)
      | (w1, .ok mectData) => (w1, .ok (mectData, some userAccount))
  else
    match e.mectStorageHandler.AddToLiquiditySystemAcc w mectTokenKey nonce
        (-quantityToTransfer) with
    | (w1, some err) => (w1, .error err)
    | (w1, none) => (w1, .ok (mectData, none))

/-- Go `(*mectNFTTransfer).processNFTTransferOnSenderShard`, in the three blocks above
followed by the limited-transfer check and the output. -/
def mectNFTTransfer.processNFTTransferOnSenderShard (c : CoreConfig) (e : mectNFTTransfer)
    (w : World) (acntSnd : Option Bytes) (vmInput : ContractCallInput) :
    World × Except BuiltinError VMOutput :=
  match mectNFTTransfer.checkSenderShardInput c e vmInput with
  | some err => (w, .error err)
  | none =>
    let dstAddress := vmInput.Arguments.getD 3 []
    let tickerID := vmInput.Arguments.getD 0 []
    let mectTokenKey := e.keyPrefix ++ tickerID
    let nonce := bytesToNat (vmInput.Arguments.getD 1 []) % twoPow64
    let quantityToTransfer : Int := bytesToNat (vmInput.Arguments.getD 2 [])
    match mectNFTTransfer.debitSender e w acntSnd vmInput with
    | (w1, .error err) => (w1, .error err)
    | (w1, .ok mectData) =>
      match mectNFTTransfer.moveToDestination c e w1 vmInput mectData with
      | (w2, .error err) => (w2, .error err)
      | (w2, .ok (mectData, userAccount)) =>
        let tokenID := if e.flagCheckCorrectTokenID then tickerID else mectTokenKey
        match checkIfTransferCanHappenWithLimitedTransfer c w2 tokenID mectTokenKey
            (acntSnd.getD []) dstAddress e.globalSettingsHandler e.rolesHandler acntSnd
            userAccount vmInput.ReturnCallAfterError with
        | some err => (w2, .error err)
        | none =>
          let vmOutput : VMOutput :=
            { ReturnCode := .Ok, GasRemaining := subUint64 vmInput.GasProvided e.funcGasCost
              ReturnData := [], OutputAccounts := [], Logs := [] }
          match mectNFTTransfer.createNFTOutputTransfers c e w2 vmInput vmOutput mectData
              dstAddress tickerID nonce with
          | (w3, .error err) => (w3, .error err)
          | (w3, .ok vmOutput) =>
            let vmOutput := addMECTEntryInVMOutput vmOutput c.BuiltInFunctionMECTNFTTransfer
              (vmInput.Arguments.getD 0 []) nonce quantityToTransfer
              [vmInput.CallerAddr, dstAddress]
            (w3, .ok vmOutput)

/-- Go `(*mectNFTTransfer).ProcessBuiltinFunction`: the sender leg when caller and
recipient are the same address, otherwise the destination leg of a cross-shard
transfer. -/
def mectNFTTransfer.ProcessBuiltinFunction (c : CoreConfig) (e : mectNFTTransfer) (w : World)
    (acntSnd acntDst : Option Bytes) (vmInput : Option ContractCallInput) :
    World × Except BuiltinError VMOutput :=
  match checkBasicMECTArguments vmInput with
  | some err => (w, .error err)
  | none =>
  match vmInput with
  | none => (w, .error .runtimePanic)
  | some vmInput =>
    if vmInput.Arguments.length < 4 then (w, .error .ErrInvalidArguments)
    else if vmInput.CallerAddr = vmInput.RecipientAddr then
      mectNFTTransfer.processNFTTransferOnSenderShard c e w acntSnd vmInput
    else if acntSnd.isSome then (w, .error .ErrInvalidRcvAddr)
    else
      match acntDst with
      | none => (w, .error .ErrInvalidRcvAddr)
      | some dst =>
        let tickerID := vmInput.Arguments.getD 0 []
        let mectTokenKey := e.keyPrefix ++ tickerID
        let nonce := bytesToNat (vmInput.Arguments.getD 1 []) % twoPow64
        let value : Int := bytesToNat (vmInput.Arguments.getD 2 [])
        let decoded : Except BuiltinError MECToken :=
          if vmInput.Arguments.getD 3 [] ≠ zeroByteArray then
            e.marshaller.UnmarshalToken (vmInput.Arguments.getD 3 [])
          else .ok (MECToken.mk0 NonFungible value)
        match decoded with
        | .error err => (w, .error err)
        | .ok mectTransferData =>
          match e.payableHandler.CheckPayable vmInput vmInput.RecipientAddr
              MinLenArgumentsMECTNFTTransfer with
          | some err => (w, .error err)
          | none =>
            match mectNFTTransfer.addNFTToDestination c e w vmInput.CallerAddr
                vmInput.RecipientAddr dst mectTransferData mectTokenKey nonce
                vmInput.ReturnCallAfterError with
            | (w1, .error err) => (w1, .error err)
            | (w1, .ok _) =>
              -- no need to consume gas on destination - sender already paid for it
              let vmOutput : VMOutput :=
                { ReturnCode := .Ok, GasRemaining := vmInput.GasProvided
                  ReturnData := [], OutputAccounts := [], Logs := [] }
              let vmOutput :=
                if vmInput.Arguments.length > MinLenArgumentsMECTNFTTransfer ∧
                    c.IsSmartContractAddress vmInput.RecipientAddr = true then
                  let callArgs :=
                    if vmInput.Arguments.length > MinLenArgumentsMECTNFTTransfer + 1 then
                      vmInput.Arguments.drop (MinLenArgumentsMECTNFTTransfer + 1)
                    else []
                  addOutputTransferToVMOutput vmInput.CallerAddr
                    (vmInput.Arguments.getD MinLenArgumentsMECTNFTTransfer []) callArgs
                    vmInput.RecipientAddr vmInput.GasLocked vmInput.CallType vmOutput
                else vmOutput
              let vmOutput := addMECTEntryInVMOutput vmOutput c.BuiltInFunctionMECTNFTTransfer
                (vmInput.Arguments.getD 0 []) nonce value [vmInput.CallerAddr, dst]
              (w1, .ok vmOutput)

/-! ## Multi-transfer (`multiMECTNFTTransfer.go`) -/

/-- Go `vmcommon.MECTTransfer`. -/
structure MECTTransfer where
  MECTValue : Int
  MECTTokenName : Bytes
  MECTTokenType : Nat
  MECTTokenNonce : Nat
  deriving DecidableEq, Repr

/-- Go `argumentsPerTransfer`. -/
def argumentsPerTransfer : Nat := 3

/-- Go `mectNFTMultiTransfer`: the fields of the function instance; the accounts
adapter is the `World`, and the epoch flags are the values `EpochConfirmed` last set. -/
structure mectNFTMultiTransfer where
  keyPrefix : Bytes
  marshaller : Marshalizer
  globalSettingsHandler : MECTGlobalSettingsHandler
  payableHandler : PayableChecker
  funcGasCost : Nat
  shardCoordinator : Coordinator
  gasConfig : BaseOperationCost
  mectStorageHandler : MECTNFTStorageHandler
  rolesHandler : MECTRoleHandler
  flagTransferToMeta : Bool
  flagCheckCorrectTokenID : Bool

/-- Go `(*mectNFTMultiTransfer).addNFTToDestination`; the record to transfer, whose
value the function modifies in place, is returned. A handler answering
`ErrNFTTokenDoesNotExist` is taken to hand back no record, whose use is a run-time
panic. -/
def mectNFTMultiTransfer.addNFTToDestination (c : CoreConfig) (e : mectNFTMultiTransfer)
    (w : World) (sndAddress dstAddress userAccount : Bytes) (mectDataToTransfer : MECToken)
    (mectTokenKey : Bytes) (nonce : Nat) (isReturnCallWithError : Bool) :
    World × Except BuiltinError MECToken :=
  match e.mectStorageHandler.GetMECTNFTTokenOnDestination w (some userAccount) mectTokenKey
      nonce with
  | .error err =>
    if err ≠ .ErrNFTTokenDoesNotExist then (w, .error err) else (w, .error .runtimePanic)
  | .ok (currentMECTData, _) =>
    match checkFrozeAndPause c e.globalSettingsHandler w dstAddress mectTokenKey currentMECTData
        isReturnCallWithError with
    | some err => (w, .error err)
    | none =>
      let transferValue := mectDataToTransfer.Value
      let mectDataToTransfer :=
        { mectDataToTransfer with Value := mectDataToTransfer.Value + currentMECTData.Value }
      match e.mectStorageHandler.SaveMECTNFTToken w sndAddress userAccount mectTokenKey nonce
          mectDataToTransfer false isReturnCallWithError with
      | (w1, .error err) => (w1, .error err)
      | (w1, .ok _) =>
        let isSameShard := e.shardCoordinator.SameShard sndAddress dstAddress
        if !isSameShard then
          match e.mectStorageHandler.AddToLiquiditySystemAcc w1 mectTokenKey nonce
              transferValue with
          | (w2, some err) => (w2, .error err)
          | (w2, none) => (w2, .ok mectDataToTransfer)
        else (w1, .ok mectDataToTransfer)

/-- Go `(*mectNFTMultiTransfer).transferOneTokenOnSenderShard`; the error wrapped by
`computeInsufficientQuantityMECTError` is `ErrInsufficientQuantityMECT`. -/
def mectNFTMultiTransfer.transferOneTokenOnSenderShard (c : CoreConfig)
    (e : mectNFTMultiTransfer) (w : World) (acntSnd acntDst : Option Bytes) (dstAddress : Bytes)
    (transferData : MECTTransfer) (isReturnCallWithError : Bool) :
    World × Except BuiltinError MECToken :=
  if transferData.MECTValue ≤ 0 then (w, .error .ErrInvalidNFTQuantity)
  else
    let mectTokenKey := e.keyPrefix ++ transferData.MECTTokenName
    match e.mectStorageHandler.GetMECTNFTTokenOnSender w acntSnd mectTokenKey
        transferData.MECTTokenNonce with
    | .error err => (w, .error err)
    | .ok mectData =>
      if mectData.Value < transferData.MECTValue then (w, .error .ErrInsufficientQuantityMECT)
      else
        let mectData := { mectData with Value := mectData.Value - transferData.MECTValue }
        match acntSnd with
        | none => (w, .error .runtimePanic)
        | some snd =>
          match e.mectStorageHandler.SaveMECTNFTToken w snd snd mectTokenKey
              transferData.MECTTokenNonce mectData false isReturnCallWithError with
          | (w1, .error err) => (w1, .error err)
          | (w1, .ok _) =>
            let mectData := { mectData with Value := transferData.MECTValue }
            let tokenID :=
              if e.flagCheckCorrectTokenID then transferData.MECTTokenName else mectTokenKey
            match checkIfTransferCanHappenWithLimitedTransfer c w1 tokenID mectTokenKey snd
                dstAddress e.globalSettingsHandler e.rolesHandler acntSnd acntDst
                isReturnCallWithError with
            | some err => (w1, .error err)
            | none =>
              match acntDst with
              | some dst =>
                mectNFTMultiTransfer.addNFTToDestination c e w1 snd dstAddress dst mectData
                  mectTokenKey transferData.MECTTokenNonce isReturnCallWithError
              | none =>
                match e.mectStorageHandler.AddToLiquiditySystemAcc w1 mectTokenKey
                    transferData.MECTTokenNonce (-transferData.MECTValue) with
                | (w2, some err) => (w2, .error err)
                | (w2, none) => (w2, .ok mectData)

/-- The transfer entry the sender loop reads at `tokenStartIndex`; `none` is the
run-time panic of an index out of range. -/
def transferDataAt (arguments : List Bytes) (tokenStartIndex : Nat) : Option MECTTransfer :=
  match arguments.get? (addUint64 tokenStartIndex 2) with
  | none => none
  | some value =>
    match arguments.get? tokenStartIndex with
    | none => none
    | some name =>
      match arguments.get? (addUint64 tokenStartIndex 1) with
      | none => none
      | some nonce =>
        let mectTokenNonce := bytesToNat nonce % twoPow64
        some { MECTValue := bytesToNat value, MECTTokenName := name
               MECTTokenType := if mectTokenNonce > 0 then NonFungible else 0
               MECTTokenNonce := mectTokenNonce }

/-- The loop of `processMECTNFTMultiTransferOnSenderShard` over the declared
transfers, from index `i` for `remaining` more entries; the records and the
transfers collected so far are extended, in the order of the entries. -/
def mectNFTMultiTransfer.senderLoop (c : CoreConfig) (e : mectNFTMultiTransfer)
    (acntSnd acntDst : Option Bytes) (dstAddress : Bytes) (vmInput : ContractCallInput) :
    Nat → Nat → World → VMOutput → List MECToken → List MECTTransfer →
      World × Except BuiltinError (VMOutput × List MECToken × List MECTTransfer)
  | 0, _, w, vmOutput, listMectData, listTransferData =>
    (w, .ok (vmOutput, listMectData, listTransferData))
  | remaining + 1, i, w, vmOutput, listMectData, listTransferData =>
    let tokenStartIndex := addUint64 2 (mulUint64 i argumentsPerTransfer)
    match transferDataAt vmInput.Arguments tokenStartIndex with
    | none => (w, .error .runtimePanic)
    | some transferData =>
      match mectNFTMultiTransfer.transferOneTokenOnSenderShard c e w acntSnd acntDst dstAddress
          transferData vmInput.ReturnCallAfterError with
      | (w1, .error err) => (w1, .error err)
      | (w1, .ok mectData) =>
        let vmOutput := addMECTEntryInVMOutput vmOutput c.BuiltInFunctionMultiMECTNFTTransfer
          transferData.MECTTokenName transferData.MECTTokenNonce transferData.MECTValue
          [vmInput.CallerAddr, dstAddress]
        mectNFTMultiTransfer.senderLoop c e acntSnd acntDst dstAddress vmInput remaining
          (addUint64 i 1) w1 vmOutput (listMectData ++ [mectData])
          (listTransferData ++ [transferData])

/-- The loop of `createMECTNFTOutputTransfers` over the transfers and their records:
the token name, the nonce and the value or the marshalled record of each entry are
appended to the call arguments. Indexing a missing record is a run-time panic. -/
def mectNFTMultiTransfer.outputArgsLoop (c : CoreConfig) (e : mectNFTMultiTransfer)
    (dstAddress : Bytes) :
    List MECTTransfer → List MECToken → World → VMOutput → List Bytes →
      World × Except BuiltinError (VMOutput × List Bytes)
  | [], _, w, vmOutput, multiTransferCallArgs => (w, .ok (vmOutput, multiTransferCallArgs))
  | mectTransfer :: rest, listMECTData, w, vmOutput, multiTransferCallArgs =>
    let multiTransferCallArgs := multiTransferCallArgs ++ [mectTransfer.MECTTokenName]
    let nonceAsBytes : Bytes :=
      if mectTransfer.MECTTokenNonce > 0 then natToBytes mectTransfer.MECTTokenNonce else [0]
    let multiTransferCallArgs := multiTransferCallArgs ++ [nonceAsBytes]
    if mectTransfer.MECTTokenNonce > 0 then
      match e.mectStorageHandler.WasAlreadySentToDestinationShardAndUpdateState w
          mectTransfer.MECTTokenName mectTransfer.MECTTokenNonce dstAddress with
      | (w1, .error err) => (w1, .error err)
      | (w1, .ok wasAlreadySent) =>
        let sendCrossShardAsMarshalledData : Bool :=
          !wasAlreadySent || decide (mectTransfer.MECTValue = 1) ||
            decide ((intToBytes mectTransfer.MECTValue).length >
              c.MaxLengthForValueToOptTransfer)
        if sendCrossShardAsMarshalledData then
          match listMECTData with
          | [] => (w1, .error .runtimePanic)
          | mectData :: restData =>
            match e.marshaller.MarshalToken mectData with
            | .error err => (w1, .error err)
            | .ok marshaledNFTTransfer =>
              let gasForTransfer :=
                mulUint64 marshaledNFTTransfer.length e.gasConfig.DataCopyPerByte
              if gasForTransfer > vmOutput.GasRemaining then (w1, .error .ErrNotEnoughGas)
              else
                mectNFTMultiTransfer.outputArgsLoop c e dstAddress rest restData w1
                  { vmOutput with GasRemaining := vmOutput.GasRemaining - gasForTransfer }
                  (multiTransferCallArgs ++ [marshaledNFTTransfer])
        else
          mectNFTMultiTransfer.outputArgsLoop c e dstAddress rest listMECTData.tail w1 vmOutput
            (multiTransferCallArgs ++ [intToBytes mectTransfer.MECTValue])
    else
      mectNFTMultiTransfer.outputArgsLoop c e dstAddress rest listMECTData.tail w vmOutput
        (multiTransferCallArgs ++ [intToBytes mectTransfer.MECTValue])

/-- Go `(*mectNFTMultiTransfer).createMECTNFTOutputTransfers`; the output it fills in
is returned. -/
def mectNFTMultiTransfer.createMECTNFTOutputTransfers (c : CoreConfig)
    (e : mectNFTMultiTransfer) (w : World) (vmInput : ContractCallInput) (vmOutput : VMOutput)
    (listMECTData : List MECToken) (listMECTTransfers : List MECTTransfer)
    (dstAddress : Bytes) : World × Except BuiltinError VMOutput :=
  let numTokenTransfer := natToBytes listMECTTransfers.length
  match mectNFTMultiTransfer.outputArgsLoop c e dstAddress listMECTTransfers listMECTData w
      vmOutput [numTokenTransfer] with
  | (w1, .error err) => (w1, .error err)
  | (w1, .ok (vmOutput, multiTransferCallArgs)) =>
    let minNumOfArguments :=
      addUint64 (mulUint64 listMECTTransfers.length argumentsPerTransfer) 2
    let multiTransferCallArgs :=
      if vmInput.Arguments.length > minNumOfArguments then
        multiTransferCallArgs ++ vmInput.Arguments.drop minNumOfArguments
      else multiTransferCallArgs
    let isSCCallAfter := e.payableHandler.DetermineIsSCCallAfter vmInput dstAddress
      minNumOfArguments
    if e.shardCoordinator.SelfId ≠ e.shardCoordinator.ComputeId dstAddress then
      let gasToTransfer := if isSCCallAfter then vmOutput.GasRemaining else 0
      let vmOutput := if isSCCallAfter then { vmOutput with GasRemaining := 0 } else vmOutput
      (w1, .ok (addNFTTransferToVMOutput vmInput.CallerAddr dstAddress
        c.BuiltInFunctionMultiMECTNFTTransfer multiTransferCallArgs vmInput.GasLocked
        gasToTransfer vmInput.CallType vmOutput))
    else if isSCCallAfter then
      match vmInput.Arguments.get? minNumOfArguments with
      | none => (w1, .error .runtimePanic)
      | some function =>
        let callArgs :=
          if vmInput.Arguments.length > addUint64 minNumOfArguments 1 then
            vmInput.Arguments.drop (addUint64 minNumOfArguments 1)
          else []
        (w1, .ok (addOutputTransferToVMOutput vmInput.CallerAddr function callArgs dstAddress
          vmInput.GasLocked vmInput.CallType vmOutput))
    else (w1, .ok vmOutput)

/-- Go `(*mectNFTMultiTransfer).loadAccountIfInShard`. -/
def mectNFTMultiTransfer.loadAccountIfInShard (e : mectNFTMultiTransfer) (dstAddress : Bytes) :
    Option Bytes :=
  if e.shardCoordinator.SelfId ≠ e.shardCoordinator.ComputeId dstAddress then none
  else some dstAddress

/-- The checks that open `processMECTNFTMultiTransferOnSenderShard`, up to the gas
check: the destination address, the transfer to the metachain, the declared number
of transfers against the number of arguments, in `uint64` arithmetic as in the
source, and the gas. -/
def mectNFTMultiTransfer.checkSenderShardInput (c : CoreConfig) (e : mectNFTMultiTransfer)
    (vmInput : ContractCallInput) : Option BuiltinError :=
  let dstAddress := vmInput.Arguments.getD 0 []
  if dstAddress.length ≠ vmInput.CallerAddr.length then some .ErrInvalidArguments
  else if dstAddress = vmInput.CallerAddr then some .ErrInvalidArguments
  else
    let isInvalidTransferToMeta :=
      decide (e.shardCoordinator.ComputeId dstAddress = c.MetachainShardId) &&
        !e.flagTransferToMeta
    if isInvalidTransferToMeta then some .ErrInvalidRcvAddr
    else
      let numOfTransfers := bytesToNat (vmInput.Arguments.getD 1 []) % twoPow64
      if numOfTransfers = 0 then some .ErrInvalidArguments
      else
        let minNumOfArguments := addUint64 (mulUint64 numOfTransfers argumentsPerTransfer) 2
        if vmInput.Arguments.length < minNumOfArguments then
          some .ErrInvalidArguments
        else
          let multiTransferCost := mulUint64 numOfTransfers e.funcGasCost
          if vmInput.GasProvided < multiTransferCost then some .ErrNotEnoughGas
          else none

/-- Go `(*mectNFTMultiTransfer).processMECTNFTMultiTransferOnSenderShard`; `make`
with more than `maxSliceLength` entries is a run-time panic. -/
def mectNFTMultiTransfer.processMECTNFTMultiTransferOnSenderShard (c : CoreConfig)
    (e : mectNFTMultiTransfer) (maxSliceLength : Nat) (w : World) (acntSnd : Option Bytes)
    (vmInput : ContractCallInput) : World × Except BuiltinError VMOutput :=
  match mectNFTMultiTransfer.checkSenderShardInput c e vmInput with
  | some err => (w, .error err)
  | none =>
    let dstAddress := vmInput.Arguments.getD 0 []
    let numOfTransfers := bytesToNat (vmInput.Arguments.getD 1 []) % twoPow64
    let minNumOfArguments := addUint64 (mulUint64 numOfTransfers argumentsPerTransfer) 2
    let multiTransferCost := mulUint64 numOfTransfers e.funcGasCost
    let acntDst := mectNFTMultiTransfer.loadAccountIfInShard e dstAddress
    let payable : Option BuiltinError :=
      if acntDst.isSome then e.payableHandler.CheckPayable vmInput dstAddress minNumOfArguments
      else none
    match payable with
    | some err => (w, .error err)
    | none =>
      if numOfTransfers > maxSliceLength then (w, .error .runtimePanic)
      else
        let vmOutput : VMOutput :=
          { ReturnCode := .Ok, GasRemaining := subUint64 vmInput.GasProvided multiTransferCost
            ReturnData := [], OutputAccounts := [], Logs := [] }
        match mectNFTMultiTransfer.senderLoop c e acntSnd acntDst dstAddress vmInput
            numOfTransfers 0 w vmOutput [] [] with
        | (w1, .error err) => (w1, .error err)
        | (w1, .ok (vmOutput, listMectData, listTransferData)) =>
          mectNFTMultiTransfer.createMECTNFTOutputTransfers c e w1 vmInput vmOutput listMectData
            listTransferData dstAddress

/-- The loop of the destination leg of `ProcessBuiltinFunction` over the declared
transfers, from index `i` for `remaining` more entries. -/
def mectNFTMultiTransfer.destinationLoop (c : CoreConfig) (e : mectNFTMultiTransfer)
    (acntDst : Bytes) (vmInput : ContractCallInput) :
    Nat → Nat → World → VMOutput → World × Except BuiltinError VMOutput
  | 0, _, w, vmOutput => (w, .ok vmOutput)
  | remaining + 1, i, w, vmOutput =>
    let tokenStartIndex := addUint64 1 (mulUint64 i argumentsPerTransfer)
    match vmInput.Arguments.get? tokenStartIndex with
    | none => (w, .error .runtimePanic)
    | some tokenID =>
      match vmInput.Arguments.get? (addUint64 tokenStartIndex 1) with
      | none => (w, .error .runtimePanic)
      | some nonceBytes =>
        match vmInput.Arguments.get? (addUint64 tokenStartIndex 2) with
        | none => (w, .error .runtimePanic)
        | some valueBytes =>
          let nonce := bytesToNat nonceBytes % twoPow64
          let mectTokenKey := e.keyPrefix ++ tokenID
          let credited : World × Except BuiltinError Int :=
            if nonce > 0 then
              let decoded : Except BuiltinError MECToken :=
                if valueBytes.length > c.MaxLengthForValueToOptTransfer then
                  e.marshaller.UnmarshalToken valueBytes
                else .ok (MECToken.mk0 NonFungible (bytesToNat valueBytes))
              match decoded with
              | .error err => (w, .error err)
              | .ok mectTransferData =>
                match mectNFTMultiTransfer.addNFTToDestination c e w vmInput.CallerAddr
                    vmInput.RecipientAddr acntDst mectTransferData mectTokenKey nonce
                    vmInput.ReturnCallAfterError with
                | (w1, .error err) => (w1, .error err)
                | (w1, .ok _) => (w1, .ok mectTransferData.Value)
            else
              let transferredValue : Int := bytesToNat valueBytes
              match addToMECTBalance c e.marshaller e.globalSettingsHandler w acntDst mectTokenKey
                  transferredValue vmInput.ReturnCallAfterError with
              | (w1, some err) => (w1, .error err)
              | (w1, none) => (w1, .ok transferredValue)
          match credited with
          | (w1, .error err) => (w1, .error err)
          | (w1, .ok value) =>
            let vmOutput := addMECTEntryInVMOutput vmOutput
              c.BuiltInFunctionMultiMECTNFTTransfer tokenID nonce value
              [vmInput.CallerAddr, acntDst]
            mectNFTMultiTransfer.destinationLoop c e acntDst vmInput remaining (addUint64 i 1) w1
              vmOutput

/-- Go `(*mectNFTMultiTransfer).ProcessBuiltinFunction`: the sender leg when caller
and recipient are the same address, otherwise the destination leg of a cross-shard
transfer; `make` with more than `maxSliceLength` entries is a run-time panic. -/
def mectNFTMultiTransfer.ProcessBuiltinFunction (c : CoreConfig) (e : mectNFTMultiTransfer)
    (maxSliceLength : Nat) (w : World) (acntSnd acntDst : Option Bytes)
    (vmInput : Option ContractCallInput) : World × Except BuiltinError VMOutput :=
  match checkBasicMECTArguments vmInput with
  | some err => (w, .error err)
  | none =>
  match vmInput with
  | none => (w, .error .runtimePanic)
  | some vmInput =>
    if vmInput.Arguments.length < 4 then (w, .error .ErrInvalidArguments)
    else if vmInput.CallerAddr = vmInput.RecipientAddr then
      mectNFTMultiTransfer.processMECTNFTMultiTransferOnSenderShard c e maxSliceLength w acntSnd
        vmInput
    else if acntSnd.isSome then (w, .error .ErrInvalidRcvAddr)
    else
      match acntDst with
      | none => (w, .error .ErrInvalidRcvAddr)
      | some dst =>
        let numOfTransfers := bytesToNat (vmInput.Arguments.getD 0 []) % twoPow64
        if numOfTransfers = 0 then (w, .error .ErrInvalidArguments)
        else
          let minNumOfArguments := addUint64 (mulUint64 numOfTransfers argumentsPerTransfer) 1
          if vmInput.Arguments.length < minNumOfArguments then
            (w, .error .ErrInvalidArguments)
          else if numOfTransfers > maxSliceLength then (w, .error .runtimePanic)
          else
            let vmOutput : VMOutput :=
              { ReturnCode := .Ok, GasRemaining := vmInput.GasProvided
                ReturnData := [], OutputAccounts := [], Logs := [] }
            match e.payableHandler.CheckPayable vmInput vmInput.RecipientAddr
                minNumOfArguments with
            | some err => (w, .error err)
            | none =>
              match mectNFTMultiTransfer.destinationLoop c e dst vmInput numOfTransfers 0 w
                  vmOutput with
              | (w1, .error err) => (w1, .error err)
              | (w1, .ok vmOutput) =>
                -- no need to consume gas on destination - sender already paid for it
                let vmOutput :=
                  if vmInput.Arguments.length > minNumOfArguments ∧
                      c.IsSmartContractAddress vmInput.RecipientAddr = true then
                    let callArgs :=
                      if vmInput.Arguments.length > minNumOfArguments + 1 then
                        vmInput.Arguments.drop (addUint64 minNumOfArguments 1)
                      else []
                    addOutputTransferToVMOutput vmInput.CallerAddr
                      (vmInput.Arguments.getD minNumOfArguments []) callArgs
                      vmInput.RecipientAddr vmInput.GasLocked vmInput.CallType vmOutput
                  else vmOutput
                (w1, .ok vmOutput)

/-! ## NFT burn, add quantity, add URI and update attributes
(`mectNFTBurn.go`, `mectNFTAddQuantity.go`, `mectNFTAddUri.go`, `updateNFTAttributes.go`) -/

/-- Go `mectNFTBurn`. -/
structure mectNFTBurn where
  keyPrefix : Bytes
  mectStorageHandler : MECTNFTStorageHandler
  globalSettingsHandler : MECTGlobalSettingsHandler
  rolesHandler : MECTRoleHandler
  funcGasCost : Nat

/-- Go `(*mectNFTBurn).isAllowedToBurn`. -/
def mectNFTBurn.isAllowedToBurn (c : CoreConfig) (e : mectNFTBurn) (w : World)
    (acntSnd : Option Bytes) (tokenID : Bytes) : Option BuiltinError :=
  let mectTokenKey := e.keyPrefix ++ tokenID
  let isBurnForAll := e.globalSettingsHandler.IsBurnForAll w mectTokenKey
  if isBurnForAll then none
  else e.rolesHandler.CheckAllowedToExecute w acntSnd tokenID c.MECTRoleNFTBurn

/-- Go `(*mectNFTBurn).ProcessBuiltinFunction`. -/
def mectNFTBurn.ProcessBuiltinFunction (c : CoreConfig) (e : mectNFTBurn) (w : World)
    (acntSnd : Option Bytes) (vmInput : Option ContractCallInput) :
    World × Except BuiltinError VMOutput :=
  match checkMECTNFTCreateBurnAddInput acntSnd vmInput e.funcGasCost with
  | some err => (w, .error err)
  | none =>
  match vmInput with
  | none => (w, .error .runtimePanic)
  | some vmInput =>
    if vmInput.Arguments.length < 3 then (w, .error .ErrInvalidArguments)
    else
      let mectTokenKey := e.keyPrefix ++ vmInput.Arguments.getD 0 []
      match mectNFTBurn.isAllowedToBurn c e w acntSnd (vmInput.Arguments.getD 0 []) with
      | some err => (w, .error err)
      | none =>
        let nonce := bytesToNat (vmInput.Arguments.getD 1 []) % twoPow64
        match e.mectStorageHandler.GetMECTNFTTokenOnSender w acntSnd mectTokenKey nonce with
        | .error err => (w, .error err)
        | .ok mectData =>
          if nonce = 0 then (w, .error .ErrNFTDoesNotHaveMetadata)
          else
            let quantityToBurn : Int := bytesToNat (vmInput.Arguments.getD 2 [])
            if mectData.Value < quantityToBurn then (w, .error .ErrInvalidNFTQuantity)
            else
              let mectData := { mectData with Value := mectData.Value - quantityToBurn }
              match acntSnd with
              | none => (w, .error .runtimePanic)
              | some snd =>
                match e.mectStorageHandler.SaveMECTNFTToken w snd snd mectTokenKey nonce mectData
                    false vmInput.ReturnCallAfterError with
                | (w1, .error err) => (w1, .error err)
                | (w1, .ok _) =>
                  match e.mectStorageHandler.AddToLiquiditySystemAcc w1 mectTokenKey nonce
                      (-quantityToBurn) with
                  | (w2, some err) => (w2, .error err)
                  | (w2, none) =>
                    let vmOutput : VMOutput :=
                      { ReturnCode := .Ok
                        GasRemaining := subUint64 vmInput.GasProvided e.funcGasCost
                        ReturnData := [], OutputAccounts := [], Logs := [] }
                    let vmOutput := addMECTEntryInVMOutput vmOutput c.BuiltInFunctionMECTNFTBurn
                      (vmInput.Arguments.getD 0 []) nonce quantityToBurn [vmInput.CallerAddr]
                    (w2, .ok vmOutput)

/-- Go `mectNFTAddQuantity`. -/
structure mectNFTAddQuantity where
  keyPrefix : Bytes
  globalSettingsHandler : MECTGlobalSettingsHandler
  rolesHandler : MECTRoleHandler
  mectStorageHandler : MECTNFTStorageHandler
  funcGasCost : Nat
  flagValueLengthCheck : Bool

/-- Go `(*mectNFTAddQuantity).ProcessBuiltinFunction`. -/
def mectNFTAddQuantity.ProcessBuiltinFunction (c : CoreConfig) (e : mectNFTAddQuantity)
    (w : World) (acntSnd : Option Bytes) (vmInput : Option ContractCallInput) :
    World × Except BuiltinError VMOutput :=
  match checkMECTNFTCreateBurnAddInput acntSnd vmInput e.funcGasCost with
  | some err => (w, .error err)
  | none =>
  match vmInput with
  | none => (w, .error .runtimePanic)
  | some vmInput =>
    if vmInput.Arguments.length < 3 then (w, .error .ErrInvalidArguments)
    else
      match e.rolesHandler.CheckAllowedToExecute w acntSnd (vmInput.Arguments.getD 0 [])
          c.MECTRoleNFTAddQuantity with
      | some err => (w, .error err)
      | none =>
        let mectTokenKey := e.keyPrefix ++ vmInput.Arguments.getD 0 []
        let nonce := bytesToNat (vmInput.Arguments.getD 1 []) % twoPow64
        match e.mectStorageHandler.GetMECTNFTTokenOnSender w acntSnd mectTokenKey nonce with
        | .error err => (w, .error err)
        | .ok mectData =>
          if nonce = 0 then (w, .error .ErrNFTDoesNotHaveMetadata)
          else if e.flagValueLengthCheck ∧
              (vmInput.Arguments.getD 2 []).length > maxLenForAddNFTQuantity then
            (w, .error .ErrInvalidArguments)
          else
            let value : Int := bytesToNat (vmInput.Arguments.getD 2 [])
            let mectData := { mectData with Value := mectData.Value + value }
            match acntSnd with
            | none => (w, .error .runtimePanic)
            | some snd =>
              match e.mectStorageHandler.SaveMECTNFTToken w snd snd mectTokenKey nonce mectData
                  false vmInput.ReturnCallAfterError with
              | (w1, .error err) => (w1, .error err)
              | (w1, .ok _) =>
                match e.mectStorageHandler.AddToLiquiditySystemAcc w1 mectTokenKey nonce
                    value with
                | (w2, some err) => (w2, .error err)
                | (w2, none) =>
                  let vmOutput : VMOutput :=
                    { ReturnCode := .Ok
                      GasRemaining := subUint64 vmInput.GasProvided e.funcGasCost
                      ReturnData := [], OutputAccounts := [], Logs := [] }
                  let vmOutput := addMECTEntryInVMOutput vmOutput
                    c.BuiltInFunctionMECTNFTAddQuantity (vmInput.Arguments.getD 0 []) nonce value
                    [vmInput.CallerAddr]
                  (w2, .ok vmOutput)

/-- Go `mectNFTAddUri`. -/
structure mectNFTAddUri where
  keyPrefix : Bytes
  mectStorageHandler : MECTNFTStorageHandler
  globalSettingsHandler : MECTGlobalSettingsHandler
  rolesHandler : MECTRoleHandler
  gasConfig : BaseOperationCost
  funcGasCost : Nat

/-- The loop of `getGasCostForURIStore` summing the lengths of the URIs. -/
def totalURIsLength : List Bytes → Nat → Nat
  | [], lenURIs => lenURIs
  | uri :: rest, lenURIs => totalURIsLength rest (lenURIs + uri.length)

/-- Go `(*mectNFTAddUri).getGasCostForURIStore`. -/
def mectNFTAddUri.getGasCostForURIStore (e : mectNFTAddUri) (vmInput : ContractCallInput) : Nat :=
  let lenURIs := totalURIsLength (vmInput.Arguments.drop 2) 0
  mulUint64 (lenURIs % twoPow64) e.gasConfig.StorePerByte

/-- Go `(*mectNFTAddUri).ProcessBuiltinFunction`; reading the URIs of a record
without metadata dereferences a nil pointer, a run-time panic. -/
def mectNFTAddUri.ProcessBuiltinFunction (c : CoreConfig) (e : mectNFTAddUri) (w : World)
    (acntSnd : Option Bytes) (vmInput : Option ContractCallInput) :
    World × Except BuiltinError VMOutput :=
  match checkMECTNFTCreateBurnAddInput acntSnd vmInput e.funcGasCost with
  | some err => (w, .error err)
  | none =>
  match vmInput with
  | none => (w, .error .runtimePanic)
  | some vmInput =>
    if vmInput.Arguments.length < 3 then (w, .error .ErrInvalidArguments)
    else
      match e.rolesHandler.CheckAllowedToExecute w acntSnd (vmInput.Arguments.getD 0 [])
          c.MECTRoleNFTAddURI with
      | some err => (w, .error err)
      | none =>
        let gasCostForStore := mectNFTAddUri.getGasCostForURIStore e vmInput
        if vmInput.GasProvided < addUint64 e.funcGasCost gasCostForStore then
          (w, .error .ErrNotEnoughGas)
        else
          let mectTokenKey := e.keyPrefix ++ vmInput.Arguments.getD 0 []
          let nonce := bytesToNat (vmInput.Arguments.getD 1 []) % twoPow64
          if nonce = 0 then (w, .error .ErrNFTDoesNotHaveMetadata)
          else
            match e.mectStorageHandler.GetMECTNFTTokenOnSender w acntSnd mectTokenKey nonce with
            | .error err => (w, .error err)
            | .ok mectData =>
              match mectData.TokenMetaData with
              | none => (w, .error .runtimePanic)
              | some tokenMetaData =>
                let mectData := { mectData with
                  TokenMetaData := some { tokenMetaData with
                    URIs := tokenMetaData.URIs ++ vmInput.Arguments.drop 2 } }
                match acntSnd with
                | none => (w, .error .runtimePanic)
                | some snd =>
                  match e.mectStorageHandler.SaveMECTNFTToken w snd snd mectTokenKey nonce
                      mectData true vmInput.ReturnCallAfterError with
                  | (w1, .error err) => (w1, .error err)
                  | (w1, .ok _) =>
                    let vmOutput : VMOutput :=
                      { ReturnCode := .Ok
                        GasRemaining := subUint64 (subUint64 vmInput.GasProvided e.funcGasCost)
                          gasCostForStore
                        ReturnData := [], OutputAccounts := [], Logs := [] }
                    let extraTopics := vmInput.CallerAddr :: vmInput.Arguments.drop 2
                    let vmOutput := addMECTEntryInVMOutput vmOutput
                      c.BuiltInFunctionMECTNFTAddURI (vmInput.Arguments.getD 0 []) nonce 0
                      extraTopics
                    (w1, .ok vmOutput)

/-- Go `mectNFTupdate`. -/
structure mectNFTupdate where
  keyPrefix : Bytes
  mectStorageHandler : MECTNFTStorageHandler
  globalSettingsHandler : MECTGlobalSettingsHandler
  rolesHandler : MECTRoleHandler
  gasConfig : BaseOperationCost
  funcGasCost : Nat

/-- Go `(*mectNFTupdate).ProcessBuiltinFunction`; writing the attributes of a record
without metadata dereferences a nil pointer, a run-time panic. -/
def mectNFTupdate.ProcessBuiltinFunction (c : CoreConfig) (e : mectNFTupdate) (w : World)
    (acntSnd : Option Bytes) (vmInput : Option ContractCallInput) :
    World × Except BuiltinError VMOutput :=
  match checkMECTNFTCreateBurnAddInput acntSnd vmInput e.funcGasCost with
  | some err => (w, .error err)
  | none =>
  match vmInput with
  | none => (w, .error .runtimePanic)
  | some vmInput =>
    if vmInput.Arguments.length ≠ 3 then (w, .error .ErrInvalidArguments)
    else
      match e.rolesHandler.CheckAllowedToExecute w acntSnd (vmInput.Arguments.getD 0 [])
          c.MECTRoleNFTUpdateAttributes with
      | some err => (w, .error err)
      | none =>
        let gasCostForStore :=
          mulUint64 (vmInput.Arguments.getD 2 []).length e.gasConfig.StorePerByte
        if vmInput.GasProvided < addUint64 e.funcGasCost gasCostForStore then
          (w, .error .ErrNotEnoughGas)
        else
          let mectTokenKey := e.keyPrefix ++ vmInput.Arguments.getD 0 []
          let nonce := bytesToNat (vmInput.Arguments.getD 1 []) % twoPow64
          if nonce = 0 then (w, .error .ErrNFTDoesNotHaveMetadata)
          else
            match e.mectStorageHandler.GetMECTNFTTokenOnSender w acntSnd mectTokenKey nonce with
            | .error err => (w, .error err)
            | .ok mectData =>
              match mectData.TokenMetaData with
              | none => (w, .error .runtimePanic)
              | some tokenMetaData =>
                let mectData := { mectData with
                  TokenMetaData := some { tokenMetaData with
                    Attributes := vmInput.Arguments.getD 2 [] } }
                match acntSnd with
                | none => (w, .error .runtimePanic)
                | some snd =>
                  match e.mectStorageHandler.SaveMECTNFTToken w snd snd mectTokenKey nonce
                      mectData true vmInput.ReturnCallAfterError with
                  | (w1, .error err) => (w1, .error err)
                  | (w1, .ok _) =>
                    let vmOutput : VMOutput :=
                      { ReturnCode := .Ok
                        GasRemaining := subUint64 (subUint64 vmInput.GasProvided e.funcGasCost)
                          gasCostForStore
                        ReturnData := [], OutputAccounts := [], Logs := [] }
                    let vmOutput := addMECTEntryInVMOutput vmOutput
                      c.BuiltInFunctionMECTNFTUpdateAttributes (vmInput.Arguments.getD 0 []) nonce
                      0 [vmInput.CallerAddr, vmInput.Arguments.getD 2 []]
                    (w1, .ok vmOutput)

/-! ## Token identifiers (`common.go`) -/

/-- Go `tickerMinLength`. -/
def tickerMinLength : Nat := 3

/-- Go `tickerMaxLength`. -/
def tickerMaxLength : Nat := 10

/-- Go `additionalRandomCharsLength`. -/
def additionalRandomCharsLength : Nat := 6

/-- Go `identifierMinLength`. -/
def identifierMinLength : Nat := tickerMinLength + additionalRandomCharsLength + 1

/-- Go `identifierMaxLength`. -/
def identifierMaxLength : Nat := tickerMaxLength + additionalRandomCharsLength + 1

/-- The loop of `isTickerValid` over the characters, as ASCII codes: `A` is 65, `Z` is
90, `0` is 48 and `9` is 57. -/
def tickerCharsAreValid : Bytes → Bool
  | [] => true
  | ch :: rest =>
    let isBigCharacter := decide (ch ≥ 65) && decide (ch ≤ 90)
    let isNumber := decide (ch ≥ 48) && decide (ch ≤ 57)
    let isReadable := isBigCharacter || isNumber
    if !isReadable then false else tickerCharsAreValid rest

/-- Go `isTickerValid`. -/
def isTickerValid (tickerName : Bytes) : Bool :=
  if tickerName.length < tickerMinLength ∨ tickerName.length > tickerMaxLength then false
  else tickerCharsAreValid tickerName

/-- The loop of `randomCharsAreValid` over the characters, as ASCII codes: `a` is 97
and `f` is 102. -/
def randomCharsLoop : Bytes → Bool
  | [] => true
  | ch :: rest =>
    let isSmallCharacter := decide (ch ≥ 97) && decide (ch ≤ 102)
    let isNumber := decide (ch ≥ 48) && decide (ch ≤ 57)
    let isReadable := isSmallCharacter || isNumber
    if !isReadable then false else randomCharsLoop rest

/-- Go `randomCharsAreValid`. -/
def randomCharsAreValid (chars : Bytes) : Bool :=
  if chars.length ≠ additionalRandomCharsLength then false
  else randomCharsLoop chars

/-- Go `ValidateToken`; the dash is the byte 45. -/
def ValidateToken (tokenID : Bytes) : Bool :=
  let tokenIDLen := tokenID.length
  if tokenIDLen < identifierMinLength ∨ tokenIDLen > identifierMaxLength then false
  else
    let tickerLen := tokenIDLen - additionalRandomCharsLength
    if !isTickerValid (tokenID.take (tickerLen - 1)) then false
    else if tokenID.getD (tickerLen - 1) 0 ≠ 45 then false
    else if !randomCharsAreValid ((tokenID.take tokenIDLen).drop tickerLen) then false
    else true

/-! ## Delete metadata (`mectDeleteMetadata.go`) -/

/-- Go `mectDeleteMetaData`: the fields of the function instance; the accounts adapter is
the `World`. -/
structure mectDeleteMetaData where
  allowedAddress : Bytes
  delete : Bool
  keyPrefix : Bytes
  marshaller : Marshalizer
  funcGasCost : Nat

/-- The loop `for nonce := startIndex; nonce <= endIndex; nonce++` of
`deleteMetadataForInterval`, the counter being a `uint64`. Every evaluation of the
loop condition uses one unit of `fuel`; `none` means that the fuel ran out before
the loop ended. -/
def mectDeleteMetaData.deleteLoop (c : CoreConfig) (mectTokenKey : Bytes) (endIndex : Nat) :
    Nat → Nat → World → Option (World × Option BuiltinError)
  | 0, _, _ => none
  | fuel + 1, nonce, w =>
    if nonce ≤ endIndex then
      let mectNFTTokenKey := computeMECTNFTTokenKey mectTokenKey nonce
      mectDeleteMetaData.deleteLoop c mectTokenKey endIndex fuel (addUint64 nonce 1)
        (SaveKeyValue w c.SystemAccountAddress mectNFTTokenKey [])
    else some (w, none)

/-- Go `(*mectDeleteMetaData).deleteMetadataForInterval`, on the system account of the
`World`; `fuel` bounds the evaluations of the loop condition. -/
def mectDeleteMetaData.deleteMetadataForInterval (c : CoreConfig) (e : mectDeleteMetaData)
    (fuel : Nat) (w : World) (tokenID : Bytes) (startIndex endIndex : Nat) :
    Option (World × Option BuiltinError) :=
  if endIndex < startIndex then some (w, some .ErrInvalidArguments)
  else if startIndex = 0 then some (w, some .ErrInvalidNonce)
  else
    let mectTokenKey := e.keyPrefix ++ tokenID
    mectDeleteMetaData.deleteLoop c mectTokenKey endIndex fuel startIndex w

/-! ## Reading back an output transfer (`extractScResultsFromVmOutput`,
`mectNFTTransfer_test.go`) -/

/-- Go `encoding/hex`, the value of one hexadecimal digit given as ASCII code; `none`
for any other character. -/
def fromHexChar (ch : Nat) : Option Nat :=
  if 48 ≤ ch ∧ ch ≤ 57 then some (ch - 48)
  else if 97 ≤ ch ∧ ch ≤ 102 then some (ch - 97 + 10)
  else if 65 ≤ ch ∧ ch ≤ 70 then some (ch - 65 + 10)
  else none

/-- Go `hex.DecodeString`; `none` is its error, for an odd length or a character that
is no hexadecimal digit. -/
def hexDecode : Bytes → Option Bytes
  | [] => some []
  | _ :: [] => none
  | hi :: lo :: rest =>
    match fromHexChar hi with
    | none => none
    | some a =>
      match fromHexChar lo with
      | none => none
      | some b =>
        match hexDecode rest with
        | none => none
        | some decoded => some ((a * 16 + b) :: decoded)

/-- The loop of `extractScResultsFromVmOutput` decoding the fields after the first;
`none` is a failed `require.Nil(t, err)`. -/
def hexDecodeAll : List Bytes → Option (List Bytes)
  | [] => some []
  | splitArg :: rest =>
    match hexDecode splitArg with
    | none => none
    | some arg =>
      match hexDecodeAll rest with
      | none => none
      | some args => some (arg :: args)

/-- Go `extractScResultsFromVmOutput` (`mectNFTTransfer_test.go`): the function name and
the arguments read back from the data of the only output transfer; `none` is a
failed `require`. The separator `"@"` is the byte 64. -/
def extractScResultsFromVmOutput (vmOutput : VMOutput) : Option (Bytes × List Bytes) :=
  match vmOutput.OutputAccounts with
  | [(_, outputAccount)] =>
    match outputAccount.OutputTransfers with
    | [outputTransfer] =>
      let split := bytesSplit 64 outputTransfer.Data
      match hexDecodeAll split.tail with
      | none => none
      | some args => some (split.headD [], args)
    | _ => none
  | _ => none

/-! ## A reference marshaller

The marshaller is a collaborator of the engine; the properties below that need
one assume it is `Lawful`. The length-prefixed codec defined here is one lawful
marshaller, used to run the model on concrete inputs. -/

/-- What the engine relies on: marshalling a token record succeeds with a
non-empty byte string that unmarshals to the same record, and marshalling a role
list succeeds with a byte string that unmarshals to the same list. -/
structure Marshalizer.Lawful (m : Marshalizer) : Prop where
  token_roundtrip : ∀ t : MECToken,
    ∃ b, m.MarshalToken t = .ok b ∧ b ≠ [] ∧ m.UnmarshalToken b = .ok t
  roles_roundtrip : ∀ r : MECTRoles,
    ∃ b, m.MarshalRoles r = .ok b ∧ m.UnmarshalRoles b = .ok r

def encodeBytes (b : Bytes) : Bytes := b.length :: b

def decodeBytes : Bytes → Option (Bytes × Bytes)
  | [] => none
  | n :: rest => if n ≤ rest.length then some (rest.take n, rest.drop n) else none

def encodeBytesList : List Bytes → Bytes
  | [] => []
  | b :: rest => encodeBytes b ++ encodeBytesList rest

def decodeBytesList : Nat → Bytes → Option (List Bytes × Bytes)
  | 0, s => some ([], s)
  | n + 1, s =>
    match decodeBytes s with
    | none => none
    | some (b, s1) =>
      match decodeBytesList n s1 with
      | none => none
      | some (bs, s2) => some (b :: bs, s2)

def encodeInt (v : Int) : Bytes := [if v < 0 then 1 else 0, v.natAbs]

def decodeInt : Bytes → Option (Int × Bytes)
  | sign :: magnitude :: rest =>
    some (if sign = 1 then -(magnitude : Int) else (magnitude : Int), rest)
  | _ => none

def encodeMetaData (m : MetaData) : Bytes :=
  m.Nonce :: m.Royalties :: (encodeBytes m.Name ++ (encodeBytes m.Creator ++
    (encodeBytes m.Hash ++ (encodeBytes m.Attributes ++
      (m.URIs.length :: encodeBytesList m.URIs)))))

def decodeMetaData : Bytes → Option (MetaData × Bytes)
  | nonce :: royalties :: s0 =>
    match decodeBytes s0 with
    | none => none
    | some (name, s1) =>
      match decodeBytes s1 with
      | none => none
      | some (creator, s2) =>
        match decodeBytes s2 with
        | none => none
        | some (hash, s3) =>
          match decodeBytes s3 with
          | none => none
          | some (attributes, s4) =>
            match s4 with
            | [] => none
            | n :: s5 =>
              match decodeBytesList n s5 with
              | none => none
              | some (uris, s6) =>
                some ({ Nonce := nonce, Name := name, Creator := creator, Royalties := royalties
                        Hash := hash, URIs := uris, Attributes := attributes }, s6)
  | _ => none

def encodeToken (t : MECToken) : Bytes :=
  t.TokenType :: (encodeInt t.Value ++ (encodeBytes t.Properties ++ (encodeBytes t.Reserved ++
    (match t.TokenMetaData with
      | none => [0]
      | some m => 1 :: encodeMetaData m))))

def decodeToken : Bytes → Option MECToken
  | [] => none
  | type :: s0 =>
    match decodeInt s0 with
    | none => none
    | some (value, s1) =>
      match decodeBytes s1 with
      | none => none
      | some (properties, s2) =>
        match decodeBytes s2 with
        | none => none
        | some (reserved, s3) =>
          match s3 with
          | [] => none
          | tag :: s4 =>
            if tag = 0 then
              some { TokenType := type, Value := value, Properties := properties
                     TokenMetaData := none, Reserved := reserved }
            else
              match decodeMetaData s4 with
              | none => none
              | some (m, _) =>
                some { TokenType := type, Value := value, Properties := properties
                       TokenMetaData := some m, Reserved := reserved }

/-- A length-prefixed codec for token records and role lists. -/
def referenceMarshalizer : Marshalizer :=
  { MarshalToken := fun t => .ok (encodeToken t)
    UnmarshalToken := fun b =>
      match decodeToken b with
      | none => .error (.external 0)
      | some t => .ok t
    MarshalRoles := fun r => .ok (r.Roles.length :: encodeBytesList r.Roles)
    UnmarshalRoles := fun b =>
      match b with
      | [] => .error (.external 0)
      | n :: s =>
        match decodeBytesList n s with
        | none => .error (.external 0)
        | some (roles, _) => .ok { Roles := roles } }

/-! ## Specification vocabulary and sample data -/

deriving instance DecidableEq for Except

/-- The balance an account stores under a token key: the value of the stored
record, zero when nothing is stored or the stored bytes do not decode. -/
def storedBalance (m : Marshalizer) (w : World) (acnt key : Bytes) : Int :=
  match getMECTDataFromKey m w acnt key with
  | .ok t => t.Value
  | .error _ => 0

/-- Sample values for the external constants and for `computeGasRemaining`. -/
def sampleConfig : CoreConfig :=
  { baseMECTKeyPrefix := [77, 69, 109]
    roleKeyPrefix := [77, 69, 114]
    noncePrefix := [77, 69, 110]
    transferAddressesKeyPrefix := [77, 69, 116]
    MECTSCAddress := [0, 0, 255]
    SystemAccountAddress := [255, 255, 255]
    MECTRoleTransfer := [1]
    MECTRoleLocalMint := [2]
    MECTRoleLocalBurn := [3]
    MECTRoleNFTCreate := [4]
    MECTRoleNFTAddQuantity := [5]
    MECTRoleNFTCreateMultiShard := [6]
    MECTRoleNFTBurn := [7]
    MECTRoleNFTAddURI := [8]
    MECTRoleNFTUpdateAttributes := [9]
    BuiltInFunctionMECTTransfer := [84]
    BuiltInFunctionMECTLocalMint := [77]
    BuiltInFunctionMECTLocalBurn := [66]
    BuiltInFunctionMECTNFTCreate := [67]
    BuiltInFunctionMECTPause := [80]
    BuiltInFunctionMECTUnPause := [85]
    BuiltInFunctionMECTSetLimitedTransfer := [76]
    BuiltInFunctionMECTUnSetLimitedTransfer := [108]
    BuiltInFunctionMECTNFTTransfer := [78]
    BuiltInFunctionMultiMECTNFTTransfer := [88]
    BuiltInFunctionMECTNFTBurn := [98]
    BuiltInFunctionMECTNFTAddQuantity := [81]
    BuiltInFunctionMECTNFTAddURI := [73]
    BuiltInFunctionMECTNFTUpdateAttributes := [97]
    MaxLengthForValueToOptTransfer := 32
    MaxLenForMECTIssueMint := 100
    MetachainShardId := 4294967295
    IsSmartContractAddress := fun _ => false
    IsSystemAccountAddress := fun address => decide (address = [255, 255, 255])
    computeGasRemaining := fun snd gasProvided gasToUse =>
      if gasProvided < gasToUse then 0 else if snd.isNone then gasProvided
      else gasProvided - gasToUse }

/-- A global settings instance over the reference marshaller. -/
def sampleSettings : mectGlobalSettings :=
  { keyPrefix := sampleConfig.baseMECTKeyPrefix, set := true, function := [80]
    marshaller := referenceMarshalizer, flagActivated := true }

/-- A roles instance over the reference marshaller. -/
def sampleRoles : mectRoles := { set := true, marshaller := referenceMarshalizer }

/-- The payable checker that accepts every destination and chains no call. -/
def samplePayable : PayableChecker :=
  { CheckPayable := fun _ _ _ => none, DetermineIsSCCallAfter := fun _ _ _ => false }

/-- A three-shard coordinator placing every address in shard 0. -/
def sampleCoordinator : Coordinator :=
  { ComputeId := fun _ => 0, SelfId := 0, NumberOfShards := 3, SameShard := fun _ _ => true }

/-- A transfer instance wired to the global settings and roles of this repository. -/
def sampleTransfer : mectTransfer :=
  { funcGasCost := 10, marshaller := referenceMarshalizer
    keyPrefix := sampleConfig.baseMECTKeyPrefix
    globalSettingsHandler := mectGlobalSettings.toHandler sampleConfig sampleSettings
    payableHandler := samplePayable, shardCoordinator := sampleCoordinator
    rolesHandler := mectRoles.toHandler sampleConfig sampleRoles
    flagTransferToMeta := false, flagCheckCorrectTokenID := true }

/-- A direct call with zero call value and 50 units of gas. -/
def sampleInput (args : List Bytes) (caller rcv : Bytes) (flag : Bool) : ContractCallInput :=
  { CallerAddr := caller, Arguments := args, CallValue := some 0, CallType := .DirectCall
    GasProvided := 50, GasLocked := 0, ReturnCallAfterError := flag, RecipientAddr := rcv
    Function := [] }

/-- Account `[1]` holds 100 units of token `[7]`, not frozen; account `[2]` holds
100 units with the frozen flag set. -/
def frozenWorld : World :=
  SaveKeyValue
    (SaveKeyValue emptyWorld [1] (sampleConfig.baseMECTKeyPrefix ++ [7])
      (encodeToken { MECToken.mk0 Fungible 100 with Properties := [0, 0] }))
    [2] (sampleConfig.baseMECTKeyPrefix ++ [7])
      (encodeToken { MECToken.mk0 Fungible 100 with Properties := [1, 0] })

/-- The storage key of the sample token `[7]`. -/
def sampleKey : Bytes := sampleConfig.baseMECTKeyPrefix ++ [7]

/-- The global settings handler of this repository over the sample configuration. -/
def sampleHandler : MECTGlobalSettingsHandler :=
  mectGlobalSettings.toHandler sampleConfig sampleSettings

/-- The record account `[1]` holds in `frozenWorld`. -/
def sampleRecord : MECToken := { MECToken.mk0 Fungible 100 with Properties := [0, 0] }

/-- The record account `[2]` holds in `frozenWorld`. -/
def sampleFrozenRecord : MECToken := { MECToken.mk0 Fungible 100 with Properties := [1, 0] }

/-- One call of the fungible-token engine on present account handles. -/
inductive TokenCall where
  | localMint (acnt : Bytes) (vmInput : ContractCallInput)
  | localBurn (acnt : Bytes) (vmInput : ContractCallInput)
  | transfer (snd dst : Bytes) (vmInput : ContractCallInput)

/-- The three function instances a sequence of calls runs on. -/
structure TokenEngine where
  transfer : mectTransfer
  localMint : mectLocalMint
  localBurn : mectLocalBurn

/-- The three instances share the marshaller and the key prefix, as when they
are built by the same factory. -/
def TokenEngine.Coherent (eng : TokenEngine) (m : Marshalizer) (keyPrefix : Bytes) : Prop :=
  (eng.transfer.marshaller = m ∧ eng.transfer.keyPrefix = keyPrefix) ∧
  (eng.localMint.marshaller = m ∧ eng.localMint.keyPrefix = keyPrefix) ∧
  (eng.localBurn.marshaller = m ∧ eng.localBurn.keyPrefix = keyPrefix)

/-- Running one call: a local mint or burn by `acnt`, or a same-shard transfer
with both the sender and the destination handle present. -/
def TokenCall.run (c : CoreConfig) (eng : TokenEngine) (w : World) :
    TokenCall → World × Except BuiltinError VMOutput
  | .localMint acnt vmInput =>
    mectLocalMint.ProcessBuiltinFunction c eng.localMint w (some acnt) (some vmInput)
  | .localBurn acnt vmInput =>
    mectLocalBurn.ProcessBuiltinFunction c eng.localBurn w (some acnt) (some vmInput)
  | .transfer snd dst vmInput =>
    mectTransfer.ProcessBuiltinFunction c eng.transfer w (some snd) (some dst) (some vmInput)

/-- The call input. -/
def TokenCall.vmInput : TokenCall → ContractCallInput
  | .localMint _ vmInput => vmInput
  | .localBurn _ vmInput => vmInput
  | .transfer _ _ vmInput => vmInput

/-- The accounts whose handles the call receives. -/
def TokenCall.accounts : TokenCall → List Bytes
  | .localMint acnt _ => [acnt]
  | .localBurn acnt _ => [acnt]
  | .transfer snd dst _ => [snd, dst]

/-- The amount a call mints: its amount argument for a local mint, zero otherwise. -/
def TokenCall.minted : TokenCall → Int
  | .localMint _ vmInput => (bytesToNat (vmInput.Arguments.getD 1 []) : Nat)
  | _ => 0

/-- The amount a call burns: its amount argument for a local burn, zero otherwise. -/
def TokenCall.burned : TokenCall → Int
  | .localBurn _ vmInput => (bytesToNat (vmInput.Arguments.getD 1 []) : Nat)
  | _ => 0

/-- Running a sequence of calls, each on the storage the previous one left;
`none` as soon as a call returns an error. -/
def runCalls (c : CoreConfig) (eng : TokenEngine) : World → List TokenCall → Option World
  | w, [] => some w
  | w, call :: rest =>
    match call.run c eng w with
    | (w1, .ok _) => runCalls c eng w1 rest
    | (_, .error _) => none

/-- The sum of the balances the listed accounts store under a token key. -/
def totalBalance (m : Marshalizer) (w : World) (accounts : List Bytes) (key : Bytes) : Int :=
  (accounts.map (fun acnt => storedBalance m w acnt key)).sum

/-- A local-mint instance over the sample configuration. -/
def sampleMint : mectLocalMint :=
  { keyPrefix := sampleConfig.baseMECTKeyPrefix, marshaller := referenceMarshalizer
    globalSettingsHandler := sampleHandler
    rolesHandler := mectRoles.toHandler sampleConfig sampleRoles, funcGasCost := 10 }

/-- A local-burn instance over the sample configuration. -/
def sampleBurn : mectLocalBurn :=
  { keyPrefix := sampleConfig.baseMECTKeyPrefix, marshaller := referenceMarshalizer
    globalSettingsHandler := sampleHandler
    rolesHandler := mectRoles.toHandler sampleConfig sampleRoles, funcGasCost := 10 }

/-- The three sample instances. -/
def sampleEngine : TokenEngine :=
  { transfer := sampleTransfer, localMint := sampleMint, localBurn := sampleBurn }

/-- Account `[1]` holds the local-mint and local-burn roles for token `[7]`;
nobody holds a balance. -/
def rolesWorld : World :=
  SaveKeyValue emptyWorld [1] (sampleConfig.roleKeyPrefix ++ [7]) [2, 1, 2, 1, 3]

/-- Mint 100 to `[1]`, burn 40 from `[1]`, transfer 10 from `[1]` to `[2]`. -/
def sampleCalls : List TokenCall :=
  [ .localMint [1] (sampleInput [[7], [100]] [1] [1] false),
    .localBurn [1] (sampleInput [[7], [40]] [1] [1] false),
    .transfer [1] [2] (sampleInput [[7], [10]] [1] [2] false) ]

/-- The storage the sample calls leave. -/
def sampleFinalWorld : World :=
  (runCalls sampleConfig sampleEngine rolesWorld sampleCalls).getD emptyWorld

/-- An NFT storage instance with mirroring, send-always and fix-old-liquidity active. -/
def sampleStorage : mectDataStorage :=
  { globalSettingsHandler := sampleHandler, marshaller := referenceMarshalizer
    keyPrefix := sampleConfig.baseMECTKeyPrefix, shardCoordinator := sampleCoordinator
    flagSaveToSystemAccount := true, flagCheckFrozenCollection := true
    flagSendAlwaysEnableEpoch := true, flagFixOldTokenLiquidity := true }

/-- A mirror record with the reserved marker and a liquidity counter of 10. -/
def sampleMirror : MECToken := { MECToken.mk0 NonFungible 10 with Reserved := [1] }

/-- The system account stores `sampleMirror` for nonce 10 of token `[7]`. -/
def mirrorWorld : World :=
  SaveKeyValue emptyWorld sampleConfig.SystemAccountAddress (computeMECTNFTTokenKey sampleKey 10)
    (encodeToken sampleMirror)

/-- The account at the MECT system smart-contract address holds 100 units of token
`[7]` with the frozen flag set. -/
def scFrozenWorld : World :=
  SaveKeyValue emptyWorld sampleConfig.MECTSCAddress sampleKey (encodeToken sampleFrozenRecord)

/-- A transfer of 10 units of token `[7]` from the system smart-contract address to `[2]`. -/
def scTransferInput : ContractCallInput :=
  sampleInput [[7], [10]] sampleConfig.MECTSCAddress [2] false

/-- A transfer of 10 units of token `[7]` from `[2]` to `[1]`. -/
def sampleReverseInput (flag : Bool) : ContractCallInput :=
  sampleInput [[7], [10]] [2] [1] flag

/-- The role handler that grants every role, as `mock.MECTRoleHandlerStub` does by default. -/
def allowAllRoles : MECTRoleHandler :=
  { CheckAllowedToExecute := fun _ _ _ _ => none }

/-- An NFT create instance over the sample storage handler, with no gas cost per byte. -/
def sampleCreate : mectNFTCreate :=
  { keyPrefix := sampleConfig.baseMECTKeyPrefix, marshaller := referenceMarshalizer
    globalSettingsHandler := sampleHandler, rolesHandler := allowAllRoles, funcGasCost := 10
    gasConfig := { StorePerByte := 0, DataCopyPerByte := 0 }
    mectStorageHandler := mectDataStorage.toHandler sampleConfig sampleStorage
    flagValueLengthCheck := true }

/-- Account `[1]` holds the NFT-create role for token `[7]` and no other role. -/
def createRoleWorld : World :=
  SaveKeyValue emptyWorld [1] (sampleConfig.roleKeyPrefix ++ [7]) [1, 1, 4]

/-- An NFT create call by `[1]` for token `[7]` with the given quantity, royalties 5
and one URI. -/
def sampleCreateInput (quantity : Bytes) : ContractCallInput :=
  sampleInput [[7], quantity, [110], [5], [104], [97], [117]] [1] [1] false

/-- The input of a set-role call granting the multi-shard create role for token `[7]`
to the account at `[9, 1]`. -/
def multiShardInput : ContractCallInput :=
  { sampleInput [[7], sampleConfig.MECTRoleNFTCreateMultiShard] sampleConfig.MECTSCAddress [9, 1]
      false with Function := [83] }

/-- An NFT create call by `[1]` for token `[7]` with quantity 1, the given royalties
argument and one URI. -/
def royaltiesInput (royalties : Bytes) : ContractCallInput :=
  sampleInput [[7], [1], [110], royalties, [104], [97], [117]] [1] [1] false

/-- Account `[9, 1]` holds the local-mint role for token `[7]` and nothing else. -/
def mintRoleWorld : World :=
  SaveKeyValue emptyWorld [9, 1] (sampleConfig.roleKeyPrefix ++ [7]) [1, 1, 2]

/-- Account `[9, 1]` holds the local-mint role twice for token `[7]`. -/
def doubleRoleWorld : World :=
  SaveKeyValue emptyWorld [9, 1] (sampleConfig.roleKeyPrefix ++ [7]) [2, 1, 2, 1, 2]

/-- A role call of the system smart contract for token `[7]` and the account at
`[9, 1]`, naming the given roles. -/
def roleInput (roles : List Bytes) : ContractCallInput :=
  { sampleInput ([7] :: roles) sampleConfig.MECTSCAddress [9, 1] false with Function := [83] }

/-- The unset-role instance over the reference marshaller. -/
def sampleUnsetRoles : mectRoles := { set := false, marshaller := referenceMarshalizer }

/-- Account `[9, 1]` holds the local-mint and local-burn roles for token `[7]`. -/
def twoRolesWorld : World :=
  SaveKeyValue emptyWorld [9, 1] (sampleConfig.roleKeyPrefix ++ [7]) [2, 1, 2, 1, 3]

/-- The add-address instance over the reference marshaller, with a cap of two addresses. -/
def sampleAddAddress : mectTransferAddress :=
  { set := true, marshaller := referenceMarshalizer, maxNumAddresses := 2 }

/-- The system account stores the transfer-role addresses `[[1], [2]]` for token `[7]`. -/
def addressesWorld : World :=
  SaveKeyValue emptyWorld sampleConfig.SystemAccountAddress
    (sampleConfig.transferAddressesKeyPrefix ++ [7]) [2, 1, 1, 1, 2]

/-- A transfer-role call of the system smart contract for token `[7]`, sent to the
system account and naming the given addresses. -/
def addressInput (addresses : List Bytes) : ContractCallInput :=
  { sampleInput ([7] :: addresses) sampleConfig.MECTSCAddress sampleConfig.SystemAccountAddress
      false with Function := [65] }

/-- The wipe instance over the reference marshaller. -/
def sampleWipe : mectFreezeWipe :=
  { marshaller := referenceMarshalizer, keyPrefix := sampleConfig.baseMECTKeyPrefix
    wipe := true, freeze := false }

/-- The freeze instance over the reference marshaller. -/
def sampleFreeze : mectFreezeWipe :=
  { marshaller := referenceMarshalizer, keyPrefix := sampleConfig.baseMECTKeyPrefix
    wipe := false, freeze := true }

/-- The unfreeze instance over the reference marshaller. -/
def sampleUnfreeze : mectFreezeWipe :=
  { marshaller := referenceMarshalizer, keyPrefix := sampleConfig.baseMECTKeyPrefix
    wipe := false, freeze := false }

/-- A freeze, unfreeze or wipe call of the system smart contract for token `[7]`
and the account at `[9, 1]`. -/
def freezeInput : ContractCallInput :=
  { sampleInput [[7]] sampleConfig.MECTSCAddress [9, 1] false with Function := [70] }

/-- Account `[9, 1]` holds 100 units of token `[7]` with the frozen flag set. -/
def frozenAccountWorld : World :=
  SaveKeyValue emptyWorld [9, 1] sampleKey (encodeToken sampleFrozenRecord)

/-- Account `[9, 1]` holds 100 units of token `[7]`, not frozen. -/
def plainAccountWorld : World :=
  SaveKeyValue emptyWorld [9, 1] sampleKey (encodeToken sampleRecord)

/-- A global settings call of the system smart contract for token `[7]`, sent to the
system account. -/
def settingsInput : ContractCallInput :=
  { sampleInput [[7]] sampleConfig.MECTSCAddress sampleConfig.SystemAccountAddress false with
      Function := [80] }

/-- The system account stores the global metadata of token `[7]` with limited
transfer and burn-for-all set. -/
def settingsWorld : World :=
  SaveKeyValue emptyWorld sampleConfig.SystemAccountAddress sampleKey [6, 0]

/-- A three-shard coordinator that places an address in the shard named by its last
byte; the local shard is 0. -/
def lastByteCoordinator : Coordinator :=
  { ComputeId := fun address => address.getLastD 0, SelfId := 0, NumberOfShards := 3
    SameShard := fun a b => decide (a.getLastD 0 = b.getLastD 0) }

/-- An NFT storage instance with mirroring active, send-always and fix-old-liquidity
inactive, over the coordinator by last byte. -/
def bitmapStorage : mectDataStorage :=
  { sampleStorage with
    shardCoordinator := lastByteCoordinator, flagSendAlwaysEnableEpoch := false
    flagFixOldTokenLiquidity := false }

/-- A mirror record whose shard bitmap has the single entry of shard 0, set. -/
def bitmapMirror : MECToken := { MECToken.mk0 NonFungible 0 with Properties := [1] }

/-- The system account stores `bitmapMirror` for nonce 10 of token `[7]`. -/
def bitmapWorld : World :=
  SaveKeyValue emptyWorld sampleConfig.SystemAccountAddress (computeMECTNFTTokenKey sampleKey 10)
    (encodeToken bitmapMirror)

/-- A mirror record with the reserved marker and a liquidity counter of 0. -/
def oldMirror : MECToken := { MECToken.mk0 NonFungible 0 with Reserved := [1] }

/-- The system account stores `oldMirror` for nonce 10 of token `[7]`. -/
def oldMirrorWorld : World :=
  SaveKeyValue emptyWorld sampleConfig.SystemAccountAddress (computeMECTNFTTokenKey sampleKey 10)
    (encodeToken oldMirror)

/-- Sample metadata of an NFT created by account `[1]`. -/
def sampleMetaData : MetaData :=
  { Nonce := 1, Name := [110], Creator := [1], Royalties := 5, Hash := [104], URIs := [[117]]
    Attributes := [97] }

/-- Account `[1]` holds 5 units of nonce 1 of token `[7]`; the system account stores the
mirror of that nonce, with the metadata, the reserved marker and a liquidity of 5. -/
def nftWorld : World :=
  SaveKeyValue
    (SaveKeyValue emptyWorld [1] (computeMECTNFTTokenKey sampleKey 1)
      (encodeToken (MECToken.mk0 NonFungible 5)))
    sampleConfig.SystemAccountAddress (computeMECTNFTTokenKey sampleKey 1)
    (encodeToken { MECToken.mk0 NonFungible 5 with
      TokenMetaData := some sampleMetaData, Reserved := [1] })

/-- Account `[1]` holds 5 units of nonce 1 of token `[7]` in a record without metadata,
and the system account stores no mirror of that nonce. -/
def bareNFTWorld : World :=
  SaveKeyValue emptyWorld [1] (computeMECTNFTTokenKey sampleKey 1)
    (encodeToken (MECToken.mk0 NonFungible 5))

/-- A single-NFT transfer instance over the sample storage handler, every address
being in the local shard, with the zero-transfer check active. -/
def sampleNFTTransfer : mectNFTTransfer :=
  { keyPrefix := sampleConfig.baseMECTKeyPrefix, marshaller := referenceMarshalizer
    globalSettingsHandler := sampleHandler, payableHandler := samplePayable, funcGasCost := 10
    shardCoordinator := sampleCoordinator
    gasConfig := { StorePerByte := 0, DataCopyPerByte := 0 }
    rolesHandler := allowAllRoles
    mectStorageHandler := mectDataStorage.toHandler sampleConfig sampleStorage
    flagTransferToMeta := false, flagCheck0Transfer := true, flagCheckCorrectTokenID := true }

/-- A single-NFT transfer call by `[1]` for nonce 1 of token `[7]`, with the given
quantity and destination. -/
def nftTransferInput (quantity destination : Bytes) : ContractCallInput :=
  sampleInput [[7], [1], quantity, destination] [1] [1] false

/-- A call by `[1]` on itself for token `[7]` with the given nonce and third argument. -/
def nftInput (nonce third : Bytes) : ContractCallInput :=
  sampleInput [[7], nonce, third] [1] [1] false

/-- An NFT add-URI instance over the sample storage handler. -/
def sampleAddUri : mectNFTAddUri :=
  { keyPrefix := sampleConfig.baseMECTKeyPrefix
    mectStorageHandler := mectDataStorage.toHandler sampleConfig sampleStorage
    globalSettingsHandler := sampleHandler, rolesHandler := allowAllRoles
    gasConfig := { StorePerByte := 0, DataCopyPerByte := 0 }, funcGasCost := 10 }

/-- An NFT update-attributes instance over the sample storage handler. -/
def sampleUpdate : mectNFTupdate :=
  { keyPrefix := sampleConfig.baseMECTKeyPrefix
    mectStorageHandler := mectDataStorage.toHandler sampleConfig sampleStorage
    globalSettingsHandler := sampleHandler, rolesHandler := allowAllRoles
    gasConfig := { StorePerByte := 0, DataCopyPerByte := 0 }, funcGasCost := 10 }

/-- A multi-transfer instance over the sample storage handler, every address being in
the local shard. -/
def sampleMultiTransfer : mectNFTMultiTransfer :=
  { keyPrefix := sampleConfig.baseMECTKeyPrefix, marshaller := referenceMarshalizer
    globalSettingsHandler := sampleHandler, payableHandler := samplePayable, funcGasCost := 10
    shardCoordinator := sampleCoordinator
    gasConfig := { StorePerByte := 0, DataCopyPerByte := 0 }
    mectStorageHandler := mectDataStorage.toHandler sampleConfig sampleStorage
    rolesHandler := allowAllRoles
    flagTransferToMeta := false, flagCheckCorrectTokenID := true }

/-- The big-endian bytes of 6148914691236517206, the least `n` with `3 * n ≥ 2 ^ 64`. -/
def wrappingCount : Bytes := [85, 85, 85, 85, 85, 85, 85, 86]

/-- Account `[1, 0]`, of shard 0 by its last byte, holds 5 units of nonce 1 of token
`[7]`; the mirror of that nonce on the system account carries the metadata, a
liquidity of 5 and a shard bitmap in which shard 1 is already set. -/
def crossNFTWorld : World :=
  SaveKeyValue
    (SaveKeyValue emptyWorld [1, 0] (computeMECTNFTTokenKey sampleKey 1)
      (encodeToken (MECToken.mk0 NonFungible 5)))
    sampleConfig.SystemAccountAddress (computeMECTNFTTokenKey sampleKey 1)
    (encodeToken { MECToken.mk0 NonFungible 5 with
      TokenMetaData := some sampleMetaData, Reserved := [1], Properties := [0, 1, 0] })

/-- The single-NFT transfer instance over the coordinator by last byte and the storage
instance in which send-always is inactive. -/
def crossNFTTransfer : mectNFTTransfer :=
  { sampleNFTTransfer with
    shardCoordinator := lastByteCoordinator
    mectStorageHandler := mectDataStorage.toHandler sampleConfig bitmapStorage }

/-- The multi-transfer instance over the coordinator by last byte and the storage
instance in which send-always is inactive. -/
def crossMultiTransfer : mectNFTMultiTransfer :=
  { sampleMultiTransfer with
    shardCoordinator := lastByteCoordinator
    mectStorageHandler := mectDataStorage.toHandler sampleConfig bitmapStorage }

/-- A single-NFT transfer call by `[1, 0]` of 1 unit of nonce 1 of token `[7]` to
`[2, 1]`, an address of shard 1. -/
def crossTransferInput : ContractCallInput :=
  sampleInput [[7], [1], [1], [2, 1]] [1, 0] [1, 0] false

/-- A multi-transfer call by `[1, 0]` to `[2, 1]` with the single entry of 1 unit of
nonce 1 of token `[7]`. -/
def crossMultiInput : ContractCallInput :=
  sampleInput [[2, 1], [1], [7], [1], [1]] [1, 0] [1, 0] false

/-- An uppercase letter or a digit, as ASCII code. -/
def isUpperAlphanumeric (ch : Nat) : Prop := (65 ≤ ch ∧ ch ≤ 90) ∨ (48 ≤ ch ∧ ch ≤ 57)

/-- A lowercase letter or a digit, as ASCII code. -/
def isLowerAlphanumeric (ch : Nat) : Prop := (97 ≤ ch ∧ ch ≤ 122) ∨ (48 ≤ ch ∧ ch ≤ 57)

/-- One of the lowercase letters `a` to `f` or a digit, as ASCII code. -/
def isLowerHexadecimal (ch : Nat) : Prop := (97 ≤ ch ∧ ch ≤ 102) ∨ (48 ≤ ch ∧ ch ≤ 57)

/-- A byte string made of a ticker of 3 to 10 uppercase-alphanumeric characters, a dash
and 6 random characters, each of which satisfies `randomChar`. -/
def isIdentifierWith (randomChar : Nat → Prop) (tokenID : Bytes) : Prop :=
  ∃ ticker random : Bytes, tokenID = ticker ++ [45] ++ random ∧
    3 ≤ ticker.length ∧ ticker.length ≤ 10 ∧ (∀ ch ∈ ticker, isUpperAlphanumeric ch) ∧
    random.length = 6 ∧ ∀ ch ∈ random, randomChar ch

/-- The identifier `TOKEN-ghijkl`, as ASCII codes. -/
def tokenGhijkl : Bytes := [84, 79, 75, 69, 78, 45, 103, 104, 105, 106, 107, 108]

/-- The identifier `SKE7Y-73bbcd`, as ASCII codes. -/
def tokenSke7y : Bytes := [83, 75, 69, 55, 89, 45, 55, 51, 98, 98, 99, 100]

/-- A delete-metadata instance for the caller `[1]`. -/
def sampleDelete : mectDeleteMetaData :=
  { allowedAddress := [1], delete := true, keyPrefix := sampleConfig.baseMECTKeyPrefix
    marshaller := referenceMarshalizer, funcGasCost := 0 }

/-- The sample single-NFT transfer instance with a cost of 10 gas units per byte of
marshalled record. -/
def payloadCostTransfer : mectNFTTransfer :=
  { sampleNFTTransfer with gasConfig := { StorePerByte := 0, DataCopyPerByte := 10 } }

/-- The record account `[1]` hands over when it transfers 1 unit of nonce 1 of token
`[7]` on the sample world: its record with the metadata of the mirror and value 1. -/
def sampleTransferRecord : MECToken :=
  { MECToken.mk0 NonFungible 1 with TokenMetaData := some sampleMetaData }

/-- A record of 100 units with the type of an NFT, metadata and the reserved marker,
not frozen. -/
def richRecord : MECToken :=
  { TokenType := NonFungible, Value := 100, Properties := [0, 0]
    TokenMetaData := some sampleMetaData, Reserved := [1] }

/-- Account `[9, 1]` holds `richRecord` under the key of token `[7]`. -/
def richAccountWorld : World :=
  SaveKeyValue emptyWorld [9, 1] sampleKey (encodeToken richRecord)

/-- Account `[1, 1, 1]` holds 5 units of nonce 1 of token `[7]`; the system account
stores the mirror of that nonce, with the metadata, the reserved marker and a
liquidity of 5. -/
def senderOfThreeWorld : World :=
  SaveKeyValue
    (SaveKeyValue emptyWorld [1, 1, 1] (computeMECTNFTTokenKey sampleKey 1)
      (encodeToken (MECToken.mk0 NonFungible 5)))
    sampleConfig.SystemAccountAddress (computeMECTNFTTokenKey sampleKey 1)
    (encodeToken { MECToken.mk0 NonFungible 5 with
      TokenMetaData := some sampleMetaData, Reserved := [1] })

/-- A single-NFT transfer call by `[1, 1, 1]` of 2 units of nonce 1 of token `[7]` to
the address of the system account. -/
def toSystemAccountInput : ContractCallInput :=
  sampleInput [[7], [1], [2], sampleConfig.SystemAccountAddress] [1, 1, 1] [1, 1, 1] false

/-- The sample single-NFT transfer instance with 9708812670373448219 gas units per
byte of marshalled record, 19 times which is `10 * 2^64 + 1`. -/
def wrappingCostTransfer : mectNFTTransfer :=
  { sampleNFTTransfer with
    gasConfig := { StorePerByte := 0, DataCopyPerByte := 9708812670373448219 } }

/-! ## Properties -/

theorem decodeBytes_encodeBytes (b rest : Bytes) :
    decodeBytes (encodeBytes b ++ rest) = some (b, rest) := by
  simp [decodeBytes, encodeBytes]

theorem decodeBytesList_encodeBytesList (l : List Bytes) (rest : Bytes) :
    decodeBytesList l.length (encodeBytesList l ++ rest) = some (l, rest) := by
  induction l with
  | nil => simp [decodeBytesList, encodeBytesList]
  | cons b l ih =>
    simp [decodeBytesList, encodeBytesList, List.append_assoc, decodeBytes_encodeBytes, ih]

theorem decodeInt_encodeInt (v : Int) (rest : Bytes) :
    decodeInt (encodeInt v ++ rest) = some (v, rest) := by
  by_cases h : v < 0
  · have h1 : -(v.natAbs : Int) = v := by omega
    simp only [decodeInt, encodeInt, h, if_true, List.cons_append, List.nil_append, h1]
  · have h1 : (v.natAbs : Int) = v := by omega
    simp only [decodeInt, encodeInt, h, if_false, List.cons_append, List.nil_append, h1]
    simp

theorem decodeMetaData_encodeMetaData (m : MetaData) (rest : Bytes) :
    decodeMetaData (encodeMetaData m ++ rest) = some (m, rest) := by
  simp [decodeMetaData, encodeMetaData, List.append_assoc, decodeBytes_encodeBytes,
    decodeBytesList_encodeBytesList]

theorem decodeToken_encodeToken (t : MECToken) : decodeToken (encodeToken t) = some t := by
  obtain ⟨ty, v, p, md, r⟩ := t
  cases md with
  | none =>
    simp [decodeToken, encodeToken, List.append_assoc, decodeInt_encodeInt,
      decodeBytes_encodeBytes]
  | some m =>
    have h := decodeMetaData_encodeMetaData m []
    simp only [List.append_nil] at h
    simp [decodeToken, encodeToken, List.append_assoc, decodeInt_encodeInt,
      decodeBytes_encodeBytes, h]

theorem referenceMarshalizer_lawful : referenceMarshalizer.Lawful := by
  constructor
  · intro t
    refine ⟨encodeToken t, rfl, ?_, ?_⟩
    · simp [encodeToken]
    · simp [referenceMarshalizer, decodeToken_encodeToken]
  · intro r
    refine ⟨r.Roles.length :: encodeBytesList r.Roles, rfl, ?_⟩
    have h := decodeBytesList_encodeBytesList r.Roles []
    simp only [List.append_nil] at h
    simp [referenceMarshalizer, h]

theorem arePropertiesEmpty_iff (p : Bytes) : arePropertiesEmpty p = true ↔ ∀ x ∈ p, x = 0 := by
  induction p with
  | nil => simp [arePropertiesEmpty]
  | cons a l ih =>
    by_cases h : a = 0
    · simp [arePropertiesEmpty, h, ih]
    · simp [arePropertiesEmpty, h]

theorem RetrieveValue_SaveKeyValue_same (w : World) (a k v : Bytes) :
    RetrieveValue (SaveKeyValue w a k v) a k = v := by
  simp [RetrieveValue, SaveKeyValue]

theorem RetrieveValue_SaveKeyValue_of_ne (w : World) (a k v a1 k1 : Bytes)
    (h : a1 ≠ a ∨ k1 ≠ k) : RetrieveValue (SaveKeyValue w a k v) a1 k1 = RetrieveValue w a1 k1 := by
  unfold RetrieveValue SaveKeyValue
  by_cases ha : a1 = a
  · have hk : k1 ≠ k := by
      rcases h with h | h
      · exact absurd ha h
      · exact h
    simp [ha, hk]
  · simp [ha]

theorem doesRoleExistFrom_snd (role : Bytes) (l : List Bytes) (i : Nat) :
    (doesRoleExistFrom role l i).2 = true ↔ role ∈ l := by
  induction l generalizing i with
  | nil => simp [doesRoleExistFrom]
  | cons a l ih =>
    by_cases h : a = role
    · simp [doesRoleExistFrom, h]
    · have h2 : ¬ role = a := fun e => h e.symm
      simp [doesRoleExistFrom, h, h2, ih]

theorem CheckAllowedToExecute_eval (c : CoreConfig) (e : mectRoles) (w : World)
    (acnt tokenID action : Bytes) :
    mectRoles.CheckAllowedToExecute c e w (some acnt) tokenID action =
      if RetrieveValue w acnt (c.roleKeyPrefix ++ tokenID) = [] then some .ErrActionNotAllowed
      else
        match e.marshaller.UnmarshalRoles (RetrieveValue w acnt (c.roleKeyPrefix ++ tokenID)) with
        | .error err => some err
        | .ok roles => if action ∈ roles.Roles then none else some .ErrActionNotAllowed := by
  simp only [mectRoles.CheckAllowedToExecute, getMECTRolesForAcnt, doesRoleExist,
    List.length_eq_zero]
  by_cases hempty : RetrieveValue w acnt (c.roleKeyPrefix ++ tokenID) = []
  · simp [hempty]
  · cases hu : e.marshaller.UnmarshalRoles (RetrieveValue w acnt (c.roleKeyPrefix ++ tokenID)) with
    | error err => simp [hempty]
    | ok roles =>
      by_cases hmem : action ∈ roles.Roles
      · have := (doesRoleExistFrom_snd action roles.Roles 0).2 hmem
        simp [hempty, hmem, this]
      · have : (doesRoleExistFrom action roles.Roles 0).2 = false := by
          cases h : (doesRoleExistFrom action roles.Roles 0).2
          · rfl
          · exact absurd ((doesRoleExistFrom_snd action roles.Roles 0).1 h) hmem
        simp [hempty, hmem, this]

theorem addToMECTBalance_eval (c : CoreConfig) (m : Marshalizer) (g : MECTGlobalSettingsHandler)
    (w : World) (a k : Bytes) (v : Int) (flag : Bool) (t : MECToken)
    (hget : getMECTDataFromKey m w a k = .ok t) (hfun : t.TokenType = Fungible) :
    addToMECTBalance c m g w a k v flag =
      match checkFrozeAndPause c g w a k t flag with
      | some err => (w, some err)
      | none =>
        if t.Value + v < 0 then (w, some .ErrInsufficientFunds)
        else saveMECTData m w a { t with Value := t.Value + v } k := by
  unfold addToMECTBalance
  simp only [hget, hfun, ne_eq, not_true_eq_false, if_false]

theorem checkFrozeAndPause_flag (c : CoreConfig) (g : MECTGlobalSettingsHandler) (w : World)
    (a k : Bytes) (t : MECToken) : checkFrozeAndPause c g w a k t true = none := by
  simp [checkFrozeAndPause]

theorem transfer_eval (c : CoreConfig) (e : mectTransfer) (w : World)
    (acntSnd acntDst : Option Bytes) (input : ContractCallInput)
    (hbasic : checkBasicMECTArguments (some input) = none)
    (hmeta : (decide (e.shardCoordinator.ComputeId input.RecipientAddr = c.MetachainShardId)
      && !e.flagTransferToMeta) = false)
    (hvalue : 0 < bytesToNat (input.Arguments.getD 1 []))
    (hlimited : checkIfTransferCanHappenWithLimitedTransfer c w
      (if e.flagCheckCorrectTokenID then input.Arguments.getD 0 []
        else e.keyPrefix ++ input.Arguments.getD 0 [])
      (e.keyPrefix ++ input.Arguments.getD 0 []) input.CallerAddr input.RecipientAddr
      e.globalSettingsHandler e.rolesHandler acntSnd acntDst input.ReturnCallAfterError = none) :
    mectTransfer.ProcessBuiltinFunction c e w acntSnd acntDst (some input) =
      (fun (r : World × Option BuiltinError) =>
        match r.2 with
        | some err => (r.1, Except.error err)
        | none =>
          (fun (d : Option Bytes) =>
            match d with
            | some dst =>
              mectTransfer.creditDestination c e r.1 acntSnd dst input
                (e.keyPrefix ++ input.Arguments.getD 0 []) (input.Arguments.getD 0 [])
                ((bytesToNat (input.Arguments.getD 1 []) : Nat) : Int)
                (e.payableHandler.DetermineIsSCCallAfter input input.RecipientAddr
                  MinLenArgumentsMECTTransfer)
                { ReturnData := [], ReturnCode := .Ok
                  GasRemaining := c.computeGasRemaining acntSnd input.GasProvided e.funcGasCost
                  OutputAccounts := [], Logs := [] }
            | none =>
              (r.1, Except.ok (mectTransfer.crossShardOutput c input (input.Arguments.getD 0 [])
                ((bytesToNat (input.Arguments.getD 1 []) : Nat) : Int)
                { ReturnData := [], ReturnCode := .Ok
                  GasRemaining := c.computeGasRemaining acntSnd input.GasProvided e.funcGasCost
                  OutputAccounts := [], Logs := [] }))) acntDst)
        (mectTransfer.debitSender c e w acntSnd input (e.keyPrefix ++ input.Arguments.getD 0 [])
          ((bytesToNat (input.Arguments.getD 1 []) : Nat) : Int)) := by
  have hv : ¬ ((bytesToNat (input.Arguments.getD 1 []) : Nat) : Int) ≤ 0 := by omega
  unfold mectTransfer.ProcessBuiltinFunction
  simp only [hbasic, hmeta, hv, hlimited, if_false, Bool.false_eq_true]
  rcases mectTransfer.debitSender c e w acntSnd input (e.keyPrefix ++ input.Arguments.getD 0 [])
    ((bytesToNat (input.Arguments.getD 1 []) : Nat) : Int) with ⟨w1, _ | err⟩
  · cases acntDst <;> rfl
  · rfl

theorem transfer_checks_of_ok (c : CoreConfig) (e : mectTransfer) (w w2 : World)
    (acntSnd acntDst : Option Bytes) (vmInput : Option ContractCallInput) (out : VMOutput)
    (h : mectTransfer.ProcessBuiltinFunction c e w acntSnd acntDst vmInput = (w2, .ok out)) :
    ∃ input, vmInput = some input ∧
      checkBasicMECTArguments (some input) = none ∧
      (decide (e.shardCoordinator.ComputeId input.RecipientAddr = c.MetachainShardId)
        && !e.flagTransferToMeta) = false ∧
      0 < bytesToNat (input.Arguments.getD 1 []) ∧
      checkIfTransferCanHappenWithLimitedTransfer c w
        (if e.flagCheckCorrectTokenID then input.Arguments.getD 0 []
          else e.keyPrefix ++ input.Arguments.getD 0 [])
        (e.keyPrefix ++ input.Arguments.getD 0 []) input.CallerAddr input.RecipientAddr
        e.globalSettingsHandler e.rolesHandler acntSnd acntDst input.ReturnCallAfterError
        = none := by
  unfold mectTransfer.ProcessBuiltinFunction at h
  cases vmInput with
  | none =>
    simp only [checkBasicMECTArguments, Prod.mk.injEq, reduceCtorEq, and_false] at h
  | some input =>
    refine ⟨input, rfl, ?_⟩
    cases hbasic : checkBasicMECTArguments (some input) with
    | some err => simp only [hbasic, Prod.mk.injEq, reduceCtorEq, and_false] at h
    | none =>
      cases hmeta : (decide (e.shardCoordinator.ComputeId input.RecipientAddr
          = c.MetachainShardId) && !e.flagTransferToMeta) with
      | true => simp only [hbasic, hmeta, if_true, Prod.mk.injEq, reduceCtorEq, and_false] at h
      | false =>
        by_cases hvalue : 0 < bytesToNat (input.Arguments.getD 1 [])
        · refine ⟨rfl, rfl, hvalue, ?_⟩
          cases hlimited : checkIfTransferCanHappenWithLimitedTransfer c w
            (if e.flagCheckCorrectTokenID then input.Arguments.getD 0 []
              else e.keyPrefix ++ input.Arguments.getD 0 [])
            (e.keyPrefix ++ input.Arguments.getD 0 []) input.CallerAddr input.RecipientAddr
            e.globalSettingsHandler e.rolesHandler acntSnd acntDst
            input.ReturnCallAfterError with
          | none => rfl
          | some err =>
            have hv : ¬ ((bytesToNat (input.Arguments.getD 1 []) : Nat) : Int) ≤ 0 := by omega
            simp only [hbasic, hmeta, hv, hlimited, if_false, Bool.false_eq_true, Prod.mk.injEq,
              reduceCtorEq, and_false] at h
        · have hv : ((bytesToNat (input.Arguments.getD 1 []) : Nat) : Int) ≤ 0 := by omega
          simp only [hbasic, hmeta, hv, if_true, if_false, Bool.false_eq_true, Prod.mk.injEq,
            reduceCtorEq, and_false] at h

theorem debitSender_ok (c : CoreConfig) (e : mectTransfer) (w w1 : World)
    (snd : Bytes) (input : ContractCallInput) (key : Bytes) (value : Int)
    (h : mectTransfer.debitSender c e w (some snd) input key value = (w1, none)) :
    addToMECTBalance c e.marshaller e.globalSettingsHandler w snd key (-value)
      input.ReturnCallAfterError = (w1, none) := by
  unfold mectTransfer.debitSender at h
  by_cases hgas : input.GasProvided < e.funcGasCost
  · simp only [hgas, if_true, Prod.mk.injEq, reduceCtorEq, and_false] at h
  · simp only [hgas, if_false] at h
    exact h

theorem creditDestination_ok (c : CoreConfig) (e : mectTransfer) (w1 w2 : World)
    (acntSnd : Option Bytes) (dst : Bytes) (input : ContractCallInput) (key tokenID : Bytes)
    (value : Int) (sc : Bool) (vmOutput out : VMOutput)
    (h : mectTransfer.creditDestination c e w1 acntSnd dst input key tokenID value sc vmOutput
      = (w2, .ok out)) :
    e.payableHandler.CheckPayable input input.RecipientAddr MinLenArgumentsMECTTransfer = none ∧
    addToMECTBalance c e.marshaller e.globalSettingsHandler w1 dst key value
      input.ReturnCallAfterError = (w2, none) := by
  unfold mectTransfer.creditDestination at h
  cases hpay : e.payableHandler.CheckPayable input input.RecipientAddr
      MinLenArgumentsMECTTransfer with
  | some e1 => simp only [hpay, Prod.mk.injEq, reduceCtorEq, and_false] at h
  | none =>
    simp only [hpay] at h
    rcases hadd : addToMECTBalance c e.marshaller e.globalSettingsHandler w1 dst key value
      input.ReturnCallAfterError with ⟨w3, _ | e3⟩
    · simp only [hadd] at h
      refine ⟨rfl, ?_⟩
      cases sc with
      | false =>
        simp only [Bool.false_eq_true, if_false, Prod.mk.injEq] at h
        rw [h.1]
      | true =>
        simp only [if_true] at h
        cases hget : input.Arguments.get? MinLenArgumentsMECTTransfer with
        | none => simp only [hget, Prod.mk.injEq, reduceCtorEq, and_false] at h
        | some f =>
          simp only [hget, Prod.mk.injEq] at h
          rw [h.1]
    · simp only [hadd, Prod.mk.injEq, reduceCtorEq, and_false] at h

theorem transfer_ok_inv (c : CoreConfig) (e : mectTransfer) (w w2 : World) (snd dst : Bytes)
    (vmInput : Option ContractCallInput) (out : VMOutput)
    (h : mectTransfer.ProcessBuiltinFunction c e w (some snd) (some dst) vmInput = (w2, .ok out)) :
    ∃ input w1, vmInput = some input ∧
      addToMECTBalance c e.marshaller e.globalSettingsHandler w snd
        (e.keyPrefix ++ input.Arguments.getD 0 [])
        (-((bytesToNat (input.Arguments.getD 1 []) : Nat) : Int)) input.ReturnCallAfterError
        = (w1, none) ∧
      addToMECTBalance c e.marshaller e.globalSettingsHandler w1 dst
        (e.keyPrefix ++ input.Arguments.getD 0 [])
        ((bytesToNat (input.Arguments.getD 1 []) : Nat) : Int) input.ReturnCallAfterError
        = (w2, none) := by
  obtain ⟨input, hin, hbasic, hmeta, hvalue, hlimited⟩ :=
    transfer_checks_of_ok c e w w2 (some snd) (some dst) vmInput out h
  subst hin
  rw [transfer_eval c e w (some snd) (some dst) input hbasic hmeta hvalue hlimited] at h
  rcases hdeb : mectTransfer.debitSender c e w (some snd) input
    (e.keyPrefix ++ input.Arguments.getD 0 [])
    ((bytesToNat (input.Arguments.getD 1 []) : Nat) : Int) with ⟨w1, _ | e1⟩
  · simp only [hdeb] at h
    exact ⟨input, w1, rfl, debitSender_ok _ _ _ _ _ _ _ _ hdeb,
      (creditDestination_ok _ _ _ _ _ _ _ _ _ _ _ _ _ h).2⟩
  · simp only [hdeb, Prod.mk.injEq, reduceCtorEq, and_false] at h

theorem localMint_ok_inv (c : CoreConfig) (e : mectLocalMint) (w w1 : World) (acnt : Bytes)
    (input : ContractCallInput) (out : VMOutput)
    (h : mectLocalMint.ProcessBuiltinFunction c e w (some acnt) (some input) = (w1, .ok out)) :
    addToMECTBalance c e.marshaller e.globalSettingsHandler w acnt
      (e.keyPrefix ++ input.Arguments.getD 0 [])
      ((bytesToNat (input.Arguments.getD 1 []) : Nat) : Int) input.ReturnCallAfterError
      = (w1, none) := by
  unfold mectLocalMint.ProcessBuiltinFunction at h
  cases hchk : checkInputArgumentsForLocalAction (some acnt) (some input) e.funcGasCost with
  | some e1 => simp only [hchk, Prod.mk.injEq, reduceCtorEq, and_false] at h
  | none =>
    simp only [hchk] at h
    cases hrole : e.rolesHandler.CheckAllowedToExecute w (some acnt) (input.Arguments.getD 0 [])
        c.MECTRoleLocalMint with
    | some e2 => simp only [hrole, Prod.mk.injEq, reduceCtorEq, and_false] at h
    | none =>
      simp only [hrole] at h
      by_cases hlen : (input.Arguments.getD 1 []).length > c.MaxLenForMECTIssueMint
      · simp only [hlen, if_true, Prod.mk.injEq, reduceCtorEq, and_false] at h
      · simp only [hlen, if_false] at h
        rcases hadd : addToMECTBalance c e.marshaller e.globalSettingsHandler w acnt
          (e.keyPrefix ++ input.Arguments.getD 0 [])
          ((bytesToNat (input.Arguments.getD 1 []) : Nat) : Int) input.ReturnCallAfterError
          with ⟨w3, _ | e3⟩
        · simp only [hadd, Prod.mk.injEq] at h
          rw [h.1]
        · simp only [hadd, Prod.mk.injEq, reduceCtorEq, and_false] at h

theorem localBurn_ok_inv (c : CoreConfig) (e : mectLocalBurn) (w w1 : World) (acnt : Bytes)
    (input : ContractCallInput) (out : VMOutput)
    (h : mectLocalBurn.ProcessBuiltinFunction c e w (some acnt) (some input) = (w1, .ok out)) :
    addToMECTBalance c e.marshaller e.globalSettingsHandler w acnt
      (e.keyPrefix ++ input.Arguments.getD 0 [])
      (-((bytesToNat (input.Arguments.getD 1 []) : Nat) : Int)) input.ReturnCallAfterError
      = (w1, none) := by
  unfold mectLocalBurn.ProcessBuiltinFunction at h
  cases hchk : checkInputArgumentsForLocalAction (some acnt) (some input) e.funcGasCost with
  | some e1 => simp only [hchk, Prod.mk.injEq, reduceCtorEq, and_false] at h
  | none =>
    simp only [hchk] at h
    cases hrole : mectLocalBurn.isAllowedToBurn c e w (some acnt) (input.Arguments.getD 0 []) with
    | some e2 => simp only [hrole, Prod.mk.injEq, reduceCtorEq, and_false] at h
    | none =>
      simp only [hrole] at h
      rcases hadd : addToMECTBalance c e.marshaller e.globalSettingsHandler w acnt
        (e.keyPrefix ++ input.Arguments.getD 0 [])
        (-((bytesToNat (input.Arguments.getD 1 []) : Nat) : Int)) input.ReturnCallAfterError
        with ⟨w3, _ | e3⟩
      · simp only [hadd, Prod.mk.injEq] at h
        rw [h.1]
      · simp only [hadd, Prod.mk.injEq, reduceCtorEq, and_false] at h

theorem saveMECTData_ok (m : Marshalizer) (hlaw : m.Lawful) (w w1 : World) (a k : Bytes)
    (t : MECToken) (h : saveMECTData m w a t k = (w1, none)) :
    ∃ b, w1 = SaveKeyValue w a k b ∧
      ((b = [] ∧ t.Value = 0) ∨ (b ≠ [] ∧ m.UnmarshalToken b = .ok t)) := by
  unfold saveMECTData at h
  by_cases hz : (decide (t.Value = 0) && arePropertiesEmpty t.Properties) = true
  · simp only [hz, if_true, Prod.mk.injEq, and_true] at h
    refine ⟨[], h.symm, Or.inl ⟨rfl, ?_⟩⟩
    simp only [Bool.and_eq_true, decide_eq_true_eq] at hz
    exact hz.1
  · obtain ⟨b, hb, hne, hu⟩ := hlaw.token_roundtrip t
    simp only [hz, hb, if_false, Bool.false_eq_true, Prod.mk.injEq, and_true] at h
    exact ⟨b, h.symm, Or.inr ⟨hne, hu⟩⟩

theorem storedBalance_congr (m : Marshalizer) (w w1 : World) (a k : Bytes)
    (h : RetrieveValue w1 a k = RetrieveValue w a k) :
    storedBalance m w1 a k = storedBalance m w a k := by
  unfold storedBalance getMECTDataFromKey
  rw [h]

theorem addToMECTBalance_ok_balance (c : CoreConfig) (m : Marshalizer) (hlaw : m.Lawful)
    (g : MECTGlobalSettingsHandler) (w w1 : World) (a k : Bytes) (v : Int) (flag : Bool)
    (h : addToMECTBalance c m g w a k v flag = (w1, none)) :
    storedBalance m w1 a k = storedBalance m w a k + v ∧
    ∀ a1 k1, (a1 ≠ a ∨ k1 ≠ k) → RetrieveValue w1 a1 k1 = RetrieveValue w a1 k1 := by
  cases hget : getMECTDataFromKey m w a k with
  | error e1 => simp only [addToMECTBalance, hget, Prod.mk.injEq, reduceCtorEq, and_false] at h
  | ok t =>
    by_cases hfun : t.TokenType = Fungible
    · rw [addToMECTBalance_eval c m g w a k v flag t hget hfun] at h
      cases hc : checkFrozeAndPause c g w a k t flag with
      | some e2 => simp only [hc, Prod.mk.injEq, reduceCtorEq, and_false] at h
      | none =>
        simp only [hc] at h
        by_cases hneg : t.Value + v < 0
        · simp only [hneg, if_true, Prod.mk.injEq, reduceCtorEq, and_false] at h
        · simp only [hneg, if_false] at h
          obtain ⟨b, hw1, hb⟩ := saveMECTData_ok m hlaw w w1 a k _ h
          subst hw1
          constructor
          · have hold : storedBalance m w a k = t.Value := by
              simp only [storedBalance, hget]
            rw [hold]
            rcases hb with ⟨hb0, hv0⟩ | ⟨hbne, hu⟩
            · subst hb0
              simp only [storedBalance, getMECTDataFromKey, RetrieveValue_SaveKeyValue_same,
                List.length_nil, if_true, MECToken.mk0]
              exact hv0.symm
            · have hlen : ¬ b.length = 0 := fun h0 => hbne (List.length_eq_zero.1 h0)
              simp only [storedBalance, getMECTDataFromKey, RetrieveValue_SaveKeyValue_same,
                hlen, if_false, hu]
          · intro a1 k1 hne
            exact RetrieveValue_SaveKeyValue_of_ne w a k b a1 k1 hne
    · simp only [addToMECTBalance, hget, ne_eq, hfun, not_false_eq_true, if_true,
        Prod.mk.injEq, reduceCtorEq, and_false] at h

theorem sum_map_update (accounts : List Bytes) (hnodup : accounts.Nodup) (a : Bytes)
    (ha : a ∈ accounts) (f g : Bytes → Int) (hfg : ∀ x, x ≠ a → g x = f x) :
    (accounts.map g).sum = (accounts.map f).sum + (g a - f a) := by
  induction accounts with
  | nil => simp at ha
  | cons x l ih =>
    rw [List.nodup_cons] at hnodup
    simp only [List.map_cons, List.sum_cons]
    by_cases hx : x = a
    · subst hx
      have hl : l.map g = l.map f := by
        apply List.map_congr_left
        intro y hy
        apply hfg
        intro hyx
        subst hyx
        exact hnodup.1 hy
      rw [hl]
      omega
    · have hal : a ∈ l := by
        rcases List.mem_cons.1 ha with h | h
        · exact absurd h.symm hx
        · exact h
      rw [ih hnodup.2 hal, hfg x hx]
      omega

theorem totalBalance_after_add (c : CoreConfig) (m : Marshalizer) (hlaw : m.Lawful)
    (g : MECTGlobalSettingsHandler) (w w1 : World) (a k : Bytes) (v : Int) (flag : Bool)
    (accounts : List Bytes) (hnodup : accounts.Nodup) (ha : a ∈ accounts)
    (h : addToMECTBalance c m g w a k v flag = (w1, none)) :
    totalBalance m w1 accounts k = totalBalance m w accounts k + v := by
  obtain ⟨hbal, hframe⟩ := addToMECTBalance_ok_balance c m hlaw g w w1 a k v flag h
  unfold totalBalance
  rw [sum_map_update accounts hnodup a ha (fun acnt => storedBalance m w acnt k)
    (fun acnt => storedBalance m w1 acnt k)
    (fun x hx => storedBalance_congr m w w1 x k (hframe x k (Or.inl hx)))]
  simp only [hbal]
  omega

theorem TokenCall.run_ok_balance (c : CoreConfig) (eng : TokenEngine) (m : Marshalizer)
    (keyPrefix tokenID : Bytes) (hlaw : m.Lawful) (hcoh : eng.Coherent m keyPrefix)
    (accounts : List Bytes) (hnodup : accounts.Nodup) (call : TokenCall)
    (htoken : call.vmInput.Arguments.getD 0 [] = tokenID)
    (hacc : ∀ a ∈ call.accounts, a ∈ accounts) (w w1 : World) (out : VMOutput)
    (h : call.run c eng w = (w1, .ok out)) :
    totalBalance m w1 accounts (keyPrefix ++ tokenID)
      = totalBalance m w accounts (keyPrefix ++ tokenID) + call.minted - call.burned := by
  obtain ⟨⟨hTm, hTk⟩, ⟨hMm, hMk⟩, ⟨hBm, hBk⟩⟩ := hcoh
  cases call with
  | localMint acnt input =>
    simp only [TokenCall.vmInput] at htoken
    have h1 := localMint_ok_inv c eng.localMint w w1 acnt input out h
    rw [hMm, hMk, htoken] at h1
    have := totalBalance_after_add c m hlaw _ w w1 acnt _ _ _ accounts hnodup
      (hacc acnt (by simp [TokenCall.accounts])) h1
    simp only [TokenCall.minted, TokenCall.burned]
    omega
  | localBurn acnt input =>
    simp only [TokenCall.vmInput] at htoken
    have h1 := localBurn_ok_inv c eng.localBurn w w1 acnt input out h
    rw [hBm, hBk, htoken] at h1
    have := totalBalance_after_add c m hlaw _ w w1 acnt _ _ _ accounts hnodup
      (hacc acnt (by simp [TokenCall.accounts])) h1
    simp only [TokenCall.minted, TokenCall.burned]
    omega
  | transfer snd dst input =>
    simp only [TokenCall.vmInput] at htoken
    obtain ⟨input1, w0, hin, hdeb, hcred⟩ :=
      transfer_ok_inv c eng.transfer w w1 snd dst (some input) out h
    cases hin
    rw [hTm, hTk, htoken] at hdeb hcred
    have h1 := totalBalance_after_add c m hlaw _ w w0 snd _ _ _ accounts hnodup
      (hacc snd (by simp [TokenCall.accounts])) hdeb
    have h2 := totalBalance_after_add c m hlaw _ w0 w1 dst _ _ _ accounts hnodup
      (hacc dst (by simp [TokenCall.accounts])) hcred
    simp only [TokenCall.minted, TokenCall.burned]
    omega

theorem saveMECTData_frame (m : Marshalizer) (w : World) (a k : Bytes) (t : MECToken)
    (a1 k1 : Bytes) (hne : a1 ≠ a ∨ k1 ≠ k) :
    RetrieveValue (saveMECTData m w a t k).1 a1 k1 = RetrieveValue w a1 k1 := by
  unfold saveMECTData
  by_cases hz : (decide (t.Value = 0) && arePropertiesEmpty t.Properties) = true
  · simp only [hz, if_true]
    exact RetrieveValue_SaveKeyValue_of_ne w a k [] a1 k1 hne
  · cases hm : m.MarshalToken t with
    | error e1 => simp only [hz, if_false, Bool.false_eq_true]
    | ok b =>
      simp only [hz, if_false, Bool.false_eq_true]
      exact RetrieveValue_SaveKeyValue_of_ne w a k b a1 k1 hne

theorem addToMECTBalance_frame (c : CoreConfig) (m : Marshalizer)
    (g : MECTGlobalSettingsHandler) (w : World) (a k : Bytes) (v : Int) (flag : Bool)
    (a1 k1 : Bytes) (hne : a1 ≠ a ∨ k1 ≠ k) :
    RetrieveValue (addToMECTBalance c m g w a k v flag).1 a1 k1 = RetrieveValue w a1 k1 := by
  cases hget : getMECTDataFromKey m w a k with
  | error e1 => simp only [addToMECTBalance, hget]
  | ok t =>
    by_cases hfun : t.TokenType = Fungible
    · rw [addToMECTBalance_eval c m g w a k v flag t hget hfun]
      cases hc : checkFrozeAndPause c g w a k t flag with
      | some e2 => rfl
      | none =>
        by_cases hneg : t.Value + v < 0
        · simp only [hneg, if_true]
        · simp only [hneg, if_false]
          exact saveMECTData_frame m w a k _ a1 k1 hne
    · simp only [addToMECTBalance, hget, ne_eq, hfun, not_false_eq_true, if_true]

theorem getMirror_after_save (c : CoreConfig) (e : mectDataStorage) (w : World) (k : Bytes)
    (t : MECToken) (hlaw : e.marshaller.Lawful) :
    ∃ b, e.marshaller.MarshalToken t = .ok b ∧
      mectDataStorage.marshalAndSaveData e w c.SystemAccountAddress t k
        = (SaveKeyValue w c.SystemAccountAddress k b, none) ∧
      mectDataStorage.getMECTDigitalTokenDataFromSystemAccount c e
        (SaveKeyValue w c.SystemAccountAddress k b) k = .ok (some t) := by
  obtain ⟨b, hb, hne, hu⟩ := hlaw.token_roundtrip t
  refine ⟨b, hb, ?_, ?_⟩
  · simp [mectDataStorage.marshalAndSaveData, hb]
  · simp [mectDataStorage.getMECTDigitalTokenDataFromSystemAccount,
      RetrieveValue_SaveKeyValue_same, hne, hu]

theorem getMirror_after_delete (c : CoreConfig) (e : mectDataStorage) (w : World) (k : Bytes) :
    mectDataStorage.getMECTDigitalTokenDataFromSystemAccount c e
      (SaveKeyValue w c.SystemAccountAddress k []) k = .ok none := by
  simp [mectDataStorage.getMECTDigitalTokenDataFromSystemAccount, RetrieveValue_SaveKeyValue_same]

theorem AddToLiquiditySystemAcc_eval (c : CoreConfig) (e : mectDataStorage) (w : World)
    (mectTokenKey : Bytes) (nonce : Nat) (delta : Int) (t : MECToken)
    (hsave : e.flagSaveToSystemAccount = true) (hsend : e.flagSendAlwaysEnableEpoch = true)
    (hnonce : 0 < nonce)
    (hmirror : mectDataStorage.getMECTDigitalTokenDataFromSystemAccount c e w
      (computeMECTNFTTokenKey mectTokenKey nonce) = .ok (some t))
    (hres : t.Reserved ≠ []) :
    mectDataStorage.AddToLiquiditySystemAcc c e w mectTokenKey nonce delta =
      if e.flagFixOldTokenLiquidity = true ∧ t.Value = 0 ∧ delta < 0 then
        mectDataStorage.marshalAndSaveData e w c.SystemAccountAddress { t with Reserved := [] }
          (computeMECTNFTTokenKey mectTokenKey nonce)
      else if t.Value + delta < 0 then (w, some .ErrInvalidLiquidityForMECT)
      else if t.Value + delta = 0 then
        (SaveKeyValue w c.SystemAccountAddress (computeMECTNFTTokenKey mectTokenKey nonce) [], none)
      else
        mectDataStorage.marshalAndSaveData e w c.SystemAccountAddress
          { t with Value := t.Value + delta } (computeMECTNFTTokenKey mectTokenKey nonce) := by
  have hn : nonce ≠ 0 := by omega
  have hr : ¬ t.Reserved.length = 0 := by
    intro h
    exact hres (List.length_eq_zero.1 h)
  unfold mectDataStorage.AddToLiquiditySystemAcc
  simp only [hsave, hsend, hn, hmirror, hr, Bool.not_true, Bool.false_or, decide_False,
    Bool.false_eq_true, if_false]

theorem getMECTDataFromKey_congr (m : Marshalizer) (w w1 : World) (a k : Bytes)
    (h : RetrieveValue w1 a k = RetrieveValue w a k) :
    getMECTDataFromKey m w1 a k = getMECTDataFromKey m w a k := by
  unfold getMECTDataFromKey
  rw [h]

theorem addToMECTBalance_succeeds (c : CoreConfig) (m : Marshalizer) (hlaw : m.Lawful)
    (g : MECTGlobalSettingsHandler) (w : World) (a k : Bytes) (v : Int) (flag : Bool)
    (t : MECToken) (hget : getMECTDataFromKey m w a k = .ok t) (hfun : t.TokenType = Fungible)
    (hcheck : checkFrozeAndPause c g w a k t flag = none) (hnonneg : 0 ≤ t.Value + v) :
    ∃ w1, addToMECTBalance c m g w a k v flag = (w1, none) ∧
      ∃ t1, getMECTDataFromKey m w1 a k = .ok t1 ∧ t1.TokenType = Fungible ∧
        t1.Value = t.Value + v := by
  have hneg : ¬ t.Value + v < 0 := by omega
  rw [addToMECTBalance_eval c m g w a k v flag t hget hfun]
  simp only [hcheck, hneg, if_false]
  unfold saveMECTData
  by_cases hz : (decide (t.Value + v = 0) && arePropertiesEmpty t.Properties) = true
  · simp only [hz, if_true]
    refine ⟨_, rfl, MECToken.mk0 Fungible 0, ?_, rfl, ?_⟩
    · simp only [getMECTDataFromKey, RetrieveValue_SaveKeyValue_same, List.length_nil, if_true]
    · simp only [Bool.and_eq_true, decide_eq_true_eq] at hz
      simp only [MECToken.mk0]
      exact hz.1.symm
  · obtain ⟨b, hb, hne, hu⟩ := hlaw.token_roundtrip { t with Value := t.Value + v }
    have hlen : ¬ b.length = 0 := fun h0 => hne (List.length_eq_zero.1 h0)
    simp only [hz, hb, if_false, Bool.false_eq_true]
    refine ⟨_, rfl, { t with Value := t.Value + v }, ?_, hfun, rfl⟩
    simp only [getMECTDataFromKey, RetrieveValue_SaveKeyValue_same, hlen, if_false, hu]

theorem checkFrozeAndPause_frozen (c : CoreConfig) (g : MECTGlobalSettingsHandler) (w : World)
    (a k : Bytes) (t : MECToken) (ha : a ≠ c.MECTSCAddress)
    (hfrozen : (MECTUserMetadataFromBytes t.Properties).Frozen = true) :
    checkFrozeAndPause c g w a k t false = some .ErrMECTIsFrozenForAccount := by
  simp only [checkFrozeAndPause, ha, hfrozen, if_false, if_true, Bool.false_eq_true]

theorem creditDestination_succeeds (c : CoreConfig) (e : mectTransfer) (w1 w2 : World)
    (acntSnd : Option Bytes) (dst : Bytes) (input : ContractCallInput) (key tokenID : Bytes)
    (value : Int) (sc : Bool) (vmOutput : VMOutput)
    (hpay : e.payableHandler.CheckPayable input input.RecipientAddr
      MinLenArgumentsMECTTransfer = none)
    (hadd : addToMECTBalance c e.marshaller e.globalSettingsHandler w1 dst key value
      input.ReturnCallAfterError = (w2, none))
    (hsc : sc = true → MinLenArgumentsMECTTransfer < input.Arguments.length) :
    ∃ out, mectTransfer.creditDestination c e w1 acntSnd dst input key tokenID value sc vmOutput
      = (w2, .ok out) := by
  unfold mectTransfer.creditDestination
  simp only [hpay, hadd]
  cases sc with
  | false => exact ⟨_, rfl⟩
  | true =>
    have hlt := hsc rfl
    have hget : input.Arguments.get? MinLenArgumentsMECTTransfer
        = some (input.Arguments.get ⟨MinLenArgumentsMECTTransfer, hlt⟩) :=
      List.get?_eq_get hlt
    simp only [if_true, hget]
    exact ⟨_, rfl⟩

theorem checkIfTransfer_flag (c : CoreConfig) (w : World) (tokenID key s d : Bytes)
    (g : MECTGlobalSettingsHandler) (r : MECTRoleHandler) (acntSnd acntDst : Option Bytes) :
    checkIfTransferCanHappenWithLimitedTransfer c w tokenID key s d g r acntSnd acntDst true
      = none := by
  simp [checkIfTransferCanHappenWithLimitedTransfer]

theorem createForAccount_roles_eq (c : CoreConfig) (e : mectNFTCreate) (w : World)
    (acct : Bytes) (uris : List Bytes) (input : ContractCallInput) (rh : MECTRoleHandler)
    (hcreate : rh.CheckAllowedToExecute w (some acct) (input.Arguments.getD 0 [])
      c.MECTRoleNFTCreate = none)
    (hadd : 1 < bytesToNat (input.Arguments.getD 1 []) →
      rh.CheckAllowedToExecute w (some acct) (input.Arguments.getD 0 [])
        c.MECTRoleNFTAddQuantity = none) :
    mectNFTCreate.createForAccount c { e with rolesHandler := rh } w acct uris input
      = mectNFTCreate.createForAccount c { e with rolesHandler := allowAllRoles } w acct uris
          input := by
  unfold mectNFTCreate.createForAccount
  simp only [hcreate, allowAllRoles]
  by_cases hq : ((bytesToNat (input.Arguments.getD 1 []) : Nat) : Int) > 1
  · have hq1 : 1 < bytesToNat (input.Arguments.getD 1 []) := by omega
    simp only [hq, if_true, hadd hq1]
    rfl
  · simp only [hq, if_false]
    rfl

theorem createForAccount_addQuantity_denied (c : CoreConfig) (e : mectNFTCreate) (w : World)
    (acct : Bytes) (uris : List Bytes) (input : ContractCallInput) (rh : MECTRoleHandler)
    (err : BuiltinError)
    (hvalid : (mectNFTCreate.createForAccount c { e with rolesHandler := allowAllRoles } w acct
      uris input).2.toBool = true)
    (hcreate : rh.CheckAllowedToExecute w (some acct) (input.Arguments.getD 0 [])
      c.MECTRoleNFTCreate = none)
    (hq : 1 < bytesToNat (input.Arguments.getD 1 []))
    (hden : rh.CheckAllowedToExecute w (some acct) (input.Arguments.getD 0 [])
      c.MECTRoleNFTAddQuantity = some err) :
    mectNFTCreate.createForAccount c { e with rolesHandler := rh } w acct uris input
      = (w, .error err) := by
  unfold mectNFTCreate.createForAccount at hvalid ⊢
  simp only [allowAllRoles] at hvalid
  simp only [hcreate]
  have hq1 : ((bytesToNat (input.Arguments.getD 1 []) : Nat) : Int) > 1 := by omega
  have hq0 : ¬ ((bytesToNat (input.Arguments.getD 1 []) : Nat) : Int) ≤ 0 := by omega
  by_cases hgas : input.GasProvided < addUint64 (mulUint64
      (totalArgumentsLength input.Arguments 0) e.gasConfig.StorePerByte) e.funcGasCost
  · simp only [hgas, if_true, Except.toBool] at hvalid
    cases hvalid
  · by_cases hroy : (bytesToNat (input.Arguments.getD 3 []) % twoPow64) % 2 ^ 32 > MaxRoyalty
    · simp only [hgas, hroy, if_true, if_false, Except.toBool] at hvalid
      cases hvalid
    · simp only [hgas, hroy, hq0, hq1, hden, if_true, if_false]

theorem nftCreate_valid_inv (c : CoreConfig) (e : mectNFTCreate) (w : World)
    (acntSnd : Option Bytes) (input : ContractCallInput) (acct : Bytes) (uris : List Bytes)
    (hacct : mectNFTCreate.resolveRoleAccount acntSnd input = .ok (some acct, uris))
    (hvalid : (mectNFTCreate.ProcessBuiltinFunction c e w acntSnd (some input)).2.toBool = true) :
    mectNFTCreate.ProcessBuiltinFunction c e w acntSnd (some input)
      = mectNFTCreate.createForAccount c e w acct uris input := by
  unfold mectNFTCreate.ProcessBuiltinFunction at hvalid ⊢
  cases h1 : checkMECTNFTCreateBurnAddInput acntSnd (some input) e.funcGasCost with
  | some e1 =>
    simp only [h1, Except.toBool] at hvalid
    cases hvalid
  | none =>
    simp only [h1] at hvalid ⊢
    by_cases hlen : input.Arguments.length
        < (if input.CallType = .ExecOnDestByCaller then 8 else 7)
    · simp only [hlen, if_true, Except.toBool] at hvalid
      cases hvalid
    · simp only [hlen, if_false, hacct]

theorem addToMECTBalance_ok_nonneg (c : CoreConfig) (m : Marshalizer) (hlaw : m.Lawful)
    (g : MECTGlobalSettingsHandler) (w w1 : World) (a k : Bytes) (v : Int) (flag : Bool)
    (h : addToMECTBalance c m g w a k v flag = (w1, none)) :
    0 ≤ storedBalance m w1 a k := by
  have hbal := (addToMECTBalance_ok_balance c m hlaw g w w1 a k v flag h).1
  cases hget : getMECTDataFromKey m w a k with
  | error e1 => simp only [addToMECTBalance, hget, Prod.mk.injEq, reduceCtorEq, and_false] at h
  | ok t =>
    have hold : storedBalance m w a k = t.Value := by
      simp only [storedBalance, hget]
    by_cases hfun : t.TokenType = Fungible
    · rw [addToMECTBalance_eval c m g w a k v flag t hget hfun] at h
      cases hc : checkFrozeAndPause c g w a k t flag with
      | some e2 => simp only [hc, Prod.mk.injEq, reduceCtorEq, and_false] at h
      | none =>
        simp only [hc] at h
        by_cases hneg : t.Value + v < 0
        · simp only [hneg, if_true, Prod.mk.injEq, reduceCtorEq, and_false] at h
        · omega
    · simp only [addToMECTBalance, hget, ne_eq, hfun, not_false_eq_true, if_true,
        Prod.mk.injEq, reduceCtorEq, and_false] at h

theorem foldl_natToBytesAux (fuel : Nat) : ∀ (n : Nat) (acc : Bytes), n ≤ fuel →
    List.foldl (fun acc x => acc * 256 + x) 0 (natToBytesAux fuel n acc)
      = List.foldl (fun acc x => acc * 256 + x) n acc := by
  induction fuel with
  | zero =>
    intro n acc hn
    have h0 : n = 0 := by omega
    subst h0
    simp [natToBytesAux]
  | succ fuel ih =>
    intro n acc hn
    by_cases h0 : n = 0
    · subst h0
      simp [natToBytesAux]
    · have hdiv : n / 256 ≤ fuel := by
        have : n / 256 < n := Nat.div_lt_self (by omega) (by norm_num)
        omega
      simp only [natToBytesAux, h0, if_false]
      rw [ih (n / 256) ((n % 256) :: acc) hdiv]
      simp only [List.foldl_cons]
      have h1 : n / 256 * 256 + n % 256 = n := by omega
      rw [h1]

theorem bytesToNat_natToBytes (n : Nat) : bytesToNat (natToBytes n) = n := by
  unfold bytesToNat natToBytes
  rw [foldl_natToBytesAux n n [] (le_refl n)]
  simp

theorem getLatestNonce_saveLatestNonce (c : CoreConfig) (w : World) (acnt tokenID : Bytes)
    (n : Nat) (hn : n < twoPow64) :
    getLatestNonce c (saveLatestNonce c w acnt tokenID n) acnt tokenID = n := by
  unfold getLatestNonce saveLatestNonce
  simp only [RetrieveValue_SaveKeyValue_same]
  by_cases hlen : (natToBytes n).length = 0
  · simp only [hlen, if_true]
    have hnil : natToBytes n = [] := List.length_eq_zero.mp hlen
    have := bytesToNat_natToBytes n
    rw [hnil] at this
    simpa [bytesToNat] using this
  · simp only [hlen, if_false]
    rw [bytesToNat_natToBytes]
    exact Nat.mod_eq_of_lt hn

theorem getLatestNonce_congr (c : CoreConfig) (w w1 : World) (acnt tokenID : Bytes)
    (h : RetrieveValue w1 acnt (getNonceKey c tokenID) = RetrieveValue w acnt (getNonceKey c tokenID)) :
    getLatestNonce c w1 acnt tokenID = getLatestNonce c w acnt tokenID := by
  unfold getLatestNonce
  simp only [h]

theorem saveStartNonce_none (c : CoreConfig) (w : World) (acnt tokenID rcv : Bytes)
    (args : List Bytes) (w1 : World)
    (h : mectRoles.saveStartNonce c w acnt tokenID rcv args = (w1, none)) :
    (c.MECTRoleNFTCreateMultiShard ∉ args ∧ w1 = w) ∨
    (c.MECTRoleNFTCreateMultiShard ∈ args ∧ ∃ n, computeStartNonce rcv = some n ∧
      w1 = saveLatestNonce c w acnt tokenID n) := by
  induction args with
  | nil =>
    simp only [mectRoles.saveStartNonce, Prod.mk.injEq, and_true] at h
    exact Or.inl ⟨by simp, h.symm⟩
  | cons arg rest ih =>
    unfold mectRoles.saveStartNonce at h
    by_cases harg : arg = c.MECTRoleNFTCreateMultiShard
    · right
      cases hn : computeStartNonce rcv with
      | none => simp [harg, hn] at h
      | some n =>
        simp only [harg, hn, ne_eq, not_true_eq_false, if_false, Prod.mk.injEq, and_true] at h
        exact ⟨by simp [harg], n, rfl, h.symm⟩
    · simp only [ne_eq, harg, not_false_eq_true, if_true] at h
      rcases ih h with ⟨hnot, hw⟩ | ⟨hin, hex⟩
      · left
        refine ⟨?_, hw⟩
        intro hmem
        rcases List.mem_cons.mp hmem with h1 | h1
        · exact harg h1.symm
        · exact hnot h1
      · right
        exact ⟨List.mem_cons_of_mem _ hin, hex⟩

theorem mectRoles_ok_inv (c : CoreConfig) (e : mectRoles) (w : World) (acntDst : Bytes)
    (input : ContractCallInput) (w2 : World) (out : VMOutput)
    (h : mectRoles.ProcessBuiltinFunction c e w (some acntDst) (some input) = (w2, .ok out)) :
    ∃ roles isNew w1 b,
      getMECTRolesForAcnt e.marshaller w acntDst (c.roleKeyPrefix ++ input.Arguments.getD 0 [])
        = .ok (roles, isNew) ∧
      mectRoles.saveStartNonce c w acntDst (input.Arguments.getD 0 []) input.RecipientAddr
        (input.Arguments.drop 1) = (w1, none) ∧
      e.marshaller.MarshalRoles
        (if e.set then { roles with Roles := roles.Roles ++ input.Arguments.drop 1 }
          else deleteRoles roles (input.Arguments.drop 1)) = .ok b ∧
      w2 = SaveKeyValue w1 acntDst (c.roleKeyPrefix ++ input.Arguments.getD 0 []) b := by
  unfold mectRoles.ProcessBuiltinFunction at h
  cases hchk : checkBasicMECTArguments (some input) with
  | some err => simp only [hchk, Prod.mk.injEq, reduceCtorEq, and_false] at h
  | none =>
    simp only [hchk] at h
    by_cases hcaller : input.CallerAddr = c.MECTSCAddress
    · simp only [hcaller, ne_eq, not_true_eq_false, if_false] at h
      cases hget : getMECTRolesForAcnt e.marshaller w acntDst
          (c.roleKeyPrefix ++ input.Arguments.getD 0 []) with
      | error err => simp only [hget, Prod.mk.injEq, reduceCtorEq, and_false] at h
      | ok p =>
        obtain ⟨roles, isNew⟩ := p
        simp only [hget] at h
        cases hseed : mectRoles.saveStartNonce c w acntDst (input.Arguments.getD 0 [])
            input.RecipientAddr (input.Arguments.drop 1) with
        | mk w1 oerr =>
          cases oerr with
          | some err => simp only [hseed, Prod.mk.injEq, reduceCtorEq, and_false] at h
          | none =>
            simp only [hseed] at h
            unfold saveRolesToAccount at h
            cases hm : e.marshaller.MarshalRoles
                (if e.set then { roles with Roles := roles.Roles ++ input.Arguments.drop 1 }
                  else deleteRoles roles (input.Arguments.drop 1)) with
            | error err => simp only [hm, Prod.mk.injEq, reduceCtorEq, and_false] at h
            | ok b =>
              simp only [hm, Prod.mk.injEq] at h
              exact ⟨roles, isNew, w1, b, rfl, rfl, hm, h.1.symm⟩
    · simp only [hcaller, ne_eq, not_false_eq_true, if_true, Prod.mk.injEq, reduceCtorEq,
        and_false] at h

theorem run_ok_of_toBool {α : Type} (r : World × Except BuiltinError α)
    (h : r.2.toBool = true) : ∃ out, r = (r.1, .ok out) := by
  obtain ⟨w1, res⟩ := r
  cases res with
  | error err => simp [Except.toBool] at h
  | ok out => exact ⟨out, rfl⟩

theorem marshalAndSaveData_frame (e : mectDataStorage) (w : World) (sys : Bytes) (t : MECToken)
    (k a k1 : Bytes) (hne : a ≠ sys) :
    RetrieveValue (mectDataStorage.marshalAndSaveData e w sys t k).1 a k1 = RetrieveValue w a k1 := by
  unfold mectDataStorage.marshalAndSaveData
  cases hm : e.marshaller.MarshalToken t with
  | error err => rfl
  | ok b => exact RetrieveValue_SaveKeyValue_of_ne w sys k b a k1 (Or.inl hne)

theorem saveMECTMetaDataToSystemAccount_frame (c : CoreConfig) (e : mectDataStorage) (w : World)
    (userAcc : Option Bytes) (senderShardID : Nat) (k : Bytes) (nonce : Nat) (t : MECToken)
    (mustUpdate : Bool) (a k1 : Bytes) (hne : a ≠ c.SystemAccountAddress) :
    RetrieveValue (mectDataStorage.saveMECTMetaDataToSystemAccount c e w userAcc senderShardID k
      nonce t mustUpdate).1 a k1 = RetrieveValue w a k1 := by
  unfold mectDataStorage.saveMECTMetaDataToSystemAccount
  dsimp only
  repeat' split
  all_goals first
    | rfl
    | exact marshalAndSaveData_frame e w c.SystemAccountAddress _ k a k1 hne

theorem AddToLiquiditySystemAcc_frame (c : CoreConfig) (e : mectDataStorage) (w : World)
    (k : Bytes) (nonce : Nat) (v : Int) (a k1 : Bytes) (hne : a ≠ c.SystemAccountAddress) :
    RetrieveValue (mectDataStorage.AddToLiquiditySystemAcc c e w k nonce v).1 a k1
      = RetrieveValue w a k1 := by
  unfold mectDataStorage.AddToLiquiditySystemAcc
  dsimp only
  repeat' split
  all_goals first
    | rfl
    | exact marshalAndSaveData_frame e w c.SystemAccountAddress _ _ a k1 hne
    | exact RetrieveValue_SaveKeyValue_of_ne w c.SystemAccountAddress _ [] a k1 (Or.inl hne)
theorem SaveMECTNFTToken_ok_record (c : CoreConfig) (e : mectDataStorage)
    (hlaw : e.marshaller.Lawful) (w : World) (sender acnt key : Bytes) (nonce : Nat)
    (t : MECToken) (mustUpdate flag : Bool) (hne : acnt ≠ c.SystemAccountAddress)
    (hpos : 0 < t.Value) (w1 : World) (bytes : Bytes)
    (h : mectDataStorage.SaveMECTNFTToken c e w sender acnt key nonce t mustUpdate flag
      = (w1, .ok bytes)) :
    (∃ rec, getMECTDataFromKey e.marshaller w1 acnt (computeMECTNFTTokenKey key nonce) = .ok rec ∧
      rec.TokenType = t.TokenType ∧ rec.Value = t.Value) ∧
    ∀ k1, k1 ≠ computeMECTNFTTokenKey key nonce →
      RetrieveValue w1 acnt k1 = RetrieveValue w acnt k1 := by
  unfold mectDataStorage.SaveMECTNFTToken at h
  cases hchk : mectDataStorage.checkFrozenPauseProperties c e w acnt key nonce t flag with
  | some err => simp only [hchk, Prod.mk.injEq, reduceCtorEq, and_false] at h
  | none =>
    simp only [hchk] at h
    have hframe : ∀ k1, RetrieveValue
        (if e.flagSaveToSystemAccount = true then
          mectDataStorage.saveMECTMetaDataToSystemAccount c e w (some acnt)
            (e.shardCoordinator.ComputeId sender) (computeMECTNFTTokenKey key nonce) nonce t
            mustUpdate
        else (w, none)).1 acnt k1 = RetrieveValue w acnt k1 := by
      intro k1
      by_cases hf : e.flagSaveToSystemAccount = true
      · simp only [hf, if_true]
        exact saveMECTMetaDataToSystemAccount_frame c e w _ _ _ _ _ _ acnt k1 hne
      · simp only [hf, if_false, Bool.false_eq_true]
    generalize hmir : (if e.flagSaveToSystemAccount = true then
          mectDataStorage.saveMECTMetaDataToSystemAccount c e w (some acnt)
            (e.shardCoordinator.ComputeId sender) (computeMECTNFTTokenKey key nonce) nonce t
            mustUpdate
        else (w, none)) = mir at h hframe
    obtain ⟨wm, oerr⟩ := mir
    cases oerr with
    | some err => simp only [Prod.mk.injEq, reduceCtorEq, and_false] at h
    | none =>
      have hnp : ¬ t.Value ≤ 0 := by omega
      simp only [hnp, if_false] at h
      have key_fact : ∀ (t1 : MECToken) (b : Bytes), t1.TokenType = t.TokenType →
          t1.Value = t.Value → e.marshaller.MarshalToken t1 = .ok b →
          w1 = SaveKeyValue wm acnt (computeMECTNFTTokenKey key nonce) b →
          (∃ rec, getMECTDataFromKey e.marshaller w1 acnt (computeMECTNFTTokenKey key nonce)
              = .ok rec ∧ rec.TokenType = t.TokenType ∧ rec.Value = t.Value) ∧
          ∀ k1, k1 ≠ computeMECTNFTTokenKey key nonce →
            RetrieveValue w1 acnt k1 = RetrieveValue w acnt k1 := by
        intro t1 b ht hv hm hw1
        obtain ⟨b1, hb1, hb1ne, hun⟩ := hlaw.token_roundtrip t1
        rw [hb1] at hm
        have hbb : b1 = b := by
          injection hm
        subst hbb
        refine ⟨⟨t1, ?_, ht, hv⟩, ?_⟩
        · unfold getMECTDataFromKey
          rw [hw1]
          simp only [RetrieveValue_SaveKeyValue_same]
          have hlen : b1.length ≠ 0 := fun h0 => hb1ne (List.length_eq_zero.mp h0)
          simp only [hlen, if_false]
          exact hun
        · intro k1 hk1
          rw [hw1, RetrieveValue_SaveKeyValue_of_ne wm acnt _ b1 acnt k1 (Or.inr hk1)]
          exact hframe k1
      cases hflag : e.flagSaveToSystemAccount with
      | false =>
        simp only [hflag, Bool.not_false, if_true] at h
        cases hm : e.marshaller.MarshalToken t with
        | error err => simp only [hm, Prod.mk.injEq, reduceCtorEq, and_false] at h
        | ok b =>
          simp only [hm, Prod.mk.injEq] at h
          exact key_fact t b rfl rfl hm h.1.symm
      | true =>
        simp only [hflag, Bool.not_true, if_false, Bool.false_eq_true] at h
        cases hm : e.marshaller.MarshalToken
            { TokenType := t.TokenType, Value := t.Value, Properties := t.Properties
              TokenMetaData := none, Reserved := [] } with
        | error err => simp only [hm, Prod.mk.injEq, reduceCtorEq, and_false] at h
        | ok b =>
          simp only [hm, Prod.mk.injEq] at h
          exact key_fact
            { TokenType := t.TokenType, Value := t.Value, Properties := t.Properties,
              TokenMetaData := none, Reserved := [] } b rfl rfl hm h.1.symm

theorem createForAccount_ok_store (c : CoreConfig) (e : mectNFTCreate) (w : World)
    (acct : Bytes) (uris : List Bytes) (input : ContractCallInput)
    (hok : (mectNFTCreate.createForAccount c e w acct uris input).2.toBool = true) :
    ∃ gasToUse royalties,
      mectNFTCreate.createForAccount c e w acct uris input =
        mectNFTCreate.storeNewToken c e w acct uris input
          (getLatestNonce c w acct (input.Arguments.getD 0 [])) gasToUse royalties
          (bytesToNat (input.Arguments.getD 1 []) : Int) ∧
      0 < (bytesToNat (input.Arguments.getD 1 []) : Int) ∧ royalties ≤ MaxRoyalty := by
  unfold mectNFTCreate.createForAccount at hok ⊢
  cases hrole : e.rolesHandler.CheckAllowedToExecute w (some acct) (input.Arguments.getD 0 [])
      c.MECTRoleNFTCreate with
  | some err => simp only [hrole, Except.toBool, Bool.false_eq_true] at hok
  | none =>
    simp only [hrole] at hok ⊢
    by_cases hgas : input.GasProvided <
        addUint64 (mulUint64 (totalArgumentsLength input.Arguments 0) e.gasConfig.StorePerByte)
          e.funcGasCost
    · simp only [hgas, if_true, Except.toBool, Bool.false_eq_true] at hok
    · simp only [hgas, if_false] at hok ⊢
      by_cases hroy : (bytesToNat (input.Arguments.getD 3 []) % twoPow64) % 2 ^ 32 > MaxRoyalty
      · simp only [hroy, if_true, Except.toBool, Bool.false_eq_true] at hok
      · simp only [hroy, if_false] at hok ⊢
        by_cases hq : ((bytesToNat (input.Arguments.getD 1 []) : Nat) : Int) ≤ 0
        · simp only [hq, if_true, Except.toBool, Bool.false_eq_true] at hok
        · simp only [hq, if_false] at hok ⊢
          generalize hadd : (if ((bytesToNat (input.Arguments.getD 1 []) : Nat) : Int) > 1 then
              e.rolesHandler.CheckAllowedToExecute w (some acct) (input.Arguments.getD 0 [])
                c.MECTRoleNFTAddQuantity
            else none) = addCheck at hok ⊢
          cases addCheck with
          | some err => simp only [Except.toBool, Bool.false_eq_true] at hok
          | none =>
            simp only at hok ⊢
            by_cases hlen : e.flagValueLengthCheck = true ∧
                (input.Arguments.getD 1 []).length > maxLenForAddNFTQuantity
            · simp only [hlen, and_self, if_true, Except.toBool, Bool.false_eq_true] at hok
            · simp only [hlen, if_false]
              exact ⟨_, _, rfl, by omega, by omega⟩

theorem storeNewToken_ok (c : CoreConfig) (e : mectNFTCreate) (s : mectDataStorage)
    (hs : e.mectStorageHandler = mectDataStorage.toHandler c s) (hlaw : s.marshaller.Lawful)
    (w : World) (acct : Bytes) (uris : List Bytes) (input : ContractCallInput)
    (nonce gasToUse royalties : Nat) (quantity : Int)
    (hne : acct ≠ c.SystemAccountAddress) (hq : 0 < quantity)
    (hkeys : getNonceKey c (input.Arguments.getD 0 []) ≠
      computeMECTNFTTokenKey (e.keyPrefix ++ input.Arguments.getD 0 []) (addUint64 nonce 1))
    (hok : (mectNFTCreate.storeNewToken c e w acct uris input nonce gasToUse royalties
      quantity).2.toBool = true) :
    getLatestNonce c (mectNFTCreate.storeNewToken c e w acct uris input nonce gasToUse royalties
      quantity).1 acct (input.Arguments.getD 0 []) = addUint64 nonce 1 ∧
    (∃ out, (mectNFTCreate.storeNewToken c e w acct uris input nonce gasToUse royalties
      quantity).2 = .ok out ∧ out.ReturnData = [natToBytes (addUint64 nonce 1)]) ∧
    ∃ rec, getMECTDataFromKey s.marshaller
        (mectNFTCreate.storeNewToken c e w acct uris input nonce gasToUse royalties quantity).1
        acct (computeMECTNFTTokenKey (e.keyPrefix ++ input.Arguments.getD 0 [])
          (addUint64 nonce 1)) = .ok rec ∧
      rec.TokenType = NonFungible ∧ rec.Value = quantity := by
  unfold mectNFTCreate.storeNewToken at hok ⊢
  simp only [hs, mectDataStorage.toHandler] at hok ⊢
  generalize hsave : mectDataStorage.SaveMECTNFTToken c s w acct acct
      (e.keyPrefix ++ input.Arguments.getD 0 []) (addUint64 nonce 1)
      { TokenType := NonFungible, Value := quantity, Properties := [], Reserved := []
        TokenMetaData := some
          { Nonce := addUint64 nonce 1, Name := input.Arguments.getD 2 []
            Creator := input.CallerAddr, Royalties := royalties
            Hash := input.Arguments.getD 4 []
            Attributes := input.Arguments.getD 5 [], URIs := uris } } true
      input.ReturnCallAfterError = saved at hok ⊢
  obtain ⟨w1, res⟩ := saved
  cases res with
  | error err => simp only [Except.toBool, Bool.false_eq_true] at hok
  | ok bytes =>
    simp only at hok ⊢
    obtain ⟨⟨rec, hrec, htype, hval⟩, _⟩ := SaveMECTNFTToken_ok_record c s hlaw w acct acct _ _ _
      true input.ReturnCallAfterError hne hq w1 bytes hsave
    generalize hliq : mectDataStorage.AddToLiquiditySystemAcc c s w1
      (e.keyPrefix ++ input.Arguments.getD 0 []) (addUint64 nonce 1) quantity = liq at hok ⊢
    have hliqframe := AddToLiquiditySystemAcc_frame c s w1
      (e.keyPrefix ++ input.Arguments.getD 0 []) (addUint64 nonce 1) quantity acct
      (computeMECTNFTTokenKey (e.keyPrefix ++ input.Arguments.getD 0 []) (addUint64 nonce 1)) hne
    rw [hliq] at hliqframe
    obtain ⟨w2, oerr⟩ := liq
    cases oerr with
    | some err => simp only [Except.toBool, Bool.false_eq_true] at hok
    | none =>
      simp only
      have hlt : addUint64 nonce 1 < twoPow64 := Nat.mod_lt _ (by unfold twoPow64; norm_num)
      refine ⟨getLatestNonce_saveLatestNonce c w2 acct _ _ hlt, ⟨_, rfl, ?_⟩, rec, ?_, htype, hval⟩
      · simp only [addMECTEntryInVMOutput]
      · rw [← hrec]
        apply getMECTDataFromKey_congr
        unfold saveLatestNonce
        rw [RetrieveValue_SaveKeyValue_of_ne w2 acct _ _ acct _ (Or.inr (Ne.symm hkeys))]
        exact hliqframe

theorem createForAccount_royalties_above_max (c : CoreConfig) (e : mectNFTCreate) (w : World)
    (acct : Bytes) (uris : List Bytes) (input : ContractCallInput)
    (hrole : e.rolesHandler.CheckAllowedToExecute w (some acct) (input.Arguments.getD 0 [])
      c.MECTRoleNFTCreate = none)
    (hgas : ¬ input.GasProvided <
      addUint64 (mulUint64 (totalArgumentsLength input.Arguments 0) e.gasConfig.StorePerByte)
        e.funcGasCost)
    (hroy : MaxRoyalty < bytesToNat (input.Arguments.getD 3 []))
    (hlt : bytesToNat (input.Arguments.getD 3 []) < 2 ^ 32) :
    mectNFTCreate.createForAccount c e w acct uris input = (w, .error .ErrInvalidArguments) := by
  unfold mectNFTCreate.createForAccount
  have h1 : (bytesToNat (input.Arguments.getD 3 []) % twoPow64) % 2 ^ 32
      = bytesToNat (input.Arguments.getD 3 []) := by
    unfold twoPow64
    omega
  have h2 : (bytesToNat (input.Arguments.getD 3 []) % twoPow64) % 2 ^ 32 > MaxRoyalty := by
    rw [h1]
    exact hroy
  simp only [hrole, hgas, if_false, h2, if_true]

theorem doesRoleExistFrom_eraseIdx (role : Bytes) (l : List Bytes) (i : Nat)
    (h : (doesRoleExistFrom role l i).2 = true) :
    ∃ k, (doesRoleExistFrom role l i).1 = ((i + k : Nat) : Int) ∧ l.eraseIdx k = l.erase role := by
  induction l generalizing i with
  | nil => simp [doesRoleExistFrom] at h
  | cons a l ih =>
    by_cases ha : a = role
    · refine ⟨0, ?_, ?_⟩
      · simp [doesRoleExistFrom, ha]
      · simp [ha]
    · have h1 : doesRoleExistFrom role (a :: l) i = doesRoleExistFrom role l (i + 1) := by
        simp [doesRoleExistFrom, ha]
      rw [h1] at h ⊢
      obtain ⟨k, hk, he⟩ := ih (i + 1) h
      refine ⟨k + 1, ?_, ?_⟩
      · rw [hk]
        congr 1
        omega
      · have hne : (a == role) = false := by simpa using ha
        simp [List.erase_cons, hne, he]

theorem deleteRoles_nodup (del : List Bytes) : ∀ roles : MECTRoles, roles.Roles.Nodup →
    (deleteRoles roles del).Roles = roles.Roles.filter (fun r => decide (r ∉ del)) := by
  induction del with
  | nil =>
    intro roles _
    simp [deleteRoles]
  | cons d rest ih =>
    intro roles hnd
    unfold deleteRoles
    by_cases hex : (doesRoleExist roles d).2 = true
    · obtain ⟨k, hk, he⟩ := doesRoleExistFrom_eraseIdx d roles.Roles 0 hex
      have hidx : (doesRoleExist roles d).1.toNat = k := by
        unfold doesRoleExist
        rw [hk]
        simp
      simp only [hex, Bool.not_true, Bool.false_eq_true, if_false, hidx, he]
      rw [ih { roles with Roles := roles.Roles.erase d } (hnd.erase d)]
      simp only
      rw [hnd.erase_eq_filter d, List.filter_filter]
      apply List.filter_congr
      intro x _
      by_cases hxd : x = d
      · simp [hxd]
      · simp [hxd]
    · have hnot : d ∉ roles.Roles := by
        intro hmem
        exact hex ((doesRoleExistFrom_snd d roles.Roles 0).mpr hmem)
      have hex2 : (doesRoleExist roles d).2 = false := by simpa using hex
      simp only [hex2, Bool.not_false, if_true]
      rw [ih roles hnd]
      apply List.filter_congr
      intro x hx
      have hxd : x ≠ d := fun e => hnot (e ▸ hx)
      simp [hxd]

theorem isNewAddress_iff (a : Bytes) (l : List Bytes) : isNewAddress a l = true ↔ a ∉ l := by
  induction l with
  | nil => simp [isNewAddress]
  | cons x l ih =>
    by_cases h : a = x
    · simp [isNewAddress, h]
    · simp [isNewAddress, h, ih]

theorem appendNewAddresses_spec (args : List Bytes) : ∀ addresses : MECTRoles,
    addresses.Roles.Nodup →
    (appendNewAddresses addresses args).Roles.Nodup ∧
    (∀ x, x ∈ (appendNewAddresses addresses args).Roles ↔ x ∈ addresses.Roles ∨ x ∈ args) ∧
    ((∀ x ∈ args, x ∈ addresses.Roles) → appendNewAddresses addresses args = addresses) ∧
    ∃ added, (appendNewAddresses addresses args).Roles = addresses.Roles ++ added := by
  induction args with
  | nil =>
    intro addresses hnd
    exact ⟨by simpa [appendNewAddresses] using hnd, by simp [appendNewAddresses],
      by simp [appendNewAddresses], [], by simp [appendNewAddresses]⟩
  | cons a rest ih =>
    intro addresses hnd
    unfold appendNewAddresses
    by_cases hnew : isNewAddress a addresses.Roles = true
    · have hnot : a ∉ addresses.Roles := (isNewAddress_iff a _).mp hnew
      simp only [hnew, if_true]
      have hnd2 : ({ addresses with Roles := addresses.Roles ++ [a] } : MECTRoles).Roles.Nodup := by
        simp only
        rw [List.nodup_append]
        refine ⟨hnd, List.nodup_singleton a, ?_⟩
        intro x hx hx2
        rw [List.mem_singleton] at hx2
        exact hnot (hx2 ▸ hx)
      obtain ⟨h1, h2, _, added, h4⟩ := ih { addresses with Roles := addresses.Roles ++ [a] } hnd2
      refine ⟨h1, ?_, ?_, a :: added, ?_⟩
      · intro x
        rw [h2 x]
        simp only [List.mem_append, List.mem_singleton, List.mem_cons]
        tauto
      · intro hall
        exact absurd (hall a (List.mem_cons_self a rest)) hnot
      · rw [h4]
        simp
    · have hin : a ∈ addresses.Roles := by
        by_contra hcon
        exact hnew ((isNewAddress_iff a _).mpr hcon)
      have hnew2 : isNewAddress a addresses.Roles = false := by simpa using hnew
      simp only [hnew2, Bool.false_eq_true, if_false]
      obtain ⟨h1, h2, h3, added, h4⟩ := ih addresses hnd
      refine ⟨h1, ?_, ?_, added, h4⟩
      · intro x
        rw [h2 x]
        simp only [List.mem_cons]
        constructor
        · rintro (h | h)
          · exact Or.inl h
          · exact Or.inr (Or.inr h)
        · rintro (h | h | h)
          · exact Or.inl h
          · exact Or.inl (h ▸ hin)
          · exact Or.inr h
      · intro hall
        exact h3 (fun x hx => hall x (List.mem_cons_of_mem a hx))

theorem appendNewAddresses_length (args : List Bytes) (addresses : MECTRoles)
    (hnd : addresses.Roles.Nodup) :
    (appendNewAddresses addresses args).Roles.length = (addresses.Roles ++ args).dedup.length := by
  obtain ⟨h1, h2, _, _⟩ := appendNewAddresses_spec args addresses hnd
  rw [← List.card_toFinset, ← List.toFinset_card_of_nodup h1]
  congr 1
  ext x
  simp [h2 x]

theorem userMetadata_roundtrip (f : Bool) :
    MECTUserMetadataFromBytes (MECTUserMetadata.ToBytes { Frozen := f }) = { Frozen := f } := by
  cases f <;> decide

theorem userMetadata_empty (f : Bool) :
    arePropertiesEmpty (MECTUserMetadata.ToBytes { Frozen := f }) = !f := by
  cases f <;> decide

theorem globalMetadata_roundtrip (m : MECTGlobalMetadata) :
    MECTGlobalMetadataFromBytes m.ToBytes = m := by
  obtain ⟨p, l, b⟩ := m
  cases p <;> cases l <;> cases b <;> decide

theorem saveMECTData_lawful (m : Marshalizer) (hlaw : m.Lawful) (w : World) (a k : Bytes)
    (t : MECToken) :
    ∃ b, b ≠ [] ∧ m.UnmarshalToken b = .ok t ∧
      saveMECTData m w a t k =
        (SaveKeyValue w a k
          (if (decide (t.Value = 0) && arePropertiesEmpty t.Properties) = true then [] else b),
          none) := by
  obtain ⟨b, hb, hne, hun⟩ := hlaw.token_roundtrip t
  refine ⟨b, hne, hun, ?_⟩
  unfold saveMECTData
  by_cases hz : (decide (t.Value = 0) && arePropertiesEmpty t.Properties) = true
  · simp only [hz, if_true]
  · simp only [hz, if_false, hb, Bool.false_eq_true]

theorem growProperties_spec (p : Bytes) (n : Nat) (hlen : p.length < 2 ^ 32) :
    ∃ q, growProperties p n = some q ∧ q.length = max p.length n ∧
      ∀ j, q.getD j 0 = p.getD j 0 := by
  unfold growProperties
  rw [Nat.mod_eq_of_lt hlen]
  by_cases h : p.length < n
  · have h2 : ¬ n < p.length := by omega
    simp only [h, if_true, h2, if_false]
    refine ⟨_, rfl, ?_, ?_⟩
    · simp only [List.length_append, List.length_replicate]
      omega
    · intro j
      simp only [List.getD_eq_getElem?_getD]
      by_cases hj : j < p.length
      · rw [List.getElem?_append_left hj]
      · rw [List.getElem?_append_right (by omega)]
        have hp : p[j]? = none := List.getElem?_eq_none (by omega)
        rw [hp]
        by_cases hj2 : j - p.length < n - p.length
        · simp [List.getElem?_replicate, hj2]
        · simp [List.getElem?_replicate, hj2]
  · simp only [h, if_false]
    refine ⟨p, rfl, ?_, fun _ => rfl⟩
    omega

theorem WasAlreadySent_first (c : CoreConfig) (e : mectDataStorage) (w : World)
    (tickerID : Bytes) (nonce : Nat) (dstAddress : Bytes) (t : MECToken)
    (hsave : e.flagSaveToSystemAccount = true)
    (hsend : e.flagSendAlwaysEnableEpoch = false) (hnonce : 0 < nonce)
    (hself : e.shardCoordinator.ComputeId dstAddress ≠ e.shardCoordinator.SelfId)
    (hmeta : e.shardCoordinator.ComputeId dstAddress ≠ c.MetachainShardId)
    (hshard : e.shardCoordinator.ComputeId dstAddress < e.shardCoordinator.NumberOfShards)
    (hmirror : mectDataStorage.getMECTDigitalTokenDataFromSystemAccount c e w
      (computeMECTNFTTokenKey (e.keyPrefix ++ tickerID) nonce) = .ok (some t))
    (hlen : t.Properties.length < 2 ^ 32) :
    ∃ q : Bytes, q.length = max t.Properties.length e.shardCoordinator.NumberOfShards ∧
      (∀ j, q.getD j 0 = t.Properties.getD j 0) ∧
      mectDataStorage.WasAlreadySentToDestinationShardAndUpdateState c e w tickerID nonce
        dstAddress =
        if t.Properties.getD (e.shardCoordinator.ComputeId dstAddress) 0 > 0 then (w, .ok true)
        else
          match mectDataStorage.marshalAndSaveData e w c.SystemAccountAddress
              { t with Properties :=
                  (q.set (e.shardCoordinator.ComputeId dstAddress) existsOnShard) }
              (computeMECTNFTTokenKey (e.keyPrefix ++ tickerID) nonce) with
          | (w1, some err) => (w1, .error err)
          | (w1, none) => (w1, .ok false) := by
  obtain ⟨q, hq, hqlen, hqget⟩ := growProperties_spec t.Properties
    e.shardCoordinator.NumberOfShards hlen
  refine ⟨q, hqlen, hqget, ?_⟩
  have hn : ¬ nonce = 0 := by omega
  have hidx : ¬ q.length ≤ e.shardCoordinator.ComputeId dstAddress := by
    rw [hqlen]
    omega
  unfold mectDataStorage.WasAlreadySentToDestinationShardAndUpdateState
  simp only [hsave, Bool.not_true, Bool.false_eq_true, if_false, hn, hself, hsend, hmeta, hmirror,
    hq, hidx, hqget]

/-- The sender loop of a multi-transfer does not succeed when an entry it has yet to
process has quantity zero. -/
theorem senderLoop_zero_entry (c : CoreConfig) (e : mectNFTMultiTransfer)
    (acntSnd acntDst : Option Bytes) (dstAddress : Bytes) (vmInput : ContractCallInput)
    (j : Nat) (hj : 3 * j + 4 < twoPow64)
    (hzero : bytesToNat (vmInput.Arguments.getD (3 * j + 4) []) = 0) :
    ∀ (remaining i : Nat) (w : World) (vmOutput : VMOutput) (l1 : List MECToken)
      (l2 : List MECTTransfer), i ≤ j → j < i + remaining →
      (mectNFTMultiTransfer.senderLoop c e acntSnd acntDst dstAddress vmInput remaining i w
        vmOutput l1 l2).2.toBool = false := by
  intro remaining
  induction remaining with
  | zero => intro i w vmOutput l1 l2 h1 h2; omega
  | succ n ih =>
    intro i w vmOutput l1 l2 h1 h2
    have h64 : twoPow64 = 18446744073709551616 := by decide
    have hidx : addUint64 2 (mulUint64 i argumentsPerTransfer) = 3 * i + 2 := by
      have hm : i * 3 % twoPow64 = i * 3 := Nat.mod_eq_of_lt (by omega)
      have hm2 : (2 + i * 3) % twoPow64 = 2 + i * 3 := Nat.mod_eq_of_lt (by omega)
      unfold addUint64 mulUint64 argumentsPerTransfer
      rw [hm, hm2]
      omega
    unfold mectNFTMultiTransfer.senderLoop
    simp only [hidx]
    cases htd : transferDataAt vmInput.Arguments (3 * i + 2) with
    | none => rfl
    | some td =>
      simp only []
      by_cases hij : i = j
      · subst hij
        have hval : td.MECTValue = 0 := by
          unfold transferDataAt at htd
          have h2 : addUint64 (3 * i + 2) 2 = 3 * i + 4 := by
            unfold addUint64
            exact Nat.mod_eq_of_lt (by omega)
          rw [h2] at htd
          cases hv : vmInput.Arguments.get? (3 * i + 4) with
          | none =>
            rw [hv] at htd
            exact absurd htd (by simp)
          | some value =>
            have hg : vmInput.Arguments.getD (3 * i + 4) [] = value := by
              simp [List.getD, List.get?_eq_getElem?] at hv ⊢
              simp [hv]
            rw [hg] at hzero
            simp only [hv] at htd
            split at htd
            · exact absurd htd (by simp)
            · split at htd
              · exact absurd htd (by simp)
              · simp only [Option.some.injEq] at htd
                rw [← htd]
                simp [hzero]
        unfold mectNFTMultiTransfer.transferOneTokenOnSenderShard
        simp only [hval, le_refl, if_true]
        rfl
      · cases hone : mectNFTMultiTransfer.transferOneTokenOnSenderShard c e w acntSnd acntDst
            dstAddress td vmInput.ReturnCallAfterError with
        | mk w1 r =>
          cases r with
          | error err => rfl
          | ok mectData =>
            simp only []
            have hi1 : addUint64 i 1 = i + 1 := by
              unfold addUint64
              exact Nat.mod_eq_of_lt (by omega)
            rw [hi1]
            exact ih (i + 1) w1 _ _ _ (by omega) (by omega)

/-- A successful sender debit of a single-NFT transfer: the sender account is present,
its record was read, the nonce is not 0, the quantity is covered, the record was saved
with the quantity subtracted, and the record handed on carries the quantity. -/
theorem nftDebitSender_ok (e : mectNFTTransfer) (w w1 : World) (acntSnd : Option Bytes)
    (vmInput : ContractCallInput) (md : MECToken)
    (h : mectNFTTransfer.debitSender e w acntSnd vmInput = (w1, .ok md)) :
    ∃ (mectData : MECToken) (snd : Bytes), acntSnd = some snd ∧
      e.mectStorageHandler.GetMECTNFTTokenOnSender w acntSnd
        (e.keyPrefix ++ vmInput.Arguments.getD 0 [])
        (bytesToNat (vmInput.Arguments.getD 1 []) % twoPow64) = .ok mectData ∧
      bytesToNat (vmInput.Arguments.getD 1 []) % twoPow64 ≠ 0 ∧
      (bytesToNat (vmInput.Arguments.getD 2 []) : Int) ≤ mectData.Value ∧
      (e.flagCheck0Transfer = true → 0 < bytesToNat (vmInput.Arguments.getD 2 [])) ∧
      md = { mectData with Value := (bytesToNat (vmInput.Arguments.getD 2 []) : Int) } ∧
      ∃ out, e.mectStorageHandler.SaveMECTNFTToken w snd snd
        (e.keyPrefix ++ vmInput.Arguments.getD 0 [])
        (bytesToNat (vmInput.Arguments.getD 1 []) % twoPow64)
        { mectData with
          Value := mectData.Value - (bytesToNat (vmInput.Arguments.getD 2 []) : Int) }
        false vmInput.ReturnCallAfterError = (w1, .ok out) := by
  unfold mectNFTTransfer.debitSender at h
  dsimp only at h
  split at h
  · exact absurd h (by simp)
  · rename_i mectData hget
    split at h
    · exact absurd h (by simp)
    · rename_i hnonce
      split at h
      · exact absurd h (by simp)
      · rename_i hlt
        split at h
        · exact absurd h (by simp)
        · rename_i hflag
          split at h
          · exact absurd h (by simp)
          · rename_i snd
            split at h
            · exact absurd h (by simp)
            · rename_i w2 out hsave
              simp only [Prod.mk.injEq, Except.ok.injEq] at h
              obtain ⟨hw, hmd⟩ := h
              subst hw
              refine ⟨mectData, snd, rfl, hget, hnonce, not_lt.mp hlt, ?_, hmd.symm, out, hsave⟩
              intro hf
              by_contra hq
              exact hflag ⟨hf, by
                have : bytesToNat (vmInput.Arguments.getD 2 []) = 0 := by omega
                rw [this]; rfl⟩

/-- A successful `createNFTOutputTransfers` towards another shard for a record of
value 1: the record is marshalled, and the only output transfer carries the first
three arguments of the call, the marshalled record and the arguments after the
fourth. -/
theorem createNFTOutputTransfers_value_one (c : CoreConfig) (e : mectNFTTransfer)
    (w w1 : World) (vmInput : ContractCallInput) (vmOutput out : VMOutput) (md : MECToken)
    (dstAddress tickerID : Bytes) (nonce : Nat)
    (hcross : e.shardCoordinator.SelfId ≠ e.shardCoordinator.ComputeId dstAddress)
    (hone : md.Value = 1)
    (h : mectNFTTransfer.createNFTOutputTransfers c e w vmInput vmOutput md dstAddress tickerID
      nonce = (w1, .ok out)) :
    ∃ (b : Bytes) (g : Nat), e.marshaller.MarshalToken md = .ok b ∧
      out.OutputAccounts = [(dstAddress, { Address := dstAddress, OutputTransfers :=
        [{ Value := 0, GasLimit := g, GasLocked := vmInput.GasLocked
           Data := appendHexArguments c.BuiltInFunctionMECTNFTTransfer
             (vmInput.Arguments.take 3 ++ [b] ++ vmInput.Arguments.drop 4)
           CallType := vmInput.CallType, SenderAddress := vmInput.CallerAddr }] })] := by
  unfold mectNFTTransfer.createNFTOutputTransfers at h
  dsimp only at h
  split at h
  · exact absurd h (by simp)
  · rename_i w2 was hwas
    simp only [hone, decide_True, Bool.or_true, if_true] at h
    cases hm : e.marshaller.MarshalToken md with
    | error err => simp only [hm] at h; exact absurd h (by simp)
    | ok b =>
      simp only [hm] at h
      split at h
      · exact absurd h (by simp)
      · rename_i vmOutput1 args hwith
        split at hwith
        · exact absurd hwith (by simp)
        · simp only [Except.ok.injEq, Prod.mk.injEq] at hwith
          obtain ⟨hv, hargs⟩ := hwith
          rw [if_pos hcross] at h
          simp only [Prod.mk.injEq, Except.ok.injEq] at h
          obtain ⟨_, hout⟩ := h
          refine ⟨b, (if e.payableHandler.DetermineIsSCCallAfter vmInput dstAddress
            MinLenArgumentsMECTNFTTransfer = true then vmOutput1.GasRemaining else 0), rfl, ?_⟩
          rw [← hout, ← hargs]
          unfold addNFTTransferToVMOutput
          dsimp only
          have hd : (if vmInput.Arguments.length > MinLenArgumentsMECTNFTTransfer then
              (vmInput.Arguments.take 3 ++ [b]) ++ vmInput.Arguments.drop 4
              else vmInput.Arguments.take 3 ++ [b])
              = vmInput.Arguments.take 3 ++ [b] ++ vmInput.Arguments.drop 4 := by
            split
            · rfl
            · rename_i hl
              unfold MinLenArgumentsMECTNFTTransfer at hl
              rw [List.drop_of_length_le (by omega), List.append_nil]
          rw [hd]

/-- A successful sender leg of a single-NFT transfer, step by step: the input checks
pass, the sender is debited, the quantity is moved to the destination or out of the
shard, and the output transfers are created. -/
theorem nftTransfer_sender_ok (c : CoreConfig) (e : mectNFTTransfer) (w w3 : World)
    (acntSnd acntDst : Option Bytes) (vmInput : ContractCallInput) (out : VMOutput)
    (hleg : vmInput.CallerAddr = vmInput.RecipientAddr)
    (h : mectNFTTransfer.ProcessBuiltinFunction c e w acntSnd acntDst (some vmInput)
      = (w3, .ok out)) :
    mectNFTTransfer.checkSenderShardInput c e vmInput = none ∧
    ∃ (w1 w2 : World) (md md2 : MECToken) (userAccount : Option Bytes) (vmOut : VMOutput),
      mectNFTTransfer.debitSender e w acntSnd vmInput = (w1, .ok md) ∧
      mectNFTTransfer.moveToDestination c e w1 vmInput md = (w2, .ok (md2, userAccount)) ∧
      mectNFTTransfer.createNFTOutputTransfers c e w2 vmInput
        { ReturnCode := .Ok, GasRemaining := subUint64 vmInput.GasProvided e.funcGasCost
          ReturnData := [], OutputAccounts := [], Logs := [] } md2
        (vmInput.Arguments.getD 3 []) (vmInput.Arguments.getD 0 [])
        (bytesToNat (vmInput.Arguments.getD 1 []) % twoPow64) = (w3, .ok vmOut) ∧
      out.OutputAccounts = vmOut.OutputAccounts := by
  unfold mectNFTTransfer.ProcessBuiltinFunction at h
  split at h
  · exact absurd h (by simp)
  · dsimp only at h
    split at h
    · exact absurd h (by simp)
    · unfold mectNFTTransfer.processNFTTransferOnSenderShard at h
      split at h
      · exact absurd h (by simp)
      · rename_i hchecks
        dsimp only at h
        split at h
        · exact absurd h (by simp)
        · rename_i w1 md hdebit
          split at h
          · exact absurd h (by simp)
          · rename_i w2 md2 ua hmove
            split at h
            · exact absurd h (by simp)
            · split at h
              · exact absurd h (by simp)
              · rename_i w4 vmOut hcreate
                simp only [Prod.mk.injEq, Except.ok.injEq] at h
                obtain ⟨hw, hout⟩ := h
                subst hw
                refine ⟨hchecks, w1, w2, md, md2, ua, vmOut, hdebit, hmove, hcreate, ?_⟩
                rw [← hout]
                rfl

/-- Towards another shard `moveToDestination` hands the record on unchanged. -/
theorem moveToDestination_cross (c : CoreConfig) (e : mectNFTTransfer) (w w2 : World)
    (vmInput : ContractCallInput) (md md2 : MECToken) (ua : Option Bytes)
    (hcross : e.shardCoordinator.SelfId
      ≠ e.shardCoordinator.ComputeId (vmInput.Arguments.getD 3 []))
    (h : mectNFTTransfer.moveToDestination c e w vmInput md = (w2, .ok (md2, ua))) :
    md2 = md ∧ ua = none := by
  unfold mectNFTTransfer.moveToDestination at h
  dsimp only at h
  rw [if_neg hcross] at h
  split at h
  · exact absurd h (by simp)
  · simp only [Prod.mk.injEq, Except.ok.injEq] at h
    exact ⟨h.2.1.symm, h.2.2.symm⟩

/-- The arguments a successful `outputArgsLoop` produces: three per transfer appended
to the arguments it started from, the third one being the marshalled record of the
entry whenever the entry names a nonce above 0 and the value 1. -/
theorem outputArgsLoop_value_one (c : CoreConfig) (e : mectNFTMultiTransfer)
    (dstAddress : Bytes) :
    ∀ (ts : List MECTTransfer) (ds : List MECToken) (w w1 : World) (vmOutput out : VMOutput)
      (acc args : List Bytes),
      mectNFTMultiTransfer.outputArgsLoop c e dstAddress ts ds w vmOutput acc
        = (w1, .ok (out, args)) →
      out.OutputAccounts = vmOutput.OutputAccounts ∧
      ∃ suffix : List Bytes, args = acc ++ suffix ∧ suffix.length = 3 * ts.length ∧
        ∀ (i : Nat) (t : MECTTransfer), ts.get? i = some t → 0 < t.MECTTokenNonce →
          t.MECTValue = 1 →
          ∃ (d : MECToken) (b : Bytes), ds.get? i = some d ∧
            e.marshaller.MarshalToken d = .ok b ∧ suffix.get? (3 * i + 2) = some b := by
  intro ts
  induction ts with
  | nil =>
    intro ds w w1 vmOutput out acc args h
    unfold mectNFTMultiTransfer.outputArgsLoop at h
    simp only [Prod.mk.injEq, Except.ok.injEq] at h
    obtain ⟨_, hout, hargs⟩ := h
    refine ⟨by rw [hout], [], by rw [← hargs, List.append_nil], rfl, ?_⟩
    intro i t hi
    simp at hi
  | cons t rest ih =>
    intro ds w w1 vmOutput out acc args h
    have key : ∀ (nb v : Bytes) (ds1 : List MECToken) (w0 : World) (vmOutput1 : VMOutput),
        vmOutput1.OutputAccounts = vmOutput.OutputAccounts →
        (∀ i, ds1.get? i = ds.get? (i + 1)) →
        (0 < t.MECTTokenNonce → t.MECTValue = 1 →
          ∃ (d : MECToken), ds.get? 0 = some d ∧ e.marshaller.MarshalToken d = .ok v) →
        mectNFTMultiTransfer.outputArgsLoop c e dstAddress rest ds1 w0 vmOutput1
          (acc ++ [t.MECTTokenName] ++ [nb] ++ [v]) = (w1, .ok (out, args)) →
        out.OutputAccounts = vmOutput.OutputAccounts ∧
        ∃ suffix : List Bytes, args = acc ++ suffix ∧ suffix.length = 3 * (t :: rest).length ∧
          ∀ (i : Nat) (t1 : MECTTransfer), (t :: rest).get? i = some t1 →
            0 < t1.MECTTokenNonce → t1.MECTValue = 1 →
            ∃ (d : MECToken) (b : Bytes), ds.get? i = some d ∧
              e.marshaller.MarshalToken d = .ok b ∧ suffix.get? (3 * i + 2) = some b := by
      intro nb v ds1 w0 vmOutput1 hacc hds hv hrec
      obtain ⟨ho, suffix, hargs, hlen, hall⟩ := ih ds1 w0 w1 vmOutput1 out _ args hrec
      refine ⟨by rw [ho, hacc],
        [t.MECTTokenName, nb, v] ++ suffix,
        by rw [hargs]; simp, by simp [hlen]; omega, ?_⟩
      intro i t1 hi hn h1
      cases i with
      | zero =>
        simp only [List.get?_cons_zero, Option.some.injEq] at hi
        subst hi
        obtain ⟨d, hd, hm⟩ := hv hn h1
        exact ⟨d, v, hd, hm, rfl⟩
      | succ i =>
        simp only [List.get?_cons_succ] at hi
        obtain ⟨d, b, hd, hm, hs⟩ := hall i t1 hi hn h1
        refine ⟨d, b, by rw [← hds i]; exact hd, hm, ?_⟩
        have : 3 * (i + 1) + 2 = (3 * i + 2) + 3 := by ring
        rw [this]
        simpa using hs
    unfold mectNFTMultiTransfer.outputArgsLoop at h
    dsimp only at h
    split at h
    · rename_i hnonce
      split at h
      · exact absurd h (by simp)
      · rename_i w2 was hwas
        split at h
        · rename_i hsend
          split at h
          · exact absurd h (by simp)
          · rename_i d restData
            split at h
            · exact absurd h (by simp)
            · rename_i b hm
              split at h
              · exact absurd h (by simp)
              · exact key _ b restData w2 _ (by rfl) (fun i => rfl) (fun _ _ => ⟨d, rfl, hm⟩) h
        · rename_i hsend
          refine key _ _ ds.tail w2 vmOutput rfl (fun i => by cases ds <;> simp) ?_ h
          intro _ h1
          exact absurd (by simp [h1]) hsend
    · rename_i hnonce
      refine key _ _ ds.tail w vmOutput rfl (fun i => by cases ds <;> simp) ?_ h
      intro hn
      exact absurd hn hnonce

/-- A successful `createMECTNFTOutputTransfers` towards another shard: the only output
transfer carries call arguments in which the value argument of every entry naming a
nonce above 0 and the value 1 is the marshalled record of that entry. -/
theorem createMECTNFTOutputTransfers_value_one (c : CoreConfig) (e : mectNFTMultiTransfer)
    (w w1 : World) (vmInput : ContractCallInput) (vmOutput out : VMOutput)
    (ds : List MECToken) (ts : List MECTTransfer) (dstAddress : Bytes)
    (hcross : e.shardCoordinator.SelfId ≠ e.shardCoordinator.ComputeId dstAddress)
    (h : mectNFTMultiTransfer.createMECTNFTOutputTransfers c e w vmInput vmOutput ds ts
      dstAddress = (w1, .ok out)) :
    ∃ (callArgs : List Bytes) (g : Nat),
      out.OutputAccounts = [(dstAddress, { Address := dstAddress, OutputTransfers :=
        [{ Value := 0, GasLimit := g, GasLocked := vmInput.GasLocked
           Data := appendHexArguments c.BuiltInFunctionMultiMECTNFTTransfer callArgs
           CallType := vmInput.CallType, SenderAddress := vmInput.CallerAddr }] })] ∧
      ∀ (i : Nat) (t : MECTTransfer), ts.get? i = some t → 0 < t.MECTTokenNonce →
        t.MECTValue = 1 →
        ∃ (d : MECToken) (b : Bytes), ds.get? i = some d ∧
          e.marshaller.MarshalToken d = .ok b ∧ callArgs.get? (3 * i + 3) = some b := by
  unfold mectNFTMultiTransfer.createMECTNFTOutputTransfers at h
  dsimp only at h
  split at h
  · exact absurd h (by simp)
  · rename_i w2 vmOutput1 args hloop
    obtain ⟨_, suffix, hargs, hlen, hall⟩ :=
      outputArgsLoop_value_one c e dstAddress ts ds w w2 vmOutput vmOutput1 _ args hloop
    rw [if_pos hcross] at h
    simp only [Prod.mk.injEq, Except.ok.injEq] at h
    obtain ⟨_, hout⟩ := h
    refine ⟨_, _, by rw [← hout]; rfl, ?_⟩
    intro i t hi hn h1
    obtain ⟨d, b, hd, hm, hs⟩ := hall i t hi hn h1
    refine ⟨d, b, hd, hm, ?_⟩
    have hlt : 3 * i + 2 < suffix.length := by
      rw [List.get?_eq_some] at hs
      exact hs.1
    have hget : args.get? (3 * i + 3) = some b := by
      rw [hargs]
      have : 3 * i + 3 = (3 * i + 2) + 1 := by ring
      rw [this]
      simpa using hs
    have hlt2 : 3 * i + 3 < args.length := by
      rw [hargs]
      simp
      omega
    split
    · rw [List.get?_eq_getElem?] at hget ⊢
      rw [List.getElem?_append_left hlt2]
      exact hget
    · exact hget

/-- A successful sender loop of a multi-transfer: the records and the transfers it
appends are, entry by entry, the transfer read from the arguments and the record
`transferOneTokenOnSenderShard` returned for it. -/
theorem senderLoop_ok (c : CoreConfig) (e : mectNFTMultiTransfer)
    (acntSnd acntDst : Option Bytes) (dstAddress : Bytes) (vmInput : ContractCallInput) :
    ∀ (remaining i : Nat) (w w1 : World) (vmOutput out : VMOutput) (l1 ds : List MECToken)
      (l2 ts : List MECTTransfer), 3 * (i + remaining) + 2 < twoPow64 →
      mectNFTMultiTransfer.senderLoop c e acntSnd acntDst dstAddress vmInput remaining i w
        vmOutput l1 l2 = (w1, .ok (out, ds, ts)) →
      out.OutputAccounts = vmOutput.OutputAccounts ∧
      ∃ (ds1 : List MECToken) (ts1 : List MECTTransfer), ds = l1 ++ ds1 ∧ ts = l2 ++ ts1 ∧
        ts1.length = remaining ∧
        ∀ k, k < remaining → ∃ (t : MECTTransfer) (d : MECToken) (w0 w2 : World),
          ts1.get? k = some t ∧ ds1.get? k = some d ∧
          transferDataAt vmInput.Arguments (3 * (i + k) + 2) = some t ∧
          mectNFTMultiTransfer.transferOneTokenOnSenderShard c e w0 acntSnd acntDst dstAddress
            t vmInput.ReturnCallAfterError = (w2, .ok d) := by
  intro remaining
  induction remaining with
  | zero =>
    intro i w w1 vmOutput out l1 ds l2 ts _ h
    unfold mectNFTMultiTransfer.senderLoop at h
    simp only [Prod.mk.injEq, Except.ok.injEq] at h
    obtain ⟨_, ho, hd, ht⟩ := h
    refine ⟨by rw [ho], [], [], by simp [hd], by simp [ht], rfl, ?_⟩
    intro k hk
    omega
  | succ n ih =>
    intro i w w1 vmOutput out l1 ds l2 ts hb h
    have h64 : twoPow64 = 18446744073709551616 := by decide
    have hidx : addUint64 2 (mulUint64 i argumentsPerTransfer) = 3 * i + 2 := by
      have hm : i * 3 % twoPow64 = i * 3 := Nat.mod_eq_of_lt (by omega)
      have hm2 : (2 + i * 3) % twoPow64 = 2 + i * 3 := Nat.mod_eq_of_lt (by omega)
      unfold addUint64 mulUint64 argumentsPerTransfer
      rw [hm, hm2]
      omega
    have hi1 : addUint64 i 1 = i + 1 := by
      unfold addUint64
      exact Nat.mod_eq_of_lt (by omega)
    unfold mectNFTMultiTransfer.senderLoop at h
    simp only [hidx, hi1] at h
    split at h
    · exact absurd h (by simp)
    · rename_i t htd
      split at h
      · exact absurd h (by simp)
      · rename_i w2 d hone
        obtain ⟨ho, ds1, ts1, hds, hts, hlen, hall⟩ :=
          ih (i + 1) w2 w1 _ out _ ds _ ts (by omega) h
        refine ⟨by rw [ho]; rfl, d :: ds1, t :: ts1, by rw [hds]; simp, by rw [hts]; simp,
          by simp [hlen], ?_⟩
        intro k hk
        cases k with
        | zero => exact ⟨t, d, w, w2, rfl, rfl, htd, hone⟩
        | succ k =>
          obtain ⟨t1, d1, w0, w3, h1, h2, h3, h4⟩ := hall k (by omega)
          refine ⟨t1, d1, w0, w3, by simpa using h1, by simpa using h2, ?_, h4⟩
          have : 3 * (i + (k + 1)) + 2 = 3 * (i + 1 + k) + 2 := by ring
          rw [this]
          exact h3

/-- The fields of the transfer entry read at `tokenStartIndex`. -/
theorem transferDataAt_some (arguments : List Bytes) (s : Nat) (t : MECTTransfer)
    (hs : s + 2 < twoPow64) (h : transferDataAt arguments s = some t) :
    t.MECTValue = (bytesToNat (arguments.getD (s + 2) []) : Int) ∧
    t.MECTTokenNonce = bytesToNat (arguments.getD (s + 1) []) % twoPow64 ∧
    t.MECTTokenName = arguments.getD s [] := by
  have h2 : addUint64 s 2 = s + 2 := by
    unfold addUint64
    exact Nat.mod_eq_of_lt hs
  have h1 : addUint64 s 1 = s + 1 := by
    unfold addUint64
    exact Nat.mod_eq_of_lt (by omega)
  have hget : ∀ (k : Nat) (v : Bytes), arguments.get? k = some v → arguments.getD k [] = v := by
    intro k v hv
    rw [List.getD_eq_getElem?_getD, ← List.get?_eq_getElem?, hv]
    rfl
  unfold transferDataAt at h
  rw [h2, h1] at h
  split at h
  · exact absurd h (by simp)
  · rename_i value hv
    split at h
    · exact absurd h (by simp)
    · rename_i name hn
      split at h
      · exact absurd h (by simp)
      · rename_i nonce hnc
        simp only [Option.some.injEq] at h
        rw [← h, hget _ _ hv, hget _ _ hn, hget _ _ hnc]
        exact ⟨rfl, rfl, rfl⟩

/-- A successful `transferOneTokenOnSenderShard` towards another shard returns the
sender's record with the transferred value. -/
theorem transferOne_cross_ok (c : CoreConfig) (e : mectNFTMultiTransfer) (w w1 : World)
    (acntSnd : Option Bytes) (dstAddress : Bytes) (t : MECTTransfer) (flag : Bool)
    (d : MECToken)
    (h : mectNFTMultiTransfer.transferOneTokenOnSenderShard c e w acntSnd none dstAddress t
      flag = (w1, .ok d)) :
    ∃ stored, e.mectStorageHandler.GetMECTNFTTokenOnSender w acntSnd
        (e.keyPrefix ++ t.MECTTokenName) t.MECTTokenNonce = .ok stored ∧
      d = { stored with Value := t.MECTValue } := by
  unfold mectNFTMultiTransfer.transferOneTokenOnSenderShard at h
  dsimp only at h
  split at h
  · exact absurd h (by simp)
  · split at h
    · exact absurd h (by simp)
    · rename_i stored hget
      split at h
      · exact absurd h (by simp)
      · split at h
        · exact absurd h (by simp)
        · split at h
          · exact absurd h (by simp)
          · split at h
            · exact absurd h (by simp)
            · split at h
              · exact absurd h (by simp)
              · simp only [Prod.mk.injEq, Except.ok.injEq] at h
                exact ⟨stored, hget, h.2.symm⟩

/-- A successful sender leg of a multi-transfer, step by step. -/
theorem multiTransfer_sender_ok (c : CoreConfig) (e : mectNFTMultiTransfer)
    (maxSliceLength : Nat) (w w3 : World) (acntSnd acntDst : Option Bytes)
    (vmInput : ContractCallInput) (out : VMOutput)
    (hleg : vmInput.CallerAddr = vmInput.RecipientAddr)
    (h : mectNFTMultiTransfer.ProcessBuiltinFunction c e maxSliceLength w acntSnd acntDst
      (some vmInput) = (w3, .ok out)) :
    mectNFTMultiTransfer.checkSenderShardInput c e vmInput = none ∧
    bytesToNat (vmInput.Arguments.getD 1 []) % twoPow64 ≤ maxSliceLength ∧
    ∃ (w1 : World) (vmOutput1 : VMOutput) (ds : List MECToken) (ts : List MECTTransfer),
      mectNFTMultiTransfer.senderLoop c e acntSnd
        (mectNFTMultiTransfer.loadAccountIfInShard e (vmInput.Arguments.getD 0 []))
        (vmInput.Arguments.getD 0 []) vmInput
        (bytesToNat (vmInput.Arguments.getD 1 []) % twoPow64) 0 w
        { ReturnCode := .Ok
          GasRemaining := subUint64 vmInput.GasProvided
            (mulUint64 (bytesToNat (vmInput.Arguments.getD 1 []) % twoPow64) e.funcGasCost)
          ReturnData := [], OutputAccounts := [], Logs := [] } [] []
        = (w1, .ok (vmOutput1, ds, ts)) ∧
      mectNFTMultiTransfer.createMECTNFTOutputTransfers c e w1 vmInput vmOutput1 ds ts
        (vmInput.Arguments.getD 0 []) = (w3, .ok out) := by
  unfold mectNFTMultiTransfer.ProcessBuiltinFunction at h
  split at h
  · exact absurd h (by simp)
  · dsimp only at h
    split at h
    · exact absurd h (by simp)
    · unfold mectNFTMultiTransfer.processMECTNFTMultiTransferOnSenderShard at h
      split at h
      · exact absurd h (by simp)
      · rename_i hchecks
        dsimp only at h
        split at h
        · exact absurd h (by simp)
        · split at h
          · exact absurd h (by simp)
          · rename_i hmax
            split at h
            · exact absurd h (by simp)
            · rename_i w1 vmOutput1 ds ts hloop
              exact ⟨hchecks, not_lt.mp hmax, w1, vmOutput1, ds, ts, hloop, h⟩

/-- A successful `SaveMECTNFTToken`: the balance stored for the account under the NFT
key is the value of the record, or zero when that value is not positive, and no
other entry outside the system account changes. -/
theorem SaveMECTNFTToken_ok_balance (c : CoreConfig) (e : mectDataStorage)
    (hlaw : e.marshaller.Lawful) (w : World) (sender acnt key : Bytes) (nonce : Nat)
    (t : MECToken) (mustUpdate flag : Bool) (w1 : World) (bytes : Bytes)
    (h : mectDataStorage.SaveMECTNFTToken c e w sender acnt key nonce t mustUpdate flag
      = (w1, .ok bytes)) :
    storedBalance e.marshaller w1 acnt (computeMECTNFTTokenKey key nonce)
      = (if t.Value ≤ 0 then 0 else t.Value) ∧
    ∀ a k1, a ≠ c.SystemAccountAddress → (a ≠ acnt ∨ k1 ≠ computeMECTNFTTokenKey key nonce) →
      RetrieveValue w1 a k1 = RetrieveValue w a k1 := by
  unfold mectDataStorage.SaveMECTNFTToken at h
  cases hchk : mectDataStorage.checkFrozenPauseProperties c e w acnt key nonce t flag with
  | some err => simp only [hchk, Prod.mk.injEq, reduceCtorEq, and_false] at h
  | none =>
    simp only [hchk] at h
    have hframe : ∀ a k1, a ≠ c.SystemAccountAddress → RetrieveValue
        (if e.flagSaveToSystemAccount = true then
          mectDataStorage.saveMECTMetaDataToSystemAccount c e w (some acnt)
            (e.shardCoordinator.ComputeId sender) (computeMECTNFTTokenKey key nonce) nonce t
            mustUpdate
        else (w, none)).1 a k1 = RetrieveValue w a k1 := by
      intro a k1 ha
      by_cases hf : e.flagSaveToSystemAccount = true
      · simp only [hf, if_true]
        exact saveMECTMetaDataToSystemAccount_frame c e w _ _ _ _ _ _ a k1 ha
      · simp only [hf, if_false, Bool.false_eq_true]
    generalize hmir : (if e.flagSaveToSystemAccount = true then
          mectDataStorage.saveMECTMetaDataToSystemAccount c e w (some acnt)
            (e.shardCoordinator.ComputeId sender) (computeMECTNFTTokenKey key nonce) nonce t
            mustUpdate
        else (w, none)) = mir at h hframe
    obtain ⟨wm, oerr⟩ := mir
    cases oerr with
    | some err => simp only [Prod.mk.injEq, reduceCtorEq, and_false] at h
    | none =>
      have frame_fact : ∀ (b : Bytes),
          w1 = SaveKeyValue wm acnt (computeMECTNFTTokenKey key nonce) b →
          ∀ a k1, a ≠ c.SystemAccountAddress →
            (a ≠ acnt ∨ k1 ≠ computeMECTNFTTokenKey key nonce) →
            RetrieveValue w1 a k1 = RetrieveValue w a k1 := by
        intro b hw1 a k1 ha hak
        rw [hw1, RetrieveValue_SaveKeyValue_of_ne wm acnt _ b a k1 hak]
        exact hframe a k1 ha
      by_cases hnp : t.Value ≤ 0
      · simp only [hnp, if_true, Prod.mk.injEq] at h
        refine ⟨?_, frame_fact [] h.1.symm⟩
        unfold storedBalance getMECTDataFromKey
        rw [← h.1, RetrieveValue_SaveKeyValue_same, if_pos hnp]
        rfl
      · simp only [hnp, if_false] at h
        have key_fact : ∀ (t1 : MECToken) (b : Bytes), t1.Value = t.Value →
            e.marshaller.MarshalToken t1 = .ok b →
            w1 = SaveKeyValue wm acnt (computeMECTNFTTokenKey key nonce) b →
            storedBalance e.marshaller w1 acnt (computeMECTNFTTokenKey key nonce)
              = (if t.Value ≤ 0 then 0 else t.Value) := by
          intro t1 b hv hm hw1
          rw [if_neg hnp]
          obtain ⟨b1, hb1, hb1ne, hun⟩ := hlaw.token_roundtrip t1
          rw [hb1] at hm
          have hbb : b1 = b := by
            injection hm
          subst hbb
          unfold storedBalance getMECTDataFromKey
          rw [hw1]
          simp only [RetrieveValue_SaveKeyValue_same]
          have hlen : b1.length ≠ 0 := fun h0 => hb1ne (List.length_eq_zero.mp h0)
          simp only [hlen, if_false, hun]
          exact hv
        cases hflag : e.flagSaveToSystemAccount with
        | false =>
          simp only [hflag, Bool.not_false, if_true] at h
          cases hm : e.marshaller.MarshalToken t with
          | error err => simp only [hm, Prod.mk.injEq, reduceCtorEq, and_false] at h
          | ok b =>
            simp only [hm, Prod.mk.injEq] at h
            exact ⟨key_fact t b rfl hm h.1.symm, frame_fact b h.1.symm⟩
        | true =>
          simp only [hflag, Bool.not_true, if_false, Bool.false_eq_true] at h
          cases hm : e.marshaller.MarshalToken
              { TokenType := t.TokenType, Value := t.Value, Properties := t.Properties
                TokenMetaData := none, Reserved := [] } with
          | error err => simp only [hm, Prod.mk.injEq, reduceCtorEq, and_false] at h
          | ok b =>
            simp only [hm, Prod.mk.injEq] at h
            exact ⟨key_fact
              { TokenType := t.TokenType, Value := t.Value, Properties := t.Properties,
                TokenMetaData := none, Reserved := [] } b rfl hm h.1.symm,
              frame_fact b h.1.symm⟩

/-- The record `GetMECTNFTTokenOnDestination` returns carries the balance stored for
the account under the NFT key. -/
theorem GetMECTNFTTokenOnDestination_value (c : CoreConfig) (e : mectDataStorage) (w : World)
    (acnt key : Bytes) (nonce : Nat) (t : MECToken) (isNew : Bool)
    (h : mectDataStorage.GetMECTNFTTokenOnDestination c e w (some acnt) key nonce
      = .ok (t, isNew)) :
    t.Value = storedBalance e.marshaller w acnt (computeMECTNFTTokenKey key nonce) := by
  unfold mectDataStorage.GetMECTNFTTokenOnDestination at h
  unfold storedBalance getMECTDataFromKey
  dsimp only at h ⊢
  split at h
  · rename_i hlen
    simp only [Except.ok.injEq, Prod.mk.injEq] at h
    rw [if_pos hlen, ← h.1]
  · rename_i hlen
    rw [if_neg hlen]
    split at h
    · exact absurd h (by simp)
    · rename_i t0 hun
      rw [hun]
      split at h
      · simp only [Except.ok.injEq, Prod.mk.injEq] at h
        rw [← h.1]
      · split at h
        · exact absurd h (by simp)
        · simp only [Except.ok.injEq, Prod.mk.injEq] at h
          rw [← h.1]
          split <;> rfl

/-- The record `GetMECTNFTTokenOnSender` returns carries the balance stored for the
account under the NFT key. -/
theorem GetMECTNFTTokenOnSender_value (c : CoreConfig) (e : mectDataStorage) (w : World)
    (acnt key : Bytes) (nonce : Nat) (t : MECToken)
    (h : mectDataStorage.GetMECTNFTTokenOnSender c e w (some acnt) key nonce = .ok t) :
    t.Value = storedBalance e.marshaller w acnt (computeMECTNFTTokenKey key nonce) := by
  unfold mectDataStorage.GetMECTNFTTokenOnSender at h
  split at h
  · exact absurd h (by simp)
  · rename_i t0 isNew hget
    split at h
    · exact absurd h (by simp)
    · simp only [Except.ok.injEq] at h
      rw [← h]
      exact GetMECTNFTTokenOnDestination_value c e w acnt key nonce t0 isNew hget

/-- The bitmap update of `WasAlreadySentToDestinationShardAndUpdateState` changes no
entry outside the system account. -/
theorem WasAlreadySent_frame (c : CoreConfig) (e : mectDataStorage) (w : World)
    (tickerID : Bytes) (nonce : Nat) (dstAddress a k1 : Bytes)
    (hne : a ≠ c.SystemAccountAddress) :
    RetrieveValue (mectDataStorage.WasAlreadySentToDestinationShardAndUpdateState c e w tickerID
      nonce dstAddress).1 a k1 = RetrieveValue w a k1 := by
  unfold mectDataStorage.WasAlreadySentToDestinationShardAndUpdateState
  dsimp only
  repeat' split
  all_goals first
    | rfl
    | (rename_i hsave; rw [← marshalAndSaveData_frame e w c.SystemAccountAddress _ _ a k1 hne,
        hsave])

/-- Within the local shard a successful `moveToDestination` is a successful
`addNFTToDestination` on the destination account. -/
theorem moveToDestination_same (c : CoreConfig) (e : mectNFTTransfer) (w w2 : World)
    (vmInput : ContractCallInput) (md md2 : MECToken) (ua : Option Bytes)
    (hsame : e.shardCoordinator.SelfId
      = e.shardCoordinator.ComputeId (vmInput.Arguments.getD 3 []))
    (h : mectNFTTransfer.moveToDestination c e w vmInput md = (w2, .ok (md2, ua))) :
    mectNFTTransfer.addNFTToDestination c e w vmInput.CallerAddr (vmInput.Arguments.getD 3 [])
      (vmInput.Arguments.getD 3 []) md (e.keyPrefix ++ vmInput.Arguments.getD 0 [])
      (bytesToNat (vmInput.Arguments.getD 1 []) % twoPow64) vmInput.ReturnCallAfterError
      = (w2, .ok md2) := by
  unfold mectNFTTransfer.moveToDestination at h
  dsimp only at h
  rw [if_pos hsame] at h
  split at h
  · exact absurd h (by simp)
  · split at h
    · exact absurd h (by simp)
    · rename_i w3 md3 hadd
      simp only [Prod.mk.injEq, Except.ok.injEq] at h
      rw [hadd, h.1, h.2.1]

/-- A successful `addNFTToDestination`: the destination record was read, the record
to transfer was saved on the destination with the two values added, and afterwards
at most the liquidity on the system account was adjusted. -/
theorem addNFTToDestination_ok (c : CoreConfig) (e : mectNFTTransfer) (w w2 : World)
    (sndAddress dstAddress userAccount : Bytes) (md md2 : MECToken) (key : Bytes) (nonce : Nat)
    (flag : Bool)
    (h : mectNFTTransfer.addNFTToDestination c e w sndAddress dstAddress userAccount md key
      nonce flag = (w2, .ok md2)) :
    ∃ (cur : MECToken) (isNew : Bool) (wS : World) (bytes : Bytes),
      e.mectStorageHandler.GetMECTNFTTokenOnDestination w (some userAccount) key nonce
        = .ok (cur, isNew) ∧
      e.mectStorageHandler.SaveMECTNFTToken w sndAddress userAccount key nonce
        { md with Value := md.Value + cur.Value } false flag = (wS, .ok bytes) ∧
      (w2 = wS ∨ w2 = (e.mectStorageHandler.AddToLiquiditySystemAcc wS key nonce md.Value).1) := by
  unfold mectNFTTransfer.addNFTToDestination at h
  split at h
  · split at h <;> exact absurd h (by simp)
  · rename_i cur isNew hget
    split at h
    · exact absurd h (by simp)
    · dsimp only at h
      split at h
      · exact absurd h (by simp)
      · rename_i wS bytes hsave
        refine ⟨cur, isNew, wS, bytes, hget, hsave, ?_⟩
        split at h
        · split at h
          · exact absurd h (by simp)
          · rename_i w3 hliq
            simp only [Prod.mk.injEq] at h
            right
            rw [hliq, h.1]
        · simp only [Prod.mk.injEq] at h
          left
          exact h.1.symm

/-- The state after a successful `createNFTOutputTransfers` is the state the storage
handler left when asked whether the token was already sent. -/
theorem createNFTOutputTransfers_world (c : CoreConfig) (e : mectNFTTransfer) (w w1 : World)
    (vmInput : ContractCallInput) (vmOutput out : VMOutput) (md : MECToken)
    (dstAddress tickerID : Bytes) (nonce : Nat)
    (h : mectNFTTransfer.createNFTOutputTransfers c e w vmInput vmOutput md dstAddress tickerID
      nonce = (w1, .ok out)) :
    w1 = (e.mectStorageHandler.WasAlreadySentToDestinationShardAndUpdateState w tickerID nonce
      dstAddress).1 := by
  unfold mectNFTTransfer.createNFTOutputTransfers at h
  dsimp only at h
  split at h
  · exact absurd h (by simp)
  · rename_i w2 was hwas
    rw [hwas]
    split at h
    · exact absurd h (by simp)
    · split at h
      · simp only [Prod.mk.injEq] at h
        exact h.1.symm
      · split at h
        · split at h
          · exact absurd h (by simp)
          · simp only [Prod.mk.injEq] at h
            exact h.1.symm
        · simp only [Prod.mk.injEq] at h
          exact h.1.symm

/-- The digits `natToBytesAux` pushes in front of `acc` are below 256 and the first of
them is not zero; there is none exactly for the number 0. -/
theorem natToBytesAux_spec (fuel : Nat) : ∀ (n : Nat) (acc : Bytes), n ≤ fuel →
    ∃ digits : Bytes, natToBytesAux fuel n acc = digits ++ acc ∧
      (∀ b ∈ digits, b < 256) ∧ digits.head? ≠ some 0 ∧ (digits = [] → n = 0) := by
  induction fuel with
  | zero =>
    intro n acc hn
    exact ⟨[], rfl, by simp, by simp, fun _ => by omega⟩
  | succ fuel ih =>
    intro n acc hn
    unfold natToBytesAux
    by_cases h0 : n = 0
    · rw [if_pos h0]
      exact ⟨[], rfl, by simp, by simp, fun _ => h0⟩
    · rw [if_neg h0]
      obtain ⟨digits, hd, hlt, hhead, hnil⟩ :=
        ih (n / 256) ((n % 256) :: acc) (by omega)
      refine ⟨digits ++ [n % 256], by rw [hd]; simp, ?_, ?_, fun h => by simp at h⟩
      · intro b hb
        rcases List.mem_append.mp hb with hb | hb
        · exact hlt b hb
        · rw [List.mem_singleton.mp hb]
          omega
      · cases digits with
        | nil =>
          have hq0 : n / 256 = 0 := hnil rfl
          simp only [List.nil_append, List.head?_cons, ne_eq, Option.some.injEq]
          omega
        | cons d ds =>
          simpa using hhead

/-- The encoding `natToBytes` is the minimal big-endian one: its bytes are below 256,
its first byte is not zero, it is empty for 0 and it decodes to the number. -/
theorem natToBytes_minimal (n : Nat) :
    (∀ b ∈ natToBytes n, b < 256) ∧ (natToBytes n).head? ≠ some 0 ∧ natToBytes 0 = [] ∧
      bytesToNat (natToBytes n) = n := by
  obtain ⟨digits, hd, hlt, hhead, _⟩ := natToBytesAux_spec n n [] (le_refl n)
  rw [List.append_nil] at hd
  unfold natToBytes
  rw [hd]
  refine ⟨hlt, hhead, by simp [natToBytesAux], ?_⟩
  rw [← hd]
  exact bytesToNat_natToBytes n

theorem tickerCharsAreValid_iff (l : Bytes) :
    tickerCharsAreValid l = true ↔ ∀ ch ∈ l, isUpperAlphanumeric ch := by
  induction l with
  | nil => simp [tickerCharsAreValid]
  | cons ch rest ih =>
    unfold tickerCharsAreValid
    simp only [List.mem_cons, forall_eq_or_imp, ← ih]
    unfold isUpperAlphanumeric
    by_cases h : (65 ≤ ch ∧ ch ≤ 90) ∨ (48 ≤ ch ∧ ch ≤ 57)
    · have hb : ((decide (ch ≥ 65) && decide (ch ≤ 90)) ||
          (decide (ch ≥ 48) && decide (ch ≤ 57))) = true := by
        simpa using h
      simp only [hb, Bool.not_true, Bool.false_eq_true, if_false, h, true_and]
    · have hb : ((decide (ch ≥ 65) && decide (ch ≤ 90)) ||
          (decide (ch ≥ 48) && decide (ch ≤ 57))) = false := by
        rw [Bool.eq_false_iff]
        simpa using h
      simp only [hb, Bool.not_false, if_true, h, false_and, Bool.false_eq_true]

theorem randomCharsLoop_iff (l : Bytes) :
    randomCharsLoop l = true ↔ ∀ ch ∈ l, isLowerHexadecimal ch := by
  induction l with
  | nil => simp [randomCharsLoop]
  | cons ch rest ih =>
    unfold randomCharsLoop
    simp only [List.mem_cons, forall_eq_or_imp, ← ih]
    unfold isLowerHexadecimal
    by_cases h : (97 ≤ ch ∧ ch ≤ 102) ∨ (48 ≤ ch ∧ ch ≤ 57)
    · have hb : ((decide (ch ≥ 97) && decide (ch ≤ 102)) ||
          (decide (ch ≥ 48) && decide (ch ≤ 57))) = true := by
        simpa using h
      simp only [hb, Bool.not_true, Bool.false_eq_true, if_false, h, true_and]
    · have hb : ((decide (ch ≥ 97) && decide (ch ≤ 102)) ||
          (decide (ch ≥ 48) && decide (ch ≤ 57))) = false := by
        rw [Bool.eq_false_iff]
        simpa using h
      simp only [hb, Bool.not_false, if_true, h, false_and, Bool.false_eq_true]

/-- The value of `ValidateToken` on a ticker, a character and six more characters. -/
theorem ValidateToken_append (ticker random : Bytes) (d : Nat)
    (h3 : 3 ≤ ticker.length) (h10 : ticker.length ≤ 10) (h6 : random.length = 6) :
    ValidateToken (ticker ++ [d] ++ random)
      = (tickerCharsAreValid ticker && decide (d = 45) && randomCharsLoop random) := by
  have hlen : (ticker ++ [d] ++ random).length = ticker.length + 7 := by
    simp [h6]
  have htake : (ticker ++ [d] ++ random).take (ticker.length + 7 - 6 - 1) = ticker := by
    have : ticker.length + 7 - 6 - 1 = ticker.length := by omega
    rw [this, List.append_assoc, List.take_left]
  have hget : (ticker ++ [d] ++ random).getD (ticker.length + 7 - 6 - 1) 0 = d := by
    have : ticker.length + 7 - 6 - 1 = ticker.length := by omega
    rw [this, List.append_assoc, List.getD_eq_getElem?_getD,
      List.getElem?_append_right (le_refl _)]
    simp
  have hdrop : ((ticker ++ [d] ++ random).take (ticker.length + 7)).drop (ticker.length + 7 - 6)
      = random := by
    have h1 : ticker.length + 7 - 6 = (ticker ++ [d]).length := by simp
    rw [List.take_of_length_le (by omega), h1, List.drop_left]
  unfold ValidateToken
  simp only [hlen, htake, hget, hdrop, additionalRandomCharsLength, identifierMinLength,
    identifierMaxLength, tickerMinLength, tickerMaxLength]
  unfold isTickerValid randomCharsAreValid
  simp only [tickerMinLength, tickerMaxLength, additionalRandomCharsLength, h6]
  have c1 : ¬ (ticker.length + 7 < 3 + 6 + 1 ∨ ticker.length + 7 > 10 + 6 + 1) := by omega
  have c2 : ¬ (ticker.length < 3 ∨ ticker.length > 10) := by omega
  simp only [c1, c2, if_false, ne_eq, not_true_eq_false]
  cases tickerCharsAreValid ticker <;> by_cases hd : d = 45 <;>
    cases randomCharsLoop random <;> simp [hd]

theorem bytesSplit_ne_nil (sep : Nat) (l : Bytes) : bytesSplit sep l ≠ [] := by
  induction l with
  | nil => simp [bytesSplit]
  | cons b rest ih =>
    unfold bytesSplit
    split
    · simp
    · split <;> simp

/-- A byte string without the separator is split into itself. -/
theorem bytesSplit_of_not_mem (sep : Nat) (l : Bytes) (h : sep ∉ l) : bytesSplit sep l = [l] := by
  induction l with
  | nil => rfl
  | cons b rest ih =>
    have hb : b ≠ sep := fun hb => h (by rw [hb]; exact List.mem_cons_self _ _)
    have hrest : sep ∉ rest := fun hr => h (List.mem_cons_of_mem _ hr)
    unfold bytesSplit
    rw [if_neg hb, ih hrest]

/-- Splitting at the first separator: the bytes before it are the first piece. -/
theorem bytesSplit_append_sep (sep : Nat) (a r : Bytes) (h : sep ∉ a) :
    bytesSplit sep (a ++ sep :: r) = a :: bytesSplit sep r := by
  induction a with
  | nil =>
    simp only [List.nil_append]
    rw [bytesSplit, if_pos rfl]
  | cons b rest ih =>
    have hb : b ≠ sep := fun hb => h (by rw [hb]; exact List.mem_cons_self _ _)
    have hrest : sep ∉ rest := fun hr => h (List.mem_cons_of_mem _ hr)
    simp only [List.cons_append]
    rw [bytesSplit, if_neg hb, ih hrest]

theorem hexDigit_ne_sep (d : Nat) : hexDigit d ≠ 64 := by
  unfold hexDigit
  split <;> omega

theorem fromHexChar_hexDigit (d : Nat) (h : d < 16) : fromHexChar (hexDigit d) = some d := by
  unfold fromHexChar hexDigit
  by_cases h10 : d < 10
  · rw [if_pos h10, if_pos (by omega)]
    congr 1
    omega
  · rw [if_neg h10, if_neg (by omega), if_pos (by omega)]
    congr 1
    omega

theorem hexEncode_not_mem_sep (a : Bytes) : 64 ∉ hexEncode a := by
  induction a with
  | nil => simp [hexEncode]
  | cons b rest ih =>
    unfold hexEncode
    intro hmem
    rcases List.mem_cons.mp hmem with h | h
    · exact hexDigit_ne_sep _ h.symm
    · rcases List.mem_cons.mp h with h | h
      · exact hexDigit_ne_sep _ h.symm
      · exact ih h

/-- Decoding the hexadecimal encoding of bytes gives the bytes back. -/
theorem hexDecode_hexEncode (a : Bytes) (h : ∀ b ∈ a, b < 256) :
    hexDecode (hexEncode a) = some a := by
  induction a with
  | nil => rfl
  | cons b rest ih =>
    have hb : b < 256 := h b (List.mem_cons_self _ _)
    have hrest : ∀ x ∈ rest, x < 256 := fun x hx => h x (List.mem_cons_of_mem _ hx)
    unfold hexEncode
    rw [hexDecode, fromHexChar_hexDigit (b / 16) (by omega),
      fromHexChar_hexDigit (b % 16) (by omega), ih hrest]
    simp only [Option.some.injEq, List.cons.injEq, and_true]
    omega

theorem hexDecodeAll_map_hexEncode (args : List Bytes) (h : ∀ a ∈ args, ∀ b ∈ a, b < 256) :
    hexDecodeAll (args.map hexEncode) = some args := by
  induction args with
  | nil => rfl
  | cons a rest ih =>
    simp only [List.map_cons]
    rw [hexDecodeAll, hexDecode_hexEncode a (h a (List.mem_cons_self _ _)),
      ih (fun x hx => h x (List.mem_cons_of_mem _ hx))]

/-- The transaction data is the function name followed, for each argument in order, by
the separator and the hexadecimal encoding of the argument. -/
theorem appendHexArguments_eq (data : Bytes) (args : List Bytes) :
    appendHexArguments data args = data ++ (args.map (fun a => 64 :: hexEncode a)).flatten := by
  induction args generalizing data with
  | nil => simp [appendHexArguments]
  | cons a rest ih =>
    rw [appendHexArguments, ih]
    simp

theorem bytesSplit_appendHexArguments (data : Bytes) (args : List Bytes) (h : 64 ∉ data) :
    bytesSplit 64 (appendHexArguments data args) = data :: args.map hexEncode := by
  rw [appendHexArguments_eq]
  induction args generalizing data with
  | nil =>
    simp only [List.map_nil, List.flatten_nil, List.append_nil]
    exact bytesSplit_of_not_mem 64 data h
  | cons a rest ih =>
    simp only [List.map_cons, List.flatten_cons, List.cons_append]
    rw [bytesSplit_append_sep 64 data _ h, ih (hexEncode a) (hexEncode_not_mem_sep a)]

/-- The identifiers `ValidateToken` accepts. -/
theorem ValidateToken_iff (tokenID : Bytes) :
    ValidateToken tokenID = true ↔ isIdentifierWith isLowerHexadecimal tokenID := by
  constructor
  · intro h
    have hlen : 10 ≤ tokenID.length ∧ tokenID.length ≤ 17 := by
      by_contra hc
      unfold ValidateToken at h
      simp only [identifierMinLength, identifierMaxLength, tickerMinLength, tickerMaxLength,
        additionalRandomCharsLength] at h
      rw [if_pos (by omega)] at h
      exact absurd h (by simp)
    -- split the identifier at the position of the dash
    have hsplit : tokenID = tokenID.take (tokenID.length - 7)
        ++ [tokenID.getD (tokenID.length - 7) 0] ++ tokenID.drop (tokenID.length - 6) := by
      have hlt : tokenID.length - 7 < tokenID.length := by omega
      have h1 : tokenID.drop (tokenID.length - 7)
          = tokenID.getD (tokenID.length - 7) 0 :: tokenID.drop (tokenID.length - 6) := by
        have h6 : tokenID.length - 6 = tokenID.length - 7 + 1 := by omega
        rw [h6, List.getD_eq_getElem?_getD, List.getElem?_eq_getElem hlt, Option.getD_some]
        exact List.drop_eq_getElem_cons hlt
      calc tokenID = tokenID.take (tokenID.length - 7) ++ tokenID.drop (tokenID.length - 7) :=
            (List.take_append_drop _ _).symm
        _ = _ := by rw [h1]; simp
    have ht : (tokenID.take (tokenID.length - 7)).length = tokenID.length - 7 := by
      rw [List.length_take]; omega
    have hr : (tokenID.drop (tokenID.length - 6)).length = 6 := by
      rw [List.length_drop]; omega
    rw [hsplit, ValidateToken_append _ _ _ (by omega) (by omega) hr] at h
    simp only [Bool.and_eq_true, decide_eq_true_eq] at h
    obtain ⟨⟨h1, h2⟩, h3⟩ := h
    refine ⟨_, _, ?_, by omega, by omega, (tickerCharsAreValid_iff _).mp h1, hr,
      (randomCharsLoop_iff _).mp h3⟩
    rw [← h2]
    exact hsplit
  · rintro ⟨ticker, random, rfl, h3, h10, hup, h6, hhex⟩
    rw [ValidateToken_append ticker random 45 h3 h10 h6,
      (tickerCharsAreValid_iff ticker).mpr hup, (randomCharsLoop_iff random).mpr hhex]
    rfl

/-- The value of `extractTokenIdentifierAndNonceMECTWipe` on a valid identifier followed
by bytes among which there is no dash. -/
theorem extract_of_valid (tokenID nb : Bytes) (hvalid : ValidateToken tokenID = true)
    (hnb : 45 ∉ nb) :
    extractTokenIdentifierAndNonceMECTWipe (tokenID ++ nb)
      = if nb = [] then (tokenID, 0) else (tokenID, bytesToNat nb % twoPow64) := by
  obtain ⟨ticker, random, rfl, _, _, hup, h6, hhex⟩ := (ValidateToken_iff tokenID).mp hvalid
  have hticker : 45 ∉ ticker := by
    intro hm
    have := hup 45 hm
    unfold isUpperAlphanumeric at this
    omega
  have hrandom : 45 ∉ random ++ nb := by
    intro hm
    rcases List.mem_append.mp hm with hm | hm
    · have := hhex 45 hm
      unfold isLowerHexadecimal at this
      omega
    · exact hnb hm
  have hsplit : bytesSplit mectIdentifierSeparator (ticker ++ [45] ++ random ++ nb)
      = [ticker, random ++ nb] := by
    have : ticker ++ [45] ++ random ++ nb = ticker ++ 45 :: (random ++ nb) := by simp
    rw [this]
    unfold mectIdentifierSeparator
    rw [bytesSplit_append_sep 45 ticker _ hticker, bytesSplit_of_not_mem 45 _ hrandom]
  unfold extractTokenIdentifierAndNonceMECTWipe
  simp only [hsplit, List.length_cons, List.length_nil, List.getD_cons_succ, List.getD_cons_zero,
    List.length_append, h6, mectRandomSequenceLength]
  rw [if_neg (by omega)]
  by_cases hnil : nb = []
  · subst hnil
    simp
  · have hpos : 0 < nb.length := List.length_pos.mpr hnil
    rw [if_neg (by omega), if_neg hnil]
    have htake : (random ++ nb).take 6 = random := by
      rw [← h6, List.take_left]
    have hdrop : (random ++ nb).drop 6 = nb := by
      rw [← h6, List.drop_left]
    rw [htake, hdrop]
    unfold mectIdentifierSeparator
    rfl

/-- The delete loop ends when given enough fuel, provided the end index is below the
largest `uint64`: the keys of the nonces from the counter to the end index are
emptied on the system account and every other entry is as before. -/
theorem deleteLoop_spec (c : CoreConfig) (key : Bytes) (endIndex : Nat)
    (hend : endIndex < twoPow64 - 1) :
    ∀ (fuel nonce : Nat) (w : World), nonce ≤ endIndex + 1 → endIndex + 2 - nonce ≤ fuel →
      ∃ w1, mectDeleteMetaData.deleteLoop c key endIndex fuel nonce w = some (w1, none) ∧
        ∀ a k,
          ((a = c.SystemAccountAddress ∧
              ∃ n, nonce ≤ n ∧ n ≤ endIndex ∧ k = computeMECTNFTTokenKey key n) →
            RetrieveValue w1 a k = []) ∧
          (¬ (a = c.SystemAccountAddress ∧
              ∃ n, nonce ≤ n ∧ n ≤ endIndex ∧ k = computeMECTNFTTokenKey key n) →
            RetrieveValue w1 a k = RetrieveValue w a k) := by
  have h64 : twoPow64 = 18446744073709551616 := by decide
  intro fuel
  induction fuel with
  | zero =>
    intro nonce w h1 h2
    omega
  | succ fuel ih =>
    intro nonce w h1 h2
    unfold mectDeleteMetaData.deleteLoop
    by_cases hle : nonce ≤ endIndex
    · rw [if_pos hle]
      have hinc : addUint64 nonce 1 = nonce + 1 := by
        unfold addUint64
        exact Nat.mod_eq_of_lt (by omega)
      simp only [hinc]
      obtain ⟨w1, hrun, hspec⟩ := ih (nonce + 1)
        (SaveKeyValue w c.SystemAccountAddress (computeMECTNFTTokenKey key nonce) [])
        (by omega) (by omega)
      refine ⟨w1, hrun, fun a k => ⟨?_, ?_⟩⟩
      · rintro ⟨ha, n, hn1, hn2, hk⟩
        by_cases hnn : n = nonce
        · by_cases hlater : ∃ m, nonce + 1 ≤ m ∧ m ≤ endIndex ∧ k = computeMECTNFTTokenKey key m
          · exact (hspec a k).1 ⟨ha, hlater⟩
          · rw [(hspec a k).2 (fun hc => hlater hc.2), ha, hk, hnn]
            exact RetrieveValue_SaveKeyValue_same _ _ _ _
        · exact (hspec a k).1 ⟨ha, n, by omega, hn2, hk⟩
      · intro hnot
        have hnot1 : ¬ (a = c.SystemAccountAddress ∧
            ∃ n, nonce + 1 ≤ n ∧ n ≤ endIndex ∧ k = computeMECTNFTTokenKey key n) := by
          rintro ⟨ha, n, hn1, hn2, hk⟩
          exact hnot ⟨ha, n, by omega, hn2, hk⟩
        rw [(hspec a k).2 hnot1]
        apply RetrieveValue_SaveKeyValue_of_ne
        by_contra hc
        push_neg at hc
        exact hnot ⟨hc.1, nonce, le_refl _, hle, hc.2⟩
    · rw [if_neg hle]
      refine ⟨w, rfl, fun a k => ⟨?_, fun _ => rfl⟩⟩
      rintro ⟨_, n, hn1, hn2, _⟩
      omega

/-- With the largest `uint64` as end index the counter wraps around and the delete
loop never ends: no amount of fuel gives a result. -/
theorem deleteLoop_maxUint64 (c : CoreConfig) (key : Bytes) :
    ∀ (fuel nonce : Nat) (w : World), nonce < twoPow64 →
      mectDeleteMetaData.deleteLoop c key (twoPow64 - 1) fuel nonce w = none := by
  intro fuel
  induction fuel with
  | zero => intro nonce w _; rfl
  | succ fuel ih =>
    intro nonce w hn
    unfold mectDeleteMetaData.deleteLoop
    rw [if_pos (by omega)]
    exact ih _ _ (Nat.mod_lt _ (by decide))

/-- With `mustUpdate` unset, `saveMECTMetaDataToSystemAccount` leaves the state as it is
when the system account already stores a mirror under the key. -/
theorem saveMECTMetaDataToSystemAccount_existing (c : CoreConfig) (e : mectDataStorage)
    (w : World) (userAcc : Option Bytes) (senderShardID : Nat) (k : Bytes) (nonce : Nat)
    (t : MECToken) (hmirror : RetrieveValue w c.SystemAccountAddress k ≠ []) :
    mectDataStorage.saveMECTMetaDataToSystemAccount c e w userAcc senderShardID k nonce t false
      = (w, none) := by
  have hlen : (RetrieveValue w c.SystemAccountAddress k).length > 0 :=
    List.length_pos.mpr hmirror
  unfold mectDataStorage.saveMECTMetaDataToSystemAccount
  split
  · rfl
  · split
    · rfl
    · simp only [Bool.not_false, Bool.true_and, decide_eq_true_eq, hlen, if_true]

/-- Go `a - b` on `uint64` is the difference of the naturals when `b ≤ a < 2^64`. -/
theorem subUint64_of_le (a b : Nat) (hab : b ≤ a) (ha : a < twoPow64) :
    subUint64 a b = a - b := by
  have h64 : twoPow64 = 18446744073709551616 := by decide
  unfold subUint64
  rw [Nat.mod_eq_of_lt (by omega : b < twoPow64)]
  have : a + twoPow64 - b = (a - b) + twoPow64 := by omega
  rw [this, Nat.add_mod_right, Nat.mod_eq_of_lt (by omega)]

/-- The gas a successful `createNFTOutputTransfers` leaves: the cost of the marshalled
record, charged when the record is attached, is covered by the gas that remained,
and the output keeps the difference or, when the gas is handed to the call that
follows, nothing. -/
theorem createNFTOutputTransfers_gas (c : CoreConfig) (e : mectNFTTransfer) (w w1 : World)
    (vmInput : ContractCallInput) (vmOutput out : VMOutput) (md : MECToken)
    (dstAddress tickerID : Bytes) (nonce : Nat)
    (h : mectNFTTransfer.createNFTOutputTransfers c e w vmInput vmOutput md dstAddress tickerID
      nonce = (w1, .ok out)) :
    ∃ (was : Bool) (cost : Nat),
      (e.mectStorageHandler.WasAlreadySentToDestinationShardAndUpdateState w tickerID nonce
        dstAddress).2 = .ok was ∧
      (¬ (was = false ∨ md.Value = 1) → cost = 0) ∧
      ((was = false ∨ md.Value = 1) → ∃ b, e.marshaller.MarshalToken md = .ok b ∧
        cost = mulUint64 b.length e.gasConfig.DataCopyPerByte) ∧
      cost ≤ vmOutput.GasRemaining ∧
      (out.GasRemaining = vmOutput.GasRemaining - cost ∨ out.GasRemaining = 0) := by
  unfold mectNFTTransfer.createNFTOutputTransfers at h
  dsimp only at h
  split at h
  · exact absurd h (by simp)
  · rename_i w2 was hwas
    have hgas : ∀ (vmOutput1 : VMOutput) (args : List Bytes) (res : VMOutput),
        (if e.shardCoordinator.SelfId ≠ e.shardCoordinator.ComputeId dstAddress then
          (w2, Except.ok (addNFTTransferToVMOutput vmInput.CallerAddr dstAddress
            c.BuiltInFunctionMECTNFTTransfer
            (if vmInput.Arguments.length > MinLenArgumentsMECTNFTTransfer then
              args ++ vmInput.Arguments.drop 4 else args) vmInput.GasLocked
            (if e.payableHandler.DetermineIsSCCallAfter vmInput dstAddress
              MinLenArgumentsMECTNFTTransfer = true then vmOutput1.GasRemaining else 0)
            vmInput.CallType
            (if e.payableHandler.DetermineIsSCCallAfter vmInput dstAddress
              MinLenArgumentsMECTNFTTransfer = true then { vmOutput1 with GasRemaining := 0 }
              else vmOutput1)))
        else if e.payableHandler.DetermineIsSCCallAfter vmInput dstAddress
            MinLenArgumentsMECTNFTTransfer = true then
          match vmInput.Arguments.get? MinLenArgumentsMECTNFTTransfer with
          | none => (w2, Except.error BuiltinError.runtimePanic)
          | some function =>
            (w2, Except.ok (addOutputTransferToVMOutput vmInput.CallerAddr function
              (if vmInput.Arguments.length > MinLenArgumentsMECTNFTTransfer + 1 then
                vmInput.Arguments.drop (MinLenArgumentsMECTNFTTransfer + 1) else [])
              dstAddress vmInput.GasLocked vmInput.CallType vmOutput1))
        else (w2, Except.ok vmOutput1)) = (w1, Except.ok res) →
        res.GasRemaining = vmOutput1.GasRemaining ∨ res.GasRemaining = 0 := by
      intro vmOutput1 args res hres
      cases hsc : e.payableHandler.DetermineIsSCCallAfter vmInput dstAddress
          MinLenArgumentsMECTNFTTransfer
      · simp only [hsc, Bool.false_eq_true, if_false] at hres
        left
        split at hres
        · simp only [Prod.mk.injEq, Except.ok.injEq] at hres
          rw [← hres.2]
          rfl
        · simp only [Prod.mk.injEq, Except.ok.injEq] at hres
          rw [← hres.2]
      · simp only [hsc, if_true] at hres
        right
        split at hres
        · simp only [Prod.mk.injEq, Except.ok.injEq] at hres
          rw [← hres.2]
          rfl
        · split at hres
          · exact absurd hres (by simp)
          · simp only [Prod.mk.injEq, Except.ok.injEq] at hres
            rw [← hres.2]
            rfl
    rw [hwas]
    by_cases hatt : was = false ∨ md.Value = 1
    · have hcond : (!was || decide (md.Value = 1)) = true := by
        rcases hatt with h1 | h1
        · simp [h1]
        · simp [h1]
      simp only [hcond, if_true] at h
      cases hm : e.marshaller.MarshalToken md with
      | error err => simp only [hm] at h; exact absurd h (by simp)
      | ok b =>
        simp only [hm] at h
        by_cases hg : mulUint64 b.length e.gasConfig.DataCopyPerByte > vmOutput.GasRemaining
        · simp only [hg, if_true] at h
          exact absurd h (by simp)
        · simp only [hg, if_false] at h
          refine ⟨was, mulUint64 b.length e.gasConfig.DataCopyPerByte, rfl,
            fun hn => absurd hatt hn, fun _ => ⟨b, rfl, rfl⟩, by omega, ?_⟩
          exact hgas _ _ out h
    · have hcond : (!was || decide (md.Value = 1)) = false := by
        push_neg at hatt
        simp [hatt.1, hatt.2]
      simp only [hcond, Bool.false_eq_true, if_false] at h
      refine ⟨was, 0, rfl, fun _ => rfl, fun hy => absurd hy hatt, Nat.zero_le _, ?_⟩
      exact hgas _ _ out h

/-- A successful sender leg of a single-NFT transfer returns the output of
`createNFTOutputTransfers` with the same gas; the input checks have passed. -/
theorem nftTransfer_sender_ok_gas (c : CoreConfig) (e : mectNFTTransfer) (w w3 : World)
    (acntSnd acntDst : Option Bytes) (vmInput : ContractCallInput) (out : VMOutput)
    (hleg : vmInput.CallerAddr = vmInput.RecipientAddr)
    (h : mectNFTTransfer.ProcessBuiltinFunction c e w acntSnd acntDst (some vmInput)
      = (w3, .ok out)) :
    mectNFTTransfer.checkSenderShardInput c e vmInput = none ∧
    ∃ (w2 : World) (md2 : MECToken) (vmOut : VMOutput),
      mectNFTTransfer.createNFTOutputTransfers c e w2 vmInput
        { ReturnCode := .Ok, GasRemaining := subUint64 vmInput.GasProvided e.funcGasCost
          ReturnData := [], OutputAccounts := [], Logs := [] } md2
        (vmInput.Arguments.getD 3 []) (vmInput.Arguments.getD 0 [])
        (bytesToNat (vmInput.Arguments.getD 1 []) % twoPow64) = (w3, .ok vmOut) ∧
      out.GasRemaining = vmOut.GasRemaining := by
  unfold mectNFTTransfer.ProcessBuiltinFunction at h
  split at h
  · exact absurd h (by simp)
  · dsimp only at h
    split at h
    · exact absurd h (by simp)
    · unfold mectNFTTransfer.processNFTTransferOnSenderShard at h
      split at h
      · exact absurd h (by simp)
      · rename_i hchecks
        dsimp only at h
        split at h
        · exact absurd h (by simp)
        · split at h
          · exact absurd h (by simp)
          · rename_i w2 md2 ua hmove
            split at h
            · exact absurd h (by simp)
            · split at h
              · exact absurd h (by simp)
              · rename_i w4 vmOut hcreate
                simp only [Prod.mk.injEq, Except.ok.injEq] at h
                obtain ⟨hw, hout⟩ := h
                subst hw
                refine ⟨hchecks, w2, md2, vmOut, hcreate, ?_⟩
                rw [← hout]
                rfl

set_option maxRecDepth 100000

/-- C1: for every finite sequence of successful local-mint, local-burn and same-shard
single-token transfer calls on one fungible token, over a duplicate-free list of
accounts containing every account the calls touch, the sum of the stored balances
after the sequence equals the initial sum plus the total minted minus the total
burned. The marshaller is assumed lawful. -/
theorem balance_conservation (c : CoreConfig) (eng : TokenEngine) (m : Marshalizer)
    (keyPrefix tokenID : Bytes) (accounts : List Bytes) (calls : List TokenCall) (w w1 : World)
    (hlaw : m.Lawful) (hcoh : eng.Coherent m keyPrefix) (hnodup : accounts.Nodup)
    (hcalls : ∀ call ∈ calls, call.vmInput.Arguments.getD 0 [] = tokenID ∧
      ∀ a ∈ call.accounts, a ∈ accounts)
    (hrun : runCalls c eng w calls = some w1) :
    totalBalance m w1 accounts (keyPrefix ++ tokenID)
      = totalBalance m w accounts (keyPrefix ++ tokenID)
        + (calls.map TokenCall.minted).sum - (calls.map TokenCall.burned).sum := by
  induction calls generalizing w with
  | nil =>
    simp only [runCalls, Option.some.injEq] at hrun
    subst hrun
    simp
  | cons call rest ih =>
    unfold runCalls at hrun
    rcases hstep : call.run c eng w with ⟨w0, e0 | out⟩
    · simp only [hstep, reduceCtorEq] at hrun
    · simp only [hstep] at hrun
      have hc := hcalls call (List.mem_cons_self _ _)
      have h1 := TokenCall.run_ok_balance c eng m keyPrefix tokenID hlaw hcoh accounts hnodup
        call hc.1 hc.2 w w0 out hstep
      have h2 := ih w0 (fun x hx => hcalls x (List.mem_cons_of_mem _ hx)) hrun
      simp only [List.map_cons, List.sum_cons]
      omega

/-- C1 at the sample sequence: mint 100, burn 40, transfer 10; the two accounts end
with 60 units in total. -/
theorem balance_conservation_witness :
    referenceMarshalizer.Lawful ∧
    sampleEngine.Coherent referenceMarshalizer sampleConfig.baseMECTKeyPrefix ∧
    [[1], [2]].Nodup ∧
    runCalls sampleConfig sampleEngine rolesWorld sampleCalls = some sampleFinalWorld ∧
    totalBalance referenceMarshalizer sampleFinalWorld [[1], [2]]
        (sampleConfig.baseMECTKeyPrefix ++ [7])
      = totalBalance referenceMarshalizer rolesWorld [[1], [2]]
          (sampleConfig.baseMECTKeyPrefix ++ [7])
        + (sampleCalls.map TokenCall.minted).sum - (sampleCalls.map TokenCall.burned).sum ∧
    totalBalance referenceMarshalizer sampleFinalWorld [[1], [2]]
        (sampleConfig.baseMECTKeyPrefix ++ [7]) = 60 :=
  have hcoh : sampleEngine.Coherent referenceMarshalizer sampleConfig.baseMECTKeyPrefix :=
    ⟨⟨rfl, rfl⟩, ⟨rfl, rfl⟩, ⟨rfl, rfl⟩⟩
  have hsome : (runCalls sampleConfig sampleEngine rolesWorld sampleCalls).isSome = true := by
    decide
  have hrun : runCalls sampleConfig sampleEngine rolesWorld sampleCalls
      = some sampleFinalWorld := by
    unfold sampleFinalWorld
    cases hr : runCalls sampleConfig sampleEngine rolesWorld sampleCalls with
    | none => rw [hr] at hsome; cases hsome
    | some w1 => rfl
  ⟨referenceMarshalizer_lawful, hcoh, by decide, hrun,
   balance_conservation sampleConfig sampleEngine referenceMarshalizer
     sampleConfig.baseMECTKeyPrefix [7] [[1], [2]] sampleCalls rolesWorld sampleFinalWorld
     referenceMarshalizer_lawful hcoh (by decide) (by decide) hrun,
   by decide⟩

/-- C2, amended: for every decodable fungible record with balance `v`, every debit
`d > v` and every value of the error-recovery flag, `addToMECTBalance` fails and
writes nothing; the error is `ErrInsufficientFunds` unless the frozen/paused check,
which runs first, rejects the call, and that check always passes when the flag is set.
With a lawful marshaller, the balance stored by a successful call is never negative. -/
theorem addToMECTBalance_debit_above_balance (c : CoreConfig) (m : Marshalizer)
    (g : MECTGlobalSettingsHandler) (w : World) (a k : Bytes) (d : Int) (flag : Bool)
    (t : MECToken) (hget : getMECTDataFromKey m w a k = .ok t) (hfun : t.TokenType = Fungible)
    (hd : t.Value < d) :
    (addToMECTBalance c m g w a k (-d) flag).1 = w ∧
    (addToMECTBalance c m g w a k (-d) flag).2
      = some ((checkFrozeAndPause c g w a k t flag).getD .ErrInsufficientFunds) ∧
    (flag = true →
      addToMECTBalance c m g w a k (-d) flag = (w, some .ErrInsufficientFunds)) ∧
    (m.Lawful → ∀ (value : Int) (w1 : World),
      addToMECTBalance c m g w a k value flag = (w1, none) → 0 ≤ storedBalance m w1 a k) := by
  have hneg : t.Value + -d < 0 := by omega
  refine ⟨?_, ?_, ?_, ?_⟩
  · rw [addToMECTBalance_eval c m g w a k (-d) flag t hget hfun]
    cases checkFrozeAndPause c g w a k t flag <;> simp [hneg]
  · rw [addToMECTBalance_eval c m g w a k (-d) flag t hget hfun]
    cases checkFrozeAndPause c g w a k t flag <;> simp [hneg]
  · intro hflag
    subst hflag
    rw [addToMECTBalance_eval c m g w a k (-d) true t hget hfun]
    simp [checkFrozeAndPause_flag, hneg]
  · intro hlaw value w1 h
    exact addToMECTBalance_ok_nonneg c m hlaw g w w1 a k value flag h

/-- C2 amended, at the unfrozen sample account: a debit of 1000 against a balance of 100
with the error-recovery flag set. -/
theorem addToMECTBalance_debit_above_balance_witness :
    getMECTDataFromKey referenceMarshalizer frozenWorld [1] sampleKey = .ok sampleRecord ∧
    sampleRecord.TokenType = Fungible ∧ sampleRecord.Value < 1000 ∧
    (addToMECTBalance sampleConfig referenceMarshalizer sampleHandler frozenWorld [1] sampleKey
      (-1000) true).1 = frozenWorld ∧
    addToMECTBalance sampleConfig referenceMarshalizer sampleHandler frozenWorld [1] sampleKey
      (-1000) true = (frozenWorld, some .ErrInsufficientFunds) :=
  ⟨by decide, by decide, by decide,
   (addToMECTBalance_debit_above_balance sampleConfig referenceMarshalizer sampleHandler
      frozenWorld [1] sampleKey 1000 true sampleRecord (by decide) (by decide) (by decide)).1,
   (addToMECTBalance_debit_above_balance sampleConfig referenceMarshalizer sampleHandler
      frozenWorld [1] sampleKey 1000 true sampleRecord (by decide) (by decide) (by decide)).2.2.1
      rfl⟩

/-- C2 as stated fails: the frozen sample account stores a balance of 100, the debit is
1000 and the error-recovery flag is unset, yet the error is `ErrMECTIsFrozenForAccount`,
not `ErrInsufficientFunds`. -/
theorem addToMECTBalance_insufficient_funds_counterexample :
    getMECTDataFromKey referenceMarshalizer frozenWorld [2] sampleKey
      = .ok sampleFrozenRecord ∧
    sampleFrozenRecord.Value = 100 ∧ (100 : Int) < 1000 ∧
    (addToMECTBalance sampleConfig referenceMarshalizer sampleHandler frozenWorld [2] sampleKey
      (-1000) false).2 = some .ErrMECTIsFrozenForAccount ∧
    (addToMECTBalance sampleConfig referenceMarshalizer sampleHandler frozenWorld [2] sampleKey
      (-1000) false).2 ≠ some .ErrInsufficientFunds := by
  decide

/-- C3: with metadata mirroring and send-always active, for a nonce > 0 whose mirror
carries the reserved marker and a counter `v >= 0`, `AddToLiquiditySystemAcc` never
leaves a mirror with a negative counter. If `v + delta < 0`, outside the
fix-old-liquidity case `v = 0`, it returns `ErrInvalidLiquidityForMECT` and leaves the
storage unchanged; if `v + delta = 0` it deletes the mirror key; otherwise it stores
the mirror with the counter `v + delta`. The marshaller is assumed lawful. -/
theorem AddToLiquiditySystemAcc_counter (c : CoreConfig) (e : mectDataStorage) (w : World)
    (mectTokenKey : Bytes) (nonce : Nat) (delta : Int) (t : MECToken)
    (hlaw : e.marshaller.Lawful)
    (hsave : e.flagSaveToSystemAccount = true) (hsend : e.flagSendAlwaysEnableEpoch = true)
    (hnonce : 0 < nonce)
    (hmirror : mectDataStorage.getMECTDigitalTokenDataFromSystemAccount c e w
      (computeMECTNFTTokenKey mectTokenKey nonce) = .ok (some t))
    (hres : t.Reserved ≠ []) (hv : 0 ≤ t.Value) :
    (t.Value + delta < 0 → ¬ (e.flagFixOldTokenLiquidity = true ∧ t.Value = 0) →
      mectDataStorage.AddToLiquiditySystemAcc c e w mectTokenKey nonce delta
        = (w, some .ErrInvalidLiquidityForMECT)) ∧
    (t.Value + delta = 0 →
      mectDataStorage.AddToLiquiditySystemAcc c e w mectTokenKey nonce delta
        = (SaveKeyValue w c.SystemAccountAddress (computeMECTNFTTokenKey mectTokenKey nonce) [],
            none) ∧
      RetrieveValue (mectDataStorage.AddToLiquiditySystemAcc c e w mectTokenKey nonce delta).1
        c.SystemAccountAddress (computeMECTNFTTokenKey mectTokenKey nonce) = []) ∧
    (0 < t.Value + delta →
      (mectDataStorage.AddToLiquiditySystemAcc c e w mectTokenKey nonce delta).2 = none ∧
      mectDataStorage.getMECTDigitalTokenDataFromSystemAccount c e
        (mectDataStorage.AddToLiquiditySystemAcc c e w mectTokenKey nonce delta).1
        (computeMECTNFTTokenKey mectTokenKey nonce)
        = .ok (some { t with Value := t.Value + delta })) ∧
    (∀ t1, mectDataStorage.getMECTDigitalTokenDataFromSystemAccount c e
        (mectDataStorage.AddToLiquiditySystemAcc c e w mectTokenKey nonce delta).1
        (computeMECTNFTTokenKey mectTokenKey nonce) = .ok (some t1) → 0 ≤ t1.Value) := by
  have heval := AddToLiquiditySystemAcc_eval c e w mectTokenKey nonce delta t hsave hsend hnonce
    hmirror hres
  refine ⟨?_, ?_, ?_, ?_⟩
  · intro hneg hfix
    have h1 : ¬ (e.flagFixOldTokenLiquidity = true ∧ t.Value = 0 ∧ delta < 0) :=
      fun h => hfix ⟨h.1, h.2.1⟩
    rw [heval, if_neg h1, if_pos hneg]
  · intro hzero
    have h1 : ¬ (e.flagFixOldTokenLiquidity = true ∧ t.Value = 0 ∧ delta < 0) := by
      rintro ⟨_, h0, hd⟩
      omega
    have h2 : ¬ t.Value + delta < 0 := by omega
    rw [heval, if_neg h1, if_neg h2, if_pos hzero]
    exact ⟨rfl, RetrieveValue_SaveKeyValue_same _ _ _ _⟩
  · intro hpos
    have h1 : ¬ (e.flagFixOldTokenLiquidity = true ∧ t.Value = 0 ∧ delta < 0) := by
      rintro ⟨_, h0, hd⟩
      omega
    have h2 : ¬ t.Value + delta < 0 := by omega
    have h3 : ¬ t.Value + delta = 0 := by omega
    rw [heval, if_neg h1, if_neg h2, if_neg h3]
    obtain ⟨b, _, hsv, hget⟩ := getMirror_after_save c e w
      (computeMECTNFTTokenKey mectTokenKey nonce) { t with Value := t.Value + delta } hlaw
    rw [hsv]
    exact ⟨rfl, hget⟩
  · intro t1 ht1
    rw [heval] at ht1
    by_cases h1 : e.flagFixOldTokenLiquidity = true ∧ t.Value = 0 ∧ delta < 0
    · rw [if_pos h1] at ht1
      obtain ⟨b, _, hsv, hget⟩ := getMirror_after_save c e w
        (computeMECTNFTTokenKey mectTokenKey nonce) { t with Reserved := [] } hlaw
      rw [hsv, hget] at ht1
      simp only [Except.ok.injEq, Option.some.injEq] at ht1
      rw [← ht1]
      exact hv
    · rw [if_neg h1] at ht1
      by_cases h2 : t.Value + delta < 0
      · rw [if_pos h2, hmirror] at ht1
        simp only [Except.ok.injEq, Option.some.injEq] at ht1
        rw [← ht1]
        exact hv
      · rw [if_neg h2] at ht1
        by_cases h3 : t.Value + delta = 0
        · rw [if_pos h3, getMirror_after_delete] at ht1
          simp at ht1
        · rw [if_neg h3] at ht1
          obtain ⟨b, _, hsv, hget⟩ := getMirror_after_save c e w
            (computeMECTNFTTokenKey mectTokenKey nonce) { t with Value := t.Value + delta } hlaw
          rw [hsv, hget] at ht1
          simp only [Except.ok.injEq, Option.some.injEq] at ht1
          rw [← ht1]
          show 0 ≤ t.Value + delta
          omega

/-- C3 at the sample mirror (counter 10): a delta of -20 is rejected, a delta of -10
deletes the mirror, a delta of 10 stores the counter 20. -/
theorem AddToLiquiditySystemAcc_counter_witness :
    referenceMarshalizer.Lawful ∧ 0 < 10 ∧
    mectDataStorage.getMECTDigitalTokenDataFromSystemAccount sampleConfig sampleStorage
      mirrorWorld (computeMECTNFTTokenKey sampleKey 10) = .ok (some sampleMirror) ∧
    sampleMirror.Reserved ≠ [] ∧ 0 ≤ sampleMirror.Value ∧
    mectDataStorage.AddToLiquiditySystemAcc sampleConfig sampleStorage mirrorWorld sampleKey 10
      (-20) = (mirrorWorld, some .ErrInvalidLiquidityForMECT) ∧
    RetrieveValue (mectDataStorage.AddToLiquiditySystemAcc sampleConfig sampleStorage mirrorWorld
      sampleKey 10 (-10)).1 sampleConfig.SystemAccountAddress
      (computeMECTNFTTokenKey sampleKey 10) = [] ∧
    mectDataStorage.getMECTDigitalTokenDataFromSystemAccount sampleConfig sampleStorage
      (mectDataStorage.AddToLiquiditySystemAcc sampleConfig sampleStorage mirrorWorld sampleKey
        10 10).1 (computeMECTNFTTokenKey sampleKey 10)
      = .ok (some { sampleMirror with Value := sampleMirror.Value + 10 }) :=
  ⟨referenceMarshalizer_lawful, by decide, by decide, by decide, by decide,
   (AddToLiquiditySystemAcc_counter sampleConfig sampleStorage mirrorWorld sampleKey 10 (-20)
      sampleMirror referenceMarshalizer_lawful rfl rfl (by decide) (by decide) (by decide)
      (by decide)).1 (by decide) (by decide),
   ((AddToLiquiditySystemAcc_counter sampleConfig sampleStorage mirrorWorld sampleKey 10 (-10)
      sampleMirror referenceMarshalizer_lawful rfl rfl (by decide) (by decide) (by decide)
      (by decide)).2.1 (by decide)).2,
   ((AddToLiquiditySystemAcc_counter sampleConfig sampleStorage mirrorWorld sampleKey 10 10
      sampleMirror referenceMarshalizer_lawful rfl rfl (by decide) (by decide) (by decide)
      (by decide)).2.2.1 (by decide)).2⟩

/-- C5: for every global metadata value (all combinations of paused, limited-transfer,
burn-for-all) and every user metadata value (frozen or not), decoding the bytes
produced by `ToBytes` with the matching `FromBytes` function gives back the value. -/
theorem metadata_flags_roundtrip :
    (∀ g : MECTGlobalMetadata, MECTGlobalMetadataFromBytes g.ToBytes = g) ∧
    (∀ u : MECTUserMetadata, MECTUserMetadataFromBytes u.ToBytes = u) := by
  constructor
  · rintro ⟨_ | _, _ | _, _ | _⟩ <;> decide
  · rintro ⟨_ | _⟩ <;> decide

/-- C6: `saveMECTData` called with value 0 and properties that are empty or all zero
bytes deletes the key (it saves the empty value), so that a subsequent
`RetrieveValue` returns empty, as in a storage where the key was never written; in
every other case the marshaled record is what it stores under the key. -/
theorem saveMECTData_spec (marshaller : Marshalizer) (w : World) (userAcnt key : Bytes)
    (mectData : MECToken) :
    (mectData.Value = 0 → (∀ b ∈ mectData.Properties, b = 0) →
      saveMECTData marshaller w userAcnt mectData key = (SaveKeyValue w userAcnt key [], none) ∧
      RetrieveValue (saveMECTData marshaller w userAcnt mectData key).1 userAcnt key = [] ∧
      RetrieveValue (saveMECTData marshaller w userAcnt mectData key).1 userAcnt key
        = RetrieveValue emptyWorld userAcnt key) ∧
    (¬ (mectData.Value = 0 ∧ ∀ b ∈ mectData.Properties, b = 0) →
      ∀ marshaledData, marshaller.MarshalToken mectData = .ok marshaledData →
        saveMECTData marshaller w userAcnt mectData key
          = (SaveKeyValue w userAcnt key marshaledData, none) ∧
        RetrieveValue (saveMECTData marshaller w userAcnt mectData key).1 userAcnt key
          = marshaledData) := by
  constructor
  · intro hv hprops
    have hp := (arePropertiesEmpty_iff mectData.Properties).2 hprops
    simp [saveMECTData, hv, hp, emptyWorld, RetrieveValue, SaveKeyValue]
  · intro h b hb
    have h2 : ¬ (mectData.Value = 0 ∧ arePropertiesEmpty mectData.Properties = true) := by
      rw [arePropertiesEmpty_iff]; exact h
    unfold saveMECTData
    simp only [Bool.and_eq_true, decide_eq_true_eq, if_neg h2, hb]
    exact ⟨trivial, RetrieveValue_SaveKeyValue_same w userAcnt key b⟩

/-- C6 at two sample records: value 0 (key deleted) and value 5 (record stored). -/
theorem saveMECTData_spec_witness :
    (saveMECTData referenceMarshalizer emptyWorld [1] (MECToken.mk0 Fungible 0) [2]
        = (SaveKeyValue emptyWorld [1] [2] [], none) ∧
      RetrieveValue (saveMECTData referenceMarshalizer emptyWorld [1]
        (MECToken.mk0 Fungible 0) [2]).1 [1] [2] = [] ∧
      RetrieveValue (saveMECTData referenceMarshalizer emptyWorld [1]
        (MECToken.mk0 Fungible 0) [2]).1 [1] [2] = RetrieveValue emptyWorld [1] [2]) ∧
    (saveMECTData referenceMarshalizer emptyWorld [1] (MECToken.mk0 Fungible 5) [2]
        = (SaveKeyValue emptyWorld [1] [2] (encodeToken (MECToken.mk0 Fungible 5)), none) ∧
      RetrieveValue (saveMECTData referenceMarshalizer emptyWorld [1]
        (MECToken.mk0 Fungible 5) [2]).1 [1] [2] = encodeToken (MECToken.mk0 Fungible 5)) :=
  ⟨(saveMECTData_spec referenceMarshalizer emptyWorld [1] [2] (MECToken.mk0 Fungible 0)).1
      (by decide) (by decide),
   (saveMECTData_spec referenceMarshalizer emptyWorld [1] [2] (MECToken.mk0 Fungible 5)).2
      (by decide) (encodeToken (MECToken.mk0 Fungible 5)) rfl⟩

/-- C7, amended: for a single-token transfer that passes its argument, gas and
limited-transfer checks, with the error-recovery flag unset: if the fungible record of
the sender is frozen and the sender is not the MECT system smart-contract address, the
call fails with `ErrMECTIsFrozenForAccount` and changes nothing; if the fungible
record of a destination other than the sender is frozen, the destination is not the
system smart-contract address, the sender leg went through and the destination is
payable, the call fails with `ErrMECTIsFrozenForAccount`. With the flag set, a lawful
marshaller, a payable destination, a fungible sender record holding at least the amount
and a fungible destination record, the call succeeds. -/
theorem transfer_frozen (c : CoreConfig) (e : mectTransfer) (w : World)
    (acntSnd acntDst : Option Bytes) (input : ContractCallInput)
    (hbasic : checkBasicMECTArguments (some input) = none)
    (hmeta : (decide (e.shardCoordinator.ComputeId input.RecipientAddr = c.MetachainShardId)
      && !e.flagTransferToMeta) = false)
    (hvalue : 0 < bytesToNat (input.Arguments.getD 1 []))
    (hgas : ¬ input.GasProvided < e.funcGasCost) :
    (∀ snd t, acntSnd = some snd → input.ReturnCallAfterError = false →
      checkIfTransferCanHappenWithLimitedTransfer c w
        (if e.flagCheckCorrectTokenID then input.Arguments.getD 0 []
          else e.keyPrefix ++ input.Arguments.getD 0 [])
        (e.keyPrefix ++ input.Arguments.getD 0 []) input.CallerAddr input.RecipientAddr
        e.globalSettingsHandler e.rolesHandler acntSnd acntDst input.ReturnCallAfterError
        = none →
      snd ≠ c.MECTSCAddress →
      getMECTDataFromKey e.marshaller w snd (e.keyPrefix ++ input.Arguments.getD 0 []) = .ok t →
      t.TokenType = Fungible →
      (MECTUserMetadataFromBytes t.Properties).Frozen = true →
      mectTransfer.ProcessBuiltinFunction c e w acntSnd acntDst (some input)
        = (w, .error .ErrMECTIsFrozenForAccount)) ∧
    (∀ dst t w1, acntDst = some dst → input.ReturnCallAfterError = false →
      checkIfTransferCanHappenWithLimitedTransfer c w
        (if e.flagCheckCorrectTokenID then input.Arguments.getD 0 []
          else e.keyPrefix ++ input.Arguments.getD 0 [])
        (e.keyPrefix ++ input.Arguments.getD 0 []) input.CallerAddr input.RecipientAddr
        e.globalSettingsHandler e.rolesHandler acntSnd acntDst input.ReturnCallAfterError
        = none →
      dst ≠ c.MECTSCAddress → acntSnd ≠ some dst →
      mectTransfer.debitSender c e w acntSnd input (e.keyPrefix ++ input.Arguments.getD 0 [])
        ((bytesToNat (input.Arguments.getD 1 []) : Nat) : Int) = (w1, none) →
      e.payableHandler.CheckPayable input input.RecipientAddr MinLenArgumentsMECTTransfer
        = none →
      getMECTDataFromKey e.marshaller w dst (e.keyPrefix ++ input.Arguments.getD 0 []) = .ok t →
      t.TokenType = Fungible →
      (MECTUserMetadataFromBytes t.Properties).Frozen = true →
      mectTransfer.ProcessBuiltinFunction c e w acntSnd acntDst (some input)
        = (w1, .error .ErrMECTIsFrozenForAccount)) ∧
    (input.ReturnCallAfterError = true → e.marshaller.Lawful →
      e.payableHandler.CheckPayable input input.RecipientAddr MinLenArgumentsMECTTransfer
        = none →
      (e.payableHandler.DetermineIsSCCallAfter input input.RecipientAddr
        MinLenArgumentsMECTTransfer = true →
        MinLenArgumentsMECTTransfer < input.Arguments.length) →
      (∀ snd, acntSnd = some snd → ∃ t,
        getMECTDataFromKey e.marshaller w snd (e.keyPrefix ++ input.Arguments.getD 0 [])
          = .ok t ∧ t.TokenType = Fungible ∧
        ((bytesToNat (input.Arguments.getD 1 []) : Nat) : Int) ≤ t.Value) →
      (∀ dst, acntDst = some dst → ∃ t,
        getMECTDataFromKey e.marshaller w dst (e.keyPrefix ++ input.Arguments.getD 0 [])
          = .ok t ∧ t.TokenType = Fungible ∧ 0 ≤ t.Value) →
      ∃ w2 out, mectTransfer.ProcessBuiltinFunction c e w acntSnd acntDst (some input)
        = (w2, .ok out)) := by
  refine ⟨?_, ?_, ?_⟩
  · intro snd t hsnd hflag hlimited hsc hget hfun hfrozen
    subst hsnd
    rw [transfer_eval c e w (some snd) acntDst input hbasic hmeta hvalue hlimited]
    have hadd := addToMECTBalance_eval c e.marshaller e.globalSettingsHandler w snd
      (e.keyPrefix ++ input.Arguments.getD 0 [])
      (-((bytesToNat (input.Arguments.getD 1 []) : Nat) : Int)) input.ReturnCallAfterError
      t hget hfun
    rw [hflag, checkFrozeAndPause_frozen c _ w snd _ t hsc hfrozen] at hadd
    simp only [mectTransfer.debitSender, hgas, if_false, hflag, hadd]
  · intro dst t w1 hdst hflag hlimited hsc hne hdeb hpay hget hfun hfrozen
    subst hdst
    rw [transfer_eval c e w acntSnd (some dst) input hbasic hmeta hvalue hlimited]
    have hframe : RetrieveValue w1 dst (e.keyPrefix ++ input.Arguments.getD 0 [])
        = RetrieveValue w dst (e.keyPrefix ++ input.Arguments.getD 0 []) := by
      cases acntSnd with
      | none =>
        simp only [mectTransfer.debitSender, Prod.mk.injEq, and_true] at hdeb
        rw [hdeb]
      | some snd =>
        have h1 := debitSender_ok _ _ _ _ _ _ _ _ hdeb
        have h2 := addToMECTBalance_frame c e.marshaller e.globalSettingsHandler w snd
          (e.keyPrefix ++ input.Arguments.getD 0 [])
          (-((bytesToNat (input.Arguments.getD 1 []) : Nat) : Int))
          input.ReturnCallAfterError dst (e.keyPrefix ++ input.Arguments.getD 0 [])
          (Or.inl (fun hds => hne (by rw [hds])))
        rw [h1] at h2
        exact h2
    have hget1 : getMECTDataFromKey e.marshaller w1 dst
        (e.keyPrefix ++ input.Arguments.getD 0 []) = .ok t := by
      rw [getMECTDataFromKey_congr e.marshaller w w1 dst _ hframe]
      exact hget
    have hadd := addToMECTBalance_eval c e.marshaller e.globalSettingsHandler w1 dst
      (e.keyPrefix ++ input.Arguments.getD 0 [])
      ((bytesToNat (input.Arguments.getD 1 []) : Nat) : Int) input.ReturnCallAfterError
      t hget1 hfun
    rw [hflag, checkFrozeAndPause_frozen c _ w1 dst _ t hsc hfrozen] at hadd
    simp only [hdeb, mectTransfer.creditDestination, hpay, hflag, hadd]
  · intro hflag hlaw hpay hsc hsnd hdst
    have hlimited : checkIfTransferCanHappenWithLimitedTransfer c w
        (if e.flagCheckCorrectTokenID then input.Arguments.getD 0 []
          else e.keyPrefix ++ input.Arguments.getD 0 [])
        (e.keyPrefix ++ input.Arguments.getD 0 []) input.CallerAddr input.RecipientAddr
        e.globalSettingsHandler e.rolesHandler acntSnd acntDst input.ReturnCallAfterError
        = none := by
      rw [hflag]
      exact checkIfTransfer_flag _ _ _ _ _ _ _ _ _ _
    rw [transfer_eval c e w acntSnd acntDst input hbasic hmeta hvalue hlimited]
    -- the sender leg
    have hdebit : ∃ w1, mectTransfer.debitSender c e w acntSnd input
        (e.keyPrefix ++ input.Arguments.getD 0 [])
        ((bytesToNat (input.Arguments.getD 1 []) : Nat) : Int) = (w1, none) ∧
        ∀ dst, acntDst = some dst → ∃ t,
          getMECTDataFromKey e.marshaller w1 dst (e.keyPrefix ++ input.Arguments.getD 0 [])
            = .ok t ∧ t.TokenType = Fungible ∧ 0 ≤ t.Value := by
      cases acntSnd with
      | none => exact ⟨w, rfl, hdst⟩
      | some snd =>
        obtain ⟨t, hget, hfun, hbal⟩ := hsnd snd rfl
        obtain ⟨w1, hadd, t1, hget1, hfun1, hval1⟩ := addToMECTBalance_succeeds c e.marshaller
          hlaw e.globalSettingsHandler w snd (e.keyPrefix ++ input.Arguments.getD 0 [])
          (-((bytesToNat (input.Arguments.getD 1 []) : Nat) : Int)) input.ReturnCallAfterError
          t hget hfun (by rw [hflag]; exact checkFrozeAndPause_flag _ _ _ _ _ _) (by omega)
        refine ⟨w1, ?_, ?_⟩
        · simp only [mectTransfer.debitSender, hgas, if_false, hadd]
        · intro dst hd
          by_cases hsd : dst = snd
          · subst hsd
            exact ⟨t1, hget1, hfun1, by omega⟩
          · obtain ⟨td, hgd, hfd, hvd⟩ := hdst dst hd
            have h2 := addToMECTBalance_frame c e.marshaller e.globalSettingsHandler w snd
              (e.keyPrefix ++ input.Arguments.getD 0 [])
              (-((bytesToNat (input.Arguments.getD 1 []) : Nat) : Int))
              input.ReturnCallAfterError dst (e.keyPrefix ++ input.Arguments.getD 0 [])
              (Or.inl hsd)
            rw [hadd] at h2
            refine ⟨td, ?_, hfd, hvd⟩
            rw [getMECTDataFromKey_congr e.marshaller w w1 dst _ h2]
            exact hgd
    obtain ⟨w1, hdeb, hdst1⟩ := hdebit
    simp only [hdeb]
    cases acntDst with
    | none => exact ⟨w1, _, rfl⟩
    | some dst =>
      obtain ⟨td, hgd, hfd, hvd⟩ := hdst1 dst rfl
      obtain ⟨w2, hadd, _⟩ := addToMECTBalance_succeeds c e.marshaller hlaw
        e.globalSettingsHandler w1 dst (e.keyPrefix ++ input.Arguments.getD 0 [])
        ((bytesToNat (input.Arguments.getD 1 []) : Nat) : Int) input.ReturnCallAfterError
        td hgd hfd (by rw [hflag]; exact checkFrozeAndPause_flag _ _ _ _ _ _) (by omega)
      obtain ⟨out, hout⟩ := creditDestination_succeeds c e w1 w2 acntSnd dst input
        (e.keyPrefix ++ input.Arguments.getD 0 []) (input.Arguments.getD 0 [])
        ((bytesToNat (input.Arguments.getD 1 []) : Nat) : Int)
        (e.payableHandler.DetermineIsSCCallAfter input input.RecipientAddr
          MinLenArgumentsMECTTransfer)
        { ReturnData := [], ReturnCode := .Ok
          GasRemaining := c.computeGasRemaining acntSnd input.GasProvided e.funcGasCost
          OutputAccounts := [], Logs := [] } hpay hadd hsc
      exact ⟨w2, out, hout⟩

/-- C7 amended, at the frozen sample account `[2]` sending to `[1]`: the call fails with
the flag unset and succeeds with the flag set. -/
theorem transfer_frozen_witness :
    checkBasicMECTArguments (some (sampleReverseInput false)) = none ∧
    0 < bytesToNat ((sampleReverseInput false).Arguments.getD 1 []) ∧
    ¬ (sampleReverseInput false).GasProvided < sampleTransfer.funcGasCost ∧
    getMECTDataFromKey referenceMarshalizer frozenWorld [2] sampleKey
      = .ok sampleFrozenRecord ∧
    (MECTUserMetadataFromBytes sampleFrozenRecord.Properties).Frozen = true ∧
    mectTransfer.ProcessBuiltinFunction sampleConfig sampleTransfer frozenWorld (some [2])
      (some [1]) (some (sampleReverseInput false))
      = (frozenWorld, .error .ErrMECTIsFrozenForAccount) ∧
    (∃ w2 out, mectTransfer.ProcessBuiltinFunction sampleConfig sampleTransfer frozenWorld
      (some [2]) (some [1]) (some (sampleReverseInput true)) = (w2, .ok out)) :=
  ⟨by decide, by decide, by decide, by decide, by decide,
   (transfer_frozen sampleConfig sampleTransfer frozenWorld (some [2]) (some [1])
      (sampleReverseInput false) (by decide) (by decide) (by decide) (by decide)).1
      [2] sampleFrozenRecord rfl rfl (by decide) (by decide) (by decide) (by decide) (by decide),
   (transfer_frozen sampleConfig sampleTransfer frozenWorld (some [2]) (some [1])
      (sampleReverseInput true) (by decide) (by decide) (by decide) (by decide)).2.2
      rfl referenceMarshalizer_lawful rfl (by decide)
      (fun snd hs => by
        cases hs
        exact ⟨sampleFrozenRecord, by decide, by decide, by decide⟩)
      (fun dst hd => by
        cases hd
        exact ⟨sampleRecord, by decide, by decide, by decide⟩)⟩

/-- C7 as stated fails for the account at the MECT system smart-contract address: the
transfer passes its argument, gas and limited-transfer checks, the record of the sender
is frozen and the error-recovery flag is unset, yet the call succeeds. -/
theorem transfer_frozen_system_sc_counterexample :
    checkBasicMECTArguments (some scTransferInput) = none ∧
    ¬ scTransferInput.GasProvided < sampleTransfer.funcGasCost ∧
    checkIfTransferCanHappenWithLimitedTransfer sampleConfig scFrozenWorld [7] sampleKey
      scTransferInput.CallerAddr scTransferInput.RecipientAddr
      sampleTransfer.globalSettingsHandler sampleTransfer.rolesHandler
      (some sampleConfig.MECTSCAddress) (some [2]) scTransferInput.ReturnCallAfterError = none ∧
    getMECTDataFromKey referenceMarshalizer scFrozenWorld sampleConfig.MECTSCAddress sampleKey
      = .ok sampleFrozenRecord ∧
    (MECTUserMetadataFromBytes sampleFrozenRecord.Properties).Frozen = true ∧
    scTransferInput.ReturnCallAfterError = false ∧
    (mectTransfer.ProcessBuiltinFunction sampleConfig sampleTransfer scFrozenWorld
      (some sampleConfig.MECTSCAddress) (some [2]) (some scTransferInput)).2
      ≠ .error .ErrMECTIsFrozenForAccount ∧
    (mectTransfer.ProcessBuiltinFunction sampleConfig sampleTransfer scFrozenWorld
      (some sampleConfig.MECTSCAddress) (some [2]) (some scTransferInput)).2.toBool = true := by
  decide

/-- C8: `checkIfTransferCanHappenWithLimitedTransfer` returns no error if and only if
the error-recovery flag is set, or the sender handle is absent, or the token is not
flagged limited-transfer, or the global settings handler reports the sender or the
destination on the transfer-role address list, or the role handler grants the
transfer role to the sender account, or it grants it to the destination account. -/
theorem checkIfTransferCanHappenWithLimitedTransfer_iff (c : CoreConfig) (w : World)
    (tokenID mectTokenKey senderAddress destinationAddress : Bytes)
    (globalSettingsHandler : MECTGlobalSettingsHandler) (roleHandler : MECTRoleHandler)
    (acntSnd acntDst : Option Bytes) (isReturnWithError : Bool) :
    checkIfTransferCanHappenWithLimitedTransfer c w tokenID mectTokenKey senderAddress
        destinationAddress globalSettingsHandler roleHandler acntSnd acntDst isReturnWithError
      = none ↔
    (isReturnWithError = true ∨ acntSnd = none ∨
      globalSettingsHandler.IsLimitedTransfer w mectTokenKey = false ∨
      globalSettingsHandler.IsSenderOrDestinationWithTransferRole w senderAddress
        destinationAddress tokenID = true ∨
      roleHandler.CheckAllowedToExecute w acntSnd tokenID c.MECTRoleTransfer = none ∨
      roleHandler.CheckAllowedToExecute w acntDst tokenID c.MECTRoleTransfer = none) := by
  unfold checkIfTransferCanHappenWithLimitedTransfer
  cases isReturnWithError <;> cases acntSnd <;>
    cases globalSettingsHandler.IsLimitedTransfer w mectTokenKey <;>
    cases globalSettingsHandler.IsSenderOrDestinationWithTransferRole w senderAddress
        destinationAddress tokenID <;>
    simp
  all_goals
    cases roleHandler.CheckAllowedToExecute w _ tokenID c.MECTRoleTransfer <;> simp

/-- C9: `CheckAllowedToExecute` returns no error if and only if the account handle is
present, a role list is stored on that account for the token, and the list contains
the action; it returns `ErrNilUserAccount` for an absent handle and
`ErrActionNotAllowed` when no list is stored or the stored list lacks the action. -/
theorem CheckAllowedToExecute_iff (c : CoreConfig) (e : mectRoles) (w : World)
    (account : Option Bytes) (tokenID action : Bytes) :
    (mectRoles.CheckAllowedToExecute c e w account tokenID action = none ↔
      ∃ acnt roles, account = some acnt ∧
        RetrieveValue w acnt (c.roleKeyPrefix ++ tokenID) ≠ [] ∧
        e.marshaller.UnmarshalRoles (RetrieveValue w acnt (c.roleKeyPrefix ++ tokenID))
          = .ok roles ∧
        action ∈ roles.Roles) ∧
    (account = none →
      mectRoles.CheckAllowedToExecute c e w account tokenID action = some .ErrNilUserAccount) ∧
    (∀ acnt, account = some acnt → RetrieveValue w acnt (c.roleKeyPrefix ++ tokenID) = [] →
      mectRoles.CheckAllowedToExecute c e w account tokenID action
        = some .ErrActionNotAllowed) ∧
    (∀ acnt roles, account = some acnt →
      RetrieveValue w acnt (c.roleKeyPrefix ++ tokenID) ≠ [] →
      e.marshaller.UnmarshalRoles (RetrieveValue w acnt (c.roleKeyPrefix ++ tokenID))
        = .ok roles →
      action ∉ roles.Roles →
      mectRoles.CheckAllowedToExecute c e w account tokenID action
        = some .ErrActionNotAllowed) := by
  refine ⟨?_, ?_, ?_, ?_⟩
  · cases account with
    | none => simp [mectRoles.CheckAllowedToExecute]
    | some acnt =>
      rw [CheckAllowedToExecute_eval]
      constructor
      · intro h
        by_cases hempty : RetrieveValue w acnt (c.roleKeyPrefix ++ tokenID) = []
        · simp [hempty] at h
        · rw [if_neg hempty] at h
          cases hu : e.marshaller.UnmarshalRoles
              (RetrieveValue w acnt (c.roleKeyPrefix ++ tokenID)) with
          | error err => rw [hu] at h; simp at h
          | ok roles =>
            rw [hu] at h
            by_cases hmem : action ∈ roles.Roles
            · exact ⟨acnt, roles, rfl, hempty, hu, hmem⟩
            · simp [hmem] at h
      · rintro ⟨a, roles, ha, hne, hu, hmem⟩
        cases ha
        rw [if_neg hne, hu]
        simp [hmem]
  · intro h
    subst h
    rfl
  · intro acnt h hempty
    subst h
    rw [CheckAllowedToExecute_eval, if_pos hempty]
  · intro acnt roles h hne hu hmem
    subst h
    rw [CheckAllowedToExecute_eval, if_neg hne, hu]
    simp [hmem]

/-- An account whose stored role list for token `[7]` is `[MECTRoleLocalMint]`. -/
theorem CheckAllowedToExecute_iff_witness :
    mectRoles.CheckAllowedToExecute sampleConfig sampleRoles emptyWorld none [7]
        sampleConfig.MECTRoleLocalMint = some .ErrNilUserAccount ∧
    mectRoles.CheckAllowedToExecute sampleConfig sampleRoles emptyWorld (some [1]) [7]
        sampleConfig.MECTRoleLocalMint = some .ErrActionNotAllowed ∧
    mectRoles.CheckAllowedToExecute sampleConfig sampleRoles
        (SaveKeyValue emptyWorld [1] (sampleConfig.roleKeyPrefix ++ [7]) [1, 1, 2]) (some [1]) [7]
        sampleConfig.MECTRoleLocalBurn = some .ErrActionNotAllowed ∧
    mectRoles.CheckAllowedToExecute sampleConfig sampleRoles
        (SaveKeyValue emptyWorld [1] (sampleConfig.roleKeyPrefix ++ [7]) [1, 1, 2]) (some [1]) [7]
        sampleConfig.MECTRoleLocalMint = none :=
  ⟨(CheckAllowedToExecute_iff sampleConfig sampleRoles emptyWorld none [7]
      sampleConfig.MECTRoleLocalMint).2.1 rfl,
   (CheckAllowedToExecute_iff sampleConfig sampleRoles emptyWorld (some [1]) [7]
      sampleConfig.MECTRoleLocalMint).2.2.1 [1] rfl (by decide),
   (CheckAllowedToExecute_iff sampleConfig sampleRoles
      (SaveKeyValue emptyWorld [1] (sampleConfig.roleKeyPrefix ++ [7]) [1, 1, 2]) (some [1]) [7]
      sampleConfig.MECTRoleLocalBurn).2.2.2 [1] { Roles := [[2]] } rfl (by decide) (by decide)
      (by decide),
   (CheckAllowedToExecute_iff sampleConfig sampleRoles
      (SaveKeyValue emptyWorld [1] (sampleConfig.roleKeyPrefix ++ [7]) [1, 1, 2]) (some [1]) [7]
      sampleConfig.MECTRoleLocalMint).1.2
      ⟨[1], { Roles := [[2]] }, rfl, by decide, by decide, by decide⟩⟩

/-- C10: NFT create with otherwise valid input (the call succeeds when every role is
granted) and a role account that holds the create role: with quantity exactly 1 it
succeeds, with the same result, whatever the role handler answers for the
add-quantity role; with quantity greater than 1 it succeeds when the account also
holds the add-quantity role, and otherwise fails with the error of that role check,
leaving the storage unchanged. -/
theorem nftCreate_roles (c : CoreConfig) (e : mectNFTCreate) (w : World)
    (acntSnd : Option Bytes) (input : ContractCallInput) (rh : MECTRoleHandler)
    (acct : Bytes) (uris : List Bytes)
    (hvalid : (mectNFTCreate.ProcessBuiltinFunction c { e with rolesHandler := allowAllRoles } w
      acntSnd (some input)).2.toBool = true)
    (hacct : mectNFTCreate.resolveRoleAccount acntSnd input = .ok (some acct, uris))
    (hcreate : rh.CheckAllowedToExecute w (some acct) (input.Arguments.getD 0 [])
      c.MECTRoleNFTCreate = none) :
    (bytesToNat (input.Arguments.getD 1 []) = 1 →
      mectNFTCreate.ProcessBuiltinFunction c { e with rolesHandler := rh } w acntSnd (some input)
        = mectNFTCreate.ProcessBuiltinFunction c { e with rolesHandler := allowAllRoles } w
            acntSnd (some input) ∧
      (mectNFTCreate.ProcessBuiltinFunction c { e with rolesHandler := rh } w acntSnd
        (some input)).2.toBool = true) ∧
    (1 < bytesToNat (input.Arguments.getD 1 []) →
      rh.CheckAllowedToExecute w (some acct) (input.Arguments.getD 0 [])
        c.MECTRoleNFTAddQuantity = none →
      mectNFTCreate.ProcessBuiltinFunction c { e with rolesHandler := rh } w acntSnd (some input)
        = mectNFTCreate.ProcessBuiltinFunction c { e with rolesHandler := allowAllRoles } w
            acntSnd (some input) ∧
      (mectNFTCreate.ProcessBuiltinFunction c { e with rolesHandler := rh } w acntSnd
        (some input)).2.toBool = true) ∧
    (1 < bytesToNat (input.Arguments.getD 1 []) → ∀ err,
      rh.CheckAllowedToExecute w (some acct) (input.Arguments.getD 0 [])
        c.MECTRoleNFTAddQuantity = some err →
      mectNFTCreate.ProcessBuiltinFunction c { e with rolesHandler := rh } w acntSnd (some input)
        = (w, .error err)) := by
  have hall := nftCreate_valid_inv c { e with rolesHandler := allowAllRoles } w acntSnd input
    acct uris hacct hvalid
  have hsame : ∀ r : World × Except BuiltinError VMOutput,
      mectNFTCreate.createForAccount c { e with rolesHandler := rh } w acct uris input = r →
      mectNFTCreate.ProcessBuiltinFunction c { e with rolesHandler := rh } w acntSnd (some input)
        = r := by
    intro r hr
    have hv := hvalid
    unfold mectNFTCreate.ProcessBuiltinFunction at hv ⊢
    cases h1 : checkMECTNFTCreateBurnAddInput acntSnd (some input) e.funcGasCost with
    | some e1 =>
      simp only [h1, Except.toBool] at hv
      cases hv
    | none =>
      simp only [h1] at hv ⊢
      by_cases hlen : input.Arguments.length
          < (if input.CallType = .ExecOnDestByCaller then 8 else 7)
      · simp only [hlen, if_true, Except.toBool] at hv
        cases hv
      · simp only [hlen, if_false, hacct]
        exact hr
  refine ⟨?_, ?_, ?_⟩
  · intro hq
    have heq := hsame _ (createForAccount_roles_eq c e w acct uris input rh hcreate
      (fun h => by omega))
    rw [← hall] at heq
    exact ⟨heq, by rw [heq]; exact hvalid⟩
  · intro hq hadd
    have heq := hsame _ (createForAccount_roles_eq c e w acct uris input rh hcreate
      (fun _ => hadd))
    rw [← hall] at heq
    exact ⟨heq, by rw [heq]; exact hvalid⟩
  · intro hq err hden
    rw [hall] at hvalid
    exact hsame _ (createForAccount_addQuantity_denied c e w acct uris input rh err hvalid
      hcreate hq hden)

/-- C10 at the sample account holding only the create role: quantity 1 is created,
quantity 2 is refused with `ErrActionNotAllowed`. -/
theorem nftCreate_roles_witness :
    (mectNFTCreate.ProcessBuiltinFunction sampleConfig
      { sampleCreate with rolesHandler := allowAllRoles } createRoleWorld (some [1])
      (some (sampleCreateInput [1]))).2.toBool = true ∧
    mectNFTCreate.resolveRoleAccount (some [1]) (sampleCreateInput [1])
      = .ok (some [1], [[117]]) ∧
    (mectNFTCreate.ProcessBuiltinFunction sampleConfig
      { sampleCreate with rolesHandler := mectRoles.toHandler sampleConfig sampleRoles }
      createRoleWorld (some [1]) (some (sampleCreateInput [1]))).2.toBool = true ∧
    mectNFTCreate.ProcessBuiltinFunction sampleConfig
      { sampleCreate with rolesHandler := mectRoles.toHandler sampleConfig sampleRoles }
      createRoleWorld (some [1]) (some (sampleCreateInput [2]))
      = (createRoleWorld, .error .ErrActionNotAllowed) :=
  ⟨by decide, by decide,
   ((nftCreate_roles sampleConfig sampleCreate createRoleWorld (some [1]) (sampleCreateInput [1])
      (mectRoles.toHandler sampleConfig sampleRoles) [1] [[117]] (by decide) (by decide)
      (by decide)).1 (by decide)).2,
   (nftCreate_roles sampleConfig sampleCreate createRoleWorld (some [1]) (sampleCreateInput [2])
      (mectRoles.toHandler sampleConfig sampleRoles) [1] [[117]] (by decide) (by decide)
      (by decide)).2.2 (by decide) .ErrActionNotAllowed (by decide)⟩

/-- C11, the code at a royalties argument above the 32-bit range: the argument
`[1, 0, 0, 0, 0]` is the big-endian integer `2^32 > 10000`, the conversion to `uint32`
turns it into 0 before the comparison with `MaxRoyalty`, and the call succeeds: the
nonce counter becomes 1 and the record mirrored on the system account carries
royalties 0. The argument `[39, 17]` (10001) is refused with `ErrInvalidArguments`. -/
theorem nftCreate_royalties_truncated :
    bytesToNat [1, 0, 0, 0, 0] = 2 ^ 32 ∧ MaxRoyalty < bytesToNat [1, 0, 0, 0, 0] ∧
    (mectNFTCreate.ProcessBuiltinFunction sampleConfig sampleCreate createRoleWorld (some [1])
      (some (royaltiesInput [1, 0, 0, 0, 0]))).2.toBool = true ∧
    getLatestNonce sampleConfig
      (mectNFTCreate.ProcessBuiltinFunction sampleConfig sampleCreate createRoleWorld (some [1])
        (some (royaltiesInput [1, 0, 0, 0, 0]))).1 [1] [7] = 1 ∧
    (getMECTDataFromKey referenceMarshalizer
      (mectNFTCreate.ProcessBuiltinFunction sampleConfig sampleCreate createRoleWorld (some [1])
        (some (royaltiesInput [1, 0, 0, 0, 0]))).1 sampleConfig.SystemAccountAddress
      (computeMECTNFTTokenKey sampleKey 1)).toOption.map
        (fun t => t.TokenMetaData.map (fun m => m.Royalties)) = some (some 0) ∧
    (mectNFTCreate.ProcessBuiltinFunction sampleConfig sampleCreate createRoleWorld (some [1])
      (some (royaltiesInput [39, 17]))).2 = .error .ErrInvalidArguments := by
  decide

/-- C12: on a successful NFT create by a role account other than the system account,
over the storage handler of `mectDataStorage` with a lawful marshaller (the nonce key
being another key than the new token key): the new nonce is the role account's
previous latest-nonce counter plus one in `uint64` arithmetic, which is the counter
plus one whenever the counter is below `2^64 - 1`; the counter read back after the
call is that nonce; the return data is the single entry holding the nonce's minimal
big-endian bytes; and the record stored on the role account under the token key
followed by the nonce bytes decodes to type NonFungible and to the requested quantity. -/
theorem nftCreate_nonce (c : CoreConfig) (e : mectNFTCreate) (s : mectDataStorage) (w : World)
    (acntSnd : Option Bytes) (input : ContractCallInput) (acct : Bytes) (uris : List Bytes)
    (hs : e.mectStorageHandler = mectDataStorage.toHandler c s) (hlaw : s.marshaller.Lawful)
    (hacct : mectNFTCreate.resolveRoleAccount acntSnd input = .ok (some acct, uris))
    (hne : acct ≠ c.SystemAccountAddress)
    (hkeys : getNonceKey c (input.Arguments.getD 0 []) ≠
      (e.keyPrefix ++ input.Arguments.getD 0 []) ++
        natToBytes (addUint64 (getLatestNonce c w acct (input.Arguments.getD 0 [])) 1))
    (hok : (mectNFTCreate.ProcessBuiltinFunction c e w acntSnd (some input)).2.toBool = true) :
    (getLatestNonce c w acct (input.Arguments.getD 0 []) < 2 ^ 64 - 1 →
      addUint64 (getLatestNonce c w acct (input.Arguments.getD 0 [])) 1
        = getLatestNonce c w acct (input.Arguments.getD 0 []) + 1) ∧
    getLatestNonce c (mectNFTCreate.ProcessBuiltinFunction c e w acntSnd (some input)).1 acct
      (input.Arguments.getD 0 [])
        = addUint64 (getLatestNonce c w acct (input.Arguments.getD 0 [])) 1 ∧
    (∃ out, (mectNFTCreate.ProcessBuiltinFunction c e w acntSnd (some input)).2 = .ok out ∧
      out.ReturnData
        = [natToBytes (addUint64 (getLatestNonce c w acct (input.Arguments.getD 0 [])) 1)]) ∧
    ∃ rec, getMECTDataFromKey s.marshaller
        (mectNFTCreate.ProcessBuiltinFunction c e w acntSnd (some input)).1 acct
        ((e.keyPrefix ++ input.Arguments.getD 0 []) ++
          natToBytes (addUint64 (getLatestNonce c w acct (input.Arguments.getD 0 [])) 1))
          = .ok rec ∧
      rec.TokenType = NonFungible ∧
      rec.Value = (bytesToNat (input.Arguments.getD 1 []) : Int) := by
  have hpbf := nftCreate_valid_inv c e w acntSnd input acct uris hacct hok
  rw [hpbf] at hok ⊢
  obtain ⟨gasToUse, royalties, hstore, hq, _⟩ := createForAccount_ok_store c e w acct uris input hok
  rw [hstore] at hok ⊢
  refine ⟨?_, storeNewToken_ok c e s hs hlaw w acct uris input _ gasToUse royalties _ hne hq
    hkeys hok⟩
  intro hlt
  unfold addUint64 twoPow64
  exact Nat.mod_eq_of_lt (by omega)

/-- C12 at the sample create call of quantity 1 by account `[1]`, whose counter for
token `[7]` is 0 before the call and 1 after it. -/
theorem nftCreate_nonce_witness :
    getLatestNonce sampleConfig
      (mectNFTCreate.ProcessBuiltinFunction sampleConfig sampleCreate createRoleWorld (some [1])
        (some (sampleCreateInput [1]))).1 [1] [7]
      = addUint64 (getLatestNonce sampleConfig createRoleWorld [1] [7]) 1 ∧
    addUint64 (getLatestNonce sampleConfig createRoleWorld [1] [7]) 1 = 1 :=
  ⟨(nftCreate_nonce sampleConfig sampleCreate sampleStorage createRoleWorld (some [1])
      (sampleCreateInput [1]) [1] [[117]] rfl referenceMarshalizer_lawful (by decide) (by decide)
      (by decide) (by decide)).2.1, by decide⟩

/-- C13 (amended): a successful role call that names the NFT-create-multi-shard
role stores, as the account's latest-nonce counter for the token, the start nonce
`floor((2^64 - 1) / 256) * b`, where `b` is the last byte of the recipient address
(the role list is stored under a key other than the nonce key). -/
theorem setRole_multiShard_start_nonce (c : CoreConfig) (e : mectRoles) (w : World)
    (acntDst : Bytes) (input : ContractCallInput) (b : Nat)
    (hrun : (mectRoles.ProcessBuiltinFunction c e w (some acntDst) (some input)).2.toBool = true)
    (hrole : c.MECTRoleNFTCreateMultiShard ∈ input.Arguments.drop 1)
    (hlast : input.RecipientAddr.getLast? = some b) (hb : b < 256)
    (hkeys : getNonceKey c (input.Arguments.getD 0 []) ≠
      c.roleKeyPrefix ++ input.Arguments.getD 0 []) :
    getLatestNonce c (mectRoles.ProcessBuiltinFunction c e w (some acntDst) (some input)).1
      acntDst (input.Arguments.getD 0 []) = (2 ^ 64 - 1) / 256 * b := by
  obtain ⟨out, hout⟩ := run_ok_of_toBool _ hrun
  obtain ⟨roles, isNew, w1, bs, _, hseed, _, hw2⟩ :=
    mectRoles_ok_inv c e w acntDst input _ out hout
  rcases saveStartNonce_none c w acntDst _ _ _ w1 hseed with ⟨hnot, _⟩ | ⟨_, n, hn, hw1⟩
  · exact absurd hrole hnot
  · have hval : n = (2 ^ 64 - 1) / 256 * b := by
      unfold computeStartNonce at hn
      simp only [hlast, Option.some.injEq] at hn
      rw [← hn]
      unfold mulUint64 maxUint64 twoPow64
      have : (2 ^ 64 - 1) / 256 * b < 2 ^ 64 := by
        have h256 : ((2 : Nat) ^ 64 - 1) / 256 * b ≤ (2 ^ 64 - 1) / 256 * 255 :=
          Nat.mul_le_mul_left _ (by omega)
        have : ((2 : Nat) ^ 64 - 1) / 256 * 255 < 2 ^ 64 := by norm_num
        omega
      exact Nat.mod_eq_of_lt this
    have hlt : n < twoPow64 := by
      rw [hval]
      unfold twoPow64
      have h256 : ((2 : Nat) ^ 64 - 1) / 256 * b ≤ (2 ^ 64 - 1) / 256 * 255 :=
        Nat.mul_le_mul_left _ (by omega)
      have : ((2 : Nat) ^ 64 - 1) / 256 * 255 < 2 ^ 64 := by norm_num
      omega
    rw [hw2, getLatestNonce_congr c w1 _ acntDst _
      (RetrieveValue_SaveKeyValue_of_ne w1 acntDst _ bs acntDst _ (Or.inr hkeys)), hw1,
      getLatestNonce_saveLatestNonce c w acntDst _ n hlt, hval]

/-- C13 at the grant of the multi-shard create role to the account `[9, 1]`, whose
address ends in the byte 1. -/
theorem setRole_multiShard_start_nonce_witness :
    getLatestNonce sampleConfig
      (mectRoles.ProcessBuiltinFunction sampleConfig sampleRoles emptyWorld (some [9, 1])
        (some multiShardInput)).1 [9, 1] [7] = (2 ^ 64 - 1) / 256 * 1 :=
  setRole_multiShard_start_nonce sampleConfig sampleRoles emptyWorld [9, 1] multiShardInput 1
    (by decide) (by decide) (by decide) (by decide) (by decide)

/-- C13, counterexample: granting the multi-shard create role to an account whose
address ends in the byte 1 stores the counter 72057594037927935, which is
`floor((2^64 - 1) / 256)`, not `(2^64 / 256) * 1 = 72057594037927936`. -/
theorem setRole_multiShard_start_nonce_counterexample :
    (mectRoles.ProcessBuiltinFunction sampleConfig sampleRoles emptyWorld (some [9, 1])
      (some multiShardInput)).2.toBool = true ∧
    getLatestNonce sampleConfig
      (mectRoles.ProcessBuiltinFunction sampleConfig sampleRoles emptyWorld (some [9, 1])
        (some multiShardInput)).1 [9, 1] [7] = 72057594037927935 ∧
    getLatestNonce sampleConfig
      (mectRoles.ProcessBuiltinFunction sampleConfig sampleRoles emptyWorld (some [9, 1])
        (some multiShardInput)).1 [9, 1] [7] ≠ 2 ^ 64 / 256 * 1 := by
  decide

/-- C14: for addresses whose last bytes are `a < b`, `computeStartNonce` returns the
products `floor((2^64 - 1) / 256) * a` and `floor((2^64 - 1) / 256) * b` without
wrapping around `uint64`, the first is strictly below the second, and the gap is at
least `floor((2^64 - 1) / 256)`; for an address whose last byte is 1 the start nonce is
exactly `floor((2^64 - 1) / 256)`. -/
theorem computeStartNonce_ranges (addrA addrB : Bytes) (a b : Nat)
    (ha : addrA.getLast? = some a) (hb : addrB.getLast? = some b) (hab : a < b)
    (hbyte : b < 256) :
    ∃ startA startB, computeStartNonce addrA = some startA ∧
      computeStartNonce addrB = some startB ∧
      startA = (2 ^ 64 - 1) / 256 * a ∧ startB = (2 ^ 64 - 1) / 256 * b ∧
      startB < 2 ^ 64 ∧ startA < startB ∧ (2 ^ 64 - 1) / 256 ≤ startB - startA ∧
      (b = 1 → startB = (2 ^ 64 - 1) / 256) := by
  have hk : ((2 : Nat) ^ 64 - 1) / 256 = 72057594037927935 := by norm_num
  have hbound : ∀ x, x < 256 → (72057594037927935 * x) % 2 ^ 64 = 72057594037927935 * x := by
    intro x hx
    apply Nat.mod_eq_of_lt
    have : 72057594037927935 * x ≤ 72057594037927935 * 255 := Nat.mul_le_mul_left _ (by omega)
    omega
  refine ⟨(2 ^ 64 - 1) / 256 * a, (2 ^ 64 - 1) / 256 * b, ?_, ?_, rfl, rfl, ?_, ?_, ?_, ?_⟩
  · unfold computeStartNonce mulUint64 maxUint64 twoPow64
    simp only [ha, hk, Option.some.injEq]
    exact hbound a (by omega)
  · unfold computeStartNonce mulUint64 maxUint64 twoPow64
    simp only [hb, hk, Option.some.injEq]
    exact hbound b hbyte
  · rw [hk]
    have : 72057594037927935 * b ≤ 72057594037927935 * 255 := Nat.mul_le_mul_left _ (by omega)
    omega
  · rw [hk]
    omega
  · rw [hk]
    omega
  · intro h1
    rw [h1, hk]

/-- C14 at two addresses ending in the bytes 3 and 7. -/
theorem computeStartNonce_ranges_witness :
    ∃ startA startB, computeStartNonce [9, 3] = some startA ∧
      computeStartNonce [9, 7] = some startB ∧
      startA = (2 ^ 64 - 1) / 256 * 3 ∧ startB = (2 ^ 64 - 1) / 256 * 7 ∧
      startB < 2 ^ 64 ∧ startA < startB ∧ (2 ^ 64 - 1) / 256 ≤ startB - startA ∧
      (7 = 1 → startB = (2 ^ 64 - 1) / 256) :=
  computeStartNonce_ranges [9, 3] [9, 7] 3 7 (by decide) (by decide) (by decide) (by decide)

/-- C15, the code at a role that is granted again: account `[9, 1]` stores the
duplicate-free role list `[LocalMint]` for token `[7]`; a set-role call naming
`LocalMint` succeeds and the list stored afterwards is `[LocalMint, LocalMint]`, which
has a duplicate. The earlier role is kept in front. -/
theorem setRole_appends_duplicate :
    getMECTRolesForAcnt referenceMarshalizer mintRoleWorld [9, 1]
      (sampleConfig.roleKeyPrefix ++ [7])
      = .ok ({ Roles := [sampleConfig.MECTRoleLocalMint] }, false) ∧
    (mectRoles.ProcessBuiltinFunction sampleConfig sampleRoles mintRoleWorld (some [9, 1])
      (some (roleInput [sampleConfig.MECTRoleLocalMint]))).2.toBool = true ∧
    getMECTRolesForAcnt referenceMarshalizer
      (mectRoles.ProcessBuiltinFunction sampleConfig sampleRoles mintRoleWorld (some [9, 1])
        (some (roleInput [sampleConfig.MECTRoleLocalMint]))).1 [9, 1]
      (sampleConfig.roleKeyPrefix ++ [7])
      = .ok ({ Roles := [sampleConfig.MECTRoleLocalMint, sampleConfig.MECTRoleLocalMint] },
          false) ∧
    ¬ [sampleConfig.MECTRoleLocalMint, sampleConfig.MECTRoleLocalMint].Nodup := by
  decide

/-- C16 (amended): after a successful unset-role call on an account whose stored role
list for the token is duplicate-free, the bytes stored for the (token, account) pair
are the marshalling of the previous list without the named roles, the remaining
roles in their previous order; no named role is in that list, and
`CheckAllowedToExecute` fails with `ErrActionNotAllowed` for every named role. -/
theorem unsetRole_removes (c : CoreConfig) (e : mectRoles) (w : World) (acntDst : Bytes)
    (input : ContractCallInput) (roles : MECTRoles) (isNew : Bool)
    (hunset : e.set = false) (hlaw : e.marshaller.Lawful)
    (hstored : getMECTRolesForAcnt e.marshaller w acntDst
      (c.roleKeyPrefix ++ input.Arguments.getD 0 []) = .ok (roles, isNew))
    (hnodup : roles.Roles.Nodup)
    (hok : (mectRoles.ProcessBuiltinFunction c e w (some acntDst) (some input)).2.toBool = true) :
    e.marshaller.MarshalRoles
      { Roles := roles.Roles.filter (fun r => decide (r ∉ input.Arguments.drop 1)) }
      = .ok (RetrieveValue (mectRoles.ProcessBuiltinFunction c e w (some acntDst) (some input)).1
          acntDst (c.roleKeyPrefix ++ input.Arguments.getD 0 [])) ∧
    ∀ R ∈ input.Arguments.drop 1,
      R ∉ roles.Roles.filter (fun r => decide (r ∉ input.Arguments.drop 1)) ∧
      mectRoles.CheckAllowedToExecute c e
        (mectRoles.ProcessBuiltinFunction c e w (some acntDst) (some input)).1 (some acntDst)
        (input.Arguments.getD 0 []) R = some .ErrActionNotAllowed := by
  obtain ⟨out, hout⟩ := run_ok_of_toBool _ hok
  obtain ⟨roles1, isNew1, w1, b, hget, _, hm, hw2⟩ :=
    mectRoles_ok_inv c e w acntDst input _ out hout
  rw [hstored] at hget
  injection hget with hget
  injection hget with hroles _
  subst hroles
  simp only [hunset, Bool.false_eq_true, if_false] at hm
  have hlist : deleteRoles roles (input.Arguments.drop 1)
      = { Roles := roles.Roles.filter (fun r => decide (r ∉ input.Arguments.drop 1)) } := by
    have := deleteRoles_nodup (input.Arguments.drop 1) roles hnodup
    cases hd : deleteRoles roles (input.Arguments.drop 1) with
    | mk l =>
      rw [hd] at this
      simp only at this
      rw [this]
  rw [hlist] at hm
  have hval : RetrieveValue (mectRoles.ProcessBuiltinFunction c e w (some acntDst)
      (some input)).1 acntDst (c.roleKeyPrefix ++ input.Arguments.getD 0 []) = b := by
    rw [hw2]
    exact RetrieveValue_SaveKeyValue_same _ _ _ _
  refine ⟨by rw [hval]; exact hm, ?_⟩
  intro R hR
  have hnotin : R ∉ roles.Roles.filter (fun r => decide (r ∉ input.Arguments.drop 1)) := by
    intro hmem
    have := (List.mem_filter.mp hmem).2
    simp only [decide_eq_true_eq] at this
    exact this hR
  refine ⟨hnotin, ?_⟩
  rw [CheckAllowedToExecute_eval, hval]
  by_cases hb : b = []
  · simp only [hb, if_true]
  · simp only [hb, if_false]
    obtain ⟨b1, hb1, hun⟩ := hlaw.roles_roundtrip
      { Roles := roles.Roles.filter (fun r => decide (r ∉ input.Arguments.drop 1)) }
    rw [hm] at hb1
    injection hb1 with hb1
    subst hb1
    rw [hun]
    simp only [hnotin, if_false]

/-- C16 at the account `[9, 1]` holding the local-mint and local-burn roles: after
unsetting local mint the stored list is `[LocalBurn]`. -/
theorem unsetRole_removes_witness :
    referenceMarshalizer.MarshalRoles { Roles := [sampleConfig.MECTRoleLocalBurn] }
      = .ok (RetrieveValue (mectRoles.ProcessBuiltinFunction sampleConfig sampleUnsetRoles
          twoRolesWorld (some [9, 1]) (some (roleInput [sampleConfig.MECTRoleLocalMint]))).1
          [9, 1] (sampleConfig.roleKeyPrefix ++ [7])) :=
  (unsetRole_removes sampleConfig sampleUnsetRoles twoRolesWorld [9, 1]
    (roleInput [sampleConfig.MECTRoleLocalMint])
    { Roles := [sampleConfig.MECTRoleLocalMint, sampleConfig.MECTRoleLocalBurn] } false rfl
    referenceMarshalizer_lawful (by decide) (by decide) (by decide)).1

/-- C16, counterexample: account `[9, 1]` stores the role list
`[LocalMint, LocalMint]`; an unset-role call naming `LocalMint` succeeds, the list
stored afterwards is `[LocalMint]`, and `CheckAllowedToExecute` for `LocalMint` still
returns no error. -/
theorem unsetRole_duplicate_counterexample :
    getMECTRolesForAcnt referenceMarshalizer doubleRoleWorld [9, 1]
      (sampleConfig.roleKeyPrefix ++ [7])
      = .ok ({ Roles := [sampleConfig.MECTRoleLocalMint, sampleConfig.MECTRoleLocalMint] },
          false) ∧
    (mectRoles.ProcessBuiltinFunction sampleConfig sampleUnsetRoles doubleRoleWorld
      (some [9, 1]) (some (roleInput [sampleConfig.MECTRoleLocalMint]))).2.toBool = true ∧
    getMECTRolesForAcnt referenceMarshalizer
      (mectRoles.ProcessBuiltinFunction sampleConfig sampleUnsetRoles doubleRoleWorld
        (some [9, 1]) (some (roleInput [sampleConfig.MECTRoleLocalMint]))).1 [9, 1]
      (sampleConfig.roleKeyPrefix ++ [7])
      = .ok ({ Roles := [sampleConfig.MECTRoleLocalMint] }, false) ∧
    mectRoles.CheckAllowedToExecute sampleConfig sampleUnsetRoles
      (mectRoles.ProcessBuiltinFunction sampleConfig sampleUnsetRoles doubleRoleWorld
        (some [9, 1]) (some (roleInput [sampleConfig.MECTRoleLocalMint]))).1 (some [9, 1]) [7]
      sampleConfig.MECTRoleLocalMint = none := by
  decide

/-- C17: starting from a stored duplicate-free transfer-role address list of at most
`maxNumAddresses` entries (the list and the arguments being short enough for their
lengths to fit in a `uint32`): every successful add or delete call stores the
marshalling of a duplicate-free list of at most `maxNumAddresses` entries, which for
an add starts with the previous list and is the previous list when every address
named is already present; and an add for which the distinct addresses of the previous
list and of the arguments are more than `maxNumAddresses` fails with
`ErrTooManyTransferAddresses`, the storage being unchanged. -/
theorem transferRole_list_invariant (c : CoreConfig) (e : mectTransferAddress) (w : World)
    (input : ContractCallInput) (addresses : MECTRoles) (isNew : Bool)
    (hstored : getMECTRolesForAcnt e.marshaller w c.SystemAccountAddress
      (c.transferAddressesKeyPrefix ++ input.Arguments.getD 0 []) = .ok (addresses, isNew))
    (hnodup : addresses.Roles.Nodup) (hcap : addresses.Roles.length ≤ e.maxNumAddresses)
    (hlen : addresses.Roles.length + input.Arguments.length < 2 ^ 32) :
    ((mectTransferAddress.ProcessBuiltinFunction c e w (some input)).2.toBool = true →
      ∃ stored : List Bytes,
        e.marshaller.MarshalRoles { Roles := stored }
          = .ok (RetrieveValue (mectTransferAddress.ProcessBuiltinFunction c e w (some input)).1
              c.SystemAccountAddress
              (c.transferAddressesKeyPrefix ++ input.Arguments.getD 0 [])) ∧
        stored.Nodup ∧ stored.length ≤ e.maxNumAddresses ∧
        (e.set = true → (∃ added, stored = addresses.Roles ++ added) ∧
          ((∀ a ∈ input.Arguments.drop 1, a ∈ addresses.Roles) → stored = addresses.Roles))) ∧
    (e.set = true → checkBasicMECTArguments (some input) = none →
      input.CallerAddr = c.MECTSCAddress → c.IsSystemAccountAddress input.RecipientAddr = true →
      e.maxNumAddresses < (addresses.Roles ++ input.Arguments.drop 1).dedup.length →
      mectTransferAddress.ProcessBuiltinFunction c e w (some input)
        = (w, .error .ErrTooManyTransferAddresses)) := by
  obtain ⟨hnd2, _, hsame, hadded⟩ := appendNewAddresses_spec (input.Arguments.drop 1) addresses
    hnodup
  have hlen2 := appendNewAddresses_length (input.Arguments.drop 1) addresses hnodup
  have hle : (addresses.Roles ++ input.Arguments.drop 1).dedup.length < 2 ^ 32 := by
    have h1 := (List.dedup_sublist (addresses.Roles ++ input.Arguments.drop 1)).length_le
    simp only [List.length_append, List.length_drop] at h1
    omega
  constructor
  · intro hok
    unfold mectTransferAddress.ProcessBuiltinFunction at hok ⊢
    cases hchk : checkBasicMECTArguments (some input) with
    | some err => simp only [hchk, Except.toBool, Bool.false_eq_true] at hok
    | none =>
      simp only [hchk] at hok ⊢
      by_cases hcaller : input.CallerAddr = c.MECTSCAddress
      · simp only [hcaller, ne_eq, not_true_eq_false, if_false] at hok ⊢
        cases hsys : c.IsSystemAccountAddress input.RecipientAddr with
        | false => simp only [hsys, Bool.not_false, if_true, Except.toBool,
            Bool.false_eq_true] at hok
        | true =>
          simp only [hsys, Bool.not_true, Bool.false_eq_true, if_false, hstored] at hok ⊢
          cases hset : e.set with
          | true =>
            simp only [hset, if_true, mectTransferAddress.addNewAddresses] at hok ⊢
            by_cases hover : (appendNewAddresses addresses (input.Arguments.drop 1)).Roles.length
                % 2 ^ 32 > e.maxNumAddresses
            · simp only [hover, if_true, Except.toBool, Bool.false_eq_true] at hok
            · simp only [hover, if_false, saveRolesToAccount] at hok ⊢
              cases hm : e.marshaller.MarshalRoles
                  (appendNewAddresses addresses (input.Arguments.drop 1)) with
              | error err => simp only [hm, Except.toBool, Bool.false_eq_true] at hok
              | ok b =>
                simp only [hm, RetrieveValue_SaveKeyValue_same]
                refine ⟨(appendNewAddresses addresses (input.Arguments.drop 1)).Roles, hm, hnd2,
                  ?_, ?_⟩
                · rw [hlen2] at hover ⊢
                  rw [Nat.mod_eq_of_lt hle] at hover
                  omega
                · intro _
                  refine ⟨hadded, ?_⟩
                  intro hall
                  rw [hsame hall]
          | false =>
            simp only [hset, Bool.false_eq_true, if_false, saveRolesToAccount] at hok ⊢
            cases hm : e.marshaller.MarshalRoles
                (deleteRoles addresses (input.Arguments.drop 1)) with
            | error err => simp only [hm, Except.toBool, Bool.false_eq_true] at hok
            | ok b =>
              simp only [hm, RetrieveValue_SaveKeyValue_same]
              have hdel := deleteRoles_nodup (input.Arguments.drop 1) addresses hnodup
              refine ⟨(deleteRoles addresses (input.Arguments.drop 1)).Roles, hm, ?_, ?_, ?_⟩
              · rw [hdel]
                exact hnodup.filter _
              · rw [hdel]
                exact le_trans (List.length_filter_le _ _) hcap
              · intro h
                cases h
      · simp only [hcaller, ne_eq, not_false_eq_true, if_true, Except.toBool,
          Bool.false_eq_true] at hok
  · intro hset hchk hcaller hsys hover
    unfold mectTransferAddress.ProcessBuiltinFunction
    have hover2 : (appendNewAddresses addresses (input.Arguments.drop 1)).Roles.length
        % 2 ^ 32 > e.maxNumAddresses := by
      rw [hlen2, Nat.mod_eq_of_lt hle]
      exact hover
    simp only [hchk, hcaller, ne_eq, not_true_eq_false, if_false, hsys, Bool.not_true,
      Bool.false_eq_true, hstored, hset, if_true, mectTransferAddress.addNewAddresses, hover2]

/-- C17 at the sample list `[[1], [2]]` with a cap of two addresses: adding the
address `[2]` again stores the same list, and adding the new address `[3]` fails with
`ErrTooManyTransferAddresses`. -/
theorem transferRole_list_invariant_witness :
    (∃ stored : List Bytes,
        referenceMarshalizer.MarshalRoles { Roles := stored }
          = .ok (RetrieveValue (mectTransferAddress.ProcessBuiltinFunction sampleConfig
              sampleAddAddress addressesWorld (some (addressInput [[2]]))).1
              sampleConfig.SystemAccountAddress (sampleConfig.transferAddressesKeyPrefix ++ [7])) ∧
        stored.Nodup ∧ stored.length ≤ 2 ∧
        (true = true → (∃ added, stored = [[1], [2]] ++ added) ∧
          ((∀ a ∈ [[2]], a ∈ [[1], [2]]) → stored = [[1], [2]]))) ∧
    mectTransferAddress.ProcessBuiltinFunction sampleConfig sampleAddAddress addressesWorld
      (some (addressInput [[3]])) = (addressesWorld, .error .ErrTooManyTransferAddresses) :=
  ⟨(transferRole_list_invariant sampleConfig sampleAddAddress addressesWorld (addressInput [[2]])
      { Roles := [[1], [2]] } false (by decide) (by decide) (by decide) (by decide)).1
      (by decide),
   (transferRole_list_invariant sampleConfig sampleAddAddress addressesWorld (addressInput [[3]])
      { Roles := [[1], [2]] } false (by decide) (by decide) (by decide) (by decide)).2
      rfl (by decide) (by decide) (by decide) (by decide)⟩

/-- C18: for a wipe call that passes the input checks (zero call value, one argument,
sent by the system smart contract, account present) on a decodable record: if the
record's frozen flag is not set, which includes the absent record, the call fails with
`ErrCannotWipeAccountNotFrozen` and the storage is unchanged, so a successful wipe
implies the flag was set; if the flag is set, the call succeeds, the storage after it
is the previous one with the token key deleted, and the single log entry has the
topics identifier, nonce, balance held before the wipe, and account address. -/
theorem wipe_requires_frozen (c : CoreConfig) (e : mectFreezeWipe) (w : World)
    (acntDst : Bytes) (input : ContractCallInput) (tokenData : MECToken)
    (hwipe : e.wipe = true) (hvalue : input.CallValue = some 0)
    (hargs : input.Arguments.length = 1) (hcaller : input.CallerAddr = c.MECTSCAddress)
    (hget : getMECTDataFromKey e.marshaller w acntDst (e.keyPrefix ++ input.Arguments.getD 0 [])
      = .ok tokenData) :
    ((MECTUserMetadataFromBytes tokenData.Properties).Frozen = false →
      mectFreezeWipe.ProcessBuiltinFunction c e w (some acntDst) (some input)
        = (w, .error .ErrCannotWipeAccountNotFrozen)) ∧
    (RetrieveValue w acntDst (e.keyPrefix ++ input.Arguments.getD 0 []) = [] →
      mectFreezeWipe.ProcessBuiltinFunction c e w (some acntDst) (some input)
        = (w, .error .ErrCannotWipeAccountNotFrozen)) ∧
    ((mectFreezeWipe.ProcessBuiltinFunction c e w (some acntDst) (some input)).2.toBool = true →
      (MECTUserMetadataFromBytes tokenData.Properties).Frozen = true) ∧
    ((MECTUserMetadataFromBytes tokenData.Properties).Frozen = true →
      ∃ out, mectFreezeWipe.ProcessBuiltinFunction c e w (some acntDst) (some input)
          = (SaveKeyValue w acntDst (e.keyPrefix ++ input.Arguments.getD 0 []) [], .ok out) ∧
        ∃ entry, out.Logs = [entry] ∧
          entry.Topics =
            [(extractTokenIdentifierAndNonceMECTWipe (input.Arguments.getD 0 [])).1,
              natToBytes (extractTokenIdentifierAndNonceMECTWipe (input.Arguments.getD 0 [])).2,
              intToBytes tokenData.Value, acntDst]) := by
  have hnotfrozen : (MECTUserMetadataFromBytes tokenData.Properties).Frozen = false →
      mectFreezeWipe.ProcessBuiltinFunction c e w (some acntDst) (some input)
        = (w, .error .ErrCannotWipeAccountNotFrozen) := by
    intro hf
    unfold mectFreezeWipe.ProcessBuiltinFunction
    simp only [hvalue, ne_eq, not_true_eq_false, if_false, hargs, hcaller, hwipe, if_true,
      mectFreezeWipe.wipeIfApplicable, hget, hf, Bool.not_false]
  refine ⟨hnotfrozen, ?_, ?_, ?_⟩
  · intro hempty
    apply hnotfrozen
    unfold getMECTDataFromKey at hget
    simp only [hempty, List.length_nil, if_true] at hget
    injection hget with hget
    rw [← hget]
    decide
  · intro hok
    cases hf : (MECTUserMetadataFromBytes tokenData.Properties).Frozen with
    | true => rfl
    | false =>
      rw [hnotfrozen hf] at hok
      simp only [Except.toBool, Bool.false_eq_true] at hok
  · intro hf
    unfold mectFreezeWipe.ProcessBuiltinFunction
    simp only [hvalue, ne_eq, not_true_eq_false, if_false, hargs, hcaller, hwipe, if_true,
      mectFreezeWipe.wipeIfApplicable, hget, hf, Bool.not_true, Bool.false_eq_true]
    refine ⟨_, rfl, _, rfl, ?_⟩
    simp [newEntryForMECT, intToBytes]

/-- C18 at the sample accounts: the wipe of a frozen record of 100 units succeeds, the
wipe of a record that is not frozen fails. -/
theorem wipe_requires_frozen_witness :
    (∃ out, mectFreezeWipe.ProcessBuiltinFunction sampleConfig sampleWipe frozenAccountWorld
          (some [9, 1]) (some freezeInput)
          = (SaveKeyValue frozenAccountWorld [9, 1]
              (sampleWipe.keyPrefix ++ freezeInput.Arguments.getD 0 []) [], .ok out) ∧
        ∃ entry, out.Logs = [entry] ∧
          entry.Topics =
            [(extractTokenIdentifierAndNonceMECTWipe (freezeInput.Arguments.getD 0 [])).1,
              natToBytes (extractTokenIdentifierAndNonceMECTWipe
                (freezeInput.Arguments.getD 0 [])).2,
              intToBytes sampleFrozenRecord.Value, [9, 1]]) ∧
    mectFreezeWipe.ProcessBuiltinFunction sampleConfig sampleWipe plainAccountWorld
      (some [9, 1]) (some freezeInput)
      = (plainAccountWorld, .error .ErrCannotWipeAccountNotFrozen) :=
  ⟨(wipe_requires_frozen sampleConfig sampleWipe frozenAccountWorld [9, 1] freezeInput
      sampleFrozenRecord rfl rfl (by decide) (by decide) (by decide)).2.2.2 (by decide),
   (wipe_requires_frozen sampleConfig sampleWipe plainAccountWorld [9, 1] freezeInput
      sampleRecord rfl rfl (by decide) (by decide) (by decide)).1 (by decide)⟩

/-- C19: a freeze or unfreeze call that passes the input checks (zero call value, one
argument, sent by the system smart contract, account present) on a decodable record,
which includes the absent record, succeeds with a lawful marshaller. Unless the call
unfreezes a record of balance zero, the record read back after the call is the
record held before it with the properties replaced by the two bytes of the
requested frozen flag: type, balance, metadata and reserved field are the ones held
before. In every case the record read back has the balance held before and the
requested frozen flag; every other key and account is unchanged; and after
unfreezing a record of balance zero the key is removed. -/
theorem toggleFreeze_frame (c : CoreConfig) (e : mectFreezeWipe) (w : World)
    (acntDst : Bytes) (input : ContractCallInput) (tokenData : MECToken)
    (hlaw : e.marshaller.Lawful)
    (hwipe : e.wipe = false) (hvalue : input.CallValue = some 0)
    (hargs : input.Arguments.length = 1) (hcaller : input.CallerAddr = c.MECTSCAddress)
    (hget : getMECTDataFromKey e.marshaller w acntDst (e.keyPrefix ++ input.Arguments.getD 0 [])
      = .ok tokenData) :
    (mectFreezeWipe.ProcessBuiltinFunction c e w (some acntDst) (some input)).2.toBool = true ∧
    (∃ after, getMECTDataFromKey e.marshaller
        (mectFreezeWipe.ProcessBuiltinFunction c e w (some acntDst) (some input)).1 acntDst
        (e.keyPrefix ++ input.Arguments.getD 0 []) = .ok after ∧
      after.Value = tokenData.Value ∧
      (MECTUserMetadataFromBytes after.Properties).Frozen = e.freeze) ∧
    (∀ a k, a ≠ acntDst ∨ k ≠ e.keyPrefix ++ input.Arguments.getD 0 [] →
      RetrieveValue (mectFreezeWipe.ProcessBuiltinFunction c e w (some acntDst) (some input)).1
        a k = RetrieveValue w a k) ∧
    (e.freeze = false → tokenData.Value = 0 →
      RetrieveValue (mectFreezeWipe.ProcessBuiltinFunction c e w (some acntDst) (some input)).1
        acntDst (e.keyPrefix ++ input.Arguments.getD 0 []) = []) ∧
    (¬ (tokenData.Value = 0 ∧ e.freeze = false) →
      getMECTDataFromKey e.marshaller
        (mectFreezeWipe.ProcessBuiltinFunction c e w (some acntDst) (some input)).1 acntDst
        (e.keyPrefix ++ input.Arguments.getD 0 [])
        = .ok { TokenType := tokenData.TokenType, Value := tokenData.Value
                Properties := MECTUserMetadata.ToBytes { Frozen := e.freeze }
                TokenMetaData := tokenData.TokenMetaData, Reserved := tokenData.Reserved }) ∧
    (∃ out, (mectFreezeWipe.ProcessBuiltinFunction c e w (some acntDst) (some input)).2
        = .ok out ∧ out.ReturnCode = .Ok ∧ out.OutputAccounts = []) := by
  obtain ⟨b, hbne, hun, hsave⟩ := saveMECTData_lawful e.marshaller hlaw w acntDst
    (e.keyPrefix ++ input.Arguments.getD 0 [])
    { tokenData with Properties := MECTUserMetadata.ToBytes { Frozen := e.freeze } }
  have hrun : ∃ out, mectFreezeWipe.ProcessBuiltinFunction c e w (some acntDst) (some input)
      = (SaveKeyValue w acntDst (e.keyPrefix ++ input.Arguments.getD 0 [])
          (if (decide (tokenData.Value = 0) && !e.freeze) = true then [] else b), .ok out) ∧
      out.ReturnCode = .Ok ∧ out.OutputAccounts = [] := by
    unfold mectFreezeWipe.ProcessBuiltinFunction
    simp only [hvalue, ne_eq, not_true_eq_false, if_false, hargs, hcaller, hwipe,
      Bool.false_eq_true, mectFreezeWipe.toggleFreeze, hget, hsave, userMetadata_empty]
    exact ⟨_, rfl, rfl, rfl⟩
  obtain ⟨out, hout, hcode, hacc⟩ := hrun
  rw [hout]
  refine ⟨rfl, ?_, ?_, ?_, ?_, ⟨out, rfl, hcode, hacc⟩⟩
  · simp only
    unfold getMECTDataFromKey
    rw [RetrieveValue_SaveKeyValue_same]
    by_cases hz : (decide (tokenData.Value = 0) && !e.freeze) = true
    · simp only [hz, if_true, List.length_nil]
      simp only [Bool.and_eq_true, decide_eq_true_eq, Bool.not_eq_true'] at hz
      refine ⟨_, rfl, ?_, ?_⟩
      · simp only [MECToken.mk0]
        exact hz.1.symm
      · rw [hz.2]
        decide
    · have hlen : b.length ≠ 0 := fun h0 => hbne (List.length_eq_zero.mp h0)
      simp only [hz, if_false, hlen, Bool.false_eq_true]
      exact ⟨_, hun, rfl, by simp only [userMetadata_roundtrip]⟩
  · intro a k hne
    exact RetrieveValue_SaveKeyValue_of_ne w acntDst _ _ a k hne
  · intro hf hv
    rw [RetrieveValue_SaveKeyValue_same]
    simp [hf, hv]
  · intro hnz
    have hz : ¬ (decide (tokenData.Value = 0) && !e.freeze) = true := by
      intro hc
      simp only [Bool.and_eq_true, decide_eq_true_eq, Bool.not_eq_true'] at hc
      exact hnz hc
    have hlen : b.length ≠ 0 := fun h0 => hbne (List.length_eq_zero.mp h0)
    simp only
    unfold getMECTDataFromKey
    rw [RetrieveValue_SaveKeyValue_same]
    simp only [hz, if_false, hlen, Bool.false_eq_true]
    exact hun

/-- C19 at the account `[9, 1]` holding 100 units in a record with the type of an NFT,
metadata and the reserved marker: after the freeze the record read back is that
record with the properties `[1, 0]`. -/
theorem toggleFreeze_frame_witness :
    getMECTDataFromKey sampleFreeze.marshaller
        (mectFreezeWipe.ProcessBuiltinFunction sampleConfig sampleFreeze richAccountWorld
          (some [9, 1]) (some freezeInput)).1 [9, 1]
        (sampleFreeze.keyPrefix ++ freezeInput.Arguments.getD 0 [])
      = .ok { TokenType := NonFungible, Value := 100, Properties := [1, 0]
              TokenMetaData := some sampleMetaData, Reserved := [1] } :=
  (toggleFreeze_frame sampleConfig sampleFreeze richAccountWorld [9, 1] freezeInput
    richRecord referenceMarshalizer_lawful rfl rfl (by decide) (by decide)
    (by decide)).2.2.2.2.1 (by decide)

/-- C20: after a successful global-settings call the token's global metadata, read
from the system account, is the metadata read before the call with one flag set to
the instance's set/unset value and the other two unchanged: limited transfer for the
set/unset-limited-transfer names, paused for the pause/unpause names, burn-for-all
for the set/unset-burn-for-all names (the names of one group being none of the names
of the groups the `switch` lists before it). -/
theorem globalSettings_toggle (c : CoreConfig) (e : mectGlobalSettings) (w : World)
    (input : ContractCallInput)
    (hok : (mectGlobalSettings.ProcessBuiltinFunction c e w (some input)).2.toBool = true) :
    ((e.function = c.BuiltInFunctionMECTSetLimitedTransfer ∨
        e.function = c.BuiltInFunctionMECTUnSetLimitedTransfer) →
      mectGlobalSettings.getGlobalMetadata c
        (mectGlobalSettings.ProcessBuiltinFunction c e w (some input)).1
        (e.keyPrefix ++ input.Arguments.getD 0 [])
      = { mectGlobalSettings.getGlobalMetadata c w (e.keyPrefix ++ input.Arguments.getD 0 [])
          with LimitedTransfer := e.set }) ∧
    ((e.function = c.BuiltInFunctionMECTPause ∨ e.function = c.BuiltInFunctionMECTUnPause) →
      e.function ≠ c.BuiltInFunctionMECTSetLimitedTransfer →
      e.function ≠ c.BuiltInFunctionMECTUnSetLimitedTransfer →
      mectGlobalSettings.getGlobalMetadata c
        (mectGlobalSettings.ProcessBuiltinFunction c e w (some input)).1
        (e.keyPrefix ++ input.Arguments.getD 0 [])
      = { mectGlobalSettings.getGlobalMetadata c w (e.keyPrefix ++ input.Arguments.getD 0 [])
          with Paused := e.set }) ∧
    ((e.function = BuiltInFunctionMECTSetBurnRoleForAll ∨
        e.function = BuiltInFunctionMECTUnSetBurnRoleForAll) →
      e.function ≠ c.BuiltInFunctionMECTSetLimitedTransfer →
      e.function ≠ c.BuiltInFunctionMECTUnSetLimitedTransfer →
      e.function ≠ c.BuiltInFunctionMECTPause → e.function ≠ c.BuiltInFunctionMECTUnPause →
      mectGlobalSettings.getGlobalMetadata c
        (mectGlobalSettings.ProcessBuiltinFunction c e w (some input)).1
        (e.keyPrefix ++ input.Arguments.getD 0 [])
      = { mectGlobalSettings.getGlobalMetadata c w (e.keyPrefix ++ input.Arguments.getD 0 [])
          with BurnRoleForAll := e.set }) := by
  have hrun : mectGlobalSettings.ProcessBuiltinFunction c e w (some input)
      = ((mectGlobalSettings.toggleSetting c e w (e.keyPrefix ++ input.Arguments.getD 0 [])).1,
          .ok { ReturnCode := .Ok, GasRemaining := 0, ReturnData := [], OutputAccounts := []
                Logs := [] }) := by
    unfold mectGlobalSettings.ProcessBuiltinFunction at hok ⊢
    cases hv : input.CallValue with
    | none => simp only [hv, Except.toBool, Bool.false_eq_true] at hok
    | some v =>
      simp only [hv] at hok ⊢
      by_cases h1 : v = 0
      · simp only [h1, ne_eq, not_true_eq_false, if_false] at hok ⊢
        by_cases h2 : input.Arguments.length = 1
        · simp only [h2, ne_eq, not_true_eq_false, if_false] at hok ⊢
          by_cases h3 : input.CallerAddr = c.MECTSCAddress
          · simp only [h3, ne_eq, not_true_eq_false, if_false] at hok ⊢
            cases h4 : c.IsSystemAccountAddress input.RecipientAddr with
            | false =>
              simp only [h4, Bool.not_false, if_true, Except.toBool, Bool.false_eq_true] at hok
            | true =>
              simp only [Bool.not_true, Bool.false_eq_true, if_false,
                mectGlobalSettings.toggleSetting]
          · simp only [h3, ne_eq, not_false_eq_true, if_true, Except.toBool,
              Bool.false_eq_true] at hok
        · simp only [h2, ne_eq, not_false_eq_true, if_true, Except.toBool,
            Bool.false_eq_true] at hok
      · simp only [h1, ne_eq, not_false_eq_true, if_true, Except.toBool,
          Bool.false_eq_true] at hok
  rw [hrun]
  simp only [mectGlobalSettings.toggleSetting, mectGlobalSettings.getGlobalMetadata,
    RetrieveValue_SaveKeyValue_same, globalMetadata_roundtrip]
  refine ⟨?_, ?_, ?_⟩
  · intro hf
    simp only [hf, if_true]
  · intro hf hn1 hn2
    simp only [hn1, hn2, or_self, if_false, hf, if_true]
  · intro hf hn1 hn2 hn3 hn4
    have hf2 : e.function = BuiltInFunctionMECTUnSetBurnRoleForAll ∨
        e.function = BuiltInFunctionMECTSetBurnRoleForAll := hf.symm
    simp only [hn1, hn2, hn3, hn4, or_self, if_false, hf2, if_true]

/-- C20 at the sample pause instance on a token whose limited-transfer and
burn-for-all flags are set: after the call all three flags are set. -/
theorem globalSettings_toggle_witness :
    mectGlobalSettings.getGlobalMetadata sampleConfig
      (mectGlobalSettings.ProcessBuiltinFunction sampleConfig sampleSettings settingsWorld
        (some settingsInput)).1 (sampleSettings.keyPrefix ++ settingsInput.Arguments.getD 0 [])
      = { mectGlobalSettings.getGlobalMetadata sampleConfig settingsWorld
            (sampleSettings.keyPrefix ++ settingsInput.Arguments.getD 0 [])
          with Paused := sampleSettings.set } ∧
    mectGlobalSettings.getGlobalMetadata sampleConfig
      (mectGlobalSettings.ProcessBuiltinFunction sampleConfig sampleSettings settingsWorld
        (some settingsInput)).1 (sampleSettings.keyPrefix ++ settingsInput.Arguments.getD 0 [])
      = { Paused := true, LimitedTransfer := true, BurnRoleForAll := true } :=
  ⟨(globalSettings_toggle sampleConfig sampleSettings settingsWorld settingsInput
      (by decide)).2.1 (by decide) (by decide) (by decide), by decide⟩

/-- C21: a successful sender leg of a single-NFT transfer, over the storage handler of
this repository with a lawful marshaller, whose destination is in the local shard,
the caller and the destination not being the system account and the balance the
destination stores for the nonce not being negative: the balance the caller stores
under the NFT key of the token and nonce decreases by the quantity, and the balance
the destination stores under that key increases by the quantity, so that their sum
is unchanged. -/
theorem nftTransfer_same_shard_conservation (c : CoreConfig) (s : mectDataStorage)
    (e : mectNFTTransfer) (w : World) (acntDst : Option Bytes) (input : ContractCallInput)
    (hh : e.mectStorageHandler = mectDataStorage.toHandler c s)
    (hlaw : s.marshaller.Lawful)
    (hleg : input.CallerAddr = input.RecipientAddr)
    (hsame : e.shardCoordinator.SelfId
      = e.shardCoordinator.ComputeId (input.Arguments.getD 3 []))
    (hsnd : input.CallerAddr ≠ c.SystemAccountAddress)
    (hdst : input.Arguments.getD 3 [] ≠ c.SystemAccountAddress)
    (hpos : 0 ≤ storedBalance s.marshaller w (input.Arguments.getD 3 [])
      (computeMECTNFTTokenKey (e.keyPrefix ++ input.Arguments.getD 0 [])
        (bytesToNat (input.Arguments.getD 1 []) % twoPow64)))
    (hok : (mectNFTTransfer.ProcessBuiltinFunction c e w (some input.CallerAddr) acntDst
      (some input)).2.toBool = true) :
    storedBalance s.marshaller
        (mectNFTTransfer.ProcessBuiltinFunction c e w (some input.CallerAddr) acntDst
          (some input)).1 input.CallerAddr
        (computeMECTNFTTokenKey (e.keyPrefix ++ input.Arguments.getD 0 [])
          (bytesToNat (input.Arguments.getD 1 []) % twoPow64))
      = storedBalance s.marshaller w input.CallerAddr
          (computeMECTNFTTokenKey (e.keyPrefix ++ input.Arguments.getD 0 [])
            (bytesToNat (input.Arguments.getD 1 []) % twoPow64))
        - (bytesToNat (input.Arguments.getD 2 []) : Int) ∧
    storedBalance s.marshaller
        (mectNFTTransfer.ProcessBuiltinFunction c e w (some input.CallerAddr) acntDst
          (some input)).1 (input.Arguments.getD 3 [])
        (computeMECTNFTTokenKey (e.keyPrefix ++ input.Arguments.getD 0 [])
          (bytesToNat (input.Arguments.getD 1 []) % twoPow64))
      = storedBalance s.marshaller w (input.Arguments.getD 3 [])
          (computeMECTNFTTokenKey (e.keyPrefix ++ input.Arguments.getD 0 [])
            (bytesToNat (input.Arguments.getD 1 []) % twoPow64))
        + (bytesToNat (input.Arguments.getD 2 []) : Int) ∧
    storedBalance s.marshaller
        (mectNFTTransfer.ProcessBuiltinFunction c e w (some input.CallerAddr) acntDst
          (some input)).1 input.CallerAddr
        (computeMECTNFTTokenKey (e.keyPrefix ++ input.Arguments.getD 0 [])
          (bytesToNat (input.Arguments.getD 1 []) % twoPow64))
      + storedBalance s.marshaller
        (mectNFTTransfer.ProcessBuiltinFunction c e w (some input.CallerAddr) acntDst
          (some input)).1 (input.Arguments.getD 3 [])
        (computeMECTNFTTokenKey (e.keyPrefix ++ input.Arguments.getD 0 [])
          (bytesToNat (input.Arguments.getD 1 []) % twoPow64))
      = storedBalance s.marshaller w input.CallerAddr
          (computeMECTNFTTokenKey (e.keyPrefix ++ input.Arguments.getD 0 [])
            (bytesToNat (input.Arguments.getD 1 []) % twoPow64))
        + storedBalance s.marshaller w (input.Arguments.getD 3 [])
          (computeMECTNFTTokenKey (e.keyPrefix ++ input.Arguments.getD 0 [])
            (bytesToNat (input.Arguments.getD 1 []) % twoPow64)) := by
  suffices hboth : storedBalance s.marshaller
        (mectNFTTransfer.ProcessBuiltinFunction c e w (some input.CallerAddr) acntDst
          (some input)).1 input.CallerAddr
        (computeMECTNFTTokenKey (e.keyPrefix ++ input.Arguments.getD 0 [])
          (bytesToNat (input.Arguments.getD 1 []) % twoPow64))
      = storedBalance s.marshaller w input.CallerAddr
          (computeMECTNFTTokenKey (e.keyPrefix ++ input.Arguments.getD 0 [])
            (bytesToNat (input.Arguments.getD 1 []) % twoPow64))
        - (bytesToNat (input.Arguments.getD 2 []) : Int) ∧
    storedBalance s.marshaller
        (mectNFTTransfer.ProcessBuiltinFunction c e w (some input.CallerAddr) acntDst
          (some input)).1 (input.Arguments.getD 3 [])
        (computeMECTNFTTokenKey (e.keyPrefix ++ input.Arguments.getD 0 [])
          (bytesToNat (input.Arguments.getD 1 []) % twoPow64))
      = storedBalance s.marshaller w (input.Arguments.getD 3 [])
          (computeMECTNFTTokenKey (e.keyPrefix ++ input.Arguments.getD 0 [])
            (bytesToNat (input.Arguments.getD 1 []) % twoPow64))
        + (bytesToNat (input.Arguments.getD 2 []) : Int) by
    refine ⟨hboth.1, hboth.2, ?_⟩
    rw [hboth.1, hboth.2]
    ring
  obtain ⟨out, hrun⟩ := run_ok_of_toBool _ hok
  generalize hw3 : (mectNFTTransfer.ProcessBuiltinFunction c e w (some input.CallerAddr) acntDst
    (some input)).1 = w3 at hrun ⊢
  obtain ⟨hchecks, w1, w2, md, md2, ua, vmOut, hdebit, hmove, hcreate, _⟩ :=
    nftTransfer_sender_ok c e w w3 _ acntDst input out hleg hrun
  -- the destination differs from the caller
  have hne : input.Arguments.getD 3 [] ≠ input.CallerAddr := by
    unfold mectNFTTransfer.checkSenderShardInput at hchecks
    dsimp only at hchecks
    split at hchecks
    · exact absurd hchecks (by simp)
    · split at hchecks
      · exact absurd hchecks (by simp)
      · assumption
  obtain ⟨stored, snd, hsome, hget, _, hle, _, hmd, bytes, hsave⟩ :=
    nftDebitSender_ok e w w1 _ input md hdebit
  have hsndeq : snd = input.CallerAddr := (Option.some.inj hsome).symm
  subst hsndeq
  rw [hh] at hget hsave
  have hstored := GetMECTNFTTokenOnSender_value c s w _ _ _ stored hget
  obtain ⟨hbal1, hframe1⟩ := SaveMECTNFTToken_ok_balance c s hlaw w _ _ _ _ _ _ _ w1 bytes hsave
  have hadd := moveToDestination_same c e w1 w2 input md md2 ua hsame hmove
  obtain ⟨cur, isNew, wS, bytes2, hgetd, hsaved, hw2⟩ :=
    addNFTToDestination_ok c e w1 w2 _ _ _ md md2 _ _ _ hadd
  rw [hh] at hgetd hsaved hw2
  have hcur := GetMECTNFTTokenOnDestination_value c s w1 _ _ _ cur isNew hgetd
  obtain ⟨hbal2, hframe2⟩ := SaveMECTNFTToken_ok_balance c s hlaw w1 _ _ _ _ _ _ _ wS bytes2 hsaved
  have hw3eq := createNFTOutputTransfers_world c e w2 w3 input _ vmOut md2 _ _ _ hcreate
  rw [hh] at hw3eq
  -- entries of the two accounts are the same in `w3`, `w2` and `wS`
  have hfr : ∀ a k, a ≠ c.SystemAccountAddress →
      RetrieveValue w3 a k = RetrieveValue wS a k := by
    intro a k ha
    rw [hw3eq]
    show RetrieveValue (mectDataStorage.WasAlreadySentToDestinationShardAndUpdateState c s w2 _ _
      _).1 a k = _
    rw [WasAlreadySent_frame c s w2 _ _ _ a k ha]
    rcases hw2 with hw2 | hw2
    · rw [hw2]
    · rw [hw2]
      exact AddToLiquiditySystemAcc_frame c s wS _ _ _ a k ha
  have hq : (0 : Int) ≤ (bytesToNat (input.Arguments.getD 2 []) : Int) := Int.natCast_nonneg _
  constructor
  · rw [storedBalance_congr s.marshaller wS w3 _ _ (hfr _ _ hsnd),
      storedBalance_congr s.marshaller w1 wS _ _
        (hframe2 _ _ hsnd (Or.inl (Ne.symm hne))),
      hbal1, ← hstored]
    dsimp only
    split <;> omega
  · rw [storedBalance_congr s.marshaller wS w3 _ _ (hfr _ _ hdst), hbal2, hmd]
    dsimp only
    rw [hcur, storedBalance_congr s.marshaller w w1 _ _ (hframe1 _ _ hdst (Or.inl hne))]
    split <;> omega

/-- C21 at the sample transfer of 2 of the 5 units account `[1]` holds to account
`[2]`: 3 units and 2 units are stored afterwards. -/
theorem nftTransfer_same_shard_conservation_witness :
    storedBalance referenceMarshalizer
      (mectNFTTransfer.ProcessBuiltinFunction sampleConfig sampleNFTTransfer nftWorld
        (some [1]) none (some (nftTransferInput [2] [2]))).1 [1]
      (computeMECTNFTTokenKey sampleKey 1) = 5 - 2 ∧
    storedBalance referenceMarshalizer
      (mectNFTTransfer.ProcessBuiltinFunction sampleConfig sampleNFTTransfer nftWorld
        (some [1]) none (some (nftTransferInput [2] [2]))).1 [2]
      (computeMECTNFTTokenKey sampleKey 1) = 0 + 2 :=
  have h := nftTransfer_same_shard_conservation sampleConfig sampleStorage sampleNFTTransfer
    nftWorld none (nftTransferInput [2] [2]) rfl referenceMarshalizer_lawful (by decide)
    (by decide) (by decide) (by decide) (by decide) (by decide)
  ⟨h.1, h.2.1⟩

/-- C24: on a successful sender leg towards another shard, whatever the storage
handler answers. Single-NFT transfer of quantity 1: the sender's record was read, the
record with value 1 is marshalled, and the only output transfer carries the first
three arguments of the call, that marshalled record as value argument, and the
arguments after the fourth. Multi-transfer, entry `j` naming a nonce above 0 and
quantity 1: the only output transfer carries call arguments whose value argument for
entry `j`, at position `3 * j + 3`, is the marshalled record of the sender, with
value 1, read when the entry was processed. -/
theorem nft_cross_shard_value_one_full_record (c : CoreConfig) :
    (∀ (e : mectNFTTransfer) (w : World) (acntSnd acntDst : Option Bytes)
      (input : ContractCallInput),
      input.CallerAddr = input.RecipientAddr →
      e.shardCoordinator.SelfId ≠ e.shardCoordinator.ComputeId (input.Arguments.getD 3 []) →
      bytesToNat (input.Arguments.getD 2 []) = 1 →
      (mectNFTTransfer.ProcessBuiltinFunction c e w acntSnd acntDst (some input)).2.toBool
        = true →
      ∃ (stored : MECToken) (b : Bytes) (g : Nat) (out : VMOutput),
        e.mectStorageHandler.GetMECTNFTTokenOnSender w acntSnd
          (e.keyPrefix ++ input.Arguments.getD 0 [])
          (bytesToNat (input.Arguments.getD 1 []) % twoPow64) = .ok stored ∧
        e.marshaller.MarshalToken { stored with Value := 1 } = .ok b ∧
        (mectNFTTransfer.ProcessBuiltinFunction c e w acntSnd acntDst (some input)).2
          = .ok out ∧
        out.OutputAccounts = [(input.Arguments.getD 3 [],
          { Address := input.Arguments.getD 3 [], OutputTransfers :=
            [{ Value := 0, GasLimit := g, GasLocked := input.GasLocked
               Data := appendHexArguments c.BuiltInFunctionMECTNFTTransfer
                 (input.Arguments.take 3 ++ [b] ++ input.Arguments.drop 4)
               CallType := input.CallType, SenderAddress := input.CallerAddr }] })]) ∧
    (∀ (e : mectNFTMultiTransfer) (maxSliceLength : Nat) (w : World)
      (acntSnd acntDst : Option Bytes) (input : ContractCallInput) (j : Nat),
      input.CallerAddr = input.RecipientAddr →
      e.shardCoordinator.SelfId ≠ e.shardCoordinator.ComputeId (input.Arguments.getD 0 []) →
      3 * maxSliceLength + 2 < twoPow64 →
      j < bytesToNat (input.Arguments.getD 1 []) % twoPow64 →
      0 < bytesToNat (input.Arguments.getD (3 * j + 3) []) % twoPow64 →
      bytesToNat (input.Arguments.getD (3 * j + 4) []) = 1 →
      (mectNFTMultiTransfer.ProcessBuiltinFunction c e maxSliceLength w acntSnd acntDst
        (some input)).2.toBool = true →
      ∃ (w0 : World) (stored : MECToken) (b : Bytes) (callArgs : List Bytes) (g : Nat)
        (out : VMOutput),
        e.mectStorageHandler.GetMECTNFTTokenOnSender w0 acntSnd
          (e.keyPrefix ++ input.Arguments.getD (3 * j + 2) [])
          (bytesToNat (input.Arguments.getD (3 * j + 3) []) % twoPow64) = .ok stored ∧
        e.marshaller.MarshalToken { stored with Value := 1 } = .ok b ∧
        (mectNFTMultiTransfer.ProcessBuiltinFunction c e maxSliceLength w acntSnd acntDst
          (some input)).2 = .ok out ∧
        out.OutputAccounts = [(input.Arguments.getD 0 [],
          { Address := input.Arguments.getD 0 [], OutputTransfers :=
            [{ Value := 0, GasLimit := g, GasLocked := input.GasLocked
               Data := appendHexArguments c.BuiltInFunctionMultiMECTNFTTransfer callArgs
               CallType := input.CallType, SenderAddress := input.CallerAddr }] })] ∧
        callArgs.get? (3 * j + 3) = some b) := by
  constructor
  · intro e w acntSnd acntDst input hleg hcross hone hok
    obtain ⟨out, hrun⟩ := run_ok_of_toBool _ hok
    obtain ⟨_, w1, w2, md, md2, ua, vmOut, hdebit, hmove, hcreate, hacc⟩ :=
      nftTransfer_sender_ok c e w _ acntSnd acntDst input out hleg hrun
    obtain ⟨stored, snd, _, hget, _, _, _, hmd, _⟩ := nftDebitSender_ok e w w1 acntSnd input md hdebit
    obtain ⟨hmd2, _⟩ := moveToDestination_cross c e w1 w2 input md md2 ua hcross hmove
    have hval : md2 = { stored with Value := 1 } := by
      rw [hmd2, hmd, hone]
      rfl
    obtain ⟨b, g, hm, hout⟩ := createNFTOutputTransfers_value_one c e w2 _ input _ vmOut md2 _ _ _
      hcross (by rw [hval]) hcreate
    refine ⟨stored, b, g, out, hget, by rw [← hval]; exact hm, by rw [hrun], ?_⟩
    rw [hacc, hout]
  · intro e maxSliceLength w acntSnd acntDst input j hleg hcross hmax hj hnonce hone hok
    have h64 : twoPow64 = 18446744073709551616 := by decide
    obtain ⟨out, hrun⟩ := run_ok_of_toBool _ hok
    obtain ⟨_, hn, w1, vmOutput1, ds, ts, hloop, hcreate⟩ :=
      multiTransfer_sender_ok c e maxSliceLength w _ acntSnd acntDst input out hleg hrun
    have hnone : mectNFTMultiTransfer.loadAccountIfInShard e (input.Arguments.getD 0 [])
        = none := by
      unfold mectNFTMultiTransfer.loadAccountIfInShard
      rw [if_pos hcross]
    rw [hnone] at hloop
    obtain ⟨_, ds1, ts1, hds, hts, _, hall⟩ :=
      senderLoop_ok c e acntSnd none _ input _ 0 w w1 _ vmOutput1 [] ds [] ts (by omega) hloop
    obtain ⟨t, d, w0, w2, ht, hd, htd, hone1⟩ := hall j hj
    rw [Nat.zero_add] at htd
    obtain ⟨hv, hnc, hname⟩ := transferDataAt_some input.Arguments (3 * j + 2) t (by omega) htd
    obtain ⟨stored, hget, hdv⟩ := transferOne_cross_ok c e w0 w2 acntSnd _ t _ d hone1
    have hv1 : t.MECTValue = 1 := by
      rw [hv, hone]
      rfl
    obtain ⟨callArgs, g, hout, hargs⟩ :=
      createMECTNFTOutputTransfers_value_one c e w1 _ input vmOutput1 out ds ts _ hcross hcreate
    obtain ⟨d1, b, hd1, hm, hb⟩ := hargs j t (by rw [hts]; simpa using ht)
      (by rw [hnc]; exact hnonce) hv1
    have hdd : d1 = d := by
      rw [hds] at hd1
      simp only [List.nil_append] at hd1
      rw [hd] at hd1
      exact (Option.some.inj hd1).symm
    refine ⟨w0, stored, b, callArgs, g, out, ?_, ?_, by rw [hrun], hout, hb⟩
    · rw [← hname, ← hnc]
      exact hget
    · rw [← hv1, ← hdv, ← hdd]
      exact hm

/-- C24 at a single-NFT transfer and at a multi-transfer of 1 unit to an address of
shard 1, whose bit is already set in the shard bitmap of the mirror. -/
theorem nft_cross_shard_value_one_full_record_witness :
    (∃ (stored : MECToken) (b : Bytes) (g : Nat) (out : VMOutput),
      crossNFTTransfer.mectStorageHandler.GetMECTNFTTokenOnSender crossNFTWorld (some [1, 0])
        (crossNFTTransfer.keyPrefix ++ crossTransferInput.Arguments.getD 0 [])
        (bytesToNat (crossTransferInput.Arguments.getD 1 []) % twoPow64) = .ok stored ∧
      crossNFTTransfer.marshaller.MarshalToken { stored with Value := 1 } = .ok b ∧
      (mectNFTTransfer.ProcessBuiltinFunction sampleConfig crossNFTTransfer crossNFTWorld
        (some [1, 0]) none (some crossTransferInput)).2 = .ok out ∧
      out.OutputAccounts = [(crossTransferInput.Arguments.getD 3 [],
        { Address := crossTransferInput.Arguments.getD 3 [], OutputTransfers :=
          [{ Value := 0, GasLimit := g, GasLocked := crossTransferInput.GasLocked
             Data := appendHexArguments sampleConfig.BuiltInFunctionMECTNFTTransfer
               (crossTransferInput.Arguments.take 3 ++ [b]
                 ++ crossTransferInput.Arguments.drop 4)
             CallType := crossTransferInput.CallType
             SenderAddress := crossTransferInput.CallerAddr }] })]) ∧
    (∃ (w0 : World) (stored : MECToken) (b : Bytes) (callArgs : List Bytes) (g : Nat)
      (out : VMOutput),
      crossMultiTransfer.mectStorageHandler.GetMECTNFTTokenOnSender w0 (some [1, 0])
        (crossMultiTransfer.keyPrefix ++ crossMultiInput.Arguments.getD (3 * 0 + 2) [])
        (bytesToNat (crossMultiInput.Arguments.getD (3 * 0 + 3) []) % twoPow64)
        = .ok stored ∧
      crossMultiTransfer.marshaller.MarshalToken { stored with Value := 1 } = .ok b ∧
      (mectNFTMultiTransfer.ProcessBuiltinFunction sampleConfig crossMultiTransfer (2 ^ 48)
        crossNFTWorld (some [1, 0]) none (some crossMultiInput)).2 = .ok out ∧
      out.OutputAccounts = [(crossMultiInput.Arguments.getD 0 [],
        { Address := crossMultiInput.Arguments.getD 0 [], OutputTransfers :=
          [{ Value := 0, GasLimit := g, GasLocked := crossMultiInput.GasLocked
             Data := appendHexArguments sampleConfig.BuiltInFunctionMultiMECTNFTTransfer
               callArgs
             CallType := crossMultiInput.CallType
             SenderAddress := crossMultiInput.CallerAddr }] })] ∧
      callArgs.get? (3 * 0 + 3) = some b) :=
  ⟨(nft_cross_shard_value_one_full_record sampleConfig).1 crossNFTTransfer crossNFTWorld
      (some [1, 0]) none crossTransferInput (by decide) (by decide) (by decide) (by decide),
   (nft_cross_shard_value_one_full_record sampleConfig).2 crossMultiTransfer (2 ^ 48)
      crossNFTWorld (some [1, 0]) none crossMultiInput 0 (by decide) (by decide) (by decide)
      (by decide) (by decide) (by decide) (by decide)⟩

/-- C25: with metadata mirroring active and send-always inactive, for a nonce > 0, a
destination in another shard that is not the metachain and whose id is below the
shard count, and an existing mirror whose entry for that shard is unset (the bitmap
and the shard count fitting a `uint32`, the marshaller lawful): the first call of
`WasAlreadySentToDestinationShardAndUpdateState` returns false, the second call with
the same arguments returns true and leaves the storage as the first call left it, and
so does every later call; the mirror read back after the first call has the entry of
the destination shard set and every other entry as before, also when the bitmap was
grown to the shard count. -/
theorem WasAlreadySent_twice (c : CoreConfig) (e : mectDataStorage) (w : World)
    (tickerID : Bytes) (nonce : Nat) (dstAddress : Bytes) (t : MECToken)
    (hlaw : e.marshaller.Lawful) (hsave : e.flagSaveToSystemAccount = true)
    (hsend : e.flagSendAlwaysEnableEpoch = false) (hnonce : 0 < nonce)
    (hself : e.shardCoordinator.ComputeId dstAddress ≠ e.shardCoordinator.SelfId)
    (hmeta : e.shardCoordinator.ComputeId dstAddress ≠ c.MetachainShardId)
    (hshard : e.shardCoordinator.ComputeId dstAddress < e.shardCoordinator.NumberOfShards)
    (hmirror : mectDataStorage.getMECTDigitalTokenDataFromSystemAccount c e w
      (computeMECTNFTTokenKey (e.keyPrefix ++ tickerID) nonce) = .ok (some t))
    (hbit : t.Properties.getD (e.shardCoordinator.ComputeId dstAddress) 0 = 0)
    (hlen : t.Properties.length < 2 ^ 32)
    (hshards : e.shardCoordinator.NumberOfShards < 2 ^ 32) :
    (mectDataStorage.WasAlreadySentToDestinationShardAndUpdateState c e w tickerID nonce
      dstAddress).2 = .ok false ∧
    mectDataStorage.WasAlreadySentToDestinationShardAndUpdateState c e
      (mectDataStorage.WasAlreadySentToDestinationShardAndUpdateState c e w tickerID nonce
        dstAddress).1 tickerID nonce dstAddress
      = ((mectDataStorage.WasAlreadySentToDestinationShardAndUpdateState c e w tickerID nonce
          dstAddress).1, .ok true) ∧
    (∀ n : Nat, mectDataStorage.WasAlreadySentToDestinationShardAndUpdateState c e
      ((fun w1 => (mectDataStorage.WasAlreadySentToDestinationShardAndUpdateState c e w1
          tickerID nonce dstAddress).1)^[n]
        (mectDataStorage.WasAlreadySentToDestinationShardAndUpdateState c e w tickerID nonce
          dstAddress).1) tickerID nonce dstAddress
      = ((mectDataStorage.WasAlreadySentToDestinationShardAndUpdateState c e w tickerID nonce
          dstAddress).1, .ok true)) ∧
    ∃ t1, mectDataStorage.getMECTDigitalTokenDataFromSystemAccount c e
        (mectDataStorage.WasAlreadySentToDestinationShardAndUpdateState c e w tickerID nonce
          dstAddress).1 (computeMECTNFTTokenKey (e.keyPrefix ++ tickerID) nonce)
        = .ok (some t1) ∧
      t1.Properties.getD (e.shardCoordinator.ComputeId dstAddress) 0 = existsOnShard ∧
      ∀ j, j ≠ e.shardCoordinator.ComputeId dstAddress →
        t1.Properties.getD j 0 = t.Properties.getD j 0 := by
  obtain ⟨q, hqlen, hqget, hfirst⟩ := WasAlreadySent_first c e w tickerID nonce dstAddress t
    hsave hsend hnonce hself hmeta hshard hmirror hlen
  have hbit0 : ¬ t.Properties.getD (e.shardCoordinator.ComputeId dstAddress) 0 > 0 := by
    rw [hbit]
    exact Nat.lt_irrefl 0
  obtain ⟨b, _, hsv, hget⟩ := getMirror_after_save c e w
    (computeMECTNFTTokenKey (e.keyPrefix ++ tickerID) nonce)
    { t with Properties := (q.set (e.shardCoordinator.ComputeId dstAddress) existsOnShard) } hlaw
  rw [if_neg hbit0, hsv] at hfirst
  simp only at hfirst
  have hidx : e.shardCoordinator.ComputeId dstAddress < q.length := by
    rw [hqlen]
    omega
  have hset : (q.set (e.shardCoordinator.ComputeId dstAddress) existsOnShard).getD
      (e.shardCoordinator.ComputeId dstAddress) 0 = existsOnShard := by
    simp [List.getD_eq_getElem?_getD, List.getElem?_set, hidx]
  have hlen1 : (q.set (e.shardCoordinator.ComputeId dstAddress) existsOnShard).length < 2 ^ 32 := by
    rw [List.length_set, hqlen]
    omega
  obtain ⟨q1, _, _, hsecond⟩ := WasAlreadySent_first c e
    (SaveKeyValue w c.SystemAccountAddress
      (computeMECTNFTTokenKey (e.keyPrefix ++ tickerID) nonce) b) tickerID nonce dstAddress
    { t with Properties := (q.set (e.shardCoordinator.ComputeId dstAddress) existsOnShard) }
    hsave hsend hnonce hself hmeta hshard hget hlen1
  have hpos : (q.set (e.shardCoordinator.ComputeId dstAddress) existsOnShard).getD
      (e.shardCoordinator.ComputeId dstAddress) 0 > 0 := by
    rw [hset]
    decide
  simp only [hpos, if_true] at hsecond
  rw [hfirst]
  refine ⟨rfl, hsecond, ?_, _, hget, hset, ?_⟩
  · intro n
    have hfix : (fun w1 => (mectDataStorage.WasAlreadySentToDestinationShardAndUpdateState c e w1
        tickerID nonce dstAddress).1)
        (SaveKeyValue w c.SystemAccountAddress
          (computeMECTNFTTokenKey (e.keyPrefix ++ tickerID) nonce) b)
        = SaveKeyValue w c.SystemAccountAddress
          (computeMECTNFTTokenKey (e.keyPrefix ++ tickerID) nonce) b := by
      simp only [hsecond]
    rw [Function.iterate_fixed hfix n]
    exact hsecond
  · intro j hj
    simp only
    rw [← hqget j]
    simp only [List.getD_eq_getElem?_getD]
    rw [List.getElem?_set_ne (Ne.symm hj)]

/-- C25 at a mirror whose bitmap has only the entry of shard 0 and a destination in
shard 2 of three: the first call returns false, the second returns true. -/
theorem WasAlreadySent_twice_witness :
    (mectDataStorage.WasAlreadySentToDestinationShardAndUpdateState sampleConfig bitmapStorage
      bitmapWorld [7] 10 [9, 2]).2 = .ok false ∧
    mectDataStorage.WasAlreadySentToDestinationShardAndUpdateState sampleConfig bitmapStorage
      (mectDataStorage.WasAlreadySentToDestinationShardAndUpdateState sampleConfig bitmapStorage
        bitmapWorld [7] 10 [9, 2]).1 [7] 10 [9, 2]
      = ((mectDataStorage.WasAlreadySentToDestinationShardAndUpdateState sampleConfig
          bitmapStorage bitmapWorld [7] 10 [9, 2]).1, .ok true) :=
  ⟨(WasAlreadySent_twice sampleConfig bitmapStorage bitmapWorld [7] 10 [9, 2] bitmapMirror
      referenceMarshalizer_lawful rfl rfl (by decide) (by decide) (by decide) (by decide)
      (by decide) (by decide) (by decide) (by decide)).1,
   (WasAlreadySent_twice sampleConfig bitmapStorage bitmapWorld [7] 10 [9, 2] bitmapMirror
      referenceMarshalizer_lawful rfl rfl (by decide) (by decide) (by decide) (by decide)
      (by decide) (by decide) (by decide) (by decide)).2.1⟩

/-- C26: with metadata mirroring active, `WasAlreadySentToDestinationShardAndUpdateState`
returns true and leaves the storage as it is when the nonce is 0, when the
destination is in the local shard, and, while send-always is inactive, when the
destination is on the metachain. -/
theorem WasAlreadySent_shortcuts (c : CoreConfig) (e : mectDataStorage) (w : World)
    (tickerID : Bytes) (nonce : Nat) (dstAddress : Bytes)
    (hsave : e.flagSaveToSystemAccount = true) :
    (nonce = 0 →
      mectDataStorage.WasAlreadySentToDestinationShardAndUpdateState c e w tickerID nonce
        dstAddress = (w, .ok true)) ∧
    (e.shardCoordinator.ComputeId dstAddress = e.shardCoordinator.SelfId →
      mectDataStorage.WasAlreadySentToDestinationShardAndUpdateState c e w tickerID nonce
        dstAddress = (w, .ok true)) ∧
    (e.flagSendAlwaysEnableEpoch = false →
      e.shardCoordinator.ComputeId dstAddress = c.MetachainShardId →
      mectDataStorage.WasAlreadySentToDestinationShardAndUpdateState c e w tickerID nonce
        dstAddress = (w, .ok true)) := by
  unfold mectDataStorage.WasAlreadySentToDestinationShardAndUpdateState
  refine ⟨?_, ?_, ?_⟩
  · intro hn
    simp only [hsave, Bool.not_true, Bool.false_eq_true, if_false, hn, if_true]
  · intro hself
    by_cases hn : nonce = 0
    · simp only [hsave, Bool.not_true, Bool.false_eq_true, if_false, hn, if_true]
    · simp only [hsave, Bool.not_true, Bool.false_eq_true, if_false, hn, hself, if_true]
  · intro hsend hmeta
    by_cases hn : nonce = 0
    · simp only [hsave, Bool.not_true, Bool.false_eq_true, if_false, hn, if_true]
    · by_cases hself : e.shardCoordinator.ComputeId dstAddress = e.shardCoordinator.SelfId
      · simp only [hsave, Bool.not_true, Bool.false_eq_true, if_false, hn, hself, if_true]
      · simp only [hsave, Bool.not_true, Bool.false_eq_true, if_false, hn, hself, hsend, hmeta,
          if_true, ite_self]

/-- C26 at the sample storage, whose coordinator places every address in the local
shard: the call for nonce 10 returns true and changes nothing. -/
theorem WasAlreadySent_shortcuts_witness :
    mectDataStorage.WasAlreadySentToDestinationShardAndUpdateState sampleConfig sampleStorage
      mirrorWorld [7] 10 [9, 2] = (mirrorWorld, .ok true) :=
  (WasAlreadySent_shortcuts sampleConfig sampleStorage mirrorWorld [7] 10 [9, 2] rfl).2.1 rfl

/-- C27: with metadata mirroring, send-always and fix-old-liquidity active, for a
nonce > 0 whose mirror carries the reserved marker and a counter equal to zero,
`AddToLiquiditySystemAcc` with a negative delta returns no error and the mirror read
back is the previous one with the reserved marker cleared, its counter still zero;
with fix-old-liquidity inactive the same call returns `ErrInvalidLiquidityForMECT`
and leaves the storage unchanged. The marshaller is assumed lawful. -/
theorem AddToLiquiditySystemAcc_fix_old_token (c : CoreConfig) (e : mectDataStorage) (w : World)
    (mectTokenKey : Bytes) (nonce : Nat) (delta : Int) (t : MECToken)
    (hlaw : e.marshaller.Lawful)
    (hsave : e.flagSaveToSystemAccount = true) (hsend : e.flagSendAlwaysEnableEpoch = true)
    (hnonce : 0 < nonce)
    (hmirror : mectDataStorage.getMECTDigitalTokenDataFromSystemAccount c e w
      (computeMECTNFTTokenKey mectTokenKey nonce) = .ok (some t))
    (hres : t.Reserved ≠ []) (hv : t.Value = 0) (hdelta : delta < 0) :
    (e.flagFixOldTokenLiquidity = true →
      (mectDataStorage.AddToLiquiditySystemAcc c e w mectTokenKey nonce delta).2 = none ∧
      mectDataStorage.getMECTDigitalTokenDataFromSystemAccount c e
        (mectDataStorage.AddToLiquiditySystemAcc c e w mectTokenKey nonce delta).1
        (computeMECTNFTTokenKey mectTokenKey nonce) = .ok (some { t with Reserved := [] }) ∧
      ({ t with Reserved := [] } : MECToken).Value = 0) ∧
    (e.flagFixOldTokenLiquidity = false →
      mectDataStorage.AddToLiquiditySystemAcc c e w mectTokenKey nonce delta
        = (w, some .ErrInvalidLiquidityForMECT)) := by
  have heval := AddToLiquiditySystemAcc_eval c e w mectTokenKey nonce delta t hsave hsend hnonce
    hmirror hres
  constructor
  · intro hfix
    rw [heval, if_pos ⟨hfix, hv, hdelta⟩]
    obtain ⟨b, _, hsv, hget⟩ := getMirror_after_save c e w
      (computeMECTNFTTokenKey mectTokenKey nonce) { t with Reserved := [] } hlaw
    rw [hsv]
    exact ⟨rfl, hget, hv⟩
  · intro hfix
    have h1 : ¬ (e.flagFixOldTokenLiquidity = true ∧ t.Value = 0 ∧ delta < 0) := by
      rintro ⟨h, _, _⟩
      rw [hfix] at h
      cases h
    have h2 : t.Value + delta < 0 := by omega
    rw [heval, if_neg h1, if_pos h2]

/-- C27 at the sample storage and a mirror with counter 0: a delta of -1 is accepted
and clears the reserved marker. -/
theorem AddToLiquiditySystemAcc_fix_old_token_witness :
    (mectDataStorage.AddToLiquiditySystemAcc sampleConfig sampleStorage oldMirrorWorld sampleKey
      10 (-1)).2 = none ∧
    mectDataStorage.getMECTDigitalTokenDataFromSystemAccount sampleConfig sampleStorage
      (mectDataStorage.AddToLiquiditySystemAcc sampleConfig sampleStorage oldMirrorWorld
        sampleKey 10 (-1)).1 (computeMECTNFTTokenKey sampleKey 10)
      = .ok (some { oldMirror with Reserved := [] }) ∧
    ({ oldMirror with Reserved := [] } : MECToken).Value = 0 :=
  (AddToLiquiditySystemAcc_fix_old_token sampleConfig sampleStorage oldMirrorWorld sampleKey 10
    (-1) oldMirror referenceMarshalizer_lawful rfl rfl (by decide) (by decide) (by decide) rfl
    (by decide)).1 rfl

/-- C28, the code at a declared count whose triple exceeds the `uint64` range: the
count 6148914691236517206 is not zero and the call has 4 arguments, fewer than
`3 * n + 2` and than `3 * n + 1` over the natural numbers, but `3 * n + 2` wraps
to 4 and `3 * n + 1` to 3 in `uint64`, so the count validation lets the call
through. The sender leg then fails with `ErrNotEnoughGas` (gas cost 10 per
transfer) or faults when allocating the lists (gas cost 0), and the destination
leg faults when allocating the log entries; none returns `ErrInvalidArguments`. -/
theorem multiTransfer_count_overflow :
    bytesToNat wrappingCount % twoPow64 = 6148914691236517206 ∧
    [[2], wrappingCount, [7], [1]].length < 3 * 6148914691236517206 + 1 ∧
    addUint64 (mulUint64 6148914691236517206 argumentsPerTransfer) 2 = 4 ∧
    addUint64 (mulUint64 6148914691236517206 argumentsPerTransfer) 1 = 3 ∧
    (mectNFTMultiTransfer.ProcessBuiltinFunction sampleConfig sampleMultiTransfer (2 ^ 48)
      nftWorld (some [1]) none
      (some (sampleInput [[2], wrappingCount, [7], [1]] [1] [1] false))).2
      = .error .ErrNotEnoughGas ∧
    (mectNFTMultiTransfer.ProcessBuiltinFunction sampleConfig
      { sampleMultiTransfer with funcGasCost := 0 } (2 ^ 48) nftWorld (some [1]) none
      (some (sampleInput [[2], wrappingCount, [7], [1]] [1] [1] false))).2
      = .error .runtimePanic ∧
    (mectNFTMultiTransfer.ProcessBuiltinFunction sampleConfig sampleMultiTransfer (2 ^ 48)
      nftWorld none (some [2])
      (some (sampleInput [wrappingCount, [7], [1], [1]] [1] [2] false))).2
      = .error .runtimePanic := by
  refine ⟨by decide, by decide, by decide, by decide, by decide, by decide, by decide⟩

/-- C29, sender leg: a multi-transfer call on the sender leg (caller and recipient
being the same address) whose entry `j`, below the declared count and present among
the arguments, has quantity zero does not succeed: the call ends in an error. The
sender leg rejects an entry of quantity zero or less with `ErrInvalidNFTQuantity`
on every state. -/
theorem multiTransfer_sender_zero_quantity (c : CoreConfig) (e : mectNFTMultiTransfer)
    (maxSliceLength : Nat) (w : World) (acntSnd acntDst : Option Bytes)
    (input : ContractCallInput) (j : Nat)
    (hleg : input.CallerAddr = input.RecipientAddr)
    (hj : j < bytesToNat (input.Arguments.getD 1 []) % twoPow64)
    (hlen : 3 * j + 4 < input.Arguments.length)
    (hbound : input.Arguments.length < twoPow64)
    (hzero : bytesToNat (input.Arguments.getD (3 * j + 4) []) = 0) :
    (∃ err, (mectNFTMultiTransfer.ProcessBuiltinFunction c e maxSliceLength w acntSnd acntDst
      (some input)).2 = .error err) ∧
    (∀ (w1 : World) (snd dst : Option Bytes) (td : MECTTransfer), td.MECTValue ≤ 0 →
      mectNFTMultiTransfer.transferOneTokenOnSenderShard c e w1 snd dst
        (input.Arguments.getD 0 []) td input.ReturnCallAfterError
        = (w1, .error .ErrInvalidNFTQuantity)) := by
  refine ⟨?_, fun w1 snd dst td htd => by
    unfold mectNFTMultiTransfer.transferOneTokenOnSenderShard
    rw [if_pos htd]⟩
  have hloop := senderLoop_zero_entry c e acntSnd
    (mectNFTMultiTransfer.loadAccountIfInShard e (input.Arguments.getD 0 []))
    (input.Arguments.getD 0 []) input j (by omega) hzero
    (bytesToNat (input.Arguments.getD 1 []) % twoPow64) 0 w
    { ReturnCode := .Ok
      GasRemaining := subUint64 input.GasProvided
        (mulUint64 (bytesToNat (input.Arguments.getD 1 []) % twoPow64) e.funcGasCost)
      ReturnData := [], OutputAccounts := [], Logs := [] } [] [] (by omega) (by omega)
  unfold mectNFTMultiTransfer.ProcessBuiltinFunction
  split
  · exact ⟨_, rfl⟩
  · dsimp only
    split
    · exact ⟨_, rfl⟩
    · unfold mectNFTMultiTransfer.processMECTNFTMultiTransferOnSenderShard
      split
      · exact ⟨_, rfl⟩
      · dsimp only
        split
        · exact ⟨_, rfl⟩
        · split
          · exact ⟨_, rfl⟩
          · split
            · exact ⟨_, rfl⟩
            · rename_i hl
              rw [hl] at hloop
              exact absurd hloop (by simp [Except.toBool])

/-- C29 at a sender-leg call of two entries, the second of quantity zero. -/
theorem multiTransfer_sender_zero_quantity_witness :
    ∃ err, (mectNFTMultiTransfer.ProcessBuiltinFunction sampleConfig sampleMultiTransfer
      (2 ^ 48) nftWorld (some [1]) none
      (some (sampleInput [[2], [2], [7], [1], [3], [7], [1], [0]] [1] [1] false))).2
      = .error err :=
  (multiTransfer_sender_zero_quantity sampleConfig sampleMultiTransfer (2 ^ 48) nftWorld
    (some [1]) none (sampleInput [[2], [2], [7], [1], [3], [7], [1], [0]] [1] [1] false) 1
    (by decide) (by decide) (by decide) (by decide) (by decide)).1

/-- C29, destination leg: a destination-leg multi-transfer call whose only entry, nonce
1 of token `[7]`, has quantity zero succeeds. -/
theorem multiTransfer_destination_zero_quantity :
    bytesToNat [0] = 0 ∧
    (mectNFTMultiTransfer.ProcessBuiltinFunction sampleConfig sampleMultiTransfer (2 ^ 48)
      emptyWorld none (some [2])
      (some (sampleInput [[1], [7], [1], [0]] [1] [2] false))).2.toBool = true := by
  decide

/-- C30, the code at a record without metadata: account `[1]` stores 5 units of
nonce 1 of token `[7]` in a record that carries no metadata, and the system account
stores no mirror of that nonce. The record is read without error and has no
metadata; NFT add-URI and NFT update-attributes for nonce 1 then dereference the
missing metadata, a run-time panic, instead of returning an error. -/
theorem nft_missing_metadata_faults :
    mectDataStorage.GetMECTNFTTokenOnSender sampleConfig sampleStorage bareNFTWorld (some [1])
      sampleKey 1 = .ok (MECToken.mk0 NonFungible 5) ∧
    (MECToken.mk0 NonFungible 5).TokenMetaData = none ∧
    RetrieveValue bareNFTWorld sampleConfig.SystemAccountAddress
      (computeMECTNFTTokenKey sampleKey 1) = [] ∧
    (mectNFTAddUri.ProcessBuiltinFunction sampleConfig sampleAddUri bareNFTWorld (some [1])
      (some (nftInput [1] [117]))).2 = .error .runtimePanic ∧
    (mectNFTupdate.ProcessBuiltinFunction sampleConfig sampleUpdate bareNFTWorld (some [1])
      (some (nftInput [1] [97]))).2 = .error .runtimePanic := by
  decide

/-- C31: `newEntryForMECT` yields the log entry with the given identifier, with the
topics token identifier, minimal big-endian bytes of the nonce (empty for nonce 0),
big-endian bytes of the absolute value, followed by the arguments after the first,
with the first argument as address when there is one and no address otherwise, and
with no data; `addMECTEntryInVMOutput` appends that entry to the logs and changes
nothing else. -/
theorem newEntryForMECT_spec (identifier tokenID : Bytes) (nonce : Nat) (value : Int)
    (args : List Bytes) (vmOutput : VMOutput) :
    newEntryForMECT identifier tokenID nonce value args
      = { Identifier := identifier, Address := args.headD [], Data := []
          Topics := [tokenID, natToBytes nonce, natToBytes value.natAbs] ++ args.tail } ∧
    ((∀ b ∈ natToBytes nonce, b < 256) ∧ (natToBytes nonce).head? ≠ some 0 ∧
      natToBytes 0 = [] ∧ bytesToNat (natToBytes nonce) = nonce) ∧
    bytesToNat (natToBytes value.natAbs) = value.natAbs ∧
    addMECTEntryInVMOutput vmOutput identifier tokenID nonce value args
      = { vmOutput with
          Logs := vmOutput.Logs ++ [newEntryForMECT identifier tokenID nonce value args] } := by
  refine ⟨?_, natToBytes_minimal nonce, bytesToNat_natToBytes _, rfl⟩
  unfold newEntryForMECT intToBytes
  cases args with
  | nil => simp
  | cons a rest =>
    cases rest with
    | nil => simp
    | cons b rest => simp

/-- C31 at the values of the repository's test: nonce 5, value 1, the caller `[1]` as
address and the receiver `[2]` as extra topic. -/
theorem newEntryForMECT_spec_witness :
    newEntryForMECT [9] [7] 5 1 [[1], [2]]
      = { Identifier := [9], Address := [1], Data := [], Topics := [[7], [5], [1], [2]] } :=
  (newEntryForMECT_spec [9] [7] 5 1 [[1], [2]]
    { ReturnData := [], ReturnCode := .Ok, GasRemaining := 0, OutputAccounts := []
      Logs := [] }).1

/-- C32: the data of the output transfer built by `addOutputTransferToVMOutput` and by
`addNFTTransferToVMOutput` is the function name followed, for each argument in
order, by `@` (the byte 64) and the hexadecimal encoding of the argument; for a
function name without `@` and arguments made of bytes (values below 256), splitting
the data on `@` and decoding every field after the first gives back the function
name and the argument list. -/
theorem outputTransfer_data_roundtrip (function : Bytes) (arguments : List Bytes) :
    appendHexArguments function arguments
      = function ++ (arguments.map (fun a => 64 :: hexEncode a)).flatten ∧
    (∀ (senderAddress recipient : Bytes) (gasLocked gasLimit : Nat) (callType : CallType)
      (vmOutput : VMOutput),
      (addOutputTransferToVMOutput senderAddress function arguments recipient gasLocked callType
        vmOutput).OutputAccounts.map (fun p => p.2.OutputTransfers.map (fun t => t.Data))
        = [[appendHexArguments function arguments]] ∧
      (addNFTTransferToVMOutput senderAddress recipient function arguments gasLocked gasLimit
        callType vmOutput).OutputAccounts.map (fun p => p.2.OutputTransfers.map (fun t => t.Data))
        = [[appendHexArguments function arguments]]) ∧
    (64 ∉ function → (∀ a ∈ arguments, ∀ b ∈ a, b < 256) →
      ∀ (senderAddress recipient : Bytes) (gasLocked gasLimit : Nat) (callType : CallType)
        (vmOutput : VMOutput),
        extractScResultsFromVmOutput (addOutputTransferToVMOutput senderAddress function
          arguments recipient gasLocked callType vmOutput) = some (function, arguments) ∧
        extractScResultsFromVmOutput (addNFTTransferToVMOutput senderAddress recipient function
          arguments gasLocked gasLimit callType vmOutput) = some (function, arguments)) := by
  refine ⟨appendHexArguments_eq function arguments, fun _ _ _ _ _ _ => ⟨rfl, rfl⟩, ?_⟩
  intro hf hb senderAddress recipient gasLocked gasLimit callType vmOutput
  have hsplit := bytesSplit_appendHexArguments function arguments hf
  have hdec := hexDecodeAll_map_hexEncode arguments hb
  constructor
  · unfold extractScResultsFromVmOutput addOutputTransferToVMOutput
    simp only [hsplit, List.tail_cons, hdec, List.headD_cons]
  · unfold extractScResultsFromVmOutput addNFTTransferToVMOutput
    simp only [hsplit, List.tail_cons, hdec, List.headD_cons]

/-- C32 at the function name `M` and the arguments `01ff` and the empty one. -/
theorem outputTransfer_data_roundtrip_witness :
    hexEncode [1, 255] = [48, 49, 102, 102] ∧
    extractScResultsFromVmOutput (addOutputTransferToVMOutput [1] [77] [[1, 255], []] [2] 0
      .DirectCall { ReturnData := [], ReturnCode := .Ok, GasRemaining := 5
                    OutputAccounts := [], Logs := [] })
      = some ([77], [[1, 255], []]) :=
  ⟨by decide,
   ((outputTransfer_data_roundtrip [77] [[1, 255], []]).2.2 (by decide) (by decide) [1] [2] 0 0
      .DirectCall { ReturnData := [], ReturnCode := .Ok, GasRemaining := 5
                    OutputAccounts := [], Logs := [] }).1⟩

/-- C33: `MECTGlobalMetadataFromBytes` and `MECTUserMetadataFromBytes` are total
functions that return the all-false value for every byte string whose length is not
2, the empty string included. -/
theorem metadataFromBytes_wrong_length :
    (∀ bytes : Bytes, bytes.length ≠ 2 →
      MECTGlobalMetadataFromBytes bytes
        = { Paused := false, LimitedTransfer := false, BurnRoleForAll := false } ∧
      MECTUserMetadataFromBytes bytes = { Frozen := false }) ∧
    MECTGlobalMetadataFromBytes []
      = { Paused := false, LimitedTransfer := false, BurnRoleForAll := false } ∧
    MECTUserMetadataFromBytes [] = { Frozen := false } := by
  refine ⟨fun bytes hlen => ?_, rfl, rfl⟩
  unfold MECTGlobalMetadataFromBytes MECTUserMetadataFromBytes lengthOfMECTMetadata
  rw [if_pos hlen, if_pos hlen]
  exact ⟨rfl, rfl⟩

/-- C33 at a byte string of three bytes with every flag bit set. -/
theorem metadataFromBytes_wrong_length_witness :
    MECTGlobalMetadataFromBytes [7, 0, 0]
      = { Paused := false, LimitedTransfer := false, BurnRoleForAll := false } ∧
    MECTUserMetadataFromBytes [7, 0, 0] = { Frozen := false } :=
  metadataFromBytes_wrong_length.1 [7, 0, 0] (by decide)

/-- C34: `ValidateToken` returns true exactly for the identifiers made of a ticker of 3
to 10 uppercase-alphanumeric characters, then a dash, then 6 random characters each
of which is a digit or one of the lowercase letters `a` to `f`, and false for every
other byte string. -/
theorem ValidateToken_hexadecimal_identifier (tokenID : Bytes) :
    ValidateToken tokenID = true ↔ isIdentifierWith isLowerHexadecimal tokenID :=
  ValidateToken_iff tokenID

/-- C34, a lowercase-alphanumeric identifier that is refused: `TOKEN-ghijkl` is made of
a ticker of 5 uppercase letters, a dash and 6 lowercase letters, and `ValidateToken`
returns false on it. -/
theorem ValidateToken_lowercase_counterexample :
    isIdentifierWith isLowerAlphanumeric tokenGhijkl ∧ ValidateToken tokenGhijkl = false := by
  refine ⟨⟨[84, 79, 75, 69, 78], [103, 104, 105, 106, 107, 108], rfl, by decide, by decide,
    ?_, rfl, ?_⟩, by decide⟩
  · intro ch hch
    unfold isUpperAlphanumeric
    simp only [List.mem_cons, List.mem_singleton, List.not_mem_nil, or_false] at hch
    omega
  · intro ch hch
    unfold isLowerAlphanumeric
    simp only [List.mem_cons, List.mem_singleton, List.not_mem_nil, or_false] at hch
    omega

/-- C35: with metadata mirroring active, `SaveMECTNFTToken` called with `mustUpdate`
unset for an account other than the system account, while the system account
already stores a mirror under the NFT key, leaves every entry of the system account
as it is, whether the call succeeds or not; when it succeeds for a value above 0,
the bytes it returns and stores under the NFT key of the account marshal the record
made of the type, the value and the properties only, which is what a lawful
marshaller reads back. -/
theorem SaveMECTNFTToken_keeps_mirror (c : CoreConfig) (e : mectDataStorage) (w : World)
    (senderAddress acnt mectTokenKey : Bytes) (nonce : Nat) (mectData : MECToken)
    (isReturnWithError : Bool)
    (hlaw : e.marshaller.Lawful)
    (hsave : e.flagSaveToSystemAccount = true)
    (hmirror : RetrieveValue w c.SystemAccountAddress
      (computeMECTNFTTokenKey mectTokenKey nonce) ≠ [])
    (hne : acnt ≠ c.SystemAccountAddress) :
    (∀ k, RetrieveValue (mectDataStorage.SaveMECTNFTToken c e w senderAddress acnt mectTokenKey
        nonce mectData false isReturnWithError).1 c.SystemAccountAddress k
      = RetrieveValue w c.SystemAccountAddress k) ∧
    (∀ (w1 : World) (bytes : Bytes),
      mectDataStorage.SaveMECTNFTToken c e w senderAddress acnt mectTokenKey nonce mectData
        false isReturnWithError = (w1, .ok bytes) → 0 < mectData.Value →
      e.marshaller.MarshalToken
        { TokenType := mectData.TokenType, Value := mectData.Value
          Properties := mectData.Properties, TokenMetaData := none, Reserved := [] }
        = .ok bytes ∧
      RetrieveValue w1 acnt (computeMECTNFTTokenKey mectTokenKey nonce) = bytes ∧
      getMECTDataFromKey e.marshaller w1 acnt (computeMECTNFTTokenKey mectTokenKey nonce)
        = .ok { TokenType := mectData.TokenType, Value := mectData.Value
                Properties := mectData.Properties, TokenMetaData := none, Reserved := [] }) := by
  have hmir := saveMECTMetaDataToSystemAccount_existing c e w (some acnt)
    (e.shardCoordinator.ComputeId senderAddress) (computeMECTNFTTokenKey mectTokenKey nonce)
    nonce mectData hmirror
  have hsys : ∀ (v k : Bytes), RetrieveValue
      (SaveKeyValue w acnt (computeMECTNFTTokenKey mectTokenKey nonce) v)
      c.SystemAccountAddress k = RetrieveValue w c.SystemAccountAddress k := fun v k =>
    RetrieveValue_SaveKeyValue_of_ne w acnt _ v _ k (Or.inl (Ne.symm hne))
  constructor
  · intro k
    unfold mectDataStorage.SaveMECTNFTToken
    simp only [hsave, if_true, hmir, Bool.not_true, Bool.false_eq_true, if_false]
    split
    · rfl
    · split
      · exact hsys _ k
      · split
        · rfl
        · exact hsys _ k
  · intro w1 bytes h hpos
    unfold mectDataStorage.SaveMECTNFTToken at h
    simp only [hsave, if_true, hmir, Bool.not_true, Bool.false_eq_true, if_false] at h
    split at h
    · exact absurd h (by simp)
    · rw [if_neg (by omega)] at h
      split at h
      · exact absurd h (by simp)
      · rename_i b hm
        simp only [Prod.mk.injEq, Except.ok.injEq] at h
        obtain ⟨hw, hb⟩ := h
        subst hb
        refine ⟨hm, by rw [← hw]; exact RetrieveValue_SaveKeyValue_same _ _ _ _, ?_⟩
        obtain ⟨b1, hb1, hb1ne, hun⟩ := hlaw.token_roundtrip
          { TokenType := mectData.TokenType, Value := mectData.Value,
            Properties := mectData.Properties, TokenMetaData := none, Reserved := [] }
        rw [hb1] at hm
        have hbb : b1 = b := by
          injection hm
        subst hbb
        unfold getMECTDataFromKey
        rw [← hw]
        simp only [RetrieveValue_SaveKeyValue_same]
        have hlen : b1.length ≠ 0 := fun h0 => hb1ne (List.length_eq_zero.mp h0)
        simp only [hlen, if_false]
        exact hun

/-- C35 at the sample world: saving 3 units with other metadata for account `[1]` leaves
the mirror of nonce 1 as it is. -/
theorem SaveMECTNFTToken_keeps_mirror_witness :
    (mectDataStorage.SaveMECTNFTToken sampleConfig sampleStorage nftWorld [1] [1] sampleKey 1
        { MECToken.mk0 NonFungible 3 with
          TokenMetaData := some { sampleMetaData with Name := [111] } } false false).2.toBool
      = true ∧
    RetrieveValue (mectDataStorage.SaveMECTNFTToken sampleConfig sampleStorage nftWorld [1] [1]
        sampleKey 1
        { MECToken.mk0 NonFungible 3 with
          TokenMetaData := some { sampleMetaData with Name := [111] } } false false).1
      sampleConfig.SystemAccountAddress (computeMECTNFTTokenKey sampleKey 1)
      = RetrieveValue nftWorld sampleConfig.SystemAccountAddress
          (computeMECTNFTTokenKey sampleKey 1) :=
  ⟨by decide, (SaveMECTNFTToken_keeps_mirror sampleConfig sampleStorage nftWorld [1] [1] sampleKey 1
    { MECToken.mk0 NonFungible 3 with
      TokenMetaData := some { sampleMetaData with Name := [111] } } false
    referenceMarshalizer_lawful rfl (by decide) (by decide)).1 _⟩

/-- C35, the system account as the account: on the sample world `SaveMECTNFTToken` with
`mustUpdate` unset for the system account itself succeeds and writes the record of
type, value and properties under the NFT key, which is the key of the mirror, so the
mirror is replaced; a same-shard transfer of 2 units by `[1, 1, 1]` to the address
of the system account succeeds and leaves a mirror without metadata. -/
theorem SaveMECTNFTToken_system_account_counterexample :
    RetrieveValue nftWorld sampleConfig.SystemAccountAddress (computeMECTNFTTokenKey sampleKey 1)
      = [1, 0, 5, 0, 1, 1, 1, 1, 5, 1, 110, 1, 1, 1, 104, 1, 97, 1, 1, 117] ∧
    (mectDataStorage.SaveMECTNFTToken sampleConfig sampleStorage nftWorld [1]
        sampleConfig.SystemAccountAddress sampleKey 1
        { MECToken.mk0 NonFungible 7 with TokenMetaData := some sampleMetaData } false false).2
      = .ok [1, 0, 7, 0, 0, 0] ∧
    RetrieveValue (mectDataStorage.SaveMECTNFTToken sampleConfig sampleStorage nftWorld [1]
        sampleConfig.SystemAccountAddress sampleKey 1
        { MECToken.mk0 NonFungible 7 with TokenMetaData := some sampleMetaData } false false).1
      sampleConfig.SystemAccountAddress (computeMECTNFTTokenKey sampleKey 1)
      = [1, 0, 7, 0, 0, 0] ∧
    (mectNFTTransfer.ProcessBuiltinFunction sampleConfig sampleNFTTransfer senderOfThreeWorld
      (some [1, 1, 1]) none (some toSystemAccountInput)).2.toBool = true ∧
    mectDataStorage.getMECTDigitalTokenDataFromSystemAccount sampleConfig sampleStorage
      (mectNFTTransfer.ProcessBuiltinFunction sampleConfig sampleNFTTransfer senderOfThreeWorld
        (some [1, 1, 1]) none (some toSystemAccountInput)).1
      (computeMECTNFTTokenKey sampleKey 1)
      = .ok (some { TokenType := NonFungible, Value := 7, Properties := []
                    TokenMetaData := none, Reserved := [] }) := by
  decide

/-- C36: on the sender leg of a single-NFT transfer that passes the basic checks and
has four arguments, with the gas provided a `uint64`. (1) When the destination and
metachain checks pass and the gas provided is below the cost of the function, the
call fails with `ErrNotEnoughGas` and the state is unchanged. (2) When the call
reaches the attachment of the marshalled record (the sender is debited, the
quantity moved, the limited-transfer check passed, the record attached because it
was not already sent or its value is 1) and the cost of the record, its length
times `DataCopyPerByte` computed in `uint64`, exceeds the gas provided minus the
cost of the function, the call fails with `ErrNotEnoughGas`; the cost is the product
of the naturals whenever that product is below `2^64`. (3) When the call
succeeds, the cost of the function is at most the gas provided, the cost charged
for the record is at most the difference, and the gas remaining is that difference
minus the cost charged, or zero when the gas is handed to the call that follows; so
the gas remaining is at most the gas provided minus the cost of the function and
neither subtraction underflows. -/
theorem nftTransfer_gas (c : CoreConfig) (e : mectNFTTransfer) (w : World)
    (acntSnd acntDst : Option Bytes) (input : ContractCallInput)
    (hleg : input.CallerAddr = input.RecipientAddr)
    (hbasic : checkBasicMECTArguments (some input) = none)
    (hlen : 4 ≤ input.Arguments.length)
    (hG : input.GasProvided < twoPow64) :
    ((input.Arguments.getD 3 []).length = input.CallerAddr.length →
      input.Arguments.getD 3 [] ≠ input.CallerAddr →
      (decide (e.shardCoordinator.ComputeId (input.Arguments.getD 3 []) = c.MetachainShardId)
        && !e.flagTransferToMeta) = false →
      input.GasProvided < e.funcGasCost →
      mectNFTTransfer.ProcessBuiltinFunction c e w acntSnd acntDst (some input)
        = (w, .error .ErrNotEnoughGas)) ∧
    (∀ (w1 w2 w3 : World) (md md2 : MECToken) (ua : Option Bytes) (was : Bool) (b : Bytes),
      mectNFTTransfer.checkSenderShardInput c e input = none →
      mectNFTTransfer.debitSender e w acntSnd input = (w1, .ok md) →
      mectNFTTransfer.moveToDestination c e w1 input md = (w2, .ok (md2, ua)) →
      checkIfTransferCanHappenWithLimitedTransfer c w2
        (if e.flagCheckCorrectTokenID then input.Arguments.getD 0 []
          else e.keyPrefix ++ input.Arguments.getD 0 [])
        (e.keyPrefix ++ input.Arguments.getD 0 []) (acntSnd.getD [])
        (input.Arguments.getD 3 []) e.globalSettingsHandler e.rolesHandler acntSnd ua
        input.ReturnCallAfterError = none →
      e.mectStorageHandler.WasAlreadySentToDestinationShardAndUpdateState w2
        (input.Arguments.getD 0 []) (bytesToNat (input.Arguments.getD 1 []) % twoPow64)
        (input.Arguments.getD 3 []) = (w3, .ok was) →
      (was = false ∨ md2.Value = 1) →
      e.marshaller.MarshalToken md2 = .ok b →
      (input.GasProvided - e.funcGasCost
          < mulUint64 b.length e.gasConfig.DataCopyPerByte ∨
        (b.length * e.gasConfig.DataCopyPerByte < twoPow64 ∧
          input.GasProvided - e.funcGasCost < b.length * e.gasConfig.DataCopyPerByte)) →
      mectNFTTransfer.ProcessBuiltinFunction c e w acntSnd acntDst (some input)
        = (w3, .error .ErrNotEnoughGas)) ∧
    (∀ (w3 : World) (out : VMOutput),
      mectNFTTransfer.ProcessBuiltinFunction c e w acntSnd acntDst (some input)
        = (w3, .ok out) →
      e.funcGasCost ≤ input.GasProvided ∧
      out.GasRemaining ≤ input.GasProvided - e.funcGasCost ∧
      ∃ (md2 : MECToken) (was : Bool) (cost : Nat),
        (¬ (was = false ∨ md2.Value = 1) → cost = 0) ∧
        ((was = false ∨ md2.Value = 1) → ∃ b, e.marshaller.MarshalToken md2 = .ok b ∧
          cost = mulUint64 b.length e.gasConfig.DataCopyPerByte) ∧
        cost ≤ input.GasProvided - e.funcGasCost ∧
        (out.GasRemaining = input.GasProvided - e.funcGasCost - cost ∨
          out.GasRemaining = 0)) := by
  have hlen1 : ¬ input.Arguments.length < 4 := by omega
  have hgasOfChecks : mectNFTTransfer.checkSenderShardInput c e input = none →
      e.funcGasCost ≤ input.GasProvided := by
    intro hchecks
    unfold mectNFTTransfer.checkSenderShardInput at hchecks
    dsimp only at hchecks
    split at hchecks
    · exact absurd hchecks (by simp)
    · split at hchecks
      · exact absurd hchecks (by simp)
      · split at hchecks
        · exact absurd hchecks (by simp)
        · split at hchecks
          · exact absurd hchecks (by simp)
          · omega
  refine ⟨?_, ?_, ?_⟩
  · intro hdl hdn hmeta hgas
    unfold mectNFTTransfer.ProcessBuiltinFunction
    simp only [hbasic, hlen1, if_false, hleg, if_true]
    unfold mectNFTTransfer.processNFTTransferOnSenderShard
    have hchecks : mectNFTTransfer.checkSenderShardInput c e input
        = some .ErrNotEnoughGas := by
      unfold mectNFTTransfer.checkSenderShardInput
      have hdn1 : ¬ input.Arguments.getD 3 [] = input.RecipientAddr := by
        rw [← hleg]; exact hdn
      simp only [hdl, hleg, ne_eq, not_true_eq_false, if_false, hdn1, hmeta,
        Bool.false_eq_true, hgas, if_true]
    rw [hchecks]
  · intro w1 w2 w3 md md2 ua was b hchecks hdebit hmove hlimited hwas hatt hm hcost0
    have hF := hgasOfChecks hchecks
    have hsub : subUint64 input.GasProvided e.funcGasCost
        = input.GasProvided - e.funcGasCost := subUint64_of_le _ _ hF hG
    have hcost : input.GasProvided - e.funcGasCost
        < mulUint64 b.length e.gasConfig.DataCopyPerByte := by
      rcases hcost0 with h | ⟨hprod, h⟩
      · exact h
      · unfold mulUint64
        rw [Nat.mod_eq_of_lt hprod]
        exact h
    have hcond : (!was || decide (md2.Value = 1)) = true := by
      rcases hatt with h1 | h1
      · simp [h1]
      · simp [h1]
    unfold mectNFTTransfer.ProcessBuiltinFunction
    simp only [hbasic, hlen1, if_false, hleg, if_true]
    unfold mectNFTTransfer.processNFTTransferOnSenderShard
    simp only [hchecks, hdebit, hmove, hlimited]
    unfold mectNFTTransfer.createNFTOutputTransfers
    simp only [hwas, hcond, if_true, hm, hsub, gt_iff_lt, hcost]
  · intro w3 out hrun
    obtain ⟨hchecks, w2, md2, vmOut, hcreate, hacc⟩ :=
      nftTransfer_sender_ok_gas c e w w3 acntSnd acntDst input out hleg hrun
    have hF := hgasOfChecks hchecks
    have hsub : subUint64 input.GasProvided e.funcGasCost
        = input.GasProvided - e.funcGasCost := subUint64_of_le _ _ hF hG
    obtain ⟨was, cost, _, h0, h1, hle, hrem⟩ :=
      createNFTOutputTransfers_gas c e w2 w3 input _ vmOut md2 _ _ _ hcreate
    simp only [hsub] at hle hrem
    rw [hacc]
    refine ⟨hF, ?_, md2, was, cost, h0, h1, hle, hrem⟩
    rcases hrem with hrem | hrem <;> omega

/-- C36 at the sample world with 50 units of gas: a function cost of 100 is refused, and
so is a record of 19 bytes at 10 units per byte after a function cost of 10. -/
theorem nftTransfer_gas_witness :
    mectNFTTransfer.ProcessBuiltinFunction sampleConfig
        { sampleNFTTransfer with funcGasCost := 100 } nftWorld (some [1]) none
        (some (nftTransferInput [1] [2])) = (nftWorld, .error .ErrNotEnoughGas) ∧
    (mectNFTTransfer.ProcessBuiltinFunction sampleConfig payloadCostTransfer nftWorld
        (some [1]) none (some (nftTransferInput [1] [2]))).2 = .error .ErrNotEnoughGas :=
  ⟨(nftTransfer_gas sampleConfig { sampleNFTTransfer with funcGasCost := 100 } nftWorld
      (some [1]) none (nftTransferInput [1] [2]) (by decide) (by decide) (by decide)
      (by decide)).1 (by decide) (by decide) (by decide) (by decide),
   congrArg Prod.snd
    ((nftTransfer_gas sampleConfig payloadCostTransfer nftWorld (some [1]) none
      (nftTransferInput [1] [2]) (by decide) (by decide) (by decide) (by decide)).2.1
      (mectNFTTransfer.debitSender payloadCostTransfer nftWorld (some [1])
        (nftTransferInput [1] [2])).1
      (mectNFTTransfer.moveToDestination sampleConfig payloadCostTransfer
        (mectNFTTransfer.debitSender payloadCostTransfer nftWorld (some [1])
          (nftTransferInput [1] [2])).1 (nftTransferInput [1] [2]) sampleTransferRecord).1
      (mectNFTTransfer.moveToDestination sampleConfig payloadCostTransfer
        (mectNFTTransfer.debitSender payloadCostTransfer nftWorld (some [1])
          (nftTransferInput [1] [2])).1 (nftTransferInput [1] [2]) sampleTransferRecord).1
      sampleTransferRecord sampleTransferRecord (some [2]) true
      (encodeToken sampleTransferRecord)
      (by decide) (Prod.ext rfl (by decide)) (Prod.ext rfl (by decide)) (by decide)
      (Prod.ext rfl (by decide)) (Or.inr rfl) rfl (Or.inr ⟨by decide, by decide⟩))⟩

/-- C36, a cost whose product exceeds `2^64`: with 9708812670373448219 gas units per
byte the record of 19 bytes costs `10 * 2^64 + 1` over the naturals, far above the
40 units left of the 50 provided after the function cost of 10, but the product
wraps to 1 in `uint64`, and the transfer succeeds with 39 units remaining. -/
theorem nftTransfer_gas_wrapping_cost :
    (encodeToken sampleTransferRecord).length = 19 ∧
    50 - 10 < 19 * 9708812670373448219 ∧
    mulUint64 19 9708812670373448219 = 1 ∧
    (mectNFTTransfer.ProcessBuiltinFunction sampleConfig wrappingCostTransfer nftWorld
      (some [1]) none (some (nftTransferInput [1] [2]))).2
      = .ok { ReturnData := [], ReturnCode := .Ok, GasRemaining := 39, OutputAccounts := []
              Logs := [{ Identifier := [78], Address := [1], Topics := [[7], [1], [1], [2]]
                         Data := [] }] } := by
  decide

/-- C37: for a valid token identifier, `extractTokenIdentifierAndNonceMECTWipe` returns
the identifier and 0 on the identifier alone, and the identifier and the nonce on
the identifier followed by the minimal big-endian bytes of a nonce `n` with
`0 < n < 2^64` among whose bytes there is no dash (the byte 45). On a nonce with a
dash among its bytes the result is another one: for `SKE7Y-73bbcd` and nonce 45 it
is the whole argument and 0, for nonce 301, whose bytes are 1 and 45, it is the
identifier and 1, and for nonce 11521, whose bytes are 45 and 1, the whole argument
and 0. -/
theorem extractTokenIdentifierAndNonce_dash_byte :
    (∀ (tokenID : Bytes) (n : Nat), ValidateToken tokenID = true →
      extractTokenIdentifierAndNonceMECTWipe tokenID = (tokenID, 0) ∧
      (0 < n → n < twoPow64 → 45 ∉ natToBytes n →
        extractTokenIdentifierAndNonceMECTWipe (tokenID ++ natToBytes n) = (tokenID, n))) ∧
    ValidateToken tokenSke7y = true ∧
    extractTokenIdentifierAndNonceMECTWipe (tokenSke7y ++ natToBytes 4) = (tokenSke7y, 4) ∧
    natToBytes 45 = [45] ∧
    extractTokenIdentifierAndNonceMECTWipe (tokenSke7y ++ natToBytes 45)
      = (tokenSke7y ++ [45], 0) ∧
    natToBytes 301 = [1, 45] ∧
    extractTokenIdentifierAndNonceMECTWipe (tokenSke7y ++ natToBytes 301) = (tokenSke7y, 1) ∧
    natToBytes 11521 = [45, 1] ∧
    extractTokenIdentifierAndNonceMECTWipe (tokenSke7y ++ natToBytes 11521)
      = (tokenSke7y ++ [45, 1], 0) := by
  refine ⟨fun tokenID n hvalid => ⟨?_, fun hpos hlt hdash => ?_⟩, by decide, by decide,
    by decide, by decide, by decide, by decide, by decide, by decide⟩
  · have h := extract_of_valid tokenID [] hvalid (by simp)
    simpa using h
  · have hne : natToBytes n ≠ [] := by
      intro hnil
      have := bytesToNat_natToBytes n
      rw [hnil] at this
      simp [bytesToNat] at this
      omega
    rw [extract_of_valid tokenID (natToBytes n) hvalid hdash, if_neg hne,
      bytesToNat_natToBytes, Nat.mod_eq_of_lt hlt]

/-- C37 at `SKE7Y-73bbcd` and nonce 4, the values of the repository's test. -/
theorem extractTokenIdentifierAndNonce_dash_byte_witness :
    extractTokenIdentifierAndNonceMECTWipe (tokenSke7y ++ natToBytes 4) = (tokenSke7y, 4) :=
  (extractTokenIdentifierAndNonce_dash_byte.1 tokenSke7y 4 (by decide)).2 (by decide)
    (by decide) (by decide)

/-- C38: `checkFrozeAndPause` returns an error exactly when the error-recovery flag is
unset, the address is not the MECT system smart-contract address, and the record is
frozen or the token key is paused; the error is `ErrMECTIsFrozenForAccount` when the
record is frozen, also when the key is paused as well, and `ErrMECTTokenIsPaused`
otherwise; for the system smart-contract address the result is no error. -/
theorem checkFrozeAndPause_iff (c : CoreConfig) (g : MECTGlobalSettingsHandler) (w : World)
    (addr key : Bytes) (t : MECToken) (flag : Bool) :
    ((checkFrozeAndPause c g w addr key t flag).isSome = true ↔
      flag = false ∧ addr ≠ c.MECTSCAddress ∧
        ((MECTUserMetadataFromBytes t.Properties).Frozen = true ∨ g.IsPaused w key = true)) ∧
    (flag = false ∧ addr ≠ c.MECTSCAddress ∧
        (MECTUserMetadataFromBytes t.Properties).Frozen = true →
      checkFrozeAndPause c g w addr key t flag = some .ErrMECTIsFrozenForAccount) ∧
    (flag = false ∧ addr ≠ c.MECTSCAddress ∧
        (MECTUserMetadataFromBytes t.Properties).Frozen = false ∧ g.IsPaused w key = true →
      checkFrozeAndPause c g w addr key t flag = some .ErrMECTTokenIsPaused) ∧
    checkFrozeAndPause c g w c.MECTSCAddress key t flag = none := by
  unfold checkFrozeAndPause
  cases flag <;> by_cases ha : addr = c.MECTSCAddress <;>
    cases hf : (MECTUserMetadataFromBytes t.Properties).Frozen <;>
    cases hp : g.IsPaused w key <;> simp [ha, hf, hp]

/-- C38 at the sample world, where account `[2]` holds a frozen record of token `[7]`. -/
theorem checkFrozeAndPause_iff_witness :
    checkFrozeAndPause sampleConfig sampleHandler frozenWorld [2] sampleKey
      { MECToken.mk0 Fungible 100 with Properties := [1, 0] } false
      = some .ErrMECTIsFrozenForAccount :=
  (checkFrozeAndPause_iff sampleConfig sampleHandler frozenWorld [2] sampleKey
    { MECToken.mk0 Fungible 100 with Properties := [1, 0] } false).2.1
    ⟨rfl, by decide, by decide⟩

/-- C39: for a fixed token key `computeMECTNFTTokenKey` gives the same storage key for
two nonces only when the nonces are equal, and nonce 0 gives the token key itself. -/
theorem computeMECTNFTTokenKey_injective (mectTokenKey : Bytes) (n1 n2 : Nat) :
    (computeMECTNFTTokenKey mectTokenKey n1 = computeMECTNFTTokenKey mectTokenKey n2
      ↔ n1 = n2) ∧
    computeMECTNFTTokenKey mectTokenKey 0 = mectTokenKey := by
  unfold computeMECTNFTTokenKey
  refine ⟨⟨fun h => ?_, fun h => by rw [h]⟩, by simp [natToBytes, natToBytesAux]⟩
  have h1 := List.append_cancel_left h
  rw [← bytesToNat_natToBytes n1, ← bytesToNat_natToBytes n2, h1]

/-- C40: for `1 ≤ startIndex ≤ endIndex < 2^64 - 1`, `deleteMetadataForInterval` ends,
with any fuel of at least `endIndex - startIndex + 2` evaluations of the loop
condition, and returns no error; afterwards the system account stores nothing under
the keys of the nonces `startIndex` to `endIndex` of the token, and every other
entry of every account is as before. -/
theorem deleteMetadataForInterval_terminates (c : CoreConfig) (e : mectDeleteMetaData)
    (w : World) (tokenID : Bytes) (startIndex endIndex fuel : Nat)
    (hstart : 1 ≤ startIndex) (hle : startIndex ≤ endIndex) (hend : endIndex < twoPow64 - 1)
    (hfuel : endIndex - startIndex + 2 ≤ fuel) :
    ∃ w1, mectDeleteMetaData.deleteMetadataForInterval c e fuel w tokenID startIndex endIndex
        = some (w1, none) ∧
      ∀ a k,
        ((a = c.SystemAccountAddress ∧ ∃ n, startIndex ≤ n ∧ n ≤ endIndex ∧
            k = computeMECTNFTTokenKey (e.keyPrefix ++ tokenID) n) →
          RetrieveValue w1 a k = []) ∧
        (¬ (a = c.SystemAccountAddress ∧ ∃ n, startIndex ≤ n ∧ n ≤ endIndex ∧
            k = computeMECTNFTTokenKey (e.keyPrefix ++ tokenID) n) →
          RetrieveValue w1 a k = RetrieveValue w a k) := by
  unfold mectDeleteMetaData.deleteMetadataForInterval
  rw [if_neg (by omega), if_neg (by omega)]
  exact deleteLoop_spec c (e.keyPrefix ++ tokenID) endIndex hend fuel startIndex w (by omega)
    (by omega)

/-- C40 at the nonces 9 to 11 of token `[7]` on the world whose system account stores
a mirror for nonce 10, with fuel 4. -/
theorem deleteMetadataForInterval_terminates_witness :
    ∃ w1, mectDeleteMetaData.deleteMetadataForInterval sampleConfig sampleDelete 4 mirrorWorld
        [7] 9 11 = some (w1, none) ∧
      ∀ a k,
        ((a = sampleConfig.SystemAccountAddress ∧ ∃ n, 9 ≤ n ∧ n ≤ 11 ∧
            k = computeMECTNFTTokenKey (sampleDelete.keyPrefix ++ [7]) n) →
          RetrieveValue w1 a k = []) ∧
        (¬ (a = sampleConfig.SystemAccountAddress ∧ ∃ n, 9 ≤ n ∧ n ≤ 11 ∧
            k = computeMECTNFTTokenKey (sampleDelete.keyPrefix ++ [7]) n) →
          RetrieveValue w1 a k = RetrieveValue mirrorWorld a k) :=
  deleteMetadataForInterval_terminates sampleConfig sampleDelete mirrorWorld [7] 9 11 4
    (by decide) (by decide) (by decide) (by decide)

end MectVM
